import Mathlib

/-!
# project-tars: circular queue, process table, round-robin scheduler, timers and interrupts

A shallow embedding of `src/src/queue.c`, `src/src/kproc.c`, `src/src/scheduler.c`,
`src/src/timer.c` and `src/src/interrupts.c`, with the properties the
specification states about them.

Conventions of the embedding:

* C `int` values that carry data (queue items, pids, tick counters) are `Int`.
* The `head`, `tail` and `size` fields of `queue_t` are C `int`s used as array
  indices and as a count; they are `Nat` here.  `queue_init` sets them to 0 and
  the two mutators only ever add one (modulo `QUEUE_SIZE` for the indices) or
  subtract one from a non-zero `size`, so they never become negative.
* A pointer into `proc_table` is the index of the entry; `NULL` is `none`.
* A function that can reach `kernel_panic` or dereference `NULL` returns an
  `Option`; `none` stands for the panic or the undefined access.  The functions
  of interrupts.c return an `outcome`, which tells the two apart.
* A function pointer is the function it points to, or its address; `NULL` is
  `none`.
-/

namespace Tars

/-! ## queue.h / queue.c -/

/-- Capacity of every queue (`#define QUEUE_SIZE 64`). -/
def QUEUE_SIZE : Nat := 64

/-- Queue data structure (`queue_t` of queue.h). -/
structure queue_t where
  /-- queue items, `int items[QUEUE_SIZE]` -/
  items : List Int
  /-- queue head -/
  head : Nat
  /-- queue tail -/
  tail : Nat
  /-- queue size -/
  size : Nat
deriving DecidableEq, Repr

/-- Result of `memset(queue, 0, sizeof(queue_t))`. -/
def queue_zero : queue_t :=
  { items := List.replicate QUEUE_SIZE 0, head := 0, tail := 0, size := 0 }

/-- Function `queue_init` for a non-null queue: the return value and the
initialised queue.  The previous content of the queue is overwritten. -/
def queue_init (_queue : queue_t) : Int × queue_t :=
  (0, queue_zero)

/-- Macro `queue_is_empty(queue)` for a non-null queue. -/
def queue_is_empty (queue : queue_t) : Bool :=
  queue.size == 0

/-- Macro `queue_is_full(queue)` for a non-null queue. -/
def queue_is_full (queue : queue_t) : Bool :=
  queue.size == QUEUE_SIZE

/-- Function `queue_in`: the return value (0 or -1) and the queue afterwards. -/
def queue_in (queue : queue_t) (item : Int) : Int × queue_t :=
  if queue_is_full queue then
    (-1, queue)
  else
    (0, { items := queue.items.set queue.tail item
          head := queue.head
          tail := (queue.tail + 1) % QUEUE_SIZE
          size := queue.size + 1 })

/-- Function `queue_out`.  The argument `item` is the cell the result pointer
refers to (`none` for a null pointer, `some v` for a cell that holds `v`).
Returns the return value (0 or -1), the queue afterwards and the cell afterwards. -/
def queue_out (queue : queue_t) (item : Option Int) : Int × queue_t × Option Int :=
  if queue_is_empty queue || item.isNone then
    (-1, queue, item)
  else
    (0,
     { items := queue.items
       head := (queue.head + 1) % QUEUE_SIZE
       tail := queue.tail
       size := queue.size - 1 },
     some (queue.items.getD queue.head 0))

/-- The items a queue holds, oldest first: the `size` cells starting at `head`,
wrapping around the end of the array. -/
def queue_content (queue : queue_t) : List Int :=
  (List.range queue.size).map (fun i => queue.items.getD ((queue.head + i) % QUEUE_SIZE) 0)

/-- Representation invariant of a queue that was initialised by `queue_init`
and then only changed by `queue_in` and `queue_out`. -/
def queue_wf (queue : queue_t) : Prop :=
  queue.items.length = QUEUE_SIZE ∧ queue.head < QUEUE_SIZE ∧ queue.size ≤ QUEUE_SIZE ∧
    queue.tail = (queue.head + queue.size) % QUEUE_SIZE

instance (queue : queue_t) : Decidable (queue_wf queue) := by
  unfold queue_wf; infer_instance

/-- One call on a queue: `queue_in` with an item, or `queue_out` with a non-null
result pointer. -/
inductive queue_call where
  | q_in (item : Int)
  | q_out
deriving DecidableEq, Repr

/-- A queue together with the record of the calls made on it so far. -/
structure queue_log where
  /-- the queue itself -/
  queue : queue_t
  /-- items of the successful `queue_in` calls, in call order -/
  ins : List Int
  /-- items delivered by the successful `queue_out` calls, in call order -/
  outs : List Int
  /-- return values of all calls, in call order -/
  rets : List Int
deriving DecidableEq, Repr

/-- Performs one call and records it. -/
def queue_log_step (l : queue_log) : queue_call → queue_log
  | .q_in item =>
    let r := queue_in l.queue item
    { queue := r.2
      ins := if r.1 = 0 then l.ins ++ [item] else l.ins
      outs := l.outs
      rets := l.rets ++ [r.1] }
  | .q_out =>
    let r := queue_out l.queue (some 0)
    { queue := r.2.1
      ins := l.ins
      outs := if r.1 = 0 then l.outs ++ [r.2.2.getD 0] else l.outs
      rets := l.rets ++ [r.1] }

/-- Runs a sequence of calls on a queue fresh from `queue_init`. -/
def queue_run (calls : List queue_call) : queue_log :=
  calls.foldl queue_log_step { queue := (queue_init queue_zero).2, ins := [], outs := [], rets := [] }

/-- What `queue_run` maintains: the queue is well formed, and the items delivered
so far followed by the items still held are the items accepted so far. -/
def queue_log_ok (l : queue_log) : Prop :=
  queue_wf l.queue ∧ l.outs ++ queue_content l.queue = l.ins

/-! ### The bounded FIFO list the specification describes -/

/-- Specification-side `enqueue(token)` on a list of at most `cap` tokens: fails
with Full (`none`) when count = capacity, otherwise appends at the tail. -/
def fifo_enqueue (cap : Nat) (l : List Int) (token : Int) : Option (List Int) :=
  if l.length = cap then none else some (l ++ [token])

/-- Specification-side `dequeue()`: fails with Empty (`none`) when count = 0,
otherwise returns the head and the rest. -/
def fifo_dequeue (l : List Int) : Option (Int × List Int) :=
  match l with
  | [] => none
  | x :: rest => some (x, rest)


/-! ## kproc.h / scheduler.h: constants and the process control block -/

/-- Maximum number of processes to support (`#define PROC_MAX 10`). -/
def PROC_MAX : Nat := 10

/-- Maximum length of a process name (`#define PROC_NAME_LEN 32`). -/
def PROC_NAME_LEN : Nat := 32

/-- Timeslice in ticks (`#define SCHEDULER_TIMESLICE 250`). -/
def SCHEDULER_TIMESLICE : Int := 250

/-- Process types (`enum proc_type_t`). -/
inductive proc_type_t where
  | PROC_TYPE_NONE
  | PROC_TYPE_KERNEL
  | PROC_TYPE_USER
deriving DecidableEq, Repr

/-- Process states (`enum state_t`). -/
inductive state_t where
  | NONE
  | IDLE
  | RUNNING
deriving DecidableEq, Repr

/-- Address of the code a process starts at. -/
inductive code_ptr where
  | kernel_idle
  | fn (addr : Nat)
deriving DecidableEq, Repr

/-- Value of a `trapframe_t *`: the frame `kproc_create` places at the top of a
row of `proc_stack` (at byte `PROC_STACK_SIZE - sizeof(trapframe_t)` of the
row), or a frame at some other address. -/
inductive trapframe_ptr where
  | stack_top (row : Nat)
  | frame (addr : Nat)
deriving DecidableEq, Repr

/-- Process control block (`proc_t`).  The field `stack` holds the index of the
row of `proc_stack` it points to. -/
structure proc_t where
  /-- Process id -/
  pid : Int
  /-- Process state -/
  state : state_t
  /-- Process type (kernel or user) -/
  type : proc_type_t
  /-- Process name, the characters before the first NUL -/
  name : List Char
  /-- Time started -/
  start_time : Int
  /-- Total run time of the process -/
  run_time : Int
  /-- Current CPU time the process has used -/
  cpu_time : Int
  /-- Pointer to the process stack -/
  stack : Option Nat
  /-- Pointer to the trapframe -/
  trapframe : Option trapframe_ptr
deriving DecidableEq, Repr

/-- A PCB whose bytes are all zero. -/
def proc_zero : proc_t :=
  { pid := 0, state := .NONE, type := .PROC_TYPE_NONE, name := [], start_time := 0,
    run_time := 0, cpu_time := 0, stack := none, trapframe := none }

/-- The kernel variables that the process table and the scheduler work on:
`next_pid`, `proc_allocator` and `proc_table` of kproc.c, `run_queue` of
scheduler.c, `current` of kernel.c and `timer_ticks` of timer.c.  The bytes of
`proc_stack` are kept outside this record; none of the functions below reads
them. -/
structure kstate where
  /-- Next available process id to be assigned -/
  next_pid : Int
  /-- Process table allocator -/
  proc_allocator : queue_t
  /-- Process table, `proc_t proc_table[PROC_MAX]` -/
  proc_table : List proc_t
  /-- Ready queue of the scheduler -/
  run_queue : queue_t
  /-- The `current` process pointer -/
  current : Option Nat
  /-- Number of timer ticks that have occurred -/
  timer_ticks : Int
deriving DecidableEq, Repr

/-- Entry `i` of a process table. -/
def proc_at (proc_table : List proc_t) (i : Nat) : proc_t :=
  proc_table.getD i proc_zero

/-- Assignment to fields of entry `i` of a process table. -/
def proc_update (proc_table : List proc_t) (i : Nat) (f : proc_t → proc_t) : List proc_t :=
  proc_table.set i (f (proc_at proc_table i))

/-! ## kproc.c: lookup -/

/-- Function `pid_to_proc`: the first entry of the table, in index order, whose
pid field is `pid`; `none` is `NULL`. -/
def pid_to_proc (proc_table : List proc_t) (pid : Int) : Option Nat :=
  (List.range PROC_MAX).find? (fun i => (proc_at proc_table i).pid == pid)

/-! ## scheduler.c -/

/-- Function `scheduler_timer`: dereferences `current`. -/
def scheduler_timer (s : kstate) : Option kstate :=
  match s.current with
  | none => none
  | some c =>
    some { s with
      proc_table := proc_update s.proc_table c
        (fun e => { e with run_time := e.run_time + 1, cpu_time := e.cpu_time + 1 }) }

/-- Function `scheduler_init`, its effect on the ready queue.  (`queue_init` of a
non-null queue does not fail; the timer callback it registers lives in the timer
table.) -/
def scheduler_init (s : kstate) : kstate :=
  { s with run_queue := (queue_init s.run_queue).2 }

/-- Second half of `scheduler_run`: dequeue the next pid, fall back to pid 0 when
the ready queue is empty, look the process up, panic (`none`) when there is none,
otherwise make it current and RUNNING.  The previous content of the local
variable `pid` is never read. -/
def scheduler_select (s : kstate) : Option kstate :=
  let r := queue_out s.run_queue (some 0)
  let found :=
    if r.1 = -1 then pid_to_proc s.proc_table 0
    else pid_to_proc s.proc_table (r.2.2.getD 0)
  match found with
  | none => none
  | some n =>
    some { s with
      run_queue := r.2.1
      current := some n
      proc_table := proc_update s.proc_table n (fun e => { e with state := .RUNNING }) }

/-- First half of `scheduler_run`, reached when `current` is non-null and its
timeslice is used up: requeue the pid of `current` unless it is 0 (the return
value of `queue_in` is ignored), reset its cpu time and mark it IDLE.  With a
null `current` this part is skipped. -/
def scheduler_preempt (s : kstate) : kstate :=
  match s.current with
  | none => s
  | some c =>
    { s with
      run_queue :=
        if (proc_at s.proc_table c).pid ≠ 0 then
          (queue_in s.run_queue (proc_at s.proc_table c).pid).2
        else s.run_queue
      proc_table :=
        proc_update s.proc_table c (fun e => { e with cpu_time := 0, state := .IDLE }) }

/-- Function `scheduler_run`. -/
def scheduler_run (s : kstate) : Option kstate :=
  match s.current with
  | some c =>
    if (proc_at s.proc_table c).cpu_time < SCHEDULER_TIMESLICE then
      some s
    else
      scheduler_select (scheduler_preempt s)
  | none => scheduler_select s

/-- Function `scheduler_add`. -/
def scheduler_add (proc : Option Nat) (s : kstate) : kstate :=
  match proc with
  | none => s
  | some p =>
    let proc_table := proc_update s.proc_table p (fun e => { e with state := .IDLE })
    if (proc_at s.proc_table p).pid ≠ 0 then
      { s with
        proc_table := proc_table
        run_queue := (queue_in s.run_queue (proc_at s.proc_table p).pid).2 }
    else
      { s with proc_table := proc_table }

/-- The scanning loop of `scheduler_remove`, `for(int i = 0; i < run_queue.size; i++)`,
entered with loop counter `i`.  The bound `run_queue.size` is read again before
every iteration.  The first argument bounds the number of loop tests; `none`
is returned when it is used up, and also for the `NULL` dereference of a failed
lookup. -/
def scheduler_remove_scan (proc : Nat) : Nat → Nat → kstate → Option kstate
  | 0, _, _ => none
  | fuel + 1, i, s =>
    if i < s.run_queue.size then
      let r := queue_out s.run_queue (some 0)
      let s1 := { s with run_queue := r.2.1 }
      if r.1 = -1 then
        some s1
      else
        let pid := r.2.2.getD 0
        if pid = (proc_at s1.proc_table proc).pid then
          match pid_to_proc s1.proc_table pid with
          | none => none
          | some n =>
            some { s1 with
              proc_table := proc_update s1.proc_table n (fun e => { e with state := .NONE }) }
        else
          let r2 := queue_in s1.run_queue pid
          let s2 := { s1 with run_queue := r2.2 }
          if r2.1 = -1 then
            some s2
          else
            scheduler_remove_scan proc fuel (i + 1) s2
    else
      some s

/-- Function `scheduler_remove`.  The loop is given one more test than the ready
queue has entries, which is as many as it can make. -/
def scheduler_remove (proc : Option Nat) (s : kstate) : Option kstate :=
  match proc with
  | none => some s
  | some p =>
    if s.current = some p then
      if (proc_at s.proc_table p).pid = 0 then
        some s
      else
        some { s with
          proc_table := proc_update s.proc_table p (fun e => { e with state := .IDLE })
          current := none }
    else
      scheduler_remove_scan p (s.run_queue.size + 1) 0 s

/-! ## kproc.c: creation and destruction -/

/-- Function `kproc_create`: the return value and the state afterwards.  The
entry taken from `proc_allocator` indexes `proc_table`; an index outside the
table is an undefined access (`none`).  The writes to the stack row and to the
trapframe inside it go to `proc_stack`. -/
def kproc_create (_proc_ptr : code_ptr) (proc_name : List Char) (proc_type : proc_type_t)
    (s : kstate) : Option (Int × kstate) :=
  let r := queue_out s.proc_allocator (some 0)
  if r.1 = -1 then
    some (-1, { s with proc_allocator := r.2.1 })
  else
    let entryId := r.2.2.getD 0
    if 0 ≤ entryId ∧ entryId < PROC_MAX then
      let e := entryId.toNat
      let pcb : proc_t :=
        { pid := s.next_pid
          state := .NONE
          type := proc_type
          name := proc_name.take (PROC_NAME_LEN - 1)
          start_time := s.timer_ticks
          run_time := 0
          cpu_time := 0
          stack := some e
          trapframe := some (.stack_top e) }
      let s1 := { s with
        proc_allocator := r.2.1
        proc_table := s.proc_table.set e pcb
        next_pid := s.next_pid + 1 }
      let s2 := scheduler_add (some e) s1
      some ((proc_at s2.proc_table e).pid, s2)
    else
      none

/-- Function `kproc_destroy`: the return value and the state afterwards.  `none`
stands for the dereference of a null `proc` or of a null `proc->stack`, and for
a failure inside `scheduler_remove`. -/
def kproc_destroy (proc : Option Nat) (s : kstate) : Option (Int × kstate) :=
  match proc with
  | none => none
  | some p =>
    if (proc_at s.proc_table p).pid = 0 then
      some (-1, s)
    else
      match scheduler_remove (some p) s with
      | none => none
      | some s1 =>
        match (proc_at s1.proc_table p).stack with
        | none => none
        | some _ =>
          some (0, { s1 with
            proc_table := s1.proc_table.set p proc_zero
            proc_allocator := (queue_in s1.proc_allocator (p : Int)).2 })

/-- Function `kproc_init`, its effect on the process variables. -/
def kproc_init (s : kstate) : Option kstate :=
  let proc_allocator :=
    (List.range PROC_MAX).foldl (fun q i => (queue_in q (i : Int)).2) (queue_init s.proc_allocator).2
  let s1 := { s with
    next_pid := 0
    proc_allocator := proc_allocator
    proc_table := List.replicate PROC_MAX proc_zero }
  (kproc_create .kernel_idle "idle".toList .PROC_TYPE_KERNEL s1).map Prod.snd

/-! ## Start-up and the calls that follow -/

/-- The kernel variables before `main` runs: statically allocated, hence zero,
and `current` initialised to `NULL`. -/
def kstate_zero : kstate :=
  { next_pid := 0, proc_allocator := queue_zero, proc_table := List.replicate PROC_MAX proc_zero,
    run_queue := queue_zero, current := none, timer_ticks := 0 }

/-- State after `scheduler_init()` and `kproc_init()`, in the order `main`
calls them. -/
def kernel_boot : Option kstate :=
  kproc_init (scheduler_init kstate_zero)

/-- A call of one of the functions that change the process variables after
start-up. -/
inductive kcall where
  | create (proc_ptr : code_ptr) (proc_name : List Char) (proc_type : proc_type_t)
  | destroy (proc : Option Nat)
  | timer
  | run
deriving DecidableEq, Repr

/-- Effect of a call on the state; `none` when the call does not return. -/
def kcall_step (s : kstate) : kcall → Option kstate
  | .create proc_ptr proc_name proc_type =>
    (kproc_create proc_ptr proc_name proc_type s).map Prod.snd
  | .destroy proc => (kproc_destroy proc s).map Prod.snd
  | .timer => scheduler_timer s
  | .run => scheduler_run s

/-- States reachable from start-up by `kproc_create`, `kproc_destroy`,
`scheduler_timer` and `scheduler_run`. -/
inductive reachable : kstate → Prop where
  | boot (s : kstate) : kernel_boot = some s → reachable s
  | step (s s1 : kstate) (c : kcall) : reachable s → kcall_step s c = some s1 → reachable s1

/-- Shape of the kernel variables that the C types fix: `proc_table` has
`PROC_MAX` entries, and the two queues are in a state `queue_in` and `queue_out`
produce from an initialised queue. -/
def kstate_wf (s : kstate) : Prop :=
  s.proc_table.length = PROC_MAX ∧ queue_wf s.run_queue ∧ queue_wf s.proc_allocator

instance (s : kstate) : Decidable (kstate_wf s) := by
  unfold kstate_wf; infer_instance

/-- Runs a list of calls from a state, stopping with `none` if one does not return. -/
def kcalls_run (s : kstate) : List kcall → Option kstate
  | [] => some s
  | c :: cs => (kcall_step s c).bind (fun s1 => kcalls_run s1 cs)

/-- Only the entry that `current` points to can be in state RUNNING. -/
def running_is_current (s : kstate) : Prop :=
  ∀ i, (proc_at s.proc_table i).state = .RUNNING → s.current = some i

/-- Function `scheduler_timer` called `n` times in a row. -/
def scheduler_ticks : Nat → kstate → Option kstate
  | 0, s => some s
  | n + 1, s => (scheduler_timer s).bind (scheduler_ticks n)

/-- For each number `n` of the list in turn: `n` timer ticks charged to the
current process, then one `scheduler_run`. -/
def timeslice_rounds : List Nat → kstate → Option kstate
  | [], s => some s
  | n :: ns, s => ((scheduler_ticks n s).bind scheduler_run).bind (timeslice_rounds ns)

/-- Every pid of `ps` is found by `pid_to_proc`, in an entry whose cpu time is
not negative. -/
def pids_live (ps : List Int) (proc_table : List proc_t) : Prop :=
  ∀ p ∈ ps, ∃ n, pid_to_proc proc_table p = some n ∧ 0 ≤ (proc_at proc_table n).cpu_time

/-- State of a round-robin run over the pids `ps` after `k` switches: the pid of
the RUNNING current process followed by the queued pids is `ps` rotated `k`
times. -/
def round_robin_inv (ps : List Int) (k : Nat) (s : kstate) : Prop :=
  s.proc_table.length = PROC_MAX ∧ queue_wf s.run_queue ∧ pids_live ps s.proc_table ∧
  ∃ c, s.current = some c ∧ pid_to_proc s.proc_table (proc_at s.proc_table c).pid = some c ∧
    (proc_at s.proc_table c).state = .RUNNING ∧
    (proc_at s.proc_table c).pid :: queue_content s.run_queue = ps.rotate k

/-! ## Example states -/

/-- Three creations of user processes. -/
def demo_creates : List kcall :=
  [.create (.fn 1) "a".toList .PROC_TYPE_USER,
   .create (.fn 2) "b".toList .PROC_TYPE_USER,
   .create (.fn 3) "c".toList .PROC_TYPE_USER]

/-- State right after start-up: only the idle process exists, nothing is queued
and there is no current process. -/
def demo_boot : kstate :=
  kernel_boot.getD kstate_zero

/-- State after start-up and three creations: pids 1, 2, 3 (entries 1, 2, 3) are
queued in this order and there is no current process. -/
def demo_ready : kstate :=
  (kcalls_run demo_boot demo_creates).getD kstate_zero

/-- State `demo_ready` after the first `scheduler_run`: pid 1 is current and has
used none of its timeslice, pids 2 and 3 are queued. -/
def demo_running : kstate :=
  (kcalls_run demo_ready [.run]).getD kstate_zero

/-- State `demo_running` after `SCHEDULER_TIMESLICE` timer ticks: pid 1 is current
and has used its full timeslice. -/
def demo_expired : kstate :=
  (kcalls_run demo_running (List.replicate 250 .timer)).getD kstate_zero

/-! ## Invariants of the process variables -/

/-- What holds of the process variables between calls and also between the two
halves of `scheduler_run`: the idle process sits in entry 0 with pid 0; pids are
non-negative, below `next_pid` and, when not 0, carried by one entry only; an
entry with a non-zero pid is in use and has a stack; the allocator holds,
without repetition, exactly the indices 1 .. `PROC_MAX - 1` of the entries that
are all zero; the ready queue holds, without repetition, non-zero pids of
entries in state IDLE. -/
structure kernel_base_inv (s : kstate) : Prop where
  wf : kstate_wf s
  idle_pid : (proc_at s.proc_table 0).pid = 0
  idle_live : (proc_at s.proc_table 0).state ≠ .NONE
  pid_nonneg : ∀ i, 0 ≤ (proc_at s.proc_table i).pid
  pid_lt : ∀ i, (proc_at s.proc_table i).pid < s.next_pid
  pid_unique : ∀ i j, (proc_at s.proc_table i).pid = (proc_at s.proc_table j).pid →
    (proc_at s.proc_table i).pid ≠ 0 → i = j
  live : ∀ i, (proc_at s.proc_table i).pid ≠ 0 →
    (proc_at s.proc_table i).state ≠ .NONE ∧ (proc_at s.proc_table i).stack ≠ none
  alloc_nodup : (queue_content s.proc_allocator).Nodup
  alloc_free : ∀ e ∈ queue_content s.proc_allocator,
    1 ≤ e ∧ e < PROC_MAX ∧ proc_at s.proc_table e.toNat = proc_zero
  free_alloc : ∀ i, 1 ≤ i → i < PROC_MAX → (proc_at s.proc_table i).pid = 0 →
    (i : Int) ∈ queue_content s.proc_allocator
  ready_nodup : (queue_content s.run_queue).Nodup
  ready_idle : ∀ p ∈ queue_content s.run_queue,
    p ≠ 0 ∧ ∃ n, (proc_at s.proc_table n).pid = p ∧ (proc_at s.proc_table n).state = .IDLE

/-- What holds of the process variables between calls: `kernel_base_inv`, and the
entry `current` points to is RUNNING and its pid is not in the ready queue. -/
structure kernel_inv (s : kstate) extends kernel_base_inv s : Prop where
  current_running : ∀ c, s.current = some c → (proc_at s.proc_table c).state = .RUNNING
  current_not_ready : ∀ c, s.current = some c →
    (proc_at s.proc_table c).pid ∉ queue_content s.run_queue

/-! ## Runs that record what `kproc_create` returned -/

/-- Whether a call is a `kproc_destroy`. -/
def kcall.is_destroy : kcall → Bool
  | .destroy _ => true
  | _ => false

/-- Whether a call is a `kproc_create`. -/
def kcall.is_create : kcall → Bool
  | .create _ _ _ => true
  | _ => false

/-- Effect of a call on the state, together with the value it returned when it
was a `kproc_create` (a list with that one value, the empty list for the other
calls); `none` when the call does not return. -/
def kcall_step_ret (s : kstate) : kcall → Option (List Int × kstate)
  | .create proc_ptr proc_name proc_type =>
    (kproc_create proc_ptr proc_name proc_type s).map (fun r => ([r.1], r.2))
  | .destroy proc => (kproc_destroy proc s).map (fun r => ([], r.2))
  | .timer => (scheduler_timer s).map (fun s1 => ([], s1))
  | .run => (scheduler_run s).map (fun s1 => ([], s1))

/-- Runs a list of calls from a state and collects, in call order, the values
the `kproc_create` calls returned. -/
def kcalls_created (s : kstate) : List kcall → Option (List Int × kstate)
  | [] => some ([], s)
  | c :: cs =>
    (kcall_step_ret s c).bind (fun r =>
      (kcalls_created r.2 cs).map (fun t => (r.1 ++ t.1, t.2)))

/-- What the `i`-th `kproc_create` after start-up returns (counting from 0) when
nothing has been destroyed: the pids 1 .. `PROC_MAX - 1`, then -1. -/
def nth_create_result (i : Nat) : Int :=
  if i < PROC_MAX - 1 then (i : Int) + 1 else -1

/-- The pid is carried by no table entry, is not queued and is below `next_pid`. -/
def pid_retired (pid : Int) (s : kstate) : Prop :=
  pid ≠ 0 ∧ pid < s.next_pid ∧ (∀ i, (proc_at s.proc_table i).pid ≠ pid) ∧
    pid ∉ queue_content s.run_queue

/-! ## kproc.c: the process stacks -/

/-- Saved processor context (`trapframe_t`).  The header that declares the type
is not among the sources: the fields listed are those the sources name, and
`regs` holds, in order, the bytes of every other field. -/
structure trapframe_t where
  /-- instruction pointer -/
  eip : Nat
  /-- processor flags -/
  eflags : Nat
  /-- code segment selector -/
  cs : Nat
  /-- data segment selector -/
  ds : Nat
  /-- extra segment selector -/
  es : Nat
  /-- segment selector fs -/
  fs : Nat
  /-- segment selector gs -/
  gs : Nat
  /-- interrupt number -/
  interrupt : Nat
  /-- bytes of the remaining fields -/
  regs : List Nat
deriving DecidableEq, Repr

/-- One row `proc_stack[i]` of `PROC_STACK_SIZE` bytes: `low` are the bytes below
the place of the initial trapframe (bytes 0 to
`PROC_STACK_SIZE - sizeof(trapframe_t) - 1`), `top` is the `trapframe_t` object in
the last `sizeof(trapframe_t)` bytes. -/
structure stack_t where
  /-- bytes below the initial trapframe -/
  low : List Nat
  /-- the trapframe at the top of the row -/
  top : trapframe_t
deriving DecidableEq, Repr

/-- Result of `memset` to 0 over a whole trapframe. -/
def trapframe_clear (f : trapframe_t) : trapframe_t :=
  { eip := 0, eflags := 0, cs := 0, ds := 0, es := 0, fs := 0, gs := 0, interrupt := 0,
    regs := f.regs.map (fun _ => 0) }

/-- Result of `memset(stack, 0, PROC_STACK_SIZE)` over a whole row. -/
def stack_clear (row : stack_t) : stack_t :=
  { low := row.low.map (fun _ => 0), top := trapframe_clear row.top }

/-- Row read outside `proc_stack`. -/
def stack_none : stack_t :=
  { low := [], top := { eip := 0, eflags := 0, cs := 0, ds := 0, es := 0, fs := 0, gs := 0,
                        interrupt := 0, regs := [] } }

/-- Row `i` of `proc_stack`. -/
def stack_at (proc_stack : List stack_t) (i : Nat) : stack_t :=
  proc_stack.getD i stack_none

/-- What `kproc_create` takes from outside the sources: the flag constants
`EF_DEFAULT_VALUE` and `EF_INTR`, the selectors that `get_cs()` .. `get_gs()`
return, and the address `(unsigned int)proc_ptr` of the code to run. -/
structure cpu_env where
  /-- constant `EF_DEFAULT_VALUE` -/
  EF_DEFAULT_VALUE : Nat
  /-- constant `EF_INTR`, the interrupt-enable flag -/
  EF_INTR : Nat
  /-- value of `get_cs()` -/
  get_cs : Nat
  /-- value of `get_ds()` -/
  get_ds : Nat
  /-- value of `get_es()` -/
  get_es : Nat
  /-- value of `get_fs()` -/
  get_fs : Nat
  /-- value of `get_gs()` -/
  get_gs : Nat
  /-- address of a piece of code -/
  code_addr : code_ptr → Nat

/-- The trapframe `kproc_create` builds in a row it has just cleared. -/
def trapframe_init (env : cpu_env) (proc_ptr : code_ptr) (f : trapframe_t) : trapframe_t :=
  { f with
    eip := env.code_addr proc_ptr
    eflags := env.EF_DEFAULT_VALUE ||| env.EF_INTR
    cs := env.get_cs
    ds := env.get_ds
    es := env.get_es
    fs := env.get_fs
    gs := env.get_gs }

/-- The writes of `kproc_create` to `proc_stack`, for a call made in state `s`:
the row of the entry taken from the allocator is cleared and the initial
trapframe is stored at its top.  Nothing is written when the allocator is empty.
(For an entry outside the table `kproc_create` is `none`.) -/
def kproc_create_stack (env : cpu_env) (proc_ptr : code_ptr) (s : kstate)
    (proc_stack : List stack_t) : List stack_t :=
  let r := queue_out s.proc_allocator (some 0)
  if r.1 = -1 then
    proc_stack
  else
    let entryId := r.2.2.getD 0
    if 0 ≤ entryId ∧ entryId < PROC_MAX then
      let e := entryId.toNat
      let row := stack_clear (stack_at proc_stack e)
      proc_stack.set e { row with top := trapframe_init env proc_ptr row.top }
    else
      proc_stack

/-- Value of `sizeof(PROC_STACK_SIZE)`, the size of an `int` on the 32-bit target. -/
def SIZEOF_INT : Nat := 4

/-- Result of `memset(p, 0, n)` on the bytes `bytes` starting at `p`, for `n` not
above their number. -/
def memset_zero (n : Nat) (bytes : List Nat) : List Nat :=
  List.replicate (min n bytes.length) 0 ++ bytes.drop n

/-- The writes of `kproc_destroy` to `proc_stack`, for a call made in state `s`:
`memset(proc->stack, 0, sizeof(PROC_STACK_SIZE))` clears the first `SIZEOF_INT`
bytes of the row `proc->stack` points to, after `scheduler_remove`.  Nothing is
written when the pid is 0.  (Where `kproc_destroy` is `none` the stacks are left
as they are.) -/
def kproc_destroy_stack (proc : Option Nat) (s : kstate) (proc_stack : List stack_t) :
    List stack_t :=
  match proc with
  | none => proc_stack
  | some p =>
    if (proc_at s.proc_table p).pid = 0 then
      proc_stack
    else
      match scheduler_remove (some p) s with
      | none => proc_stack
      | some s1 =>
        match (proc_at s1.proc_table p).stack with
        | none => proc_stack
        | some row =>
          proc_stack.set row
            { stack_at proc_stack row with
              low := memset_zero SIZEOF_INT (stack_at proc_stack row).low }

/-- The process variables together with the process stacks. -/
structure kmachine where
  /-- the process variables -/
  vars : kstate
  /-- the array `proc_stack[PROC_MAX][PROC_STACK_SIZE]` -/
  proc_stack : List stack_t
deriving DecidableEq, Repr

/-- Function `kproc_create` with its writes to `proc_stack`. -/
def kproc_create_full (env : cpu_env) (proc_ptr : code_ptr) (proc_name : List Char)
    (proc_type : proc_type_t) (m : kmachine) : Option (Int × kmachine) :=
  (kproc_create proc_ptr proc_name proc_type m.vars).map
    (fun r => (r.1, { vars := r.2,
                      proc_stack := kproc_create_stack env proc_ptr m.vars m.proc_stack }))

/-- Function `kproc_destroy` with its writes to `proc_stack`. -/
def kproc_destroy_full (proc : Option Nat) (m : kmachine) : Option (Int × kmachine) :=
  (kproc_destroy proc m.vars).map
    (fun r => (r.1, { vars := r.2,
                      proc_stack := kproc_destroy_stack proc m.vars m.proc_stack }))

/-! ## Example states for creation and destruction -/

/-- Ten creations of user processes. -/
def demo_fill : List kcall :=
  List.replicate 10 (.create (.fn 1) "p".toList .PROC_TYPE_USER)

/-- State after start-up and the creations of `demo_fill`: every entry of the
table is in use (pids 0 to 9) and the allocator is empty. -/
def demo_full : kstate :=
  (kcalls_run demo_boot demo_fill).getD kstate_zero

/-- The creations of `demo_fill`, then the destruction of entry 4 and one more
creation. -/
def demo_recycle : List kcall :=
  demo_fill ++ [.destroy (some 4), .create (.fn 2) "q".toList .PROC_TYPE_USER]

/-- State after start-up and the calls of `demo_recycle`: entry 4 holds the
process with pid 10. -/
def demo_recycled : kstate :=
  (kcalls_run demo_boot demo_recycle).getD kstate_zero

/-- State after start-up and one creation: pid 1 in entry 1. -/
def demo_one : kstate :=
  (kcalls_run demo_boot [.create (.fn 1) "a".toList .PROC_TYPE_USER]).getD kstate_zero

/-- An example of the values `kproc_create` takes from outside the sources. -/
def demo_env : cpu_env :=
  { EF_DEFAULT_VALUE := 2, EF_INTR := 512, get_cs := 8, get_ds := 16, get_es := 16,
    get_fs := 16, get_gs := 16,
    code_addr := fun p => match p with
      | .kernel_idle => 1052672
      | .fn addr => addr }

/-- An example row of `proc_stack` of 8192 bytes, none of them zero, the
trapframe taking the last 76. -/
def demo_row : stack_t :=
  { low := List.replicate 8116 255,
    top := { eip := 4294967295, eflags := 4294967295, cs := 65535, ds := 65535, es := 65535,
             fs := 65535, gs := 65535, interrupt := 4294967295,
             regs := List.replicate 44 255 } }

/-- The state `demo_boot` with example stacks. -/
def demo_machine : kmachine :=
  { vars := demo_boot, proc_stack := List.replicate PROC_MAX demo_row }

/-- The state `demo_machine` after one creation. -/
def demo_machine_one : kmachine :=
  { vars := demo_one,
    proc_stack := kproc_create_stack demo_env (.fn 1) demo_boot (List.replicate PROC_MAX demo_row) }

/-! ## timer.h / timer.c -/

/-- Size of the timer table (`#define TIMERS_MAX 32`). -/
def TIMERS_MAX : Nat := 32

/-- A function whose address is registered as a timer callback: one of the four
the sources register, or some other function given by its address. -/
inductive callback_t where
  | scheduler_timer
  | displayProcs
  | spinner
  | uptime
  | fn (addr : Nat)
deriving DecidableEq, Repr

/-- Timer data structure (`timer_t`); the null function pointer is `none`. -/
structure timer_t where
  /-- function to call when the interval occurs -/
  callback : Option callback_t
  /-- interval in which the timer will be called -/
  interval : Int
  /-- field `repeat` (a reserved word here): number of times to repeat, -1 for
  infinite -/
  repeats : Int
deriving DecidableEq, Repr

/-- A timer entry of which every byte is zero. -/
def timer_zero : timer_t :=
  { callback := none, interval := 0, repeats := 0 }

/-- The variables of timer.c: `timer_ticks`, `timers[TIMERS_MAX]` and
`timer_allocator`. -/
structure timer_vars where
  /-- number of timer ticks that have occurred -/
  timer_ticks : Int
  /-- the timer table -/
  timers : List timer_t
  /-- timer ids that can be handed out -/
  timer_allocator : queue_t
deriving DecidableEq, Repr

/-- Entry `timers[i]`. -/
def timer_at (timers : List timer_t) (i : Nat) : timer_t :=
  timers.getD i timer_zero

/-- Function `timer_init`, its effect on the variables of timer.c:
`memset(timers, 0, sizeof(timer_t))` clears the first entry, the allocator is
initialised and filled with the ids 0 .. `TIMERS_MAX - 1`.  (A failing `queue_in`
leaves the queue as it is and so would every later one, hence the `break` makes
no difference; the registration of the interrupt handler is in
`interrupts_irq_register`.) -/
def timer_init (tv : timer_vars) : timer_vars :=
  { timer_ticks := 0
    timers := tv.timers.set 0 timer_zero
    timer_allocator :=
      (List.range TIMERS_MAX).foldl (fun q i => (queue_in q (i : Int)).2)
        (queue_init tv.timer_allocator).2 }

/-- Function `timer_callback_register`: the return value and the variables
afterwards.  `none` stands for a write outside the timer table, when the
allocator delivers an id that is not an index of it. -/
def timer_callback_register (func_ptr : Option callback_t) (interval : Int) (repeats : Int)
    (tv : timer_vars) : Option (Int × timer_vars) :=
  let r := queue_out tv.timer_allocator (some (-1))
  if r.1 = -1 then
    some (-1, { tv with timer_allocator := r.2.1 })
  else
    let timer_id := r.2.2.getD (-1)
    if 0 ≤ timer_id ∧ timer_id < TIMERS_MAX then
      some (timer_id,
        { tv with
          timer_allocator := r.2.1
          timers := tv.timers.set timer_id.toNat
            { callback := func_ptr, interval := interval, repeats := repeats } })
    else
      none

/-- Function `timer_callback_unregister`: the return value and the variables
afterwards. -/
def timer_callback_unregister (id : Int) (tv : timer_vars) : Int × timer_vars :=
  if id < 0 ∨ id ≥ TIMERS_MAX then
    (-1, tv)
  else
    let r := queue_in tv.timer_allocator id
    let tv1 := { tv with timers := tv.timers.set id.toNat timer_zero, timer_allocator := r.2 }
    if r.1 = -1 then (-1, tv1) else (0, tv1)

/-- Function `timer_get_system_time`. -/
def timer_get_system_time (tv : timer_vars) : Int :=
  tv.timer_ticks

/-- One iteration of the loop of `timer_irq_handler`, for slot `i`: the calls it
makes (the slot and the function called) and the variables afterwards.  The
test `callback != NULL` comes first and cuts the test of the interval short;
`timer_ticks % 0` is a division by zero, `none`.  The callbacks are taken not to
call the functions of timer.c (none of those the sources register does), so
their own effect is outside the timer variables. -/
def timer_irq_slot (i : Nat) (tv : timer_vars) : Option (List (Nat × callback_t) × timer_vars) :=
  let t := timer_at tv.timers i
  match t.callback with
  | none => some ([], tv)
  | some cb =>
    if t.interval = 0 then
      none
    else if Int.tmod tv.timer_ticks t.interval = 0 then
      if t.repeats > 0 then
        some ([(i, cb)], { tv with timers := tv.timers.set i { t with repeats := t.repeats - 1 } })
      else if t.repeats = 0 then
        some ([(i, cb)], (timer_callback_unregister (i : Int) tv).2)
      else
        some ([(i, cb)], tv)
    else
      some ([], tv)

/-- The loop of `timer_irq_handler` over the slots listed, in order. -/
def timer_irq_loop : List Nat → timer_vars → Option (List (Nat × callback_t) × timer_vars)
  | [], tv => some ([], tv)
  | i :: rest, tv =>
    (timer_irq_slot i tv).bind (fun r =>
      (timer_irq_loop rest r.2).map (fun t => (r.1 ++ t.1, t.2)))

/-- Function `timer_irq_handler`: the calls it makes, in order, and the variables
afterwards; `none` when it divides by zero. -/
def timer_irq_handler (tv : timer_vars) : Option (List (Nat × callback_t) × timer_vars) :=
  timer_irq_loop (List.range TIMERS_MAX) { tv with timer_ticks := tv.timer_ticks + 1 }

/-- So many calls of `timer_irq_handler` in a row: the calls each of them made and
the variables afterwards. -/
def timer_run : Nat → timer_vars → Option (List (List (Nat × callback_t)) × timer_vars)
  | 0, tv => some ([], tv)
  | n + 1, tv =>
    (timer_run n tv).bind (fun r =>
      (timer_irq_handler r.2).map (fun h => (r.1 ++ [h.1], h.2)))

/-- Whether the callback of slot `i` is among the calls. -/
def timer_fired (i : Nat) (calls : List (Nat × callback_t)) : Bool :=
  calls.any (fun c => c.1 == i)

/-- The timer variables before `main` runs: statically allocated, hence zero. -/
def timer_vars_zero : timer_vars :=
  { timer_ticks := 0, timers := List.replicate TIMERS_MAX timer_zero, timer_allocator := queue_zero }

/-- State after `timer_init()`. -/
def timer_boot : timer_vars :=
  timer_init timer_vars_zero

/-- What holds of the timer variables as long as only registered timers are
unregistered: the table has `TIMERS_MAX` entries and the allocator holds,
without repetition, indices of entries that are all zero. -/
structure timer_inv (tv : timer_vars) : Prop where
  len : tv.timers.length = TIMERS_MAX
  wf : queue_wf tv.timer_allocator
  pool_nodup : (queue_content tv.timer_allocator).Nodup
  pool_free : ∀ id ∈ queue_content tv.timer_allocator,
    0 ≤ id ∧ id < TIMERS_MAX ∧ timer_at tv.timers id.toNat = timer_zero

/-- No entry with a callback has interval 0. -/
def timer_ok (tv : timer_vars) : Prop :=
  ∀ t ∈ tv.timers, t.callback ≠ none → t.interval ≠ 0

instance (tv : timer_vars) : Decidable (timer_ok tv) := by
  unfold timer_ok; infer_instance

/-- The slots that hold a registered timer: those whose id is not in the
allocator. -/
def timer_registered (tv : timer_vars) : List Nat :=
  (List.range TIMERS_MAX).filter (fun i => decide ((i : Int) ∉ queue_content tv.timer_allocator))

/-- A call of one of the functions that change the timer variables after
`timer_init`. -/
inductive timer_call where
  | register (func_ptr : Option callback_t) (interval : Int) (repeats : Int)
  | unregister (id : Int)
  | tick
deriving DecidableEq, Repr

/-- Effect of a call on the timer variables; `none` when the call does not
return. -/
def timer_call_step (tv : timer_vars) : timer_call → Option timer_vars
  | .register func_ptr interval repeats =>
    (timer_callback_register func_ptr interval repeats tv).map Prod.snd
  | .unregister id => some (timer_callback_unregister id tv).2
  | .tick => (timer_irq_handler tv).map Prod.snd

/-- Whether a call unregisters an id that is in the allocator, that is, a timer
that is not registered. -/
def timer_call.is_stray (tv : timer_vars) : timer_call → Bool
  | .unregister id => decide (id ∈ queue_content tv.timer_allocator)
  | _ => false

/-- States reached from `timer_init()` by calls that return and that unregister
registered timers only. -/
inductive timer_reachable : timer_vars → Prop where
  | boot : timer_reachable timer_boot
  | step (tv tv1 : timer_vars) (c : timer_call) :
      timer_reachable tv → c.is_stray tv = false → timer_call_step tv c = some tv1 →
      timer_reachable tv1

/-- Whether a timer entry is due at a tick count: it has a callback and its
interval divides the count. -/
def timer_due (ticks : Int) (t : timer_t) : Bool :=
  t.callback.isSome && decide (t.interval ∣ ticks)

/-- The call a due entry in slot `i` gives rise to. -/
def timer_call_of (ticks : Int) (i : Nat) (t : timer_t) : Option (Nat × callback_t) :=
  match t.callback with
  | some cb => if t.interval ∣ ticks then some (i, cb) else none
  | none => none

/-- What a tick makes of a timer entry: a due entry with a positive repeat count
has it lowered by one, a due entry with repeat count 0 is cleared, every other
entry is left as it is. -/
def timer_next (ticks : Int) (t : timer_t) : timer_t :=
  if timer_due ticks t then
    if t.repeats > 0 then { t with repeats := t.repeats - 1 }
    else if t.repeats = 0 then timer_zero
    else t
  else t

/-- Whether a tick hands the slot of the entry back to the allocator. -/
def timer_released (ticks : Int) (t : timer_t) : Bool :=
  timer_due ticks t && decide (t.repeats = 0)

instance (tv : timer_vars) : Decidable (timer_inv tv) :=
  decidable_of_iff
    (tv.timers.length = TIMERS_MAX ∧ queue_wf tv.timer_allocator ∧
      (queue_content tv.timer_allocator).Nodup ∧
      ∀ id ∈ queue_content tv.timer_allocator,
        0 ≤ id ∧ id < TIMERS_MAX ∧ timer_at tv.timers id.toNat = timer_zero)
    ⟨fun h => ⟨h.1, h.2.1, h.2.2.1, h.2.2.2⟩, fun h => ⟨h.len, h.wf, h.pool_nodup, h.pool_free⟩⟩

/-- Runs a list of calls; `none` when one of them does not return or unregisters
a timer that is not registered. -/
def timer_calls_run (tv : timer_vars) : List timer_call → Option timer_vars
  | [] => some tv
  | c :: cs =>
    if c.is_stray tv then none
    else (timer_call_step tv c).bind (fun tv1 => timer_calls_run tv1 cs)

/-! ## Example states of the timer table -/

/-- State after `timer_init()` and the registration of function 1 with interval 5
and repeat count 3: the timer sits in slot 0 and the tick count is 0. -/
def timer_demo : timer_vars :=
  (timer_calls_run timer_boot [.register (some (.fn 1)) 5 3]).getD timer_boot

/-- State `timer_demo` after the further registration of function 2 with
interval 2 and repeat count -1, in slot 1. -/
def timer_demo_forever : timer_vars :=
  (timer_calls_run timer_demo [.register (some (.fn 2)) 2 (-1)]).getD timer_boot

/-- State after `timer_init()` and `TIMERS_MAX` registrations of function 1 with
interval 1 and repeat count -1: every slot is taken. -/
def timer_demo_full : timer_vars :=
  (timer_calls_run timer_boot (List.replicate 32 (.register (some (.fn 1)) 1 (-1)))).getD timer_boot

/-- State after `timer_init()` and the registration of a null callback with
interval 5 and repeat count 3. -/
def timer_demo_null : timer_vars :=
  (timer_calls_run timer_boot [.register none 5 3]).getD timer_boot

/-! ## interrupts.h / interrupts.c -/

/-- Number of entries of the handler table (`#define IRQ_MAX 0xf0`). -/
def IRQ_MAX : Nat := 0xf0

/-- Base port of the primary controller (`#define PIC1_BASE 0x20`). -/
def PIC1_BASE : Nat := 0x20

/-- Base port of the secondary controller (`#define PIC2_BASE 0xa0`). -/
def PIC2_BASE : Nat := 0xa0

/-- Command port of the primary controller (`#define PIC1_CMD PIC1_BASE`). -/
def PIC1_CMD : Nat := PIC1_BASE

/-- Data port of the primary controller (`#define PIC1_DATA (PIC1_BASE+1)`). -/
def PIC1_DATA : Nat := PIC1_BASE + 1

/-- Command port of the secondary controller (`#define PIC2_CMD PIC2_BASE`). -/
def PIC2_CMD : Nat := PIC2_BASE

/-- Data port of the secondary controller (`#define PIC2_DATA (PIC2_BASE+1)`). -/
def PIC2_DATA : Nat := PIC2_BASE + 1

/-- End-of-interrupt command (`#define PIC_EOI 0x20`). -/
def PIC_EOI : Nat := 0x20

/-- How a call ends: it returns, with the state it leaves; or it reaches
`kernel_panic`, which prints and exits, with the state at that point; or it
indexes an array outside its bounds. -/
inductive outcome (α : Type) where
  | ret (a : α)
  | panicked (a : α)
  | undefined
deriving DecidableEq, Repr

/-- What the interrupt code does to the outside, in order: a call of the function
at an address through a pointer of the handler table, and a byte written to an
I/O port. -/
inductive intr_event where
  | call (handler : Nat)
  | outportb (port : Nat) (value : Nat)
deriving DecidableEq, Repr

/-- The variables of interrupts.c with the controllers behind the ports.  A function
pointer is the address of the function, `none` for `NULL`.  Of a descriptor of
the interrupt descriptor table only the entry address is kept (the selector, the
access rights and the count are the same for every descriptor the code fills). -/
structure intr_vars where
  /-- entry address in the descriptor of each vector, `none` for one never filled -/
  idt : List (Option Nat)
  /-- interrupt handler table `irq_handlers[IRQ_MAX]` -/
  irq_handlers : List (Option Nat)
  /-- interrupt mask register of the primary controller, behind `PIC1_DATA` -/
  pic1_mask : Nat
  /-- interrupt mask register of the secondary controller, behind `PIC2_DATA` -/
  pic2_mask : Nat
  /-- calls through the handler table and bytes written to ports so far, oldest
  first -/
  trace : List intr_event
deriving DecidableEq, Repr

/-- Library function `inportb` on the two data ports, the only ports interrupts.c
reads: the byte read is the interrupt mask register of the controller. -/
def inportb (port : Nat) (s : intr_vars) : Nat :=
  if port = PIC1_DATA then s.pic1_mask
  else if port = PIC2_DATA then s.pic2_mask
  else 0

/-- Library function `outportb`: the low byte of the value goes to the port; a byte
written to a data port becomes the interrupt mask register of the controller. -/
def outportb (port : Nat) (value : Nat) (s : intr_vars) : intr_vars :=
  let s1 := { s with trace := s.trace ++ [.outportb port (value % 256)] }
  if port = PIC1_DATA then { s1 with pic1_mask := value % 256 }
  else if port = PIC2_DATA then { s1 with pic2_mask := value % 256 }
  else s1

/-- Function `pic_irq_enabled`, for `irq` in the range in which `1 << irq` is
defined. -/
def pic_irq_enabled (irq : Int) (s : intr_vars) : Int :=
  let mask := 1 <<< irq.toNat
  if irq ≥ 0x0 ∧ irq ≤ 0x7 then
    if (inportb PIC1_DATA s &&& mask) > 0 then 0 else 1
  else if irq ≥ 0x8 ∧ irq ≤ 0xF then
    if (inportb PIC2_DATA s &&& mask) > 0 then 0 else 1
  else
    0

/-- Function `pic_irq_enable`.  The value `~(1 << irq)` of a 32-bit `int` has
every bit set but bit `irq`. -/
def pic_irq_enable (irq : Int) (s : intr_vars) : intr_vars :=
  if ¬ (irq ≥ 0x0 ∧ irq ≤ 0xF) ∨ pic_irq_enabled irq s ≠ 0 then
    s
  else if irq ≥ 0x0 ∧ irq ≤ 0x7 then
    outportb PIC1_DATA (inportb PIC1_DATA s &&& (0xFFFFFFFF ^^^ (1 <<< irq.toNat))) s
  else if irq ≥ 0x8 ∧ irq ≤ 0xF then
    outportb PIC2_DATA (inportb PIC2_DATA s &&& (0xFFFFFFFF ^^^ (1 <<< irq.toNat))) s
  else
    s

/-- Function `pic_irq_disable`. -/
def pic_irq_disable (irq : Int) (s : intr_vars) : intr_vars :=
  if ¬ (irq ≥ 0x0 ∧ irq ≤ 0xF) ∨ ¬ (pic_irq_enabled irq s ≠ 0) then
    s
  else if irq ≥ 0x0 ∧ irq ≤ 0x7 then
    outportb PIC1_DATA (inportb PIC1_DATA s ||| (1 <<< irq.toNat)) s
  else if irq ≥ 0x8 ∧ irq ≤ 0xF then
    outportb PIC2_DATA (inportb PIC2_DATA s ||| (1 <<< irq.toNat)) s
  else
    s

/-- Function `pic_irq_dismiss`. -/
def pic_irq_dismiss (irq : Int) (s : intr_vars) : intr_vars :=
  if irq ≥ 0x0 ∧ irq ≤ 0x7 then
    outportb PIC1_CMD PIC_EOI s
  else if irq ≥ 0x8 ∧ irq ≤ 0xF then
    outportb PIC2_CMD PIC_EOI (outportb PIC1_CMD PIC_EOI s)
  else
    s

/-- Function `interrupts_irq_handler`.  The call of the handler is recorded in the
trace; what the handler itself does is outside these variables (the two handlers
the sources register touch none of them). -/
def interrupts_irq_handler (irq : Int) (s : intr_vars) : outcome intr_vars :=
  if 0 ≤ irq ∧ irq < IRQ_MAX then
    match s.irq_handlers.getD irq.toNat none with
    | some handler =>
      let s1 := { s with trace := s.trace ++ [.call handler] }
      if irq ≥ 0x20 ∧ irq ≤ 0x2F then
        .ret (pic_irq_dismiss (irq - 0x20) s1)
      else
        .ret s1
    | none => .panicked s
  else
    .undefined

/-- Function `interrupts_irq_register`. -/
def interrupts_irq_register (irq : Int) (entry : Option Nat) (handler : Option Nat)
    (s : intr_vars) : outcome intr_vars :=
  match entry with
  | none => .panicked s
  | some e =>
    match handler with
    | none => .panicked s
    | some h =>
      if 0 ≤ irq ∧ irq < IRQ_MAX then
        let s1 := { s with
          idt := s.idt.set irq.toNat (some e)
          irq_handlers := s.irq_handlers.set irq.toNat (some h) }
        if irq ≥ 0x20 ∧ irq ≤ 0x2F then
          .ret (pic_irq_enable (irq - 0x20) s1)
        else
          .ret s1
      else
        .undefined

/-- Example state: no handler registered, every line of both controllers masked,
nothing called or written yet. -/
def intr_demo : intr_vars :=
  { idt := List.replicate 256 none, irq_handlers := List.replicate IRQ_MAX none,
    pic1_mask := 0xFF, pic2_mask := 0xFF, trace := [] }

/-- State `intr_demo` with handlers registered the way `timer_init` and
`keyboard_init` do it, for the vectors 0x20 and 0x21, and a further one for
vector 0x2C and one for vector 0x80. -/
def intr_demo_handlers : intr_vars :=
  { intr_demo with
    irq_handlers := (((intr_demo.irq_handlers.set 0x20 (some 1000)).set 0x21 (some 1001)).set
      0x2C (some 1002)).set 0x80 (some 1003) }

/-! ## Timer ticks that drive the scheduler -/

/-- The timer variables together with the process variables. -/
structure ksystem where
  /-- the variables of timer.c -/
  timer : timer_vars
  /-- the process variables; their `timer_ticks` is the tick count as
  `timer_get_system_time()` gave it last -/
  vars : kstate
deriving DecidableEq, Repr

/-- Function `scheduler_init` with the registration of its timer callback
(a failed registration is logged and nothing else). -/
def scheduler_init_full (k : ksystem) : Option ksystem :=
  (timer_callback_register (some .scheduler_timer) 1 (-1) k.timer).map
    (fun r => { timer := r.2, vars := scheduler_init k.vars })

/-- Function `kproc_init` with the registration of its timer callback. -/
def kproc_init_full (k : ksystem) : Option ksystem :=
  (kproc_init k.vars).bind (fun s =>
    (timer_callback_register (some .displayProcs) 1 (-1) k.timer).map
      (fun r => { timer := r.2, vars := s }))

/-- State after `timer_init()`, `scheduler_init()` and `kproc_init()`, in the order
`main` calls them. -/
def ksystem_boot : Option ksystem :=
  (scheduler_init_full { timer := timer_boot, vars := kstate_zero }).bind kproc_init_full

/-- Effect of a timer callback on the process variables: `scheduler_timer` is the
function of scheduler.c; `displayProcs`, `spinner` and `uptime` read them and
write to the screen only; of a function outside the sources nothing is known,
`none`. -/
def callback_run (cb : callback_t) (s : kstate) : Option kstate :=
  match cb with
  | .scheduler_timer => scheduler_timer s
  | .displayProcs => some s
  | .spinner => some s
  | .uptime => some s
  | .fn _ => none

/-- The callbacks `timer_irq_handler` called, run in call order. -/
def callbacks_run : List (Nat × callback_t) → kstate → Option kstate
  | [], s => some s
  | c :: cs, s => (callback_run c.2 s).bind (callbacks_run cs)

/-- One timer tick on the timer and the process variables, as
`kernel_context_enter` handles it: the handler of the timer interrupt,
`timer_irq_handler`, counts the tick and calls the due callbacks, then
`scheduler_run()` follows.  (`kernel_context_enter` first stores the pointer to
the saved trapframe in the current entry; field `trapframe` is read by none of
these functions and is left out here.) -/
def kernel_tick (k : ksystem) : Option ksystem :=
  (timer_irq_handler k.timer).bind (fun r =>
    (callbacks_run r.1 { k.vars with timer_ticks := r.2.timer_ticks }).bind (fun s1 =>
      (scheduler_run s1).map (fun s2 => { timer := r.2, vars := s2 })))

/-- Pid of the current process, `none` when there is none. -/
def current_pid (s : kstate) : Option Int :=
  s.current.map (fun c => (proc_at s.proc_table c).pid)

/-- So many timer ticks in a row: the pid of the process that was current when
each tick arrived, in order, and the state afterwards. -/
def kernel_ticks : Nat → ksystem → Option (List (Option Int) × ksystem)
  | 0, k => some ([], k)
  | n + 1, k =>
    (kernel_ticks n k).bind (fun r =>
      (kernel_tick r.2).map (fun k1 => (r.1 ++ [current_pid r.2.vars], k1)))

/-- Runs calls on the process variables of a system. -/
def ksystem_calls (k : ksystem) (calls : List kcall) : Option ksystem :=
  (kcalls_run k.vars calls).map (fun s => { k with vars := s })

/-- State after start-up, the creation of three user processes and the first
`scheduler_run()`: pid 1 is current, pids 2 and 3 are queued. -/
def ksystem_demo : Option ksystem :=
  ksystem_boot.bind (fun k => ksystem_calls k (demo_creates ++ [.run]))

/-- Run time of the process with the given pid, `none` when there is none. -/
def run_time_of (pid : Int) (s : kstate) : Option Int :=
  (pid_to_proc s.proc_table pid).map (fun n => (proc_at s.proc_table n).run_time)

/-- The part of `kernel_tick` on the process variables when the callbacks called
are `scheduler_timer` and `displayProcs`: the tick count is `t`. -/
def vars_tick (t : Int) (s : kstate) : Option kstate :=
  (scheduler_timer { s with timer_ticks := t }).bind scheduler_run

/-- So many ticks in a row on the process variables, after tick `t0`: the pid of
the process that was current when each tick arrived, and the variables
afterwards. -/
def vars_ticks : Nat → Int → kstate → Option (List (Option Int) × kstate)
  | 0, _, s => some ([], s)
  | n + 1, t0, s =>
    (vars_ticks n t0 s).bind (fun r =>
      (vars_tick (t0 + n + 1) r.2).map (fun s1 => (r.1 ++ [current_pid r.2], s1)))

/-- Every timer of the table has interval 1 and repeat count -1. -/
def timer_steady (tv : timer_vars) : Prop :=
  ∀ e ∈ tv.timers, e.callback = none ∨ (e.interval = 1 ∧ e.repeats = -1)

instance (tv : timer_vars) : Decidable (timer_steady tv) := by
  unfold timer_steady; infer_instance

/-- The process variables after `n` ticks charged to entry `c`, the tick count
being `t` then. -/
def vars_charge (n : Nat) (t : Int) (c : Nat) (s : kstate) : kstate :=
  { s with
    timer_ticks := t
    proc_table := proc_update s.proc_table c
      (fun e => { e with run_time := e.run_time + n, cpu_time := e.cpu_time + n }) }

/-- The state `ksystem_demo`. -/
def ksystem_demo_state : ksystem :=
  ksystem_demo.getD { timer := timer_boot, vars := kstate_zero }

/-- The process variables after a full timeslice of ticks that starts after tick
`t0` in state `s` with entry `c` current: 249 ticks charged to `c`, then the tick
with which the timeslice is used up. -/
def demo_round (s : kstate) (t0 : Int) (c : Nat) : kstate :=
  (vars_tick (t0 + 250) (vars_charge 249 (t0 + 249) c s)).getD kstate_zero

/-- Process variables of `ksystem_demo` after the first timeslice. -/
def demo_round1 : kstate := demo_round demo_running 0 1

/-- Process variables of `ksystem_demo` after the second timeslice. -/
def demo_round2 : kstate := demo_round demo_round1 250 2

/-- Process variables of `ksystem_demo` after the third timeslice. -/
def demo_round3 : kstate := demo_round demo_round2 500 3

/-! ## keyboard.h / keyboard.c -/

/-- Value returned for a scancode that gives no character (`#define KEY_NULL 0x00`). -/
def KEY_NULL : Nat := 0x00

/-- Value returned for the escape key (`#define KEY_ESCAPE 0x1B`). -/
def KEY_ESCAPE : Nat := 0x1B

/-- Status bit of CTRL (`#define KEY_STATUS_CTRL 0x01`). -/
def KEY_STATUS_CTRL : Nat := 0x01

/-- Status bit of ALT (`#define KEY_STATUS_ALT 0x02`). -/
def KEY_STATUS_ALT : Nat := 0x02

/-- Status bit of SHIFT (`#define KEY_STATUS_SHIFT 0x04`). -/
def KEY_STATUS_SHIFT : Nat := 0x04

/-- Status bit of CAPS (`#define KEY_STATUS_CAPS 0x08`). -/
def KEY_STATUS_CAPS : Nat := 0x08

/-- Status bit of NUMLOCK (`#define KEY_STATUS_NUMLOCK 0x10`). -/
def KEY_STATUS_NUMLOCK : Nat := 0x10

/-- Scancode of the left control key (`#define KEY_CTRL_L 0x1D`). -/
def KEY_CTRL_L : Nat := 0x1D

/-- Scancode of the right control key (`#define KEY_CTRL_R 0xE01D`). -/
def KEY_CTRL_R : Nat := 0xE01D

/-- Scancode of the left alt key (`#define KEY_ALT_L 0x38`). -/
def KEY_ALT_L : Nat := 0x38

/-- Scancode of the right alt key (`#define KEY_ALT_R 0xE038`). -/
def KEY_ALT_R : Nat := 0xE038

/-- Scancode of the left shift key (`#define KEY_SHIFT_L 0x2A`). -/
def KEY_SHIFT_L : Nat := 0x2A

/-- Scancode of the right shift key (`#define KEY_SHIFT_R 0x36`). -/
def KEY_SHIFT_R : Nat := 0x36

/-- Scancode of the caps lock key (`#define KEY_CAPS 0x3A`). -/
def KEY_CAPS : Nat := 0x3A

/-- Scancode of the num lock key (`#define KEY_NUMLOCK 0x45`). -/
def KEY_NUMLOCK : Nat := 0x45

/-- Macro `KEY_PRESSED(c)`. -/
def KEY_PRESSED (c : Nat) : Bool :=
  (c &&& 0x80) == 0

/-- Macro `KEY_STATUS_ALL(stat, test)`. -/
def KEY_STATUS_ALL (stat test : Nat) : Bool :=
  (stat &&& test) == test

/-- Table `keyboard_map_primary`, the character codes of its initialiser, row by
row (0 where the initialiser has 0): digits and `-` `=` backspace tab `q` `w`,
and so on. -/
def keyboard_map_primary : List Nat :=
  [  0,   0,  49,  50,  51,  52,  53,  54,  55,
    56,  57,  48,  45,  61,   8,   9, 113, 119,
   101, 114, 116, 121, 117, 105, 111, 112,  91,
    93,  10,   0,  97, 115, 100, 102, 103, 104,
   106, 107, 108,  59,  39,  96,   0,  92, 122,
   120,  99, 118,  98, 110, 109,  44,  46,  47,
     0,  42,   0,  32,   0,   0,   0,   0,   0]

/-- Table `keyboard_map_secondary`, the character codes of its initialiser, row by
row. -/
def keyboard_map_secondary : List Nat :=
  [  0,   0,  33,  64,  35,  36,  37,  94,  38,
    42,  40,  41,  95,  43,   8,   9,  81,  87,
    69,  82,  84,  89,  85,  73,  79,  80, 123,
   125,  10,   0,  65,  83,  68,  70,  71,  72,
    74,  75,  76,  58,  34, 126,   0, 124,  90,
    88,  67,  86,  66,  78,  77,  60,  62,  63,
     0,  42,   0,  32,   0,   0,   0,   0,   0]

/-- What a call of `keyboard_decode` leaves: the value returned, the variable
`kbd_status` afterwards and, when `kernel_debug_command` was called, the
character it was called with (what that function does is not part of this). -/
structure kbd_result where
  /-- value returned -/
  ret : Nat
  /-- variable `kbd_status` after the call -/
  kbd_status : Nat
  /-- argument of the call of `kernel_debug_command`, if there was one -/
  debug_cmd : Option Nat
deriving DecidableEq, Repr

/-- The test `KEY_STATUS_ALL(kbd_status, KEY_STATUS_CAPS) && keyboard_map_primary[c]
>= 'a' && keyboard_map_primary[c] <= 'z'` of `keyboard_decode`: the table is read
only when the CAPS bit is set; `none` when it is read outside its bounds. -/
def keyboard_caps_letter (c : Nat) (kbd_status : Nat) : Option Bool :=
  if KEY_STATUS_ALL kbd_status KEY_STATUS_CAPS then
    keyboard_map_primary[c]?.map (fun v => decide (97 ≤ v ∧ v ≤ 122))
  else
    some false

/-- Function `keyboard_decode`, called with scancode `c` when the variable
`kbd_status` holds the second argument.  `none` stands for a read outside the
bounds of one of the two tables. -/
def keyboard_decode (c : Nat) (kbd_status : Nat) : Option kbd_result :=
  if c = 0xe0 then
    some { ret := KEY_NULL, kbd_status := kbd_status, debug_cmd := none }
  else
    let key := c &&& 0x7f
    if key = 0x01 then
      some { ret := KEY_ESCAPE, kbd_status := kbd_status, debug_cmd := none }
    else if key = KEY_ALT_L ∨ key = KEY_ALT_R then
      some { ret := KEY_NULL, kbd_status := kbd_status ^^^ KEY_STATUS_ALT, debug_cmd := none }
    else if key = KEY_CTRL_L ∨ key = KEY_CTRL_R then
      some { ret := KEY_NULL, kbd_status := kbd_status ^^^ KEY_STATUS_CTRL, debug_cmd := none }
    else if key = KEY_SHIFT_L ∨ key = KEY_SHIFT_R then
      some { ret := KEY_NULL, kbd_status := kbd_status ^^^ KEY_STATUS_SHIFT, debug_cmd := none }
    else if key = KEY_CAPS then
      if KEY_PRESSED c then
        if kbd_status &&& KEY_STATUS_CAPS ≠ 0 then
          some { ret := KEY_NULL, kbd_status := kbd_status ^^^ KEY_STATUS_CAPS, debug_cmd := none }
        else
          some { ret := KEY_NULL, kbd_status := kbd_status ||| KEY_STATUS_CAPS, debug_cmd := none }
      else
        some { ret := KEY_NULL, kbd_status := kbd_status, debug_cmd := none }
    else if key = KEY_NUMLOCK then
      if KEY_PRESSED c then
        if kbd_status &&& KEY_STATUS_NUMLOCK ≠ 0 then
          some { ret := KEY_NULL, kbd_status := kbd_status ^^^ KEY_STATUS_NUMLOCK,
                 debug_cmd := none }
        else
          some { ret := KEY_NULL, kbd_status := kbd_status ||| KEY_STATUS_NUMLOCK,
                 debug_cmd := none }
      else
        some { ret := KEY_NULL, kbd_status := kbd_status, debug_cmd := none }
    else if KEY_PRESSED c then
      (keyboard_caps_letter c kbd_status).bind (fun letter =>
        if xor (KEY_STATUS_ALL kbd_status KEY_STATUS_SHIFT) letter then
          keyboard_map_secondary[c]?.map
            (fun v => { ret := v, kbd_status := kbd_status, debug_cmd := none })
        else if kbd_status &&& KEY_STATUS_CTRL ≠ 0 then
          keyboard_map_primary[c]?.map
            (fun v => { ret := KEY_NULL, kbd_status := kbd_status, debug_cmd := some v })
        else
          keyboard_map_primary[c]?.map
            (fun v => { ret := v, kbd_status := kbd_status, debug_cmd := none }))
    else
      some { ret := KEY_NULL, kbd_status := kbd_status, debug_cmd := none }

/-- The scancodes, without the release bit, that the `switch` of `keyboard_decode`
handles: escape and the modifier keys. -/
def keyboard_special : List Nat :=
  [0x01, KEY_ALT_L, KEY_ALT_R, KEY_CTRL_L, KEY_CTRL_R, KEY_SHIFT_L, KEY_SHIFT_R, KEY_CAPS,
   KEY_NUMLOCK]

/-- The fields of an entry that tell which process it holds and that no call
changes while the process lives: name, type and stack. -/
def proc_identity (e : proc_t) : List Char × proc_type_t × Option Nat :=
  (e.name, e.type, e.stack)

/-- Entry 0 holds the idle process as `kproc_init` creates it: the kernel process
named "idle", on stack row 0. -/
def idle_entry (s : kstate) : Prop :=
  proc_identity (proc_at s.proc_table 0) = ("idle".toList, .PROC_TYPE_KERNEL, some 0)

instance (s : kstate) : Decidable (idle_entry s) := by
  unfold idle_entry; infer_instance

/-- The field `stack` of every entry is null or points to the stack row with the
index of the entry. -/
def stack_own (s : kstate) : Prop :=
  ∀ i, (proc_at s.proc_table i).stack = none ∨ (proc_at s.proc_table i).stack = some i

/-- What holds of the timer variables after `timer_init()` whatever is called
then: the table has `TIMERS_MAX` entries and the allocator holds indices of the
table only. -/
def timer_weak_inv (tv : timer_vars) : Prop :=
  tv.timers.length = TIMERS_MAX ∧ queue_wf tv.timer_allocator ∧
    ∀ id ∈ queue_content tv.timer_allocator, 0 ≤ id ∧ id < TIMERS_MAX

instance (tv : timer_vars) : Decidable (timer_weak_inv tv) := by
  unfold timer_weak_inv; infer_instance

/-- Whether a call keeps to the rule that a timer is not registered with
interval 0. -/
def timer_call.nonzero : timer_call → Bool
  | .register _ interval _ => decide (interval ≠ 0)
  | _ => true

/-- States reached from `timer_init()` by calls that return, of which every
`timer_callback_register` passes an interval different from 0; any id may be
unregistered, registered or not. -/
inductive timer_reachable_nz : timer_vars → Prop where
  | boot : timer_reachable_nz timer_boot
  | step (tv tv1 : timer_vars) (c : timer_call) :
      timer_reachable_nz tv → c.nonzero = true → timer_call_step tv c = some tv1 →
      timer_reachable_nz tv1

/-- A call of `timer_callback_register` or of `timer_callback_unregister`. -/
inductive timer_op where
  | register (func_ptr : Option callback_t) (interval : Int) (repeats : Int)
  | unregister (id : Int)
deriving DecidableEq, Repr

/-- The timer variables together with a record of the calls made: the ids that
are registered, that is, returned by a `timer_callback_register` and not
unregistered since; the ids that a `timer_callback_register` returned while they
were registered; and the ids that a `timer_callback_unregister` returning 0 was
given while they were not registered. -/
structure timer_track where
  /-- the timer variables -/
  vars : timer_vars
  /-- ids registered at this point -/
  live : List Int
  /-- ids handed out while registered -/
  clashes : List Int
  /-- ids unregistered while not registered -/
  strays : List Int
deriving DecidableEq, Repr

/-- One call, with the record brought up to date; `none` when the call does not
return. -/
def timer_track_step (t : timer_track) : timer_op → Option timer_track
  | .register func_ptr interval repeats =>
    (timer_callback_register func_ptr interval repeats t.vars).map (fun r =>
      if r.1 = -1 then
        { t with vars := r.2 }
      else
        { t with
          vars := r.2
          live := r.1 :: t.live
          clashes := if r.1 ∈ t.live then t.clashes ++ [r.1] else t.clashes })
  | .unregister id =>
    let r := timer_callback_unregister id t.vars
    some
      (if r.1 = 0 then
        { t with
          vars := r.2
          live := t.live.filter (fun x => decide (x ≠ id))
          strays := if id ∈ t.live then t.strays else t.strays ++ [id] }
      else
        { t with vars := r.2 })

/-- A sequence of calls, with the record. -/
def timer_track_run (t : timer_track) : List timer_op → Option timer_track
  | [] => some t
  | op :: ops => (timer_track_step t op).bind (fun t1 => timer_track_run t1 ops)

/-- The state after `timer_init()`: no id is registered. -/
def timer_track_boot : timer_track :=
  { vars := timer_boot, live := [], clashes := [], strays := [] }

/-- Example: a timer is registered and unregistered twice in a row, then 33
timers are registered. -/
def timer_demo_stray : List timer_op :=
  .register (some (.fn 1)) 1 (-1) :: .unregister 0 :: .unregister 0 ::
    List.replicate 33 (.register (some (.fn 1)) 1 (-1))

/-- Example: two timers are registered, the first is unregistered and a third is
registered. -/
def timer_demo_reuse : List timer_op :=
  [.register (some (.fn 1)) 1 (-1), .register (some (.fn 2)) 5 3, .unregister 0,
    .register (some (.fn 3)) 2 0]

/-- Example: `timer_callback_unregister(1)` right after `timer_init()`, then
`timer_callback_register(spinner, 5, 3)`. -/
def timer_demo_nz : timer_vars :=
  ((timer_callback_register (some .spinner) 5 3 (timer_callback_unregister 1 timer_boot).2).map
    Prod.snd).getD timer_boot

/-- What holds of the ids handed out as long as every id unregistered was
registered: the timer table is as `timer_inv` says, no id was handed out while
registered, and the registered ids are those of the table that the allocator
does not hold. -/
def timer_track_inv (t : timer_track) : Prop :=
  timer_inv t.vars ∧ t.clashes = [] ∧ t.live.Nodup ∧
    ∀ id, id ∈ t.live ↔
      (0 ≤ id ∧ id < TIMERS_MAX ∧ id ∉ queue_content t.vars.timer_allocator)

/-! ## Theorems: the queue -/

theorem queue_content_length (q : queue_t) : (queue_content q).length = q.size := by
  simp [queue_content]

theorem queue_wf_zero : queue_wf queue_zero := by decide

theorem queue_content_zero : queue_content queue_zero = [] := by
  simp [queue_content, queue_zero]

theorem queue_in_full (q : queue_t) (item : Int) (h : q.size = QUEUE_SIZE) :
    queue_in q item = (-1, q) := by
  simp [queue_in, queue_is_full, h]

theorem queue_in_ret (q : queue_t) (item : Int) (h : q.size ≠ QUEUE_SIZE) :
    (queue_in q item).1 = 0 := by
  simp [queue_in, queue_is_full, h]

theorem queue_in_size (q : queue_t) (item : Int) (h : q.size ≠ QUEUE_SIZE) :
    (queue_in q item).2.size = q.size + 1 := by
  simp [queue_in, queue_is_full, h]

theorem queue_in_wf (q : queue_t) (item : Int) (hw : queue_wf q) : queue_wf (queue_in q item).2 := by
  obtain ⟨hl, hh, hs, ht⟩ := hw
  by_cases hf : q.size = QUEUE_SIZE
  · rw [queue_in_full q item hf]; exact ⟨hl, hh, hs, ht⟩
  · simp only [queue_in, queue_is_full, beq_iff_eq, hf, if_false, Bool.false_eq_true]
    refine ⟨by simpa using hl, hh, ?_, ?_⟩
    · show q.size + 1 ≤ QUEUE_SIZE
      omega
    · show (q.tail + 1) % QUEUE_SIZE = (q.head + (q.size + 1)) % QUEUE_SIZE
      rw [ht]; unfold QUEUE_SIZE; omega

theorem queue_in_content (q : queue_t) (item : Int) (hw : queue_wf q) (hf : q.size ≠ QUEUE_SIZE) :
    queue_content (queue_in q item).2 = queue_content q ++ [item] := by
  obtain ⟨hl, hh, hs, ht⟩ := hw
  simp only [queue_in, queue_is_full, beq_iff_eq, hf, if_false, Bool.false_eq_true, queue_content]
  rw [List.range_succ, List.map_append]
  congr 1
  · apply List.map_congr_left
    intro i hi
    have hi' : i < q.size := List.mem_range.mp hi
    have hne : q.tail ≠ (q.head + i) % QUEUE_SIZE := by
      rw [ht]; unfold QUEUE_SIZE at *; omega
    simp [List.getD_eq_getElem?_getD, List.getElem?_set, hne]
  · have hlt : q.tail < q.items.length := by
      rw [hl, ht]; unfold QUEUE_SIZE; omega
    simp [← ht, List.getD_eq_getElem?_getD, List.getElem?_set, hlt]

theorem queue_out_empty (q : queue_t) (cell : Option Int) (h : q.size = 0) :
    queue_out q cell = (-1, q, cell) := by
  simp [queue_out, queue_is_empty, h]

theorem queue_out_null (q : queue_t) : queue_out q none = (-1, q, none) := by
  simp [queue_out]

theorem queue_out_some (q : queue_t) (cell : Int) (h : q.size ≠ 0) :
    queue_out q (some cell) =
      (0, { items := q.items, head := (q.head + 1) % QUEUE_SIZE, tail := q.tail, size := q.size - 1 },
        some (q.items.getD q.head 0)) := by
  simp [queue_out, queue_is_empty, h]

theorem queue_out_wf (q : queue_t) (cell : Option Int) (hw : queue_wf q) :
    queue_wf (queue_out q cell).2.1 := by
  obtain ⟨hl, hh, hs, ht⟩ := hw
  cases cell with
  | none => rw [queue_out_null]; exact ⟨hl, hh, hs, ht⟩
  | some c =>
    by_cases he : q.size = 0
    · rw [queue_out_empty q _ he]; exact ⟨hl, hh, hs, ht⟩
    · rw [queue_out_some q c he]
      refine ⟨hl, ?_, ?_, ?_⟩
      · show (q.head + 1) % QUEUE_SIZE < QUEUE_SIZE
        unfold QUEUE_SIZE; omega
      · show q.size - 1 ≤ QUEUE_SIZE
        omega
      · show q.tail = ((q.head + 1) % QUEUE_SIZE + (q.size - 1)) % QUEUE_SIZE
        rw [ht]; unfold QUEUE_SIZE; omega

theorem queue_out_content (q : queue_t) (cell : Int) (hw : queue_wf q) (he : q.size ≠ 0) :
    queue_content q = q.items.getD q.head 0 :: queue_content (queue_out q (some cell)).2.1 := by
  obtain ⟨hl, hh, hs, ht⟩ := hw
  rw [queue_out_some q cell he]
  simp only [queue_content]
  obtain ⟨n, hn⟩ : ∃ n, q.size = n + 1 := ⟨q.size - 1, by omega⟩
  rw [hn, List.range_succ_eq_map, List.map_cons, List.map_map]
  have h0 : (q.head + 0) % QUEUE_SIZE = q.head := by
    unfold QUEUE_SIZE at *; omega
  rw [h0]
  congr 1
  simp only [Nat.add_sub_cancel]
  apply List.map_congr_left
  intro i _
  have : ((q.head + 1) % QUEUE_SIZE + i) % QUEUE_SIZE = (q.head + Nat.succ i) % QUEUE_SIZE := by
    unfold QUEUE_SIZE; omega
  simp [this]

theorem queue_log_step_ok (l : queue_log) (c : queue_call) (h : queue_log_ok l) :
    queue_log_ok (queue_log_step l c) := by
  obtain ⟨hw, hio⟩ := h
  cases c with
  | q_in item =>
    refine ⟨queue_in_wf _ _ hw, ?_⟩
    by_cases hf : l.queue.size = QUEUE_SIZE
    · simp [queue_log_step, queue_in_full _ _ hf, hio]
    · simp [queue_log_step, queue_in_ret _ _ hf, queue_in_content _ _ hw hf, ← hio]
  | q_out =>
    refine ⟨queue_out_wf _ _ hw, ?_⟩
    by_cases he : l.queue.size = 0
    · simp [queue_log_step, queue_out_empty _ _ he, hio]
    · have hc := queue_out_content l.queue 0 hw he
      rw [queue_out_some _ _ he] at hc
      simp [queue_log_step, queue_out_some _ _ he, ← hio, hc]

theorem queue_foldl_ok (calls : List queue_call) (l : queue_log) (h : queue_log_ok l) :
    queue_log_ok (calls.foldl queue_log_step l) := by
  induction calls generalizing l with
  | nil => exact h
  | cons c cs ih => exact ih _ (queue_log_step_ok l c h)

theorem queue_run_ok (calls : List queue_call) : queue_log_ok (queue_run calls) := by
  apply queue_foldl_ok
  exact ⟨queue_wf_zero, by simp [queue_init, queue_content_zero]⟩

/-- C1. The circular queue refines a bounded FIFO list.  After any sequence of
calls on a queue fresh from `queue_init`: the items delivered by the successful
`queue_out` calls, followed by the items still held, are exactly the items of the
successful `queue_in` calls in call order (so items leave in the order they
entered); `size` is the number of successful `queue_in` calls minus the number of
successful `queue_out` calls; the next `queue_in` behaves as the specification's
`enqueue` on the held items (appending at the tail when it succeeds) and the next
`queue_out` as the specification's `dequeue` (returning and removing the head). -/
theorem queue_refines_fifo (calls : List queue_call) :
    (queue_run calls).outs ++ queue_content (queue_run calls).queue = (queue_run calls).ins ∧
    ((queue_run calls).queue.size : Int) =
      ((queue_run calls).ins.length : Int) - ((queue_run calls).outs.length : Int) ∧
    (∀ item : Int,
      fifo_enqueue QUEUE_SIZE (queue_content (queue_run calls).queue) item =
        if (queue_in (queue_run calls).queue item).1 = 0
        then some (queue_content (queue_in (queue_run calls).queue item).2) else none) ∧
    (∀ cell : Int,
      fifo_dequeue (queue_content (queue_run calls).queue) =
        if (queue_out (queue_run calls).queue (some cell)).1 = 0
        then some (((queue_out (queue_run calls).queue (some cell)).2.2).getD 0,
                   queue_content (queue_out (queue_run calls).queue (some cell)).2.1)
        else none) := by
  obtain ⟨hw, hio⟩ := queue_run_ok calls
  refine ⟨hio, ?_, ?_, ?_⟩
  · have := congrArg List.length hio
    simp only [List.length_append, queue_content_length] at this
    omega
  · intro item
    by_cases hf : (queue_run calls).queue.size = QUEUE_SIZE
    · simp [fifo_enqueue, queue_content_length, hf, queue_in_full _ _ hf]
    · simp [fifo_enqueue, queue_content_length, hf, queue_in_ret _ _ hf,
        queue_in_content _ _ hw hf]
  · intro cell
    by_cases he : (queue_run calls).queue.size = 0
    · have hnil : queue_content (queue_run calls).queue = [] := by
        apply List.eq_nil_of_length_eq_zero
        rw [queue_content_length, he]
      simp [hnil, fifo_dequeue, queue_out_empty _ _ he]
    · rw [queue_out_content _ cell hw he]
      simp [fifo_dequeue, queue_out_some _ _ he]

/-- C2. `queue_in` returns -1 exactly when the queue holds `QUEUE_SIZE` items and
`queue_out` with a non-null result pointer returns -1 exactly when it holds none;
a failing call leaves the queue (items, head, tail, size) as it was, and every
other call returns 0. -/
theorem queue_failure_exact (q : queue_t) (item cell : Int) :
    ((queue_in q item).1 = -1 ↔ (queue_content q).length = QUEUE_SIZE) ∧
    ((queue_in q item).1 = -1 → (queue_in q item).2 = q) ∧
    ((queue_in q item).1 ≠ -1 → (queue_in q item).1 = 0) ∧
    ((queue_out q (some cell)).1 = -1 ↔ (queue_content q).length = 0) ∧
    ((queue_out q (some cell)).1 = -1 → (queue_out q (some cell)).2.1 = q) ∧
    ((queue_out q (some cell)).1 ≠ -1 → (queue_out q (some cell)).1 = 0) := by
  rw [queue_content_length]
  refine ⟨?_, ?_, ?_, ?_, ?_, ?_⟩
  · by_cases hf : q.size = QUEUE_SIZE
    · simp [queue_in_full _ _ hf, hf]
    · simp [queue_in_ret _ _ hf, hf]
  · by_cases hf : q.size = QUEUE_SIZE
    · simp [queue_in_full _ _ hf]
    · simp [queue_in_ret _ _ hf]
  · by_cases hf : q.size = QUEUE_SIZE
    · simp [queue_in_full _ _ hf]
    · simp [queue_in_ret _ _ hf]
  · by_cases he : q.size = 0
    · simp [queue_out_empty _ _ he, he]
    · simp [queue_out_some _ _ he, he]
  · by_cases he : q.size = 0
    · simp [queue_out_empty _ _ he]
    · simp [queue_out_some _ _ he]
  · by_cases he : q.size = 0
    · simp [queue_out_empty _ _ he]
    · simp [queue_out_some _ _ he]

/-! ## The example states, evaluated -/

set_option maxRecDepth 100000 in
theorem demo_boot_eq : kernel_boot = some demo_boot := by decide

set_option maxRecDepth 100000 in
theorem demo_running_eq : kcalls_run demo_boot (demo_creates ++ [.run]) = some demo_running := by
  decide

theorem reachable_kcalls_run (cs : List kcall) :
    ∀ (s s1 : kstate), reachable s → kcalls_run s cs = some s1 → reachable s1 := by
  induction cs with
  | nil =>
    intro s s1 hs h
    simp only [kcalls_run] at h
    injection h with h
    rw [← h]; exact hs
  | cons c cs ih =>
    intro s s1 hs h
    simp only [kcalls_run] at h
    cases hstep : kcall_step s c with
    | none => rw [hstep] at h; exact absurd h (by simp)
    | some s2 =>
      rw [hstep, Option.some_bind] at h
      exact ih s2 s1 (reachable.step s s2 c hs hstep) h

theorem demo_running_reachable : reachable demo_running :=
  reachable_kcalls_run _ _ _ (reachable.boot _ demo_boot_eq) demo_running_eq

set_option maxRecDepth 100000 in
theorem demo_ready_eq : kcalls_run demo_boot demo_creates = some demo_ready := by decide

theorem demo_ready_reachable : reachable demo_ready :=
  reachable_kcalls_run _ _ _ (reachable.boot _ demo_boot_eq) demo_ready_eq

set_option maxRecDepth 100000 in
theorem demo_expired_eq :
    kcalls_run demo_boot (demo_creates ++ [.run] ++ List.replicate 250 .timer) = some demo_expired := by
  decide

theorem demo_expired_reachable : reachable demo_expired :=
  reachable_kcalls_run _ _ _ (reachable.boot _ demo_boot_eq) demo_expired_eq

set_option maxRecDepth 100000 in
theorem demo_ready_live : pids_live [1, 2, 3] demo_ready.proc_table := by
  intro p hp
  simp only [List.mem_cons, List.mem_singleton, List.not_mem_nil, or_false] at hp
  rcases hp with rfl | rfl | rfl
  · exact ⟨1, by decide, by decide⟩
  · exact ⟨2, by decide, by decide⟩
  · exact ⟨3, by decide, by decide⟩

/-! ## Theorems: the process table -/

theorem proc_at_zero_of_le (tbl : List proc_t) (i : Nat) (h : tbl.length ≤ i) :
    proc_at tbl i = proc_zero := by
  simp [proc_at, List.getD_eq_getElem?_getD, List.getElem?_eq_none h]

theorem proc_update_length (tbl : List proc_t) (n : Nat) (f : proc_t → proc_t) :
    (proc_update tbl n f).length = tbl.length := by
  simp [proc_update]

theorem proc_at_set (tbl : List proc_t) (n i : Nat) (e : proc_t) :
    proc_at (tbl.set n e) i = if i = n ∧ n < tbl.length then e else proc_at tbl i := by
  unfold proc_at
  by_cases h : n = i
  · subst h
    by_cases hl : n < tbl.length
    · simp [List.getD_eq_getElem?_getD, List.getElem?_set, hl]
    · have hn : tbl[n]? = none := List.getElem?_eq_none (by omega)
      simp [List.getD_eq_getElem?_getD, List.getElem?_set, hl, hn]
  · have h' : ¬ i = n := fun x => h x.symm
    simp [List.getD_eq_getElem?_getD, List.getElem?_set, h, h']

theorem proc_at_update (tbl : List proc_t) (n i : Nat) (f : proc_t → proc_t) :
    proc_at (proc_update tbl n f) i =
      if i = n ∧ n < tbl.length then f (proc_at tbl n) else proc_at tbl i := by
  unfold proc_update
  exact proc_at_set tbl n i _

theorem proc_at_update_pid (tbl : List proc_t) (n i : Nat) (f : proc_t → proc_t)
    (hf : ∀ e, (f e).pid = e.pid) :
    (proc_at (proc_update tbl n f) i).pid = (proc_at tbl i).pid := by
  rw [proc_at_update]
  split
  · next h => rw [hf, h.1]
  · rfl

theorem pid_to_proc_update (tbl : List proc_t) (n : Nat) (f : proc_t → proc_t)
    (hf : ∀ e, (f e).pid = e.pid) (pid : Int) :
    pid_to_proc (proc_update tbl n f) pid = pid_to_proc tbl pid := by
  unfold pid_to_proc
  congr 1
  funext i
  rw [proc_at_update_pid tbl n i f hf]

theorem pid_to_proc_some (tbl : List proc_t) (pid : Int) (n : Nat)
    (h : pid_to_proc tbl pid = some n) : n < PROC_MAX ∧ (proc_at tbl n).pid = pid := by
  unfold pid_to_proc at h
  have h1 := List.find?_some h
  have h2 := List.mem_of_find?_eq_some h
  exact ⟨List.mem_range.mp h2, by simpa using h1⟩

theorem pid_to_proc_lt_length (tbl : List proc_t) (pid : Int) (n : Nat)
    (h : pid_to_proc tbl pid = some n) (hp : pid ≠ 0) : n < tbl.length := by
  by_contra hl
  have := (pid_to_proc_some tbl pid n h).2
  rw [proc_at_zero_of_le tbl n (by omega)] at this
  exact hp this.symm

theorem pid_to_proc_exists (tbl : List proc_t) (i : Nat) (hi : i < PROC_MAX) :
    ∃ n, pid_to_proc tbl (proc_at tbl i).pid = some n := by
  unfold pid_to_proc
  cases hfind : (List.range PROC_MAX).find? (fun j => (proc_at tbl j).pid == (proc_at tbl i).pid) with
  | some n => exact ⟨n, rfl⟩
  | none =>
    rw [List.find?_eq_none] at hfind
    have := hfind i (List.mem_range.mpr hi)
    simp at this

/-! ## Theorems: scheduler_run -/

theorem scheduler_select_empty (s : kstate) (n : Nat) (he : s.run_queue.size = 0)
    (hidle : pid_to_proc s.proc_table 0 = some n) :
    scheduler_select s = some { s with
      current := some n
      proc_table := proc_update s.proc_table n (fun e => { e with state := .RUNNING }) } := by
  simp [scheduler_select, queue_out_empty _ _ he, hidle]

theorem scheduler_select_head (s : kstate) (n : Nat) (he : s.run_queue.size ≠ 0)
    (hn : pid_to_proc s.proc_table (s.run_queue.items.getD s.run_queue.head 0) = some n) :
    scheduler_select s = some { s with
      run_queue := (queue_out s.run_queue (some 0)).2.1
      current := some n
      proc_table := proc_update s.proc_table n (fun e => { e with state := .RUNNING }) } := by
  unfold scheduler_select
  rw [queue_out_some _ _ he]
  simp only [Option.getD_some]
  rw [if_neg (by decide), hn]

theorem scheduler_preempt_none (s : kstate) (h : s.current = none) : scheduler_preempt s = s := by
  simp [scheduler_preempt, h]

theorem scheduler_preempt_table (s : kstate) (c : Nat) (h : s.current = some c) :
    (scheduler_preempt s).proc_table =
      proc_update s.proc_table c (fun e => { e with cpu_time := 0, state := .IDLE }) := by
  simp [scheduler_preempt, h]

theorem scheduler_preempt_pid_to_proc (s : kstate) (pid : Int) :
    pid_to_proc (scheduler_preempt s).proc_table pid = pid_to_proc s.proc_table pid := by
  cases hc : s.current with
  | none => rw [scheduler_preempt_none s hc]
  | some c =>
    rw [scheduler_preempt_table s c hc, pid_to_proc_update]
    intro e; rfl

theorem scheduler_preempt_length (s : kstate) :
    (scheduler_preempt s).proc_table.length = s.proc_table.length := by
  cases hc : s.current with
  | none => rw [scheduler_preempt_none s hc]
  | some c => rw [scheduler_preempt_table s c hc, proc_update_length]

theorem scheduler_run_expired (s : kstate) (c : Nat) (hc : s.current = some c)
    (ht : SCHEDULER_TIMESLICE ≤ (proc_at s.proc_table c).cpu_time) :
    scheduler_run s = scheduler_select (scheduler_preempt s) := by
  simp only [scheduler_run, hc, not_lt.mpr ht, if_false]

theorem scheduler_run_none (s : kstate) (hc : s.current = none) :
    scheduler_run s = scheduler_select (scheduler_preempt s) := by
  rw [scheduler_preempt_none s hc]
  simp only [scheduler_run, hc]

/-- C5. If `current` is non-null and its cpu time is below `SCHEDULER_TIMESLICE`
(250), `scheduler_run` returns with the state exactly as it was: `current`, every
PCB and the ready queue are unchanged. -/
theorem scheduler_run_within_timeslice (s : kstate) (c : Nat)
    (hc : s.current = some c)
    (ht : (proc_at s.proc_table c).cpu_time < SCHEDULER_TIMESLICE) :
    SCHEDULER_TIMESLICE = 250 ∧ scheduler_run s = some s := by
  refine ⟨rfl, ?_⟩
  simp [scheduler_run, hc, ht]

/-- C6. When `scheduler_run` performs a selection (`current` is null, or it has
used its full timeslice) and the ready queue is empty at the dequeue, the first
table entry with pid 0 (the idle process) becomes `current` with state RUNNING and
the ready queue is still empty afterwards. -/
theorem scheduler_run_empty_selects_idle (s : kstate) (n : Nat)
    (hlen : s.proc_table.length = PROC_MAX)
    (hsel : s.current = none ∨
      ∃ c, s.current = some c ∧ SCHEDULER_TIMESLICE ≤ (proc_at s.proc_table c).cpu_time)
    (hempty : (scheduler_preempt s).run_queue.size = 0)
    (hidle : pid_to_proc s.proc_table 0 = some n) :
    ∃ s1, scheduler_run s = some s1 ∧ s1.current = some n ∧
      (proc_at s1.proc_table n).pid = 0 ∧ (proc_at s1.proc_table n).state = .RUNNING ∧
      queue_content s1.run_queue = [] ∧ s1.run_queue.size = 0 := by
  have hrun : scheduler_run s = scheduler_select (scheduler_preempt s) := by
    rcases hsel with hnone | ⟨c, hc, ht⟩
    · exact scheduler_run_none s hnone
    · exact scheduler_run_expired s c hc ht
  have hidle1 : pid_to_proc (scheduler_preempt s).proc_table 0 = some n := by
    rw [scheduler_preempt_pid_to_proc]; exact hidle
  have hn := pid_to_proc_some _ _ _ hidle1
  have hnl : n < (scheduler_preempt s).proc_table.length := by
    rw [scheduler_preempt_length, hlen]; exact hn.1
  rw [hrun, scheduler_select_empty _ n hempty hidle1]
  refine ⟨_, rfl, rfl, ?_, ?_, ?_, hempty⟩
  · simp [proc_at_update, hnl, hn.2]
  · simp [proc_at_update, hnl]
  · simp [queue_content, hempty]

/-- C4. When `current` (entry `c`) has used its full timeslice, `scheduler_run`
resets its cpu time to 0 and marks it IDLE.  If its pid is not 0 and the ready
queue has room, the pid is appended at the tail and the pid `h` at the head of the
resulting queue is dequeued; the entry `n` that `pid_to_proc` finds for `h` becomes
`current` with state RUNNING, and (the pid of `current` not being queued already)
the preempted pid is the one selected exactly when no other pid was queued.  If its pid is 0 nothing is enqueued: the queue only
loses its head. -/
theorem scheduler_run_preempts (s : kstate) (c : Nat)
    (hwf : kstate_wf s)
    (hc : s.current = some c)
    (ht : SCHEDULER_TIMESLICE ≤ (proc_at s.proc_table c).cpu_time) :
    ((proc_at s.proc_table c).pid ≠ 0 → s.run_queue.size ≠ QUEUE_SIZE →
      ∀ (h : Int) (rest : List Int) (n : Nat),
        queue_content s.run_queue ++ [(proc_at s.proc_table c).pid] = h :: rest →
        pid_to_proc s.proc_table h = some n →
        ∃ s1, scheduler_run s = some s1 ∧
          queue_content s1.run_queue = rest ∧
          s1.current = some n ∧
          s1.proc_table =
            proc_update
              (proc_update s.proc_table c (fun e => { e with cpu_time := 0, state := .IDLE }))
              n (fun e => { e with state := .RUNNING }) ∧
          (proc_at s1.proc_table n).pid = h ∧
          (proc_at s1.proc_table n).state = .RUNNING ∧
          (proc_at s1.proc_table c).cpu_time = 0 ∧
          (n ≠ c → (proc_at s1.proc_table c).state = .IDLE) ∧
          ((proc_at s.proc_table c).pid ∉ queue_content s.run_queue →
            (h = (proc_at s.proc_table c).pid ↔ queue_content s.run_queue = []))) ∧
    ((proc_at s.proc_table c).pid = 0 →
      ∀ n : Nat,
        pid_to_proc s.proc_table ((queue_content s.run_queue).headD 0) = some n →
        ∃ s1, scheduler_run s = some s1 ∧
          queue_content s1.run_queue = (queue_content s.run_queue).tail ∧
          s1.current = some n ∧
          (proc_at s1.proc_table n).state = .RUNNING) := by
  obtain ⟨hlen, hq, _⟩ := hwf
  have hrun := scheduler_run_expired s c hc ht
  have htbl := scheduler_preempt_table s c hc
  constructor
  · intro hpid hfull h rest n hcont hn
    have hrq : (scheduler_preempt s).run_queue = (queue_in s.run_queue (proc_at s.proc_table c).pid).2 := by
      simp [scheduler_preempt, hc, hpid]
    have hwf1 : queue_wf (scheduler_preempt s).run_queue := by
      rw [hrq]; exact queue_in_wf _ _ hq
    have hsz : (scheduler_preempt s).run_queue.size ≠ 0 := by
      rw [hrq, queue_in_size _ _ hfull]; omega
    have hcont1 : queue_content (scheduler_preempt s).run_queue = h :: rest := by
      rw [hrq, queue_in_content _ _ hq hfull]; exact hcont
    have hout := queue_out_content _ 0 hwf1 hsz
    rw [hcont1] at hout
    injection hout with hhead hrest
    have hn1 : pid_to_proc (scheduler_preempt s).proc_table
        ((scheduler_preempt s).run_queue.items.getD (scheduler_preempt s).run_queue.head 0) = some n := by
      rw [scheduler_preempt_pid_to_proc, ← hhead]; exact hn
    have hnp := pid_to_proc_some _ _ _ hn
    have hnl : n < s.proc_table.length := by rw [hlen]; exact hnp.1
    rw [hrun, scheduler_select_head _ n hsz hn1]
    refine ⟨_, rfl, hrest.symm, rfl, ?_, ?_, ?_, ?_, ?_, ?_⟩
    · simp only [htbl]
    · simp only [htbl]
      rw [proc_at_update_pid, proc_at_update_pid]
      · exact hnp.2
      · intro e; rfl
      · intro e; rfl
    · simp [htbl, proc_at_update, proc_update_length, hnl]
    · simp only [htbl]
      simp only [proc_at_update, proc_update_length]
      by_cases hcn : c = n
      · subst hcn; simp [hnl]
      · by_cases hcl : c < s.proc_table.length
        · simp [hcn, hcl]
        · simp [hcn, hcl]
          have := proc_at_zero_of_le s.proc_table c (by omega)
          rw [this]; rfl
    · intro hnc
      have hcl : c < s.proc_table.length := by
        by_contra hcl
        apply hpid
        rw [proc_at_zero_of_le s.proc_table c (by omega)]; rfl
      have hcn : ¬ c = n := fun x => hnc x.symm
      simp [htbl, proc_at_update, proc_update_length, hcn, hcl]
    · intro hnot
      cases hqc : queue_content s.run_queue with
      | nil =>
        rw [hqc] at hcont
        simp at hcont
        simp [hcont.1]
      | cons a l =>
        rw [hqc] at hcont hnot
        simp at hcont hnot
        simp only [reduceCtorEq, iff_false]
        rw [← hcont.1]
        exact fun x => hnot.1 x.symm
  · intro hpid n hn
    have hrq : (scheduler_preempt s).run_queue = s.run_queue := by
      simp [scheduler_preempt, hc, hpid]
    have hnp := pid_to_proc_some _ _ _ hn
    have hnl : n < (scheduler_preempt s).proc_table.length := by
      rw [scheduler_preempt_length, hlen]; exact hnp.1
    by_cases hsz : s.run_queue.size = 0
    · have hnil : queue_content s.run_queue = [] := by simp [queue_content, hsz]
      rw [hnil] at hn
      have hidle : pid_to_proc (scheduler_preempt s).proc_table 0 = some n := by
        rw [scheduler_preempt_pid_to_proc]; exact hn
      rw [hrun, scheduler_select_empty _ n (by rw [hrq]; exact hsz) hidle]
      refine ⟨_, rfl, ?_, rfl, ?_⟩
      · simp [hrq, hnil]
      · simp [proc_at_update, hnl]
    · have hout := queue_out_content _ 0 hq hsz
      rw [hout] at hn
      have hn1 : pid_to_proc (scheduler_preempt s).proc_table
          ((scheduler_preempt s).run_queue.items.getD (scheduler_preempt s).run_queue.head 0) = some n := by
        rw [scheduler_preempt_pid_to_proc, hrq]; exact hn
      rw [hrun, scheduler_select_head _ n (by rw [hrq]; exact hsz) hn1]
      refine ⟨_, rfl, ?_, rfl, ?_⟩
      · rw [hout]; simp [hrq]
      · simp [proc_at_update, hnl]

/-! ## Theorems: scheduler_remove -/

/-- C8. `scheduler_remove` applied to the current process: when its pid is not 0
its state becomes IDLE, `current` becomes null and nothing else changes (the
ready queue in particular: the pid is not enqueued); when its pid is 0 nothing
changes at all. -/
theorem scheduler_remove_current (s : kstate) (p : Nat)
    (hc : s.current = some p) (hp : p < s.proc_table.length) :
    ((proc_at s.proc_table p).pid ≠ 0 →
      ∃ s1, scheduler_remove (some p) s = some s1 ∧
        (proc_at s1.proc_table p).state = .IDLE ∧
        s1.current = none ∧
        s1.run_queue = s.run_queue ∧
        s1 = { s with
          proc_table := proc_update s.proc_table p (fun e => { e with state := .IDLE })
          current := none } ∧
        (∀ i, i ≠ p → proc_at s1.proc_table i = proc_at s.proc_table i)) ∧
    ((proc_at s.proc_table p).pid = 0 → scheduler_remove (some p) s = some s) := by
  constructor
  · intro hpid
    have hrun : scheduler_remove (some p) s = some { s with
        proc_table := proc_update s.proc_table p (fun e => { e with state := .IDLE })
        current := none } := by
      simp [scheduler_remove, hc, hpid]
    refine ⟨_, hrun, ?_, rfl, rfl, rfl, ?_⟩
    · simp [proc_at_update, hp]
    · intro i hi
      simp [proc_at_update, hi]
  · intro hpid
    simp [scheduler_remove, hc, hpid]

theorem scheduler_remove_scan_step (proc fuel i : Nat) (s : kstate) (x : Int) (l : List Int)
    (hq : queue_wf s.run_queue) (hi : i < s.run_queue.size)
    (hcont : queue_content s.run_queue = x :: l)
    (hx : x ≠ (proc_at s.proc_table proc).pid) :
    ∃ q, queue_wf q ∧ queue_content q = l ++ [x] ∧ q.size = s.run_queue.size ∧
      scheduler_remove_scan proc (fuel + 1) i s =
        scheduler_remove_scan proc fuel (i + 1) { s with run_queue := q } := by
  have hne : s.run_queue.size ≠ 0 := by omega
  have hout := queue_out_content _ 0 hq hne
  rw [hcont] at hout
  injection hout with hhead hrest
  have hwf1 := queue_out_wf s.run_queue (some 0) hq
  have hsz1 : (queue_out s.run_queue (some 0)).2.1.size = s.run_queue.size - 1 := by
    rw [queue_out_some _ _ hne]
  have hnf : (queue_out s.run_queue (some 0)).2.1.size ≠ QUEUE_SIZE := by
    have := hq.2.2.1
    omega
  refine ⟨(queue_in (queue_out s.run_queue (some 0)).2.1 x).2, queue_in_wf _ _ hwf1, ?_, ?_, ?_⟩
  · rw [queue_in_content _ _ hwf1 hnf, ← hrest]
  · rw [queue_in_size _ _ hnf, hsz1]; omega
  · have hret : (queue_in (queue_out s.run_queue (some 0)).2.1 x).1 = 0 := queue_in_ret _ _ hnf
    have hr1 : (queue_out s.run_queue (some 0)).1 = 0 := by rw [queue_out_some _ _ hne]
    have hr2 : (queue_out s.run_queue (some 0)).2.2 = some x := by
      rw [queue_out_some _ _ hne, hhead]
    rw [scheduler_remove_scan]
    simp only [hi, if_true, hr1, hr2, Option.getD_some]
    rw [if_neg (by decide), if_neg hx]
    simp only [hret]
    rw [if_neg (by decide)]

theorem scheduler_remove_scan_miss (proc : Nat) (pre : List Int) :
    ∀ (fuel i : Nat) (s : kstate) (rest : List Int),
      queue_wf s.run_queue → queue_content s.run_queue = pre ++ rest →
      s.run_queue.size = i + pre.length → (proc_at s.proc_table proc).pid ∉ pre →
      pre.length + 1 ≤ fuel →
      ∃ q, queue_wf q ∧ queue_content q = rest ++ pre ∧
        scheduler_remove_scan proc fuel i s = some { s with run_queue := q } := by
  induction pre with
  | nil =>
    intro fuel i s rest hq hcont hsz _ hfuel
    obtain ⟨f, rfl⟩ : ∃ f, fuel = f + 1 := ⟨fuel - 1, by simp at hfuel; omega⟩
    refine ⟨s.run_queue, hq, by simpa using hcont, ?_⟩
    have : ¬ i < s.run_queue.size := by simp at hsz; omega
    rw [scheduler_remove_scan]
    simp only [this, if_false]
  | cons x pre ih =>
    intro fuel i s rest hq hcont hsz hnot hfuel
    obtain ⟨f, rfl⟩ : ∃ f, fuel = f + 1 := ⟨fuel - 1, by simp at hfuel; omega⟩
    have hi : i < s.run_queue.size := by simp at hsz; omega
    have hx : x ≠ (proc_at s.proc_table proc).pid := by
      intro h; apply hnot; simp [h]
    obtain ⟨q, hqwf, hqc, hqs, hstep⟩ :=
      scheduler_remove_scan_step proc f i s x (pre ++ rest) hq hi (by simpa using hcont) hx
    rw [hstep]
    obtain ⟨q1, hq1wf, hq1c, hq1⟩ := ih f (i + 1) { s with run_queue := q } (rest ++ [x]) hqwf
      (by simpa using hqc) (by simp at hsz ⊢; omega) (by intro h; apply hnot; simp [h])
      (by simp at hfuel ⊢; omega)
    exact ⟨q1, hq1wf, by simpa using hq1c, hq1⟩

theorem scheduler_remove_scan_hit (proc n : Nat) (pre : List Int) :
    ∀ (fuel i : Nat) (s : kstate) (post : List Int),
      queue_wf s.run_queue →
      queue_content s.run_queue = pre ++ (proc_at s.proc_table proc).pid :: post →
      i + pre.length < s.run_queue.size → (proc_at s.proc_table proc).pid ∉ pre →
      pid_to_proc s.proc_table (proc_at s.proc_table proc).pid = some n →
      pre.length + 1 ≤ fuel →
      ∃ q, queue_wf q ∧ queue_content q = post ++ pre ∧
        scheduler_remove_scan proc fuel i s = some { s with
          run_queue := q
          proc_table := proc_update s.proc_table n (fun e => { e with state := .NONE }) } := by
  induction pre with
  | nil =>
    intro fuel i s post hq hcont hsz _ hn hfuel
    obtain ⟨f, rfl⟩ : ∃ f, fuel = f + 1 := ⟨fuel - 1, by simp at hfuel; omega⟩
    have hi : i < s.run_queue.size := by simp at hsz; omega
    have hne : s.run_queue.size ≠ 0 := by omega
    have hout := queue_out_content _ 0 hq hne
    rw [hcont] at hout
    simp only [List.nil_append] at hout
    injection hout with hhead hrest
    refine ⟨(queue_out s.run_queue (some 0)).2.1, queue_out_wf _ _ hq, by simpa using hrest.symm, ?_⟩
    have hr1 : (queue_out s.run_queue (some 0)).1 = 0 := by rw [queue_out_some _ _ hne]
    have hr2 : (queue_out s.run_queue (some 0)).2.2 = some (proc_at s.proc_table proc).pid := by
      rw [queue_out_some _ _ hne, hhead]
    rw [scheduler_remove_scan]
    simp only [hi, if_true, hr1, hr2, Option.getD_some]
    simp [hn]
  | cons x pre ih =>
    intro fuel i s post hq hcont hsz hnot hn hfuel
    obtain ⟨f, rfl⟩ : ∃ f, fuel = f + 1 := ⟨fuel - 1, by simp at hfuel; omega⟩
    have hi : i < s.run_queue.size := by simp at hsz; omega
    have hx : x ≠ (proc_at s.proc_table proc).pid := by
      intro h; apply hnot; simp [h]
    obtain ⟨q, hqwf, hqc, hqs, hstep⟩ :=
      scheduler_remove_scan_step proc f i s x (pre ++ (proc_at s.proc_table proc).pid :: post)
        hq hi (by simpa using hcont) hx
    rw [hstep]
    obtain ⟨q1, hq1wf, hq1c, hq1⟩ := ih f (i + 1) { s with run_queue := q } (post ++ [x]) hqwf
      (by simpa using hqc) (by simp at hsz ⊢; omega) (by intro h; apply hnot; simp [h]) hn
      (by simp at hfuel ⊢; omega)
    exact ⟨q1, hq1wf, by simpa using hq1c, hq1⟩

theorem mem_split_first (t : Int) (l : List Int) (h : t ∈ l) :
    ∃ pre post, l = pre ++ t :: post ∧ t ∉ pre := by
  induction l with
  | nil => simp at h
  | cons a l ih =>
    by_cases hat : a = t
    · exact ⟨[], l, by simp [hat], by simp⟩
    · have hmem : t ∈ l := by
        rcases List.mem_cons.mp h with h1 | h1
        · exact absurd h1.symm hat
        · exact h1
      obtain ⟨pre, post, hl, hn⟩ := ih hmem
      refine ⟨a :: pre, post, by simp [hl], ?_⟩
      simp only [List.mem_cons, not_or]
      exact ⟨fun x => hat x.symm, hn⟩

theorem scheduler_remove_not_current (s : kstate) (p : Nat) (hcur : s.current ≠ some p) :
    scheduler_remove (some p) s = scheduler_remove_scan p (s.run_queue.size + 1) 0 s := by
  simp [scheduler_remove, hcur]

/-- C9. `scheduler_remove` applied to a process that is not current and whose pid
is not in the ready queue returns after the full scan with the ready queue
holding the same pids in the same order, and with the process table, `current`
and the other variables unchanged. -/
theorem scheduler_remove_absent (s : kstate) (p : Nat)
    (hq : queue_wf s.run_queue)
    (hcur : s.current ≠ some p)
    (hnot : (proc_at s.proc_table p).pid ∉ queue_content s.run_queue) :
    ∃ s1, scheduler_remove (some p) s = some s1 ∧
      queue_content s1.run_queue = queue_content s.run_queue ∧
      s1.proc_table = s.proc_table ∧ s1.current = s.current ∧
      s1.proc_allocator = s.proc_allocator ∧ s1.next_pid = s.next_pid := by
  obtain ⟨q, _, hqc, hscan⟩ :=
    scheduler_remove_scan_miss p (queue_content s.run_queue) (s.run_queue.size + 1) 0 s []
      hq (by simp) (by simp [queue_content_length]) hnot (by simp [queue_content_length])
  rw [scheduler_remove_not_current s p hcur, hscan]
  exact ⟨_, rfl, by simpa using hqc, rfl, rfl, rfl, rfl⟩

theorem scheduler_remove_split (s : kstate) (p : Nat) (pre post : List Int)
    (hwf : kstate_wf s) (hp : p < PROC_MAX) (hcur : s.current ≠ some p)
    (hcont : queue_content s.run_queue = pre ++ (proc_at s.proc_table p).pid :: post)
    (hpre : (proc_at s.proc_table p).pid ∉ pre) :
    ∃ q n, queue_wf q ∧ queue_content q = post ++ pre ∧
      pid_to_proc s.proc_table (proc_at s.proc_table p).pid = some n ∧
      scheduler_remove (some p) s = some { s with
        run_queue := q
        proc_table := proc_update s.proc_table n (fun e => { e with state := .NONE }) } := by
  obtain ⟨n, hn⟩ := pid_to_proc_exists s.proc_table p hp
  have hlen := congrArg List.length hcont
  simp only [queue_content_length, List.length_append, List.length_cons] at hlen
  obtain ⟨q, hqwf, hqc, hscan⟩ :=
    scheduler_remove_scan_hit p n pre (s.run_queue.size + 1) 0 s post hwf.2.1 hcont
      (by omega) hpre hn (by omega)
  exact ⟨q, n, hqwf, hqc, hn, by rw [scheduler_remove_not_current s p hcur, hscan]⟩

/-- C7, as the code has it.  For a process that is not current and whose pid `t`
is in the ready queue, `scheduler_remove` leaves the old queue with the first `t`
deleted and rotated left by the position `t` had: the pids that were behind `t`
come first, followed by the pids that were in front of it.  Every other pid is
still queued (the result is a permutation of the old queue without `t`) and the
cyclic order is kept. -/
theorem scheduler_remove_queued_rotates (s : kstate) (p : Nat)
    (hwf : kstate_wf s) (hp : p < PROC_MAX) (hcur : s.current ≠ some p)
    (hmem : (proc_at s.proc_table p).pid ∈ queue_content s.run_queue) :
    ∃ s1, scheduler_remove (some p) s = some s1 ∧
      queue_content s1.run_queue =
        ((queue_content s.run_queue).erase (proc_at s.proc_table p).pid).rotate
          ((queue_content s.run_queue).indexOf (proc_at s.proc_table p).pid) ∧
      List.Perm (queue_content s1.run_queue)
        ((queue_content s.run_queue).erase (proc_at s.proc_table p).pid) := by
  obtain ⟨pre, post, hcont, hpre⟩ := mem_split_first _ _ hmem
  obtain ⟨q, n, _, hqc, _, hrun⟩ := scheduler_remove_split s p pre post hwf hp hcur hcont hpre
  have herase : (queue_content s.run_queue).erase (proc_at s.proc_table p).pid = pre ++ post := by
    rw [hcont, List.erase_append_right _ hpre]; simp
  have hidx : (queue_content s.run_queue).indexOf (proc_at s.proc_table p).pid = pre.length := by
    rw [hcont, List.indexOf_append_of_not_mem hpre]; simp
  have hrot : queue_content q = (pre ++ post).rotate pre.length := by
    rw [List.rotate_append_length_eq, hqc]
  refine ⟨_, hrun, ?_, ?_⟩
  · show queue_content q = _
    rw [herase, hidx, hrot]
  · show List.Perm (queue_content q) _
    rw [herase, hrot]
    exact List.rotate_perm _ _

set_option maxRecDepth 100000 in
/-- C7, counterexample.  In the reachable state with pids 1, 2, 3 queued in this
order and no current process, `scheduler_remove` of the process with pid 2 (queued
in the middle, not at the head) leaves the queue 3, 1; the old queue with 2
deleted is 1, 3. -/
theorem scheduler_remove_mid_reorders :
    reachable demo_ready ∧
    demo_ready.current ≠ some 2 ∧
    (proc_at demo_ready.proc_table 2).pid = 2 ∧
    queue_content demo_ready.run_queue = [1, 2, 3] ∧
    (scheduler_remove (some 2) demo_ready).map (fun s1 => queue_content s1.run_queue)
      = some [3, 1] ∧
    (scheduler_remove (some 2) demo_ready).map (fun s1 => queue_content s1.run_queue)
      ≠ some ((queue_content demo_ready.run_queue).erase 2) :=
  ⟨demo_ready_reachable, by decide⟩

/-! ## Theorems: at most one RUNNING process -/

theorem proc_at_replicate_zero (k i : Nat) : proc_at (List.replicate k proc_zero) i = proc_zero := by
  unfold proc_at
  by_cases h : i < k
  · simp [List.getD_eq_getElem?_getD, List.getElem?_replicate, h]
  · simp [List.getD_eq_getElem?_getD, List.getElem?_replicate, h]

theorem scheduler_select_running (s s1 : kstate)
    (hno : ∀ i, (proc_at s.proc_table i).state ≠ .RUNNING)
    (h : scheduler_select s = some s1) : running_is_current s1 := by
  unfold scheduler_select at h
  simp only at h
  split at h
  · exact absurd h (by simp)
  · next n _ =>
    injection h with h
    subst h
    intro i hi
    simp only [proc_at_update] at hi
    by_cases hin : i = n
    · simp [hin]
    · simp only [hin, false_and, if_false] at hi
      exact absurd hi (hno i)

theorem scheduler_preempt_no_running (s : kstate) (h : running_is_current s) :
    ∀ i, (proc_at (scheduler_preempt s).proc_table i).state ≠ .RUNNING := by
  intro i hi
  cases hc : s.current with
  | none =>
    rw [scheduler_preempt_none s hc] at hi
    have := h i hi
    rw [hc] at this
    exact absurd this (by simp)
  | some c =>
    rw [scheduler_preempt_table s c hc, proc_at_update] at hi
    split at hi
    · exact absurd hi (by simp)
    · next hn =>
      have hcur := h i hi
      rw [hc] at hcur
      injection hcur with hcur
      subst hcur
      simp only [true_and] at hn
      rw [proc_at_zero_of_le _ _ (by omega)] at hi
      exact absurd hi (by decide)

theorem scheduler_run_running (s s1 : kstate) (h : running_is_current s)
    (hrun : scheduler_run s = some s1) : running_is_current s1 := by
  cases hc : s.current with
  | none =>
    rw [scheduler_run_none s hc] at hrun
    exact scheduler_select_running _ _ (scheduler_preempt_no_running s h) hrun
  | some c =>
    by_cases ht : (proc_at s.proc_table c).cpu_time < SCHEDULER_TIMESLICE
    · simp only [scheduler_run, hc, ht, if_true] at hrun
      injection hrun with hrun
      rw [← hrun]; exact h
    · rw [scheduler_run_expired s c hc (not_lt.mp ht)] at hrun
      exact scheduler_select_running _ _ (scheduler_preempt_no_running s h) hrun

theorem scheduler_timer_running (s s1 : kstate) (h : running_is_current s)
    (ht : scheduler_timer s = some s1) : running_is_current s1 := by
  unfold scheduler_timer at ht
  split at ht
  · exact absurd ht (by simp)
  · next c hc =>
    injection ht with ht
    subst ht
    intro i hi
    simp only [proc_at_update] at hi
    split at hi
    · next hic =>
      simp only at hi
      rw [← hic.1] at hi
      exact h i hi
    · exact h i hi

theorem proc_update_none_running (s : kstate) (q : queue_t) (n : Nat)
    (h : running_is_current s) :
    running_is_current { s with
      run_queue := q
      proc_table := proc_update s.proc_table n (fun e => { e with state := .NONE }) } := by
  intro i hi
  simp only [proc_at_update] at hi
  split at hi
  · exact absurd hi (by simp)
  · exact h i hi

theorem scheduler_remove_scan_running (proc : Nat) :
    ∀ (fuel i : Nat) (s s1 : kstate), running_is_current s →
      scheduler_remove_scan proc fuel i s = some s1 → running_is_current s1 := by
  intro fuel
  induction fuel with
  | zero =>
    intro i s s1 _ h
    simp [scheduler_remove_scan] at h
  | succ f ih =>
    intro i s s1 hinv h
    rw [scheduler_remove_scan] at h
    split at h
    · simp only at h
      split at h
      · injection h with h
        subst h
        exact fun i hi => hinv i hi
      · split at h
        · split at h
          · exact absurd h (by simp)
          · injection h with h
            subst h
            exact proc_update_none_running s _ _ hinv
        · split at h
          · injection h with h
            subst h
            exact fun i hi => hinv i hi
          · refine ih _ _ _ ?_ h
            exact fun i hi => hinv i hi
    · injection h with h
      subst h
      exact hinv

theorem scheduler_remove_running (proc : Option Nat) (s s1 : kstate)
    (hinv : running_is_current s) (h : scheduler_remove proc s = some s1) :
    running_is_current s1 := by
  unfold scheduler_remove at h
  split at h
  · injection h with h; subst h; exact hinv
  · next p =>
    split at h
    · split at h
      · injection h with h; subst h; exact hinv
      · next hcur _ =>
        injection h with h
        subst h
        intro i hi
        simp only [proc_at_update] at hi
        split at hi
        · exact absurd hi (by simp)
        · next hn =>
          have := hinv i hi
          rw [hcur] at this
          injection this with this
          subst this
          simp only [true_and] at hn
          rw [proc_at_zero_of_le _ _ (by omega)] at hi
          exact absurd hi (by decide)
    · exact scheduler_remove_scan_running p _ _ _ _ hinv h

theorem scheduler_add_current (proc : Option Nat) (s : kstate) :
    (scheduler_add proc s).current = s.current := by
  unfold scheduler_add
  cases proc with
  | none => rfl
  | some p => simp only; split <;> rfl

theorem scheduler_add_table (p : Nat) (s : kstate) :
    (scheduler_add (some p) s).proc_table =
      proc_update s.proc_table p (fun e => { e with state := .IDLE }) := by
  unfold scheduler_add
  simp only; split <;> rfl

theorem scheduler_add_running (p : Nat) (s : kstate)
    (hinv : ∀ i, i ≠ p → (proc_at s.proc_table i).state = .RUNNING → s.current = some i) :
    running_is_current (scheduler_add (some p) s) := by
  intro i hi
  rw [scheduler_add_current]
  rw [scheduler_add_table, proc_at_update] at hi
  split at hi
  · exact absurd hi (by simp)
  · next hn =>
    by_cases hip : i = p
    · subst hip
      simp only [true_and] at hn
      rw [proc_at_zero_of_le _ _ (by omega)] at hi
      exact absurd hi (by decide)
    · exact hinv i hip hi

theorem kproc_create_running (proc_ptr : code_ptr) (proc_name : List Char) (proc_type : proc_type_t)
    (s : kstate) (r : Int × kstate) (hinv : running_is_current s)
    (h : kproc_create proc_ptr proc_name proc_type s = some r) : running_is_current r.2 := by
  unfold kproc_create at h
  simp only at h
  split at h
  · injection h with h
    subst h
    exact fun i hi => hinv i hi
  · split at h
    · injection h with h
      subst h
      apply scheduler_add_running
      intro i hip hi
      simp only [proc_at_set, hip, false_and, if_false] at hi
      exact hinv i hi
    · exact absurd h (by simp)

theorem kproc_destroy_running (proc : Option Nat) (s : kstate) (r : Int × kstate)
    (hinv : running_is_current s) (h : kproc_destroy proc s = some r) :
    running_is_current r.2 := by
  unfold kproc_destroy at h
  split at h
  · exact absurd h (by simp)
  · next p =>
    split at h
    · injection h with h; subst h; exact hinv
    · split at h
      · exact absurd h (by simp)
      · next s1 hrem =>
        have hinv1 := scheduler_remove_running _ _ _ hinv hrem
        split at h
        · exact absurd h (by simp)
        · injection h with h
          subst h
          intro i hi
          simp only [proc_at_set] at hi
          split at hi
          · exact absurd hi (by decide)
          · exact hinv1 i hi

theorem kernel_boot_running (s : kstate) (h : kernel_boot = some s) : running_is_current s := by
  unfold kernel_boot kproc_init at h
  simp only [Option.map_eq_some'] at h
  obtain ⟨r, hr, rfl⟩ := h
  refine kproc_create_running _ _ _ _ r ?_ hr
  intro i hi
  simp only [proc_at_replicate_zero] at hi
  exact absurd hi (by decide)

theorem kcall_step_running (s s1 : kstate) (c : kcall) (hinv : running_is_current s)
    (h : kcall_step s c = some s1) : running_is_current s1 := by
  cases c with
  | create proc_ptr proc_name proc_type =>
    simp only [kcall_step, Option.map_eq_some'] at h
    obtain ⟨r, hr, rfl⟩ := h
    exact kproc_create_running _ _ _ _ r hinv hr
  | destroy proc =>
    simp only [kcall_step, Option.map_eq_some'] at h
    obtain ⟨r, hr, rfl⟩ := h
    exact kproc_destroy_running _ _ r hinv hr
  | timer => exact scheduler_timer_running _ _ hinv h
  | run => exact scheduler_run_running _ _ hinv h

theorem reachable_running (s : kstate) (h : reachable s) : running_is_current s := by
  induction h with
  | boot s hb => exact kernel_boot_running s hb
  | step s s1 c _ hstep ih => exact kcall_step_running s s1 c ih hstep

/-- C10. In every state reachable from start-up (`scheduler_init`, `kproc_init`)
by `kproc_create`, `kproc_destroy`, `scheduler_timer` and `scheduler_run`, an entry
of the process table in state RUNNING is the entry `current` points to; hence at
most one entry is RUNNING. -/
theorem reachable_one_running (s : kstate) (h : reachable s) :
    (∀ i, i < PROC_MAX → (proc_at s.proc_table i).state = .RUNNING → s.current = some i) ∧
    (∀ i j, i < PROC_MAX → j < PROC_MAX → (proc_at s.proc_table i).state = .RUNNING →
      (proc_at s.proc_table j).state = .RUNNING → i = j) := by
  have hinv := reachable_running s h
  refine ⟨fun i _ hi => hinv i hi, ?_⟩
  intro i j _ _ hi hj
  have h1 := hinv i hi
  have h2 := hinv j hj
  rw [h1] at h2
  injection h2

/-! ## Theorems: round-robin order -/

theorem proc_update_update (tbl : List proc_t) (n : Nat) (f g : proc_t → proc_t) :
    proc_update (proc_update tbl n f) n g = proc_update tbl n (fun e => g (f e)) := by
  unfold proc_update
  by_cases h : n < tbl.length
  · have : proc_at (tbl.set n (f (proc_at tbl n))) n = f (proc_at tbl n) := by
      rw [proc_at_set]; simp [h]
    rw [this, List.set_set]
  · have hs : ∀ x, tbl.set n x = tbl := fun x => List.set_eq_of_length_le (by omega)
    rw [hs, hs, hs]

theorem proc_update_self (tbl : List proc_t) (n : Nat) (f : proc_t → proc_t)
    (hf : ∀ e, f e = e) : proc_update tbl n f = tbl := by
  unfold proc_update
  rw [hf]
  by_cases h : n < tbl.length
  · unfold proc_at
    apply List.ext_getElem
    · simp
    · intro i h1 h2
      by_cases hin : n = i
      · subst hin
        simp [List.getD_eq_getElem?_getD, List.getElem?_eq_getElem h]
      · simp [List.getElem_set, hin]
  · exact List.set_eq_of_length_le (by omega)

theorem scheduler_ticks_eq (n : Nat) :
    ∀ (s : kstate) (c : Nat), s.current = some c →
      scheduler_ticks n s = some { s with
        proc_table := proc_update s.proc_table c
          (fun e => { e with run_time := e.run_time + n, cpu_time := e.cpu_time + n }) } := by
  induction n with
  | zero =>
    intro s c _
    have : proc_update s.proc_table c
        (fun e => { e with run_time := e.run_time + (0 : Nat), cpu_time := e.cpu_time + (0 : Nat) })
        = s.proc_table := by
      apply proc_update_self
      intro e
      simp
    simp only [scheduler_ticks]
    rw [this]
  | succ n ih =>
    intro s c hc
    simp only [scheduler_ticks, scheduler_timer, hc, Option.some_bind]
    rw [ih _ c rfl]
    simp only [proc_update_update]
    congr 3
    funext e
    simp only [Nat.cast_add, Nat.cast_one]
    congr 1 <;> omega

theorem pids_live_update (ps : List Int) (tbl : List proc_t) (n : Nat) (f : proc_t → proc_t)
    (h : pids_live ps tbl) (hpid : ∀ e, (f e).pid = e.pid)
    (hcpu : ∀ e, 0 ≤ e.cpu_time → 0 ≤ (f e).cpu_time) :
    pids_live ps (proc_update tbl n f) := by
  intro p hp
  obtain ⟨m, hm, hc⟩ := h p hp
  refine ⟨m, by rw [pid_to_proc_update _ _ _ hpid]; exact hm, ?_⟩
  rw [proc_at_update]
  split
  · next hmn => apply hcpu; rw [← hmn.1]; exact hc
  · exact hc

theorem round_robin_select (ps : List Int) (k : Nat) (t : kstate)
    (hlen : t.proc_table.length = PROC_MAX) (hq : queue_wf t.run_queue)
    (hlive : pids_live ps t.proc_table) (hne : ps ≠ [])
    (hcont : queue_content t.run_queue = ps.rotate k) :
    ∃ t1, scheduler_select t = some t1 ∧ round_robin_inv ps k t1 := by
  have hrne : ps.rotate k ≠ [] := by
    intro h
    apply hne
    have := congrArg List.length h
    rw [List.length_rotate] at this
    exact List.eq_nil_of_length_eq_zero this
  obtain ⟨h, rest, hhr⟩ : ∃ h rest, ps.rotate k = h :: rest := by
    cases hr : ps.rotate k with
    | nil => exact absurd hr hrne
    | cons a l => exact ⟨a, l, rfl⟩
  rw [hhr] at hcont
  have hsz : t.run_queue.size ≠ 0 := by
    have := congrArg List.length hcont
    rw [queue_content_length] at this
    simp at this
    omega
  have hout := queue_out_content _ 0 hq hsz
  rw [hcont] at hout
  injection hout with hhead hrest
  have hmem : h ∈ ps := by
    have : h ∈ ps.rotate k := by rw [hhr]; simp
    exact List.mem_rotate.mp this
  obtain ⟨n, hn, _⟩ := hlive h hmem
  have hnp := pid_to_proc_some _ _ _ hn
  have hnl : n < t.proc_table.length := by rw [hlen]; exact hnp.1
  refine ⟨_, scheduler_select_head t n hsz (by rw [← hhead]; exact hn), ?_, ?_, ?_, n, rfl, ?_, ?_, ?_⟩
  · simp only [proc_update_length]; exact hlen
  · exact queue_out_wf _ _ hq
  · dsimp only
    refine pids_live_update ps _ n _ hlive ?_ ?_
    · intro e; rfl
    · intro e he; exact he
  · simp only
    rw [proc_at_update_pid _ _ _ _ (by intro e; rfl), pid_to_proc_update _ _ _ (by intro e; rfl),
      hnp.2]
    exact hn
  · simp [proc_at_update, hnl]
  · simp only
    rw [proc_at_update_pid _ _ _ _ (by intro e; rfl), hnp.2, hhr, ← hrest]

theorem round_robin_round (ps : List Int) (k n : Nat) (t : kstate)
    (hinv : round_robin_inv ps k t) (hne : ps ≠ []) (h0 : (0 : Int) ∉ ps)
    (hps : ps.length ≤ QUEUE_SIZE) (hn : SCHEDULER_TIMESLICE ≤ (n : Int)) :
    ∃ t1, (scheduler_ticks n t).bind scheduler_run = some t1 ∧ round_robin_inv ps (k + 1) t1 := by
  obtain ⟨hlen, hq, hlive, c, hc, hcc, _, hrot⟩ := hinv
  have hmem : (proc_at t.proc_table c).pid ∈ ps := by
    have : (proc_at t.proc_table c).pid ∈ ps.rotate k := by rw [← hrot]; simp
    exact List.mem_rotate.mp this
  have hpid : (proc_at t.proc_table c).pid ≠ 0 := fun h => h0 (h ▸ hmem)
  have hcl : c < t.proc_table.length := pid_to_proc_lt_length _ _ _ hcc hpid
  have hcpu : 0 ≤ (proc_at t.proc_table c).cpu_time := by
    obtain ⟨m, hm, hm0⟩ := hlive _ hmem
    rw [hcc] at hm
    injection hm with hm
    rw [hm]; exact hm0
  rw [scheduler_ticks_eq n t c hc, Option.some_bind]
  generalize ht1 : ({ t with
        proc_table := proc_update t.proc_table c
          (fun e => { e with run_time := e.run_time + n, cpu_time := e.cpu_time + n }) } : kstate) = t1
  have ht1c : t1.current = some c := by rw [← ht1]; exact hc
  have ht1q : t1.run_queue = t.run_queue := by rw [← ht1]
  have ht1t : t1.proc_table = proc_update t.proc_table c
      (fun e => { e with run_time := e.run_time + n, cpu_time := e.cpu_time + n }) := by rw [← ht1]
  have ht1pid : (proc_at t1.proc_table c).pid = (proc_at t.proc_table c).pid := by
    rw [ht1t, proc_at_update_pid _ _ _ _ (by intro e; rfl)]
  have ht1cpu : SCHEDULER_TIMESLICE ≤ (proc_at t1.proc_table c).cpu_time := by
    rw [ht1t, proc_at_update]
    simp only [hcl, and_self, if_true]
    omega
  have ht1live : pids_live ps t1.proc_table := by
    rw [ht1t]
    refine pids_live_update ps _ c _ hlive ?_ ?_
    · intro e; rfl
    · intro e he; simp only; omega
  rw [scheduler_run_expired t1 c ht1c ht1cpu]
  have hsz : t.run_queue.size ≠ QUEUE_SIZE := by
    have := congrArg List.length hrot
    simp only [List.length_cons, queue_content_length, List.length_rotate] at this
    omega
  apply round_robin_select ps (k + 1) _ _ _ _ hne
  · simp only [scheduler_preempt, ht1c, ht1pid, ne_eq, hpid, not_false_eq_true, if_true, ht1q]
    rw [queue_in_content _ _ hq hsz]
    have := List.rotate_cons_succ (queue_content t.run_queue) (proc_at t.proc_table c).pid 0
    rw [List.rotate_zero] at this
    rw [← this, hrot, List.rotate_rotate]
  · rw [scheduler_preempt_length, ht1t, proc_update_length]; exact hlen
  · simp only [scheduler_preempt, ht1c, ht1pid, ne_eq, hpid, not_false_eq_true, if_true, ht1q]
    exact queue_in_wf _ _ hq
  · rw [scheduler_preempt_table t1 c ht1c]
    refine pids_live_update ps _ c _ ht1live ?_ ?_
    · intro e; rfl
    · intro e _; simp

theorem round_robin_rounds (ps : List Int) (hne : ps ≠ []) (h0 : (0 : Int) ∉ ps)
    (hps : ps.length ≤ QUEUE_SIZE) (ticks : List Nat) :
    ∀ (k : Nat) (t : kstate), round_robin_inv ps k t →
      (∀ n ∈ ticks, SCHEDULER_TIMESLICE ≤ (n : Int)) →
      ∃ t1, timeslice_rounds ticks t = some t1 ∧ round_robin_inv ps (k + ticks.length) t1 := by
  induction ticks with
  | nil =>
    intro k t hinv _
    exact ⟨t, rfl, hinv⟩
  | cons n ns ih =>
    intro k t hinv hticks
    obtain ⟨t1, ht1, hinv1⟩ := round_robin_round ps k n t hinv hne h0 hps
      (hticks n (by simp))
    obtain ⟨t2, ht2, hinv2⟩ := ih (k + 1) t1 hinv1 (fun m hm => hticks m (by simp [hm]))
    refine ⟨t2, ?_, ?_⟩
    · simp only [timeslice_rounds, ht1, Option.some_bind, ht2]
    · have : k + (n :: ns).length = k + 1 + ns.length := by simp; omega
      rw [this]; exact hinv2

/-- C3. Round-robin order.  Start with no current process and the non-zero pids
`ps` (at least one) queued in admission order, each resolving to a table entry.
Make one `scheduler_run`, and then any number of rounds, each a full timeslice (or
more) of timer ticks followed by `scheduler_run`.  All these calls return, and
after `k` rounds the current process is RUNNING and its pid is `ps[k mod N]`: the
selections are p1, p2, ..., pN, p1, ... cyclically, and the process with pid 0 is
never selected. -/
theorem round_robin_order (s : kstate) (ps : List Int) (ticks : List Nat)
    (hwf : kstate_wf s) (hcur : s.current = none)
    (hq : queue_content s.run_queue = ps) (hne : ps ≠ []) (h0 : (0 : Int) ∉ ps)
    (hlive : pids_live ps s.proc_table)
    (hticks : ∀ n ∈ ticks, SCHEDULER_TIMESLICE ≤ (n : Int)) :
    ∃ s1 c, (scheduler_run s).bind (timeslice_rounds ticks) = some s1 ∧
      s1.current = some c ∧
      (proc_at s1.proc_table c).pid = ps.getD (ticks.length % ps.length) 0 ∧
      (proc_at s1.proc_table c).pid ≠ 0 ∧
      (proc_at s1.proc_table c).state = .RUNNING := by
  have hps : ps.length ≤ QUEUE_SIZE := by
    rw [← hq, queue_content_length]; exact hwf.2.1.2.2.1
  have hrun : scheduler_run s = scheduler_select s := by simp only [scheduler_run, hcur]
  obtain ⟨t0, ht0, hinv0⟩ := round_robin_select ps 0 s hwf.1 hwf.2.1 hlive hne
    (by rw [List.rotate_zero]; exact hq)
  obtain ⟨t1, ht1, hinv1⟩ := round_robin_rounds ps hne h0 hps ticks 0 t0 hinv0 hticks
  obtain ⟨_, _, _, c, hc, _, hstate, hrot⟩ := hinv1
  have hlenpos : 0 < ps.length := List.length_pos.mpr hne
  have hmod : ticks.length % ps.length < ps.length := Nat.mod_lt _ hlenpos
  have hhead : (ps.rotate (0 + ticks.length)).head? = ps[ticks.length % ps.length]? := by
    rw [Nat.zero_add, ← List.rotate_mod, List.head?_rotate hmod]
  rw [← hrot] at hhead
  simp only [List.head?_cons] at hhead
  have hpid : (proc_at t1.proc_table c).pid = ps.getD (ticks.length % ps.length) 0 := by
    rw [List.getD_eq_getElem?_getD, ← hhead]; rfl
  refine ⟨t1, c, ?_, hc, hpid, ?_, hstate⟩
  · rw [hrun, ht0, Option.some_bind, ht1]
  · have hmem : (proc_at t1.proc_table c).pid ∈ ps := by
      have : (proc_at t1.proc_table c).pid ∈ ps.rotate (0 + ticks.length) := by
        rw [← hrot]; simp
      exact List.mem_rotate.mp this
    exact fun h => h0 (h ▸ hmem)

/-! ## Witnesses -/

set_option maxRecDepth 100000 in
/-- C3 at `demo_ready`: after the first `scheduler_run` and four rounds of 250
ticks the current process has pid `[1, 2, 3][4 mod 3] = 2`. -/
theorem round_robin_order_witness :
    ∃ s1 c, (scheduler_run demo_ready).bind (timeslice_rounds [250, 250, 250, 250]) = some s1 ∧
      s1.current = some c ∧ (proc_at s1.proc_table c).pid = 2 ∧
      (proc_at s1.proc_table c).pid ≠ 0 ∧ (proc_at s1.proc_table c).state = .RUNNING :=
  round_robin_order demo_ready [1, 2, 3] [250, 250, 250, 250] (by decide) (by decide)
    (by decide) (by decide) (by decide) demo_ready_live (by decide)

set_option maxRecDepth 100000 in
/-- C4 at `demo_expired`: pid 1 is requeued behind 2 and 3, and pid 2 is selected. -/
theorem scheduler_run_preempts_witness :
    ∃ s1, scheduler_run demo_expired = some s1 ∧ queue_content s1.run_queue = [3, 1] ∧
      s1.current = some 2 ∧ (proc_at s1.proc_table 2).state = .RUNNING ∧
      (proc_at s1.proc_table 1).state = .IDLE ∧ (proc_at s1.proc_table 1).cpu_time = 0 := by
  obtain ⟨s1, h1, h2, h3, _, _, h6, h7, h8, _⟩ :=
    (scheduler_run_preempts demo_expired 1 (by decide) (by decide) (by decide)).1
      (by decide) (by decide) 2 [3, 1] 2 (by decide) (by decide)
  exact ⟨s1, h1, h2, h3, h6, h8 (by decide), h7⟩

set_option maxRecDepth 100000 in
/-- C5 at `demo_running`: pid 1 has used none of its timeslice. -/
theorem scheduler_run_within_timeslice_witness :
    SCHEDULER_TIMESLICE = 250 ∧ scheduler_run demo_running = some demo_running :=
  scheduler_run_within_timeslice demo_running 1 (by decide) (by decide)

set_option maxRecDepth 100000 in
/-- C6 at `demo_boot`: nothing is queued and there is no current process. -/
theorem scheduler_run_empty_selects_idle_witness :
    ∃ s1, scheduler_run demo_boot = some s1 ∧ s1.current = some 0 ∧
      (proc_at s1.proc_table 0).pid = 0 ∧ (proc_at s1.proc_table 0).state = .RUNNING ∧
      queue_content s1.run_queue = [] ∧ s1.run_queue.size = 0 :=
  scheduler_run_empty_selects_idle demo_boot 0 (by decide) (Or.inl (by decide)) (by decide)
    (by decide)

set_option maxRecDepth 100000 in
/-- C7 (as the code has it) at `demo_ready`, removing pid 2 from the queue 1, 2, 3. -/
theorem scheduler_remove_queued_rotates_witness :
    ∃ s1, scheduler_remove (some 2) demo_ready = some s1 ∧
      queue_content s1.run_queue =
        ((queue_content demo_ready.run_queue).erase (proc_at demo_ready.proc_table 2).pid).rotate
          ((queue_content demo_ready.run_queue).indexOf (proc_at demo_ready.proc_table 2).pid) ∧
      List.Perm (queue_content s1.run_queue)
        ((queue_content demo_ready.run_queue).erase (proc_at demo_ready.proc_table 2).pid) :=
  scheduler_remove_queued_rotates demo_ready 2 (by decide) (by decide) (by decide) (by decide)

set_option maxRecDepth 100000 in
/-- C8 at `demo_running`, removing the current process (pid 1). -/
theorem scheduler_remove_current_witness :
    ∃ s1, scheduler_remove (some 1) demo_running = some s1 ∧
      (proc_at s1.proc_table 1).state = .IDLE ∧ s1.current = none ∧
      s1.run_queue = demo_running.run_queue := by
  obtain ⟨s1, h1, h2, h3, h4, _⟩ :=
    (scheduler_remove_current demo_running 1 (by decide) (by decide)).1 (by decide)
  exact ⟨s1, h1, h2, h3, h4⟩

set_option maxRecDepth 100000 in
/-- C9 at `demo_ready`, removing the idle process: it is not current and pid 0
is not queued. -/
theorem scheduler_remove_absent_witness :
    ∃ s1, scheduler_remove (some 0) demo_ready = some s1 ∧
      queue_content s1.run_queue = queue_content demo_ready.run_queue ∧
      s1.proc_table = demo_ready.proc_table ∧ s1.current = demo_ready.current ∧
      s1.proc_allocator = demo_ready.proc_allocator ∧ s1.next_pid = demo_ready.next_pid :=
  scheduler_remove_absent demo_ready 0 (by decide) (by decide) (by decide)

set_option maxRecDepth 100000 in
/-- C10 at `demo_running`, a reachable state in which entry 1 is RUNNING. -/
theorem reachable_one_running_witness :
    reachable demo_running ∧ (proc_at demo_running.proc_table 1).state = .RUNNING ∧
      demo_running.current = some 1 :=
  ⟨demo_running_reachable, by decide,
    (reachable_one_running demo_running demo_running_reachable).1 1 (by decide) (by decide)⟩

/-! ## Theorems: invariants of the process variables -/

theorem proc_at_mem_or_zero (tbl : List proc_t) (i : Nat) :
    proc_at tbl i ∈ tbl ∨ proc_at tbl i = proc_zero := by
  by_cases h : i < tbl.length
  · left
    unfold proc_at
    rw [List.getD_eq_getElem?_getD, List.getElem?_eq_getElem h]
    exact List.getElem_mem h
  · right
    exact proc_at_zero_of_le tbl i (by omega)

set_option maxRecDepth 100000 in
theorem demo_boot_inv : kernel_inv demo_boot := by
  have hpid : ∀ i, (proc_at demo_boot.proc_table i).pid = 0 := by
    intro i
    rcases proc_at_mem_or_zero demo_boot.proc_table i with h | h
    · have : ∀ e ∈ demo_boot.proc_table, e.pid = 0 := by decide
      exact this _ h
    · rw [h]; rfl
  have hal : queue_content demo_boot.proc_allocator = [1, 2, 3, 4, 5, 6, 7, 8, 9] := by decide
  have hrq : queue_content demo_boot.run_queue = [] := by decide
  have hcur : demo_boot.current = none := by decide
  refine { wf := by decide, idle_pid := hpid 0, idle_live := by decide, pid_nonneg := ?_,
           pid_lt := ?_, pid_unique := ?_, live := ?_, alloc_nodup := ?_, alloc_free := ?_,
           free_alloc := ?_, ready_nodup := ?_, ready_idle := ?_, current_running := ?_,
           current_not_ready := ?_ }
  · intro i; rw [hpid i]
  · intro i; rw [hpid i]; decide
  · intro i j _ h; exact absurd (hpid i) h
  · intro i h; exact absurd (hpid i) h
  · rw [hal]; decide
  · rw [hal]; decide
  · intro i h1 h2 _
    rw [hal]
    have : i < 10 := h2
    interval_cases i <;> simp
  · rw [hrq]; exact List.nodup_nil
  · rw [hrq]; intro p hp; simp at hp
  · intro c hc; rw [hcur] at hc; exact absurd hc (by simp)
  · intro c hc; rw [hcur] at hc; exact absurd hc (by simp)

theorem nodup_length_le_of_lt (l : List Nat) (n : Nat) (hn : l.Nodup) (hlt : ∀ x ∈ l, x < n) :
    l.length ≤ n := by
  have hsub : l.toFinset ⊆ Finset.range n := by
    intro x hx
    rw [List.mem_toFinset] at hx
    exact Finset.mem_range.mpr (hlt x hx)
  have := Finset.card_le_card hsub
  rw [List.toFinset_card_of_nodup hn, Finset.card_range] at this
  exact this

theorem pid_to_proc_of_entry (tbl : List proc_t) (n : Nat) (hn : n < PROC_MAX)
    (huniq : ∀ i j, (proc_at tbl i).pid = (proc_at tbl j).pid → (proc_at tbl i).pid ≠ 0 → i = j)
    (hpid : (proc_at tbl n).pid ≠ 0) :
    pid_to_proc tbl (proc_at tbl n).pid = some n := by
  obtain ⟨m, hm⟩ := pid_to_proc_exists tbl n hn
  have := (pid_to_proc_some _ _ _ hm).2
  have hmn : m = n := huniq m n this (by rw [this]; exact hpid)
  rw [hm, hmn]

theorem pid_to_proc_zero (tbl : List proc_t) (h : (proc_at tbl 0).pid = 0) :
    pid_to_proc tbl 0 = some 0 := by
  unfold pid_to_proc
  have : List.range PROC_MAX = 0 :: (List.range 9).map Nat.succ := by decide
  rw [this, List.find?_cons]
  simp [h]

theorem kernel_base_inv.entry_lt {s : kstate} (h : kernel_base_inv s) (i : Nat)
    (hi : (proc_at s.proc_table i).pid ≠ 0) : i < PROC_MAX := by
  by_contra hlt
  apply hi
  rw [proc_at_zero_of_le _ _ (by rw [h.wf.1]; omega)]
  rfl

theorem kernel_base_inv.ready_bound {s : kstate} (h : kernel_base_inv s) :
    (queue_content s.run_queue).length ≤ PROC_MAX := by
  have hres : ∀ p ∈ queue_content s.run_queue, ∃ n, n < PROC_MAX ∧
      pid_to_proc s.proc_table p = some n := by
    intro p hp
    obtain ⟨hp0, n, hn, _⟩ := h.ready_idle p hp
    have hnlt := h.entry_lt n (by rw [hn]; exact hp0)
    refine ⟨n, hnlt, ?_⟩
    rw [← hn]
    exact pid_to_proc_of_entry _ n hnlt h.pid_unique (by rw [hn]; exact hp0)
  have hmap : ((queue_content s.run_queue).map
      (fun p => (pid_to_proc s.proc_table p).getD 0)).Nodup := by
    apply List.Nodup.map_on _ h.ready_nodup
    intro p hp q hq hpq
    obtain ⟨n, _, hn⟩ := hres p hp
    obtain ⟨m, _, hm⟩ := hres q hq
    simp only [hn, hm, Option.getD_some] at hpq
    rw [← (pid_to_proc_some _ _ _ hn).2, ← (pid_to_proc_some _ _ _ hm).2, hpq]
  have := nodup_length_le_of_lt _ PROC_MAX hmap (by
    intro x hx
    rw [List.mem_map] at hx
    obtain ⟨p, hp, rfl⟩ := hx
    obtain ⟨n, hnlt, hn⟩ := hres p hp
    simp only [hn, Option.getD_some]
    exact hnlt)
  simpa using this

theorem kernel_base_inv.ready_room {s : kstate} (h : kernel_base_inv s) :
    s.run_queue.size ≠ QUEUE_SIZE := by
  have := h.ready_bound
  rw [queue_content_length] at this
  unfold PROC_MAX at this
  unfold QUEUE_SIZE
  omega

theorem kernel_base_inv.alloc_bound {s : kstate} (h : kernel_base_inv s) :
    (queue_content s.proc_allocator).length ≤ PROC_MAX := by
  have hmap : ((queue_content s.proc_allocator).map Int.toNat).Nodup := by
    apply List.Nodup.map_on _ h.alloc_nodup
    intro p hp q hq hpq
    have h1 := (h.alloc_free p hp).1
    have h2 := (h.alloc_free q hq).1
    omega
  have := nodup_length_le_of_lt _ PROC_MAX hmap (by
    intro x hx
    rw [List.mem_map] at hx
    obtain ⟨p, hp, rfl⟩ := hx
    have h1 := (h.alloc_free p hp).1
    have h2 := (h.alloc_free p hp).2.1
    unfold PROC_MAX at h2 ⊢
    omega)
  simpa using this

theorem kernel_base_inv.alloc_room {s : kstate} (h : kernel_base_inv s) :
    s.proc_allocator.size ≠ QUEUE_SIZE := by
  have := h.alloc_bound
  rw [queue_content_length] at this
  unfold PROC_MAX at this
  unfold QUEUE_SIZE
  omega

/-- A change of the table that keeps pids and stacks, does not free an entry in
use and does not touch the all-zero entries keeps `kernel_base_inv`, once the new
ready queue is shown to be in order. -/
theorem kernel_base_inv_of_table (s s1 : kstate) (h : kernel_base_inv s)
    (hnp : s1.next_pid = s.next_pid) (hal : s1.proc_allocator = s.proc_allocator)
    (hlen : s1.proc_table.length = s.proc_table.length)
    (hpid : ∀ i, (proc_at s1.proc_table i).pid = (proc_at s.proc_table i).pid)
    (hstack : ∀ i, (proc_at s1.proc_table i).stack = (proc_at s.proc_table i).stack)
    (hstate : ∀ i, (proc_at s.proc_table i).state ≠ .NONE → (proc_at s1.proc_table i).state ≠ .NONE)
    (hzero : ∀ i, proc_at s.proc_table i = proc_zero → proc_at s1.proc_table i = proc_zero)
    (hrq : queue_wf s1.run_queue) (hnodup : (queue_content s1.run_queue).Nodup)
    (hready : ∀ p ∈ queue_content s1.run_queue,
      p ≠ 0 ∧ ∃ n, (proc_at s1.proc_table n).pid = p ∧ (proc_at s1.proc_table n).state = .IDLE) :
    kernel_base_inv s1 where
  wf := ⟨by rw [hlen]; exact h.wf.1, hrq, by rw [hal]; exact h.wf.2.2⟩
  idle_pid := by rw [hpid]; exact h.idle_pid
  idle_live := hstate 0 h.idle_live
  pid_nonneg := by intro i; rw [hpid]; exact h.pid_nonneg i
  pid_lt := by intro i; rw [hpid, hnp]; exact h.pid_lt i
  pid_unique := by
    intro i j hij hi
    rw [hpid, hpid] at hij
    rw [hpid] at hi
    exact h.pid_unique i j hij hi
  live := by
    intro i hi
    rw [hpid] at hi
    rw [hstack]
    exact ⟨hstate i (h.live i hi).1, (h.live i hi).2⟩
  alloc_nodup := by rw [hal]; exact h.alloc_nodup
  alloc_free := by
    intro e he
    rw [hal] at he
    obtain ⟨h1, h2, h3⟩ := h.alloc_free e he
    exact ⟨h1, h2, hzero _ h3⟩
  free_alloc := by
    intro i h1 h2 h3
    rw [hpid] at h3
    rw [hal]
    exact h.free_alloc i h1 h2 h3
  ready_nodup := hnodup
  ready_idle := hready

theorem proc_at_update_proj {α : Type} (g : proc_t → α) (tbl : List proc_t) (n i : Nat)
    (f : proc_t → proc_t) (hf : ∀ e, g (f e) = g e) :
    g (proc_at (proc_update tbl n f) i) = g (proc_at tbl i) := by
  rw [proc_at_update]
  split
  · next h => rw [hf, h.1]
  · rfl

theorem proc_at_update_ne (tbl : List proc_t) (n i : Nat) (f : proc_t → proc_t) (h : i ≠ n) :
    proc_at (proc_update tbl n f) i = proc_at tbl i := by
  rw [proc_at_update]
  simp [h]

theorem proc_at_update_self (tbl : List proc_t) (n : Nat) (f : proc_t → proc_t)
    (h : n < tbl.length) :
    proc_at (proc_update tbl n f) n = f (proc_at tbl n) := by
  rw [proc_at_update]
  simp [h]

theorem proc_at_lt_of_state (tbl : List proc_t) (i : Nat) (h : (proc_at tbl i).state ≠ .NONE) :
    i < tbl.length := by
  by_contra hlt
  apply h
  rw [proc_at_zero_of_le _ _ (by omega)]
  rfl

theorem scheduler_select_cases (t t1 : kstate) (hq : queue_wf t.run_queue)
    (h : scheduler_select t = some t1) :
    ∃ n, t1 = { t with
        run_queue := (queue_out t.run_queue (some 0)).2.1
        current := some n
        proc_table := proc_update t.proc_table n (fun e => { e with state := .RUNNING }) } ∧
      ((queue_content t.run_queue = [] ∧ queue_content t1.run_queue = [] ∧
          pid_to_proc t.proc_table 0 = some n) ∨
        (∃ rest, queue_content t.run_queue = (proc_at t.proc_table n).pid :: rest ∧
          queue_content t1.run_queue = rest ∧
          pid_to_proc t.proc_table (proc_at t.proc_table n).pid = some n)) := by
  by_cases hsz : t.run_queue.size = 0
  · have hnil : queue_content t.run_queue = [] := by simp [queue_content, hsz]
    cases hf : pid_to_proc t.proc_table 0 with
    | none => simp [scheduler_select, queue_out_empty _ _ hsz, hf] at h
    | some n =>
      rw [scheduler_select_empty t n hsz hf] at h
      injection h with h
      refine ⟨n, ?_, Or.inl ⟨hnil, ?_, rfl⟩⟩
      · rw [← h, queue_out_empty _ _ hsz]
      · rw [← h]; exact hnil
  · have hout := queue_out_content _ 0 hq hsz
    cases hf : pid_to_proc t.proc_table (t.run_queue.items.getD t.run_queue.head 0) with
    | none =>
      unfold scheduler_select at h
      rw [queue_out_some _ _ hsz] at h
      simp only [Option.getD_some] at h
      rw [if_neg (by decide), hf] at h
      exact absurd h (by simp)
    | some n =>
      rw [scheduler_select_head t n hsz hf] at h
      injection h with h
      have hpid := (pid_to_proc_some _ _ _ hf).2
      refine ⟨n, h.symm, Or.inr ⟨queue_content (queue_out t.run_queue (some 0)).2.1, ?_, ?_, ?_⟩⟩
      · rw [hpid]; exact hout
      · rw [← h]
      · rw [hpid]; exact hf

theorem scheduler_select_inv (t t1 : kstate) (hinv : kernel_base_inv t)
    (h : scheduler_select t = some t1) : kernel_inv t1 := by
  obtain ⟨n, ht1, hcase⟩ := scheduler_select_cases t t1 hinv.wf.2.1 h
  have hn : n < PROC_MAX := by
    rcases hcase with ⟨_, _, hp⟩ | ⟨_, _, _, hp⟩
    · exact (pid_to_proc_some _ _ _ hp).1
    · exact (pid_to_proc_some _ _ _ hp).1
  have hnl : n < t.proc_table.length := by rw [hinv.wf.1]; exact hn
  have htbl : t1.proc_table = proc_update t.proc_table n (fun e => { e with state := .RUNNING }) := by
    rw [ht1]
  have hcur : t1.current = some n := by rw [ht1]
  have hnz : proc_at t.proc_table n ≠ proc_zero := by
    intro hz
    rcases hcase with ⟨_, _, hp⟩ | ⟨rest, hc, _, _⟩
    · rw [pid_to_proc_zero _ hinv.idle_pid] at hp
      injection hp with hp
      subst hp
      apply hinv.idle_live
      rw [hz]; rfl
    · have := (hinv.ready_idle (proc_at t.proc_table n).pid (by rw [hc]; simp)).1
      apply this
      rw [hz]; rfl
  have hnodup : (queue_content t1.run_queue).Nodup := by
    rcases hcase with ⟨_, h1, _⟩ | ⟨rest, hc, h1, _⟩
    · rw [h1]; exact List.nodup_nil
    · rw [h1]
      have := hinv.ready_nodup
      rw [hc] at this
      exact (List.nodup_cons.mp this).2
  have hnot : (proc_at t.proc_table n).pid ∉ queue_content t1.run_queue := by
    rcases hcase with ⟨_, h1, _⟩ | ⟨rest, hc, h1, _⟩
    · rw [h1]; simp
    · rw [h1]
      have := hinv.ready_nodup
      rw [hc] at this
      exact (List.nodup_cons.mp this).1
  have hsub : ∀ p ∈ queue_content t1.run_queue, p ∈ queue_content t.run_queue := by
    intro p hp
    rcases hcase with ⟨_, h1, _⟩ | ⟨rest, hc, h1, _⟩
    · rw [h1] at hp; simp at hp
    · rw [h1] at hp; rw [hc]; exact List.mem_cons_of_mem _ hp
  have hbase : kernel_base_inv t1 := by
    apply kernel_base_inv_of_table t t1 hinv
    · rw [ht1]
    · rw [ht1]
    · rw [htbl, proc_update_length]
    · intro i; rw [htbl]; exact proc_at_update_proj (fun e => e.pid) _ _ _ _ (fun _ => rfl)
    · intro i; rw [htbl]; exact proc_at_update_proj (fun e => e.stack) _ _ _ _ (fun _ => rfl)
    · intro i hi
      rw [htbl, proc_at_update]
      split
      · simp
      · exact hi
    · intro i hi
      have hin : i ≠ n := by
        intro hin; rw [hin] at hi; exact hnz hi
      rw [htbl, proc_at_update_ne _ _ _ _ hin]; exact hi
    · rw [ht1]; exact queue_out_wf _ _ hinv.wf.2.1
    · exact hnodup
    · intro p hp
      obtain ⟨hp0, m, hm, hms⟩ := hinv.ready_idle p (hsub p hp)
      refine ⟨hp0, m, ?_, ?_⟩
      · rw [htbl, proc_at_update_pid]
        · exact hm
        · intro e; rfl
      · have hmn : m ≠ n := by
          intro hmn
          apply hnot
          rw [← hmn, hm]; exact hp
        rw [htbl, proc_at_update_ne _ _ _ _ hmn]; exact hms
  refine { tokernel_base_inv := hbase, current_running := ?_, current_not_ready := ?_ }
  · intro c hc
    rw [hcur] at hc
    injection hc with hc
    subst hc
    rw [htbl, proc_at_update_self _ _ _ hnl]
  · intro c hc
    rw [hcur] at hc
    injection hc with hc
    subst hc
    have : (proc_at t1.proc_table n).pid = (proc_at t.proc_table n).pid := by
      rw [htbl]; exact proc_at_update_proj (fun e => e.pid) _ _ _ _ (fun _ => rfl)
    rw [this]
    exact hnot

theorem kernel_inv.current_nonzero {s : kstate} (h : kernel_inv s) (c : Nat)
    (hc : s.current = some c) : proc_at s.proc_table c ≠ proc_zero := by
  intro hz
  have := h.current_running c hc
  rw [hz] at this
  exact absurd this (by decide)

theorem kernel_inv.current_lt {s : kstate} (h : kernel_inv s) (c : Nat)
    (hc : s.current = some c) : c < s.proc_table.length :=
  proc_at_lt_of_state _ _ (by rw [h.current_running c hc]; decide)

theorem scheduler_timer_inv (s s1 : kstate) (hinv : kernel_inv s)
    (h : scheduler_timer s = some s1) : kernel_inv s1 := by
  unfold scheduler_timer at h
  split at h
  · exact absurd h (by simp)
  · next c hc =>
    injection h with h
    have htbl : s1.proc_table = proc_update s.proc_table c
        (fun e => { e with run_time := e.run_time + 1, cpu_time := e.cpu_time + 1 }) := by rw [← h]
    have hrq : s1.run_queue = s.run_queue := by rw [← h]
    have hcur : s1.current = s.current := by rw [← h]
    have hpid : ∀ i, (proc_at s1.proc_table i).pid = (proc_at s.proc_table i).pid := by
      intro i; rw [htbl]; exact proc_at_update_proj (fun e => e.pid) _ _ _ _ (fun _ => rfl)
    have hstate : ∀ i, (proc_at s1.proc_table i).state = (proc_at s.proc_table i).state := by
      intro i; rw [htbl]; exact proc_at_update_proj (fun e => e.state) _ _ _ _ (fun _ => rfl)
    have hbase : kernel_base_inv s1 := by
      apply kernel_base_inv_of_table s s1 hinv.tokernel_base_inv
      · rw [← h]
      · rw [← h]
      · rw [htbl, proc_update_length]
      · exact hpid
      · intro i; rw [htbl]; exact proc_at_update_proj (fun e => e.stack) _ _ _ _ (fun _ => rfl)
      · intro i hi; rw [hstate]; exact hi
      · intro i hi
        have hic : i ≠ c := by
          intro hic; rw [hic] at hi; exact hinv.current_nonzero c hc hi
        rw [htbl, proc_at_update_ne _ _ _ _ hic]; exact hi
      · rw [hrq]; exact hinv.wf.2.1
      · rw [hrq]; exact hinv.ready_nodup
      · intro p hp
        rw [hrq] at hp
        obtain ⟨hp0, m, hm, hms⟩ := hinv.ready_idle p hp
        exact ⟨hp0, m, by rw [hpid]; exact hm, by rw [hstate]; exact hms⟩
    refine { tokernel_base_inv := hbase, current_running := ?_, current_not_ready := ?_ }
    · intro d hd
      rw [hcur] at hd
      rw [hstate]; exact hinv.current_running d hd
    · intro d hd
      rw [hcur] at hd
      rw [hpid, hrq]; exact hinv.current_not_ready d hd

theorem scheduler_preempt_inv (s : kstate) (hinv : kernel_inv s) :
    kernel_base_inv (scheduler_preempt s) := by
  cases hc : s.current with
  | none => rw [scheduler_preempt_none s hc]; exact hinv.tokernel_base_inv
  | some c =>
    have hcl := hinv.current_lt c hc
    have htbl := scheduler_preempt_table s c hc
    have hpid : ∀ i, (proc_at (scheduler_preempt s).proc_table i).pid = (proc_at s.proc_table i).pid := by
      intro i; rw [htbl]; exact proc_at_update_proj (fun e => e.pid) _ _ _ _ (fun _ => rfl)
    have hidle : (proc_at (scheduler_preempt s).proc_table c).state = .IDLE := by
      rw [htbl, proc_at_update_self _ _ _ hcl]
    have hother : ∀ i, i ≠ c →
        proc_at (scheduler_preempt s).proc_table i = proc_at s.proc_table i := by
      intro i hi; rw [htbl, proc_at_update_ne _ _ _ _ hi]
    have hrq : (scheduler_preempt s).run_queue =
        if (proc_at s.proc_table c).pid ≠ 0 then
          (queue_in s.run_queue (proc_at s.proc_table c).pid).2 else s.run_queue := by
      simp [scheduler_preempt, hc]
    have hroom := hinv.ready_room
    have hcont : queue_content (scheduler_preempt s).run_queue =
        if (proc_at s.proc_table c).pid ≠ 0 then
          queue_content s.run_queue ++ [(proc_at s.proc_table c).pid]
        else queue_content s.run_queue := by
      rw [hrq]
      split
      · exact queue_in_content _ _ hinv.wf.2.1 hroom
      · rfl
    apply kernel_base_inv_of_table s _ hinv.tokernel_base_inv
    · simp [scheduler_preempt, hc]
    · simp [scheduler_preempt, hc]
    · rw [scheduler_preempt_length]
    · exact hpid
    · intro i; rw [htbl]; exact proc_at_update_proj (fun e => e.stack) _ _ _ _ (fun _ => rfl)
    · intro i hi
      by_cases hic : i = c
      · rw [hic, hidle]; decide
      · rw [hother i hic]; exact hi
    · intro i hi
      have hic : i ≠ c := by
        intro hic; rw [hic] at hi; exact hinv.current_nonzero c hc hi
      rw [hother i hic]; exact hi
    · rw [hrq]
      split
      · exact queue_in_wf _ _ hinv.wf.2.1
      · exact hinv.wf.2.1
    · rw [hcont]
      split
      · apply List.Nodup.append hinv.ready_nodup (List.nodup_singleton _)
        intro x hx hx1
        simp only [List.mem_singleton] at hx1
        rw [hx1] at hx
        exact hinv.current_not_ready c hc hx
      · exact hinv.ready_nodup
    · intro p hp
      have hold : ∀ q ∈ queue_content s.run_queue, q ≠ 0 ∧ ∃ n,
          (proc_at (scheduler_preempt s).proc_table n).pid = q ∧
          (proc_at (scheduler_preempt s).proc_table n).state = .IDLE := by
        intro q hq
        obtain ⟨hq0, m, hm, hms⟩ := hinv.ready_idle q hq
        refine ⟨hq0, m, by rw [hpid]; exact hm, ?_⟩
        by_cases hmc : m = c
        · rw [hmc]; exact hidle
        · rw [hother m hmc]; exact hms
      rw [hcont] at hp
      split at hp
      · next hne =>
        rcases List.mem_append.mp hp with hp | hp
        · exact hold p hp
        · simp only [List.mem_singleton] at hp
          exact ⟨by rw [hp]; exact hne, c, by rw [hpid, hp], hidle⟩
      · exact hold p hp

theorem scheduler_run_inv (s s1 : kstate) (hinv : kernel_inv s)
    (h : scheduler_run s = some s1) : kernel_inv s1 := by
  cases hc : s.current with
  | none =>
    rw [scheduler_run_none s hc] at h
    exact scheduler_select_inv _ _ (scheduler_preempt_inv s hinv) h
  | some c =>
    by_cases ht : (proc_at s.proc_table c).cpu_time < SCHEDULER_TIMESLICE
    · simp only [scheduler_run, hc, ht, if_true] at h
      injection h with h
      rw [← h]; exact hinv
    · rw [scheduler_run_expired s c hc (not_lt.mp ht)] at h
      exact scheduler_select_inv _ _ (scheduler_preempt_inv s hinv) h

theorem kproc_create_none (proc_ptr : code_ptr) (proc_name : List Char) (proc_type : proc_type_t)
    (s : kstate) (h : queue_content s.proc_allocator = []) :
    kproc_create proc_ptr proc_name proc_type s = some (-1, s) := by
  have hsz : s.proc_allocator.size = 0 := by
    rw [← queue_content_length, h]; rfl
  unfold kproc_create
  rw [queue_out_empty _ _ hsz]
  simp

theorem kproc_create_some (proc_ptr : code_ptr) (proc_name : List Char) (proc_type : proc_type_t)
    (s : kstate) (e : Nat) (rest : List Int) (hwf : kstate_wf s)
    (hal : queue_content s.proc_allocator = (e : Int) :: rest) (he : e < PROC_MAX) :
    kproc_create proc_ptr proc_name proc_type s = some (s.next_pid, { s with
      proc_allocator := (queue_out s.proc_allocator (some 0)).2.1
      proc_table := s.proc_table.set e
        { pid := s.next_pid
          state := .IDLE
          type := proc_type
          name := proc_name.take (PROC_NAME_LEN - 1)
          start_time := s.timer_ticks
          run_time := 0
          cpu_time := 0
          stack := some e
          trapframe := some (.stack_top e) }
      next_pid := s.next_pid + 1
      run_queue := if s.next_pid ≠ 0 then (queue_in s.run_queue s.next_pid).2 else s.run_queue }) ∧
    queue_content (queue_out s.proc_allocator (some 0)).2.1 = rest := by
  have hsz : s.proc_allocator.size ≠ 0 := by
    have := congrArg List.length hal
    rw [queue_content_length] at this
    simp at this
    omega
  have hout := queue_out_content _ 0 hwf.2.2 hsz
  rw [hal] at hout
  injection hout with hhead hrest
  refine ⟨?_, hrest.symm⟩
  have hel : e < s.proc_table.length := by rw [hwf.1]; exact he
  unfold kproc_create
  rw [queue_out_some _ _ hsz]
  simp only [Option.getD_some, ← hhead]
  rw [if_neg (by decide)]
  have hrange : (0 : Int) ≤ (e : Int) ∧ (e : Int) < (PROC_MAX : Int) := by
    constructor
    · exact Int.natCast_nonneg e
    · exact_mod_cast he
  rw [if_pos hrange]
  simp only [Int.toNat_ofNat]
  have hat : ∀ x : proc_t, proc_at (s.proc_table.set e x) e = x := by
    intro x; rw [proc_at_set]; simp [hel]
  unfold scheduler_add
  simp only [hat, proc_update, List.set_set]
  by_cases hn : s.next_pid = 0
  · simp [hn, hat]
  · simp [hn, hat]

theorem kernel_base_inv.next_pid_pos {s : kstate} (h : kernel_base_inv s) : 1 ≤ s.next_pid := by
  have h1 := h.pid_nonneg 0
  have h2 := h.pid_lt 0
  omega

theorem kernel_inv.alloc_head {s : kstate} (h : kernel_inv s) (x : Int) (rest : List Int)
    (hal : queue_content s.proc_allocator = x :: rest) :
    ∃ e : Nat, x = (e : Int) ∧ 1 ≤ e ∧ e < PROC_MAX ∧ proc_at s.proc_table e = proc_zero := by
  obtain ⟨h1, h2, h3⟩ := h.alloc_free x (by rw [hal]; simp)
  refine ⟨x.toNat, by omega, by omega, ?_, h3⟩
  unfold PROC_MAX at h2 ⊢
  omega

theorem kproc_create_inv (proc_ptr : code_ptr) (proc_name : List Char) (proc_type : proc_type_t)
    (s : kstate) (r : Int × kstate) (hinv : kernel_inv s)
    (h : kproc_create proc_ptr proc_name proc_type s = some r) : kernel_inv r.2 := by
  cases hal : queue_content s.proc_allocator with
  | nil =>
    rw [kproc_create_none _ _ _ s hal] at h
    injection h with h
    rw [← h]; exact hinv
  | cons x rest =>
    obtain ⟨e, rfl, he1, he, hez⟩ := hinv.alloc_head x rest hal
    obtain ⟨hrun, hrest⟩ := kproc_create_some proc_ptr proc_name proc_type s e rest hinv.wf hal he
    rw [hrun] at h
    injection h with h
    have hnp := hinv.next_pid_pos
    have hnp0 : s.next_pid ≠ 0 := by omega
    have hel : e < s.proc_table.length := by rw [hinv.wf.1]; exact he
    have hnd := hinv.alloc_nodup
    rw [hal] at hnd
    have hroom := hinv.ready_room
    -- the fields of the new state
    have htbl : ∀ i, proc_at r.2.proc_table i =
        if i = e then
          { pid := s.next_pid, state := .IDLE, type := proc_type,
            name := proc_name.take (PROC_NAME_LEN - 1), start_time := s.timer_ticks,
            run_time := 0, cpu_time := 0, stack := some e, trapframe := some (.stack_top e) }
        else proc_at s.proc_table i := by
      intro i
      rw [← h]
      simp only [proc_at_set, hel, and_true]
    have hnew : (proc_at r.2.proc_table e).pid = s.next_pid ∧
        (proc_at r.2.proc_table e).state = .IDLE ∧
        (proc_at r.2.proc_table e).stack = some e := by
      rw [htbl e]; simp
    have hother : ∀ i, i ≠ e → proc_at r.2.proc_table i = proc_at s.proc_table i := by
      intro i hi; rw [htbl i]; simp [hi]
    have hrq : queue_content r.2.run_queue = queue_content s.run_queue ++ [s.next_pid] := by
      rw [← h]
      simp only [ne_eq, hnp0, not_false_eq_true, if_true]
      exact queue_in_content _ _ hinv.wf.2.1 hroom
    have hrqwf : queue_wf r.2.run_queue := by
      rw [← h]
      simp only [ne_eq, hnp0, not_false_eq_true, if_true]
      exact queue_in_wf _ _ hinv.wf.2.1
    have halc : queue_content r.2.proc_allocator = rest := by rw [← h]; exact hrest
    have hnext : r.2.next_pid = s.next_pid + 1 := by rw [← h]
    have hcur : r.2.current = s.current := by rw [← h]
    have hlen : r.2.proc_table.length = s.proc_table.length := by rw [← h]; simp
    have hez0 : (proc_at s.proc_table e).pid = 0 := by rw [hez]; rfl
    have hpid_ne : ∀ i, (proc_at s.proc_table i).pid ≠ 0 → i ≠ e := by
      intro i hi hie; rw [hie] at hi; exact hi hez0
    refine { wf := ⟨by rw [hlen]; exact hinv.wf.1, hrqwf, by rw [← h]; exact queue_out_wf _ _ hinv.wf.2.2⟩,
             idle_pid := ?_, idle_live := ?_, pid_nonneg := ?_, pid_lt := ?_, pid_unique := ?_,
             live := ?_, alloc_nodup := ?_, alloc_free := ?_, free_alloc := ?_,
             ready_nodup := ?_, ready_idle := ?_, current_running := ?_,
             current_not_ready := ?_ }
    · rw [hother 0 (by omega)]; exact hinv.idle_pid
    · rw [hother 0 (by omega)]; exact hinv.idle_live
    · intro i
      by_cases hi : i = e
      · rw [hi, hnew.1]; omega
      · rw [hother i hi]; exact hinv.pid_nonneg i
    · intro i
      rw [hnext]
      by_cases hi : i = e
      · rw [hi, hnew.1]; omega
      · rw [hother i hi]; have := hinv.pid_lt i; omega
    · intro i j hij hi0
      by_cases hi : i = e
      · by_cases hj : j = e
        · rw [hi, hj]
        · rw [hi, hnew.1, hother j hj] at hij
          have := hinv.pid_lt j
          omega
      · by_cases hj : j = e
        · rw [hj, hnew.1, hother i hi] at hij
          have := hinv.pid_lt i
          omega
        · rw [hother i hi, hother j hj] at hij
          rw [hother i hi] at hi0
          exact hinv.pid_unique i j hij hi0
    · intro i hi0
      by_cases hi : i = e
      · rw [hi, hnew.2.1, hnew.2.2]; simp
      · rw [hother i hi] at hi0 ⊢
        exact hinv.live i hi0
    · rw [halc]; exact (List.nodup_cons.mp hnd).2
    · intro x hx
      rw [halc] at hx
      obtain ⟨h1, h2, h3⟩ := hinv.alloc_free x (by rw [hal]; exact List.mem_cons_of_mem _ hx)
      refine ⟨h1, h2, ?_⟩
      have hxe : x.toNat ≠ e := by
        intro hxe
        have : x = (e : Int) := by omega
        rw [this] at hx
        exact (List.nodup_cons.mp hnd).1 hx
      rw [hother _ hxe]; exact h3
    · intro i h1 h2 h3
      have hi : i ≠ e := by
        intro hi; rw [hi, hnew.1] at h3; exact hnp0 h3
      rw [hother i hi] at h3
      have := hinv.free_alloc i h1 h2 h3
      rw [hal] at this
      rw [halc]
      rcases List.mem_cons.mp this with h4 | h4
      · exact absurd (by exact_mod_cast h4) hi
      · exact h4
    · rw [hrq]
      apply List.Nodup.append hinv.ready_nodup (List.nodup_singleton _)
      intro x hx hx1
      simp only [List.mem_singleton] at hx1
      obtain ⟨_, n, hn, _⟩ := hinv.ready_idle x hx
      have := hinv.pid_lt n
      omega
    · intro p hp
      rw [hrq] at hp
      rcases List.mem_append.mp hp with hp | hp
      · obtain ⟨hp0, n, hn, hns⟩ := hinv.ready_idle p hp
        have hne : n ≠ e := hpid_ne n (by rw [hn]; exact hp0)
        exact ⟨hp0, n, by rw [hother n hne]; exact hn, by rw [hother n hne]; exact hns⟩
      · simp only [List.mem_singleton] at hp
        exact ⟨by rw [hp]; exact hnp0, e, by rw [hp]; exact hnew.1, hnew.2.1⟩
    · intro c hc
      rw [hcur] at hc
      have hce : c ≠ e := by
        intro hce; rw [hce] at hc; exact hinv.current_nonzero e hc hez
      rw [hother c hce]; exact hinv.current_running c hc
    · intro c hc
      rw [hcur] at hc
      have hce : c ≠ e := by
        intro hce; rw [hce] at hc; exact hinv.current_nonzero e hc hez
      rw [hother c hce, hrq]
      intro hmem
      rcases List.mem_append.mp hmem with hm | hm
      · exact hinv.current_not_ready c hc hm
      · simp only [List.mem_singleton] at hm
        have := hinv.pid_lt c
        omega

theorem proc_update_set (tbl : List proc_t) (p : Nat) (f : proc_t → proc_t) (e : proc_t) :
    (proc_update tbl p f).set p e = tbl.set p e := by
  unfold proc_update
  rw [List.set_set]

/-- Effect of `kproc_destroy` on an entry with a non-zero pid, in a state that
satisfies `kernel_inv`. -/
theorem kproc_destroy_effect (s : kstate) (p : Nat) (hinv : kernel_inv s)
    (hpid : (proc_at s.proc_table p).pid ≠ 0) :
    ∃ s1, kproc_destroy (some p) s = some (0, s1) ∧
      s1.proc_table = s.proc_table.set p proc_zero ∧
      queue_wf s1.run_queue ∧
      List.Perm (queue_content s1.run_queue)
        ((queue_content s.run_queue).erase (proc_at s.proc_table p).pid) ∧
      s1.current = (if s.current = some p then none else s.current) ∧
      queue_wf s1.proc_allocator ∧
      queue_content s1.proc_allocator = queue_content s.proc_allocator ++ [(p : Int)] ∧
      s1.next_pid = s.next_pid ∧ s1.timer_ticks = s.timer_ticks := by
  have hp : p < PROC_MAX := hinv.entry_lt p hpid
  have hstack := (hinv.live p hpid).2
  have haroom := hinv.alloc_room
  have halc := queue_in_content s.proc_allocator (p : Int) hinv.wf.2.2 haroom
  have halwf := queue_in_wf s.proc_allocator (p : Int) hinv.wf.2.2
  -- the three ways `scheduler_remove` can go
  have hrem : ∃ s0 f, scheduler_remove (some p) s = some s0 ∧
      s0.proc_table = proc_update s.proc_table p f ∧ (∀ e, (f e).stack = e.stack) ∧
      queue_wf s0.run_queue ∧
      List.Perm (queue_content s0.run_queue)
        ((queue_content s.run_queue).erase (proc_at s.proc_table p).pid) ∧
      s0.current = (if s.current = some p then none else s.current) ∧
      s0.proc_allocator = s.proc_allocator ∧ s0.next_pid = s.next_pid ∧
      s0.timer_ticks = s.timer_ticks := by
    by_cases hcur : s.current = some p
    · refine ⟨{ s with
          proc_table := proc_update s.proc_table p (fun e => { e with state := .IDLE })
          current := none }, fun e => { e with state := .IDLE }, ?_, rfl, fun _ => rfl,
        hinv.wf.2.1, ?_, ?_, rfl, rfl, rfl⟩
      · simp [scheduler_remove, hcur, hpid]
      · rw [List.erase_of_not_mem (hinv.current_not_ready p hcur)]
      · simp [hcur]
    · by_cases hmem : (proc_at s.proc_table p).pid ∈ queue_content s.run_queue
      · obtain ⟨pre, post, hcont, hpre⟩ := mem_split_first _ _ hmem
        obtain ⟨q, n, hqwf, hqc, hn, hrun⟩ :=
          scheduler_remove_split s p pre post hinv.wf hp hcur hcont hpre
        have hnp : n = p :=
          hinv.pid_unique n p (pid_to_proc_some _ _ _ hn).2
            (by rw [(pid_to_proc_some _ _ _ hn).2]; exact hpid)
        rw [hnp] at hrun
        refine ⟨{ s with
            run_queue := q
            proc_table := proc_update s.proc_table p (fun e => { e with state := .NONE }) },
          fun e => { e with state := .NONE }, hrun, rfl, fun _ => rfl, hqwf, ?_, ?_,
          rfl, rfl, rfl⟩
        · show List.Perm (queue_content q) _
          rw [hqc, hcont, List.erase_append_right _ hpre]
          simp only [List.erase_cons_head]
          exact List.perm_append_comm
        · simp [hcur]
      · obtain ⟨q, hqwf, hqc, hscan⟩ :=
          scheduler_remove_scan_miss p (queue_content s.run_queue) (s.run_queue.size + 1) 0 s []
            hinv.wf.2.1 (by simp) (by simp [queue_content_length]) hmem
            (by simp [queue_content_length])
        refine ⟨{ s with run_queue := q }, fun e => e, ?_, ?_, fun _ => rfl, hqwf, ?_, ?_,
          rfl, rfl, rfl⟩
        · rw [scheduler_remove_not_current s p hcur, hscan]
        · show s.proc_table = _
          rw [proc_update_self _ _ _ (fun _ => rfl)]
        · show List.Perm (queue_content q) _
          rw [hqc, List.erase_of_not_mem hmem]
          simp
        · simp [hcur]
  obtain ⟨s0, f, hrun, htbl, hf, hqwf, hperm, hcur, hal0, hnp, htt⟩ := hrem
  have hst : (proc_at s0.proc_table p).stack ≠ none := by
    rw [htbl]
    have := proc_at_update_proj (fun e => e.stack) s.proc_table p p f hf
    simp only at this
    rw [this]; exact hstack
  obtain ⟨st, hst⟩ := Option.ne_none_iff_exists'.mp hst
  refine ⟨{ s0 with
      proc_table := s0.proc_table.set p proc_zero
      proc_allocator := (queue_in s0.proc_allocator (p : Int)).2 }, ?_, ?_, hqwf, hperm, hcur,
    ?_, ?_, hnp, htt⟩
  · unfold kproc_destroy
    simp only [hpid, if_false, hrun, hst]
  · show s0.proc_table.set p proc_zero = _
    rw [htbl, proc_update_set]
  · show queue_wf (queue_in s0.proc_allocator (p : Int)).2
    rw [hal0]; exact halwf
  · show queue_content (queue_in s0.proc_allocator (p : Int)).2 = _
    rw [hal0]; exact halc

theorem kproc_destroy_idle (s : kstate) (p : Nat) (h : (proc_at s.proc_table p).pid = 0) :
    kproc_destroy (some p) s = some (-1, s) := by
  simp [kproc_destroy, h]

theorem kproc_destroy_inv (proc : Option Nat) (s : kstate) (r : Int × kstate)
    (hinv : kernel_inv s) (h : kproc_destroy proc s = some r) : kernel_inv r.2 := by
  cases proc with
  | none => simp [kproc_destroy] at h
  | some p =>
    by_cases hpid : (proc_at s.proc_table p).pid = 0
    · rw [kproc_destroy_idle s p hpid] at h
      injection h with h
      rw [← h]; exact hinv
    · obtain ⟨s1, hrun, htbl, hrqwf, hperm, hcur, halwf, halc, hnp, _⟩ :=
        kproc_destroy_effect s p hinv hpid
      rw [hrun] at h
      injection h with h
      rw [← h]
      show kernel_inv s1
      have hp : p < PROC_MAX := hinv.entry_lt p hpid
      have hpl : p < s.proc_table.length := by rw [hinv.wf.1]; exact hp
      have hp0 : p ≠ 0 := by
        intro hp0; rw [hp0] at hpid; exact hpid hinv.idle_pid
      have hself : proc_at s1.proc_table p = proc_zero := by
        rw [htbl, proc_at_set]; simp [hpl]
      have hother : ∀ i, i ≠ p → proc_at s1.proc_table i = proc_at s.proc_table i := by
        intro i hi; rw [htbl, proc_at_set]; simp [hi]
      have hnpos := hinv.next_pid_pos
      have hmem : ∀ q ∈ queue_content s1.run_queue,
          q ∈ queue_content s.run_queue ∧ q ≠ (proc_at s.proc_table p).pid := by
        intro q hq
        have := hperm.mem_iff.mp hq
        rw [hinv.ready_nodup.mem_erase_iff] at this
        exact ⟨this.2, this.1⟩
      have hnotal : (p : Int) ∉ queue_content s.proc_allocator := by
        intro hm
        have := (hinv.alloc_free _ hm).2.2
        simp only [Int.toNat_ofNat] at this
        apply hpid
        rw [this]; rfl
      refine { wf := ⟨by rw [htbl]; simpa using hinv.wf.1, hrqwf, halwf⟩,
               idle_pid := ?_, idle_live := ?_, pid_nonneg := ?_, pid_lt := ?_, pid_unique := ?_,
               live := ?_, alloc_nodup := ?_, alloc_free := ?_, free_alloc := ?_,
               ready_nodup := ?_, ready_idle := ?_, current_running := ?_,
               current_not_ready := ?_ }
      · rw [hother 0 (fun x => hp0 x.symm)]; exact hinv.idle_pid
      · rw [hother 0 (fun x => hp0 x.symm)]; exact hinv.idle_live
      · intro i
        by_cases hi : i = p
        · rw [hi, hself]; decide
        · rw [hother i hi]; exact hinv.pid_nonneg i
      · intro i
        rw [hnp]
        by_cases hi : i = p
        · rw [hi, hself]; show (0 : Int) < s.next_pid; omega
        · rw [hother i hi]; exact hinv.pid_lt i
      · intro i j hij hi0
        have hi : i ≠ p := by
          intro hi; rw [hi, hself] at hi0; exact hi0 rfl
        have hj : j ≠ p := by
          intro hj; rw [hj, hself, hother i hi] at hij
          rw [hother i hi] at hi0
          exact hi0 hij
        rw [hother i hi, hother j hj] at hij
        rw [hother i hi] at hi0
        exact hinv.pid_unique i j hij hi0
      · intro i hi0
        have hi : i ≠ p := by
          intro hi; rw [hi, hself] at hi0; exact hi0 rfl
        rw [hother i hi] at hi0 ⊢
        exact hinv.live i hi0
      · rw [halc]
        apply List.Nodup.append hinv.alloc_nodup (List.nodup_singleton _)
        intro x hx hx1
        simp only [List.mem_singleton] at hx1
        rw [hx1] at hx
        exact hnotal hx
      · intro x hx
        rw [halc] at hx
        rcases List.mem_append.mp hx with hx | hx
        · obtain ⟨h1, h2, h3⟩ := hinv.alloc_free x hx
          refine ⟨h1, h2, ?_⟩
          have hxp : x.toNat ≠ p := by
            intro hxp
            have : x = (p : Int) := by omega
            rw [this] at hx
            exact hnotal hx
          rw [hother _ hxp]; exact h3
        · simp only [List.mem_singleton] at hx
          subst hx
          refine ⟨by omega, by exact_mod_cast hp, ?_⟩
          simp only [Int.toNat_ofNat]
          exact hself
      · intro i h1 h2 h3
        rw [halc]
        by_cases hi : i = p
        · rw [hi]; simp
        · rw [hother i hi] at h3
          exact List.mem_append_left _ (hinv.free_alloc i h1 h2 h3)
      · exact (hperm.nodup_iff).mpr (hinv.ready_nodup.erase _)
      · intro q hq
        obtain ⟨hq1, hq2⟩ := hmem q hq
        obtain ⟨hq0, n, hn, hns⟩ := hinv.ready_idle q hq1
        have hnp' : n ≠ p := by
          intro hnp'; rw [hnp'] at hn; exact hq2 hn.symm
        exact ⟨hq0, n, by rw [hother n hnp']; exact hn, by rw [hother n hnp']; exact hns⟩
      · intro c hc
        rw [hcur] at hc
        split at hc
        · exact absurd hc (by simp)
        · next hne =>
          have hcp : c ≠ p := by
            intro hcp; rw [hcp] at hc; exact hne hc
          rw [hother c hcp]; exact hinv.current_running c hc
      · intro c hc
        rw [hcur] at hc
        split at hc
        · exact absurd hc (by simp)
        · next hne =>
          have hcp : c ≠ p := by
            intro hcp; rw [hcp] at hc; exact hne hc
          rw [hother c hcp]
          intro hm
          exact hinv.current_not_ready c hc (hmem _ hm).1

theorem kcall_step_inv (s s1 : kstate) (c : kcall) (hinv : kernel_inv s)
    (h : kcall_step s c = some s1) : kernel_inv s1 := by
  cases c with
  | create proc_ptr proc_name proc_type =>
    simp only [kcall_step, Option.map_eq_some'] at h
    obtain ⟨r, hr, rfl⟩ := h
    exact kproc_create_inv _ _ _ _ r hinv hr
  | destroy proc =>
    simp only [kcall_step, Option.map_eq_some'] at h
    obtain ⟨r, hr, rfl⟩ := h
    exact kproc_destroy_inv _ _ r hinv hr
  | timer => exact scheduler_timer_inv _ _ hinv h
  | run => exact scheduler_run_inv _ _ hinv h

theorem kernel_boot_inv (s : kstate) (h : kernel_boot = some s) : kernel_inv s := by
  rw [demo_boot_eq] at h
  injection h with h
  rw [← h]; exact demo_boot_inv

theorem reachable_inv (s : kstate) (h : reachable s) : kernel_inv s := by
  induction h with
  | boot s hb => exact kernel_boot_inv s hb
  | step s s1 c _ hstep ih => exact kcall_step_inv s s1 c ih hstep

theorem kcalls_run_inv (cs : List kcall) :
    ∀ (s s1 : kstate), kernel_inv s → kcalls_run s cs = some s1 → kernel_inv s1 := by
  induction cs with
  | nil =>
    intro s s1 hs h
    simp only [kcalls_run] at h
    injection h with h
    rw [← h]; exact hs
  | cons c cs ih =>
    intro s s1 hs h
    simp only [kcalls_run] at h
    cases hstep : kcall_step s c with
    | none => rw [hstep] at h; exact absurd h (by simp)
    | some s2 =>
      rw [hstep, Option.some_bind] at h
      exact ih s2 s1 (kcall_step_inv s s2 c hs hstep) h

/-! ## Theorems: the ready queue and `current` in reachable states -/

/-- C11. In every state reachable from start-up by `kproc_create`, `kproc_destroy`,
`scheduler_timer` and `scheduler_run`, the ready queue does not contain pid 0,
contains no pid twice, and every pid in it is the pid of a table entry in use
(found by `pid_to_proc`) whose state is IDLE and which is not the current
process. -/
theorem reachable_ready_queue (s : kstate) (h : reachable s) :
    (0 : Int) ∉ queue_content s.run_queue ∧
    (queue_content s.run_queue).Nodup ∧
    ∀ p ∈ queue_content s.run_queue, ∃ n, n < PROC_MAX ∧
      pid_to_proc s.proc_table p = some n ∧
      (proc_at s.proc_table n).pid = p ∧
      (proc_at s.proc_table n).state = .IDLE ∧
      s.current ≠ some n := by
  have hinv := reachable_inv s h
  refine ⟨fun h0 => (hinv.ready_idle 0 h0).1 rfl, hinv.ready_nodup, ?_⟩
  intro p hp
  obtain ⟨hp0, n, hn, hns⟩ := hinv.ready_idle p hp
  have hnz : (proc_at s.proc_table n).pid ≠ 0 := by rw [hn]; exact hp0
  have hnlt := hinv.entry_lt n hnz
  refine ⟨n, hnlt, ?_, hn, hns, ?_⟩
  · rw [← hn]; exact pid_to_proc_of_entry _ n hnlt hinv.pid_unique hnz
  · intro hc
    apply hinv.current_not_ready n hc
    rw [hn]; exact hp

/-- C12. In every reachable state, when `scheduler_run` returns, `current` is
non-null and points to an entry in state RUNNING.  In particular, after
`kproc_destroy` of the current process (pid not 0) has set `current` to null, a
`scheduler_run` that returns leaves `current` non-null and RUNNING. -/
theorem scheduler_run_current_running (s s1 : kstate) (h : reachable s)
    (hrun : scheduler_run s = some s1) :
    (∃ c, s1.current = some c ∧ c < PROC_MAX ∧ (proc_at s1.proc_table c).state = .RUNNING) ∧
    (∀ c, s.current = some c → (proc_at s.proc_table c).pid ≠ 0 →
      ∃ s2, kproc_destroy (some c) s = some (0, s2) ∧ s2.current = none ∧
        ∀ s3, scheduler_run s2 = some s3 →
          ∃ d, s3.current = some d ∧ d < PROC_MAX ∧
            (proc_at s3.proc_table d).state = .RUNNING) := by
  have hinv := reachable_inv s h
  have key : ∀ t t1 : kstate, kernel_inv t → scheduler_run t = some t1 →
      ∃ c, t1.current = some c ∧ c < PROC_MAX ∧ (proc_at t1.proc_table c).state = .RUNNING := by
    intro t t1 ht hr
    have hinv1 := scheduler_run_inv t t1 ht hr
    have hsome : ∃ c, t1.current = some c := by
      cases hc : t.current with
      | none =>
        rw [scheduler_run_none t hc] at hr
        obtain ⟨n, hn, _⟩ := scheduler_select_cases _ _ (scheduler_preempt_inv t ht).wf.2.1 hr
        exact ⟨n, by rw [hn]⟩
      | some c =>
        by_cases hlt : (proc_at t.proc_table c).cpu_time < SCHEDULER_TIMESLICE
        · simp only [scheduler_run, hc, hlt, if_true] at hr
          injection hr with hr
          exact ⟨c, by rw [← hr]; exact hc⟩
        · rw [scheduler_run_expired t c hc (not_lt.mp hlt)] at hr
          obtain ⟨n, hn, _⟩ := scheduler_select_cases _ _ (scheduler_preempt_inv t ht).wf.2.1 hr
          exact ⟨n, by rw [hn]⟩
    obtain ⟨c, hc⟩ := hsome
    have hst := hinv1.current_running c hc
    have hcl := hinv1.current_lt c hc
    rw [hinv1.wf.1] at hcl
    exact ⟨c, hc, hcl, hst⟩
  refine ⟨key s s1 hinv hrun, ?_⟩
  intro c hc hpid
  obtain ⟨s2, hd, _, _, _, hcur, _⟩ := kproc_destroy_effect s c hinv hpid
  have hinv2 := kproc_destroy_inv (some c) s (0, s2) hinv hd
  refine ⟨s2, hd, by rw [hcur]; simp [hc], ?_⟩
  intro s3 hr3
  exact key s2 s3 hinv2 hr3

set_option maxRecDepth 100000 in
/-- C11 at `demo_running`: pids 2 and 3 are queued, pid 1 is current. -/
theorem reachable_ready_queue_witness :
    queue_content demo_running.run_queue = [2, 3] ∧
    (0 : Int) ∉ queue_content demo_running.run_queue ∧
    (queue_content demo_running.run_queue).Nodup ∧
    ∀ p ∈ queue_content demo_running.run_queue, ∃ n, n < PROC_MAX ∧
      pid_to_proc demo_running.proc_table p = some n ∧
      (proc_at demo_running.proc_table n).pid = p ∧
      (proc_at demo_running.proc_table n).state = .IDLE ∧
      demo_running.current ≠ some n :=
  ⟨by decide, reachable_ready_queue demo_running demo_running_reachable⟩

set_option maxRecDepth 100000 in
/-- C12 at `demo_ready`, where `scheduler_run` makes pid 1 current. -/
theorem scheduler_run_current_running_witness :
    scheduler_run demo_ready = some demo_running ∧
    ∃ c, demo_running.current = some c ∧ c < PROC_MAX ∧
      (proc_at demo_running.proc_table c).state = .RUNNING :=
  ⟨by decide,
    (scheduler_run_current_running demo_ready demo_running demo_ready_reachable (by decide)).1⟩

/-! ## Theorems: process creation -/

theorem kcall_step_ret_state (s : kstate) (c : kcall) :
    (kcall_step_ret s c).map Prod.snd = kcall_step s c := by
  cases c <;> simp [kcall_step_ret, kcall_step, Option.map_map, Function.comp_def]

theorem kcalls_created_state (cs : List kcall) :
    ∀ s : kstate, (kcalls_created s cs).map Prod.snd = kcalls_run s cs := by
  induction cs with
  | nil => intro s; rfl
  | cons c cs ih =>
    intro s
    simp only [kcalls_created, kcalls_run]
    rw [← kcall_step_ret_state s c]
    cases hstep : kcall_step_ret s c with
    | none => rfl
    | some r =>
      simp only [Option.some_bind, Option.map_some']
      rw [← ih r.2]
      cases kcalls_created r.2 cs <;> rfl

theorem scheduler_select_keeps (t t1 : kstate) (h : scheduler_select t = some t1) :
    t1.proc_allocator = t.proc_allocator ∧ t1.next_pid = t.next_pid ∧
      t1.timer_ticks = t.timer_ticks := by
  unfold scheduler_select at h
  simp only at h
  split at h
  · exact absurd h (by simp)
  · injection h with h
    rw [← h]
    exact ⟨rfl, rfl, rfl⟩

theorem scheduler_preempt_keeps (s : kstate) :
    (scheduler_preempt s).proc_allocator = s.proc_allocator ∧
      (scheduler_preempt s).next_pid = s.next_pid ∧
      (scheduler_preempt s).timer_ticks = s.timer_ticks := by
  unfold scheduler_preempt
  split <;> exact ⟨rfl, rfl, rfl⟩

theorem scheduler_run_keeps (s s1 : kstate) (h : scheduler_run s = some s1) :
    s1.proc_allocator = s.proc_allocator ∧ s1.next_pid = s.next_pid ∧
      s1.timer_ticks = s.timer_ticks := by
  unfold scheduler_run at h
  split at h
  · split at h
    · injection h with h
      rw [← h]
      exact ⟨rfl, rfl, rfl⟩
    · obtain ⟨h1, h2, h3⟩ := scheduler_select_keeps _ _ h
      obtain ⟨g1, g2, g3⟩ := scheduler_preempt_keeps s
      exact ⟨h1.trans g1, h2.trans g2, h3.trans g3⟩
  · exact scheduler_select_keeps _ _ h

theorem scheduler_timer_keeps (s s1 : kstate) (h : scheduler_timer s = some s1) :
    s1.proc_allocator = s.proc_allocator ∧ s1.next_pid = s.next_pid ∧
      s1.timer_ticks = s.timer_ticks := by
  unfold scheduler_timer at h
  split at h
  · exact absurd h (by simp)
  · injection h with h
    rw [← h]
    exact ⟨rfl, rfl, rfl⟩

/-- What `kproc_create` returns and does to the allocator and to `next_pid`, in a
state that satisfies `kernel_inv`. -/
theorem kproc_create_result (proc_ptr : code_ptr) (proc_name : List Char) (proc_type : proc_type_t)
    (s : kstate) (hinv : kernel_inv s) :
    ∃ r s1, kproc_create proc_ptr proc_name proc_type s = some (r, s1) ∧
      ((queue_content s.proc_allocator = [] ∧ r = -1 ∧ s1 = s) ∨
        (∃ (e : Nat) (rest : List Int), queue_content s.proc_allocator = (e : Int) :: rest ∧
          1 ≤ e ∧ e < PROC_MAX ∧ proc_at s.proc_table e = proc_zero ∧
          queue_content s1.proc_allocator = rest ∧
          r = s.next_pid ∧ r ≠ -1 ∧ s1.next_pid = s.next_pid + 1 ∧
          (proc_at s1.proc_table e).pid = s.next_pid ∧
          (proc_at s1.proc_table e).state = .IDLE ∧
          (∀ i, i ≠ e → proc_at s1.proc_table i = proc_at s.proc_table i) ∧
          queue_content s1.run_queue = queue_content s.run_queue ++ [s.next_pid] ∧
          s1.current = s.current)) := by
  cases hal : queue_content s.proc_allocator with
  | nil => exact ⟨-1, s, kproc_create_none _ _ _ s hal, Or.inl ⟨rfl, rfl, rfl⟩⟩
  | cons x rest =>
    obtain ⟨e, rfl, he1, he, hez⟩ := hinv.alloc_head x rest hal
    obtain ⟨hrun, hrest⟩ := kproc_create_some proc_ptr proc_name proc_type s e rest hinv.wf hal he
    have hnp := hinv.next_pid_pos
    have hnp0 : s.next_pid ≠ 0 := by omega
    have hel : e < s.proc_table.length := by rw [hinv.wf.1]; exact he
    refine ⟨_, _, hrun, Or.inr ⟨e, rest, rfl, he1, he, hez, hrest, rfl, by omega, rfl, ?_, ?_, ?_,
      ?_, rfl⟩⟩
    · simp [proc_at_set, hel]
    · simp [proc_at_set, hel]
    · intro i hi
      simp [proc_at_set, hi]
    · simp only [ne_eq, hnp0, not_false_eq_true, if_true]
      exact queue_in_content _ _ hinv.wf.2.1 hinv.ready_room

theorem nth_create_result_ge (j : Nat) (h : PROC_MAX - 1 ≤ j) : nth_create_result j = -1 := by
  unfold nth_create_result
  rw [if_neg (by omega)]

theorem nth_create_result_lt (j : Nat) (h : j < PROC_MAX - 1) :
    nth_create_result j = (j : Int) + 1 := by
  unfold nth_create_result
  rw [if_pos h]

theorem kproc_destroy_keeps (proc : Option Nat) (s : kstate) (r : Int × kstate)
    (hinv : kernel_inv s) (h : kproc_destroy proc s = some r) :
    r.2.next_pid = s.next_pid ∧ r.2.timer_ticks = s.timer_ticks := by
  cases proc with
  | none => simp [kproc_destroy] at h
  | some p =>
    by_cases hpid : (proc_at s.proc_table p).pid = 0
    · rw [kproc_destroy_idle s p hpid] at h
      injection h with h
      rw [← h]; exact ⟨rfl, rfl⟩
    · obtain ⟨s1, hrun, _, _, _, _, _, _, hnp, htt⟩ := kproc_destroy_effect s p hinv hpid
      rw [hrun] at h
      injection h with h
      rw [← h]; exact ⟨hnp, htt⟩

theorem kcalls_created_no_destroy (cs : List kcall) :
    ∀ (s s1 : kstate) (rets : List Int), kernel_inv s →
      ((queue_content s.proc_allocator).length : Int) + s.next_pid = (PROC_MAX : Int) →
      (∀ c ∈ cs, c.is_destroy = false) →
      kcalls_created s cs = some (rets, s1) →
      rets = (List.range rets.length).map
        (fun i => nth_create_result (i + (s.next_pid - 1).toNat)) := by
  induction cs with
  | nil =>
    intro s s1 rets _ _ _ h
    simp only [kcalls_created] at h
    injection h with h
    injection h with h _
    rw [← h]; rfl
  | cons c cs ih =>
    intro s s1 rets hinv hJ hnd h
    have hnd' : ∀ c ∈ cs, c.is_destroy = false := fun c hc => hnd c (List.mem_cons_of_mem _ hc)
    have hnp := hinv.next_pid_pos
    simp only [kcalls_created] at h
    -- calls that leave the allocator and `next_pid` alone
    have hkeep : ∀ s2 : kstate, kernel_inv s2 → s2.proc_allocator = s.proc_allocator →
        s2.next_pid = s.next_pid → kcall_step_ret s c = some ([], s2) →
        rets = (List.range rets.length).map
          (fun i => nth_create_result (i + (s.next_pid - 1).toNat)) := by
      intro s2 hinv2 hal2 hnp2 hstep
      rw [hstep, Option.some_bind] at h
      cases hrest : kcalls_created s2 cs with
      | none => rw [hrest] at h; exact absurd h (by simp)
      | some t =>
        rw [hrest] at h
        simp only [Option.map_some', List.nil_append] at h
        injection h with h
        injection h with h1 _
        have := ih s2 t.2 t.1 hinv2 (by rw [hal2, hnp2]; exact hJ) hnd' (by rw [hrest])
        rw [hnp2] at this
        rw [← h1]; exact this
    cases c with
    | destroy proc =>
      have := hnd (.destroy proc) (by simp)
      simp [kcall.is_destroy] at this
    | timer =>
      cases ht : scheduler_timer s with
      | none => simp [kcall_step_ret, ht] at h
      | some s2 =>
        obtain ⟨h1, h2, _⟩ := scheduler_timer_keeps s s2 ht
        exact hkeep s2 (scheduler_timer_inv s s2 hinv ht) h1 h2 (by simp [kcall_step_ret, ht])
    | run =>
      cases ht : scheduler_run s with
      | none => simp [kcall_step_ret, ht] at h
      | some s2 =>
        obtain ⟨h1, h2, _⟩ := scheduler_run_keeps s s2 ht
        exact hkeep s2 (scheduler_run_inv s s2 hinv ht) h1 h2 (by simp [kcall_step_ret, ht])
    | create proc_ptr proc_name proc_type =>
      obtain ⟨r, s2, hcr, hcase⟩ := kproc_create_result proc_ptr proc_name proc_type s hinv
      have hinv2 := kproc_create_inv _ _ _ s (r, s2) hinv hcr
      simp only [kcall_step_ret, hcr, Option.map_some', Option.some_bind] at h
      cases hrest : kcalls_created s2 cs with
      | none => rw [hrest] at h; exact absurd h (by simp)
      | some t =>
        rw [hrest] at h
        simp only [Option.map_some', List.singleton_append] at h
        injection h with h
        injection h with h1 _
        rw [← h1]
        simp only [List.length_cons]
        rw [List.range_succ_eq_map, List.map_cons, List.map_map]
        rcases hcase with ⟨hal, hr, hs2⟩ | ⟨e, rest, hal, _, _, _, hal2, hr, _, hnp2, _⟩
        · rw [hal] at hJ
          simp only [List.length_nil, Nat.cast_zero, zero_add] at hJ
          have hoff : (s.next_pid - 1).toNat = PROC_MAX - 1 := by
            unfold PROC_MAX at hJ ⊢
            omega
          have := ih s2 t.2 t.1 hinv2 (by rw [hs2, hal]; simpa using hJ) hnd' (by rw [hrest])
          rw [hs2, hoff] at this
          rw [hoff, List.cons.injEq]
          constructor
          · rw [nth_create_result_ge _ (by omega), hr]
          · rw [this]
            simp only [List.length_map, List.length_range]
            apply List.map_congr_left
            intro i _
            simp only [Function.comp_apply]
            rw [nth_create_result_ge _ (by omega), nth_create_result_ge _ (by omega)]
        · rw [hal] at hJ
          simp only [List.length_cons, Nat.cast_add, Nat.cast_one] at hJ
          have hlt : (s.next_pid - 1).toNat < PROC_MAX - 1 := by
            unfold PROC_MAX at hJ ⊢
            omega
          have := ih s2 t.2 t.1 hinv2 (by rw [hal2, hnp2]; omega) hnd' (by rw [hrest])
          rw [List.cons.injEq]
          constructor
          · rw [hr, Nat.zero_add, nth_create_result_lt _ hlt]
            omega
          · rw [this]
            simp only [List.length_map, List.length_range]
            apply List.map_congr_left
            intro i _
            simp only [Function.comp_apply]
            congr 1
            rw [hnp2]
            omega

theorem kcalls_created_creates (cs : List kcall) :
    ∀ s : kstate, kernel_inv s → (∀ c ∈ cs, c.is_create = true) →
      ∃ rets s1, kcalls_created s cs = some (rets, s1) := by
  induction cs with
  | nil => intro s _ _; exact ⟨[], s, rfl⟩
  | cons c cs ih =>
    intro s hinv hc
    cases c with
    | create proc_ptr proc_name proc_type =>
      obtain ⟨r, s2, hcr, _⟩ := kproc_create_result proc_ptr proc_name proc_type s hinv
      have hinv2 := kproc_create_inv _ _ _ s (r, s2) hinv hcr
      obtain ⟨rets, s1, hrest⟩ := ih s2 hinv2 (fun c h => hc c (List.mem_cons_of_mem _ h))
      exact ⟨[r] ++ rets, s1, by simp [kcalls_created, kcall_step_ret, hcr, hrest]⟩
    | destroy proc => have := hc (.destroy proc) (by simp); simp [kcall.is_create] at this
    | timer => have := hc .timer (by simp); simp [kcall.is_create] at this
    | run => have := hc .run (by simp); simp [kcall.is_create] at this

theorem kernel_inv.full_alloc_empty {s : kstate} (hinv : kernel_inv s)
    (hfull : ∀ i, i < PROC_MAX → (proc_at s.proc_table i).state ≠ .NONE) :
    queue_content s.proc_allocator = [] := by
  cases hal : queue_content s.proc_allocator with
  | nil => rfl
  | cons x rest =>
    obtain ⟨e, _, _, he, hez⟩ := hinv.alloc_head x rest hal
    have := hfull e he
    rw [hez] at this
    exact absurd rfl this

set_option maxRecDepth 100000 in
theorem demo_boot_alloc :
    ((queue_content demo_boot.proc_allocator).length : Int) + demo_boot.next_pid = (PROC_MAX : Int) := by
  decide

/-- C13. Process-table exhaustion.  In a run from start-up without
`kproc_destroy`, the `i`-th `kproc_create` (counting from 0) returns the pid
`i + 1` for `i < PROC_MAX - 1` and -1 from then on: exactly `PROC_MAX - 1`
creations succeed.  A run made of creations only always returns.  In every
reachable state in which all `PROC_MAX` entries are in use, `kproc_create`
returns -1 and leaves the whole state (`next_pid`, the table, the allocator, the
ready queue) as it was. -/
theorem kproc_create_exhaustion (cs : List kcall) (s0 s : kstate) (rets : List Int)
    (hboot : kernel_boot = some s0) (hnd : ∀ c ∈ cs, c.is_destroy = false)
    (hrun : kcalls_created s0 cs = some (rets, s)) :
    PROC_MAX = 10 ∧
    rets = (List.range rets.length).map nth_create_result ∧
    (∀ cs1 : List kcall, (∀ c ∈ cs1, c.is_create = true) →
      ∃ rets1 s1, kcalls_created s0 cs1 = some (rets1, s1)) ∧
    (∀ t, reachable t → (∀ i, i < PROC_MAX → (proc_at t.proc_table i).state ≠ .NONE) →
      ∀ proc_ptr proc_name proc_type,
        kproc_create proc_ptr proc_name proc_type t = some (-1, t)) := by
  have hs0 : s0 = demo_boot := by
    rw [demo_boot_eq] at hboot
    injection hboot with h
    exact h.symm
  have hinv0 : kernel_inv s0 := kernel_boot_inv s0 hboot
  refine ⟨rfl, ?_, ?_, ?_⟩
  · have := kcalls_created_no_destroy cs s0 s rets hinv0 (by rw [hs0]; exact demo_boot_alloc)
      hnd hrun
    have hnp : s0.next_pid = 1 := by rw [hs0]; decide
    rw [hnp] at this
    simpa using this
  · intro cs1 hc
    exact kcalls_created_creates cs1 s0 hinv0 hc
  · intro t ht hfull proc_ptr proc_name proc_type
    exact kproc_create_none _ _ _ t ((reachable_inv t ht).full_alloc_empty hfull)

theorem kcalls_created_pids (cs : List kcall) :
    ∀ (s s1 : kstate) (rets : List Int), kernel_inv s →
      kcalls_created s cs = some (rets, s1) →
      rets.filter (fun r => r ≠ -1) =
        (List.range (rets.filter (fun r => r ≠ -1)).length).map (fun (i : Nat) => s.next_pid + (i : Int)) ∧
      s1.next_pid = s.next_pid + ((rets.filter (fun r => r ≠ -1)).length : Int) ∧
      kernel_inv s1 := by
  induction cs with
  | nil =>
    intro s s1 rets hinv h
    simp only [kcalls_created] at h
    injection h with h
    injection h with h1 h2
    rw [← h1, ← h2]
    simp [hinv]
  | cons c cs ih =>
    intro s s1 rets hinv h
    simp only [kcalls_created] at h
    have hkeep : ∀ s2 : kstate, kernel_inv s2 → s2.next_pid = s.next_pid →
        kcall_step_ret s c = some ([], s2) →
        rets.filter (fun r => r ≠ -1) =
          (List.range (rets.filter (fun r => r ≠ -1)).length).map
            (fun (i : Nat) => s.next_pid + (i : Int)) ∧
        s1.next_pid = s.next_pid + ((rets.filter (fun r => r ≠ -1)).length : Int) ∧
        kernel_inv s1 := by
      intro s2 hinv2 hnp2 hstep
      rw [hstep, Option.some_bind] at h
      cases hrest : kcalls_created s2 cs with
      | none => rw [hrest] at h; exact absurd h (by simp)
      | some t =>
        rw [hrest] at h
        simp only [Option.map_some', List.nil_append] at h
        injection h with h
        injection h with h1 h2
        have := ih s2 t.2 t.1 hinv2 (by rw [hrest])
        rw [hnp2, h1, h2] at this
        exact this
    cases c with
    | destroy proc =>
      cases ht : kproc_destroy proc s with
      | none => simp [kcall_step_ret, ht] at h
      | some r =>
        exact hkeep r.2 (kproc_destroy_inv proc s r hinv ht) (kproc_destroy_keeps proc s r hinv ht).1
          (by simp [kcall_step_ret, ht])
    | timer =>
      cases ht : scheduler_timer s with
      | none => simp [kcall_step_ret, ht] at h
      | some s2 =>
        exact hkeep s2 (scheduler_timer_inv s s2 hinv ht) (scheduler_timer_keeps s s2 ht).2.1
          (by simp [kcall_step_ret, ht])
    | run =>
      cases ht : scheduler_run s with
      | none => simp [kcall_step_ret, ht] at h
      | some s2 =>
        exact hkeep s2 (scheduler_run_inv s s2 hinv ht) (scheduler_run_keeps s s2 ht).2.1
          (by simp [kcall_step_ret, ht])
    | create proc_ptr proc_name proc_type =>
      obtain ⟨r, s2, hcr, hcase⟩ := kproc_create_result proc_ptr proc_name proc_type s hinv
      have hinv2 := kproc_create_inv _ _ _ s (r, s2) hinv hcr
      simp only [kcall_step_ret, hcr, Option.map_some', Option.some_bind] at h
      cases hrest : kcalls_created s2 cs with
      | none => rw [hrest] at h; exact absurd h (by simp)
      | some t =>
        rw [hrest] at h
        simp only [Option.map_some', List.singleton_append] at h
        injection h with h
        injection h with h1 h2
        obtain ⟨ih1, ih2, ih3⟩ := ih s2 t.2 t.1 hinv2 (by rw [hrest])
        rw [← h1, ← h2]
        rcases hcase with ⟨_, hr, hs2⟩ | ⟨e, rest, _, _, _, _, _, hr, hr1, hnp2, _⟩
        · have hf : (r :: t.1).filter (fun r => r ≠ -1) = t.1.filter (fun r => r ≠ -1) := by
            rw [List.filter_cons_of_neg]
            simp [hr]
          rw [hf]
          rw [hs2] at ih1 ih2
          exact ⟨ih1, ih2, ih3⟩
        · have hf : (r :: t.1).filter (fun r => r ≠ -1) = r :: t.1.filter (fun r => r ≠ -1) := by
            rw [List.filter_cons_of_pos]
            simp [hr1]
          rw [hf]
          refine ⟨?_, ?_, ih3⟩
          · simp only [List.length_cons]
            rw [List.range_succ_eq_map, List.map_cons, List.map_map, List.cons.injEq]
            constructor
            · rw [hr]; simp
            · rw [ih1]
              simp only [List.length_map, List.length_range]
              apply List.map_congr_left
              intro i _
              simp only [Function.comp_apply, Nat.succ_eq_add_one, Nat.cast_add, Nat.cast_one]
              rw [hnp2]
              omega
          · rw [ih2, hnp2]
            simp only [List.length_cons, Nat.cast_add, Nat.cast_one]
            omega

/-- C14. In a run from start-up (with any mix of creations, destructions, timer
ticks and scheduler runs) the pids that the successful `kproc_create` calls
return are 1, 2, 3, ... in call order, the idle process created by `kproc_init`
having pid 0; `next_pid` is one more than the number of successful creations.  In
the state reached, a `kproc_create` that fails returns -1 and leaves `next_pid`
alone; one that succeeds returns `next_pid`, which it stored as the pid of an
entry that was free, which no other entry carries, and increments `next_pid`. -/
theorem kproc_create_pids (cs : List kcall) (s0 s : kstate) (rets : List Int)
    (hboot : kernel_boot = some s0) (hrun : kcalls_created s0 cs = some (rets, s)) :
    (proc_at s0.proc_table 0).pid = 0 ∧
    rets.filter (fun r => r ≠ -1) =
      (List.range (rets.filter (fun r => r ≠ -1)).length).map (fun (i : Nat) => (i : Int) + 1) ∧
    s.next_pid = ((rets.filter (fun r => r ≠ -1)).length : Int) + 1 ∧
    (∀ proc_ptr proc_name proc_type, ∃ r s1,
      kproc_create proc_ptr proc_name proc_type s = some (r, s1) ∧
      ((r = -1 ∧ s1.next_pid = s.next_pid) ∨
        (r = s.next_pid ∧ r ≠ -1 ∧ s1.next_pid = s.next_pid + 1 ∧
          ∃ e, e < PROC_MAX ∧ proc_at s.proc_table e = proc_zero ∧
            (proc_at s1.proc_table e).pid = r ∧
            ∀ i, i ≠ e → (proc_at s1.proc_table i).pid ≠ r))) := by
  have hinv0 : kernel_inv s0 := kernel_boot_inv s0 hboot
  have hs0 : s0 = demo_boot := by
    rw [demo_boot_eq] at hboot
    injection hboot with h
    exact h.symm
  have hnp0 : s0.next_pid = 1 := by rw [hs0]; decide
  obtain ⟨h1, h2, hinv⟩ := kcalls_created_pids cs s0 s rets hinv0 hrun
  rw [hnp0] at h1 h2
  refine ⟨hinv0.idle_pid, ?_, by rw [h2]; omega, ?_⟩
  · rw [h1]
    simp only [List.length_map, List.length_range]
    apply List.map_congr_left
    intro i _
    omega
  · intro proc_ptr proc_name proc_type
    obtain ⟨r, s1, hcr, hcase⟩ := kproc_create_result proc_ptr proc_name proc_type s hinv
    refine ⟨r, s1, hcr, ?_⟩
    rcases hcase with ⟨_, hr, hs1⟩ | ⟨e, rest, _, _, he, hez, _, hr, hr1, hnp, hpid, _, hother, _⟩
    · exact Or.inl ⟨hr, by rw [hs1]⟩
    · refine Or.inr ⟨hr, hr1, hnp, e, he, hez, by rw [hpid, hr], ?_⟩
      intro i hi
      rw [hother i hi, hr]
      have := hinv.pid_lt i
      omega

/-! ## Theorems: the process stacks -/

theorem lor_land_self (a b : Nat) : (a ||| b) &&& b = b := by
  apply Nat.eq_of_testBit_eq
  intro i
  simp only [Nat.testBit_land, Nat.testBit_lor]
  cases a.testBit i <;> cases b.testBit i <;> rfl

/-- C15. `kproc_destroy` applied to an entry whose pid is 0 returns -1 and leaves
the process table, the stacks, the allocator, the ready queue and `current`
unchanged, whatever `current` is. -/
theorem kproc_destroy_pid_zero (m : kmachine) (p : Nat)
    (hpid : (proc_at m.vars.proc_table p).pid = 0) :
    kproc_destroy_full (some p) m = some (-1, m) ∧
    kproc_destroy (some p) m.vars = some (-1, m.vars) ∧
    kproc_destroy_stack (some p) m.vars m.proc_stack = m.proc_stack := by
  have h1 : kproc_destroy (some p) m.vars = some (-1, m.vars) := kproc_destroy_idle _ p hpid
  have h2 : kproc_destroy_stack (some p) m.vars m.proc_stack = m.proc_stack := by
    simp [kproc_destroy_stack, hpid]
  refine ⟨?_, h1, h2⟩
  simp only [kproc_destroy_full, h1, h2, Option.map_some']

theorem kproc_create_success (proc_ptr : code_ptr) (proc_name : List Char)
    (proc_type : proc_type_t) (s s1 : kstate) (r : Int) (hwf : kstate_wf s)
    (h : kproc_create proc_ptr proc_name proc_type s = some (r, s1)) (hr : r ≠ -1) :
    ∃ (e : Nat) (rest : List Int), e < PROC_MAX ∧
      queue_content s.proc_allocator = (e : Int) :: rest := by
  by_cases hsz : s.proc_allocator.size = 0
  · have hnil : queue_content s.proc_allocator = [] := by simp [queue_content, hsz]
    rw [kproc_create_none _ _ _ s hnil] at h
    injection h with h
    injection h with h1 _
    exact absurd h1.symm hr
  · have hout := queue_out_content _ 0 hwf.2.2 hsz
    by_cases hrange : 0 ≤ s.proc_allocator.items.getD s.proc_allocator.head 0 ∧
        s.proc_allocator.items.getD s.proc_allocator.head 0 < (PROC_MAX : Int)
    · refine ⟨(s.proc_allocator.items.getD s.proc_allocator.head 0).toNat,
        queue_content (queue_out s.proc_allocator (some 0)).2.1, ?_, ?_⟩
      · have := hrange.2
        unfold PROC_MAX at this ⊢
        omega
      · rw [Int.toNat_of_nonneg hrange.1]
        exact hout
    · unfold kproc_create at h
      rw [queue_out_some _ _ hsz] at h
      simp only [Option.getD_some] at h
      rw [if_neg (by decide), if_neg hrange] at h
      exact absurd h (by simp)

theorem kproc_create_stack_some (env : cpu_env) (proc_ptr : code_ptr) (s : kstate)
    (proc_stack : List stack_t) (e : Nat) (rest : List Int) (hwf : kstate_wf s)
    (hal : queue_content s.proc_allocator = (e : Int) :: rest) (he : e < PROC_MAX) :
    kproc_create_stack env proc_ptr s proc_stack =
      proc_stack.set e
        { low := (stack_at proc_stack e).low.map (fun _ => 0)
          top := trapframe_init env proc_ptr (trapframe_clear (stack_at proc_stack e).top) } := by
  have hsz : s.proc_allocator.size ≠ 0 := by
    have := congrArg List.length hal
    rw [queue_content_length] at this
    simp at this
    omega
  have hout := queue_out_content _ 0 hwf.2.2 hsz
  rw [hal] at hout
  injection hout with hhead _
  unfold kproc_create_stack
  rw [queue_out_some _ _ hsz]
  simp only [Option.getD_some, ← hhead]
  rw [if_neg (by decide)]
  have hrange : (0 : Int) ≤ (e : Int) ∧ (e : Int) < (PROC_MAX : Int) :=
    ⟨Int.natCast_nonneg e, by exact_mod_cast he⟩
  rw [if_pos hrange]
  simp only [Int.toNat_ofNat, stack_clear]

theorem stack_at_set (proc_stack : List stack_t) (n i : Nat) (row : stack_t) :
    stack_at (proc_stack.set n row) i =
      if i = n ∧ n < proc_stack.length then row else stack_at proc_stack i := by
  unfold stack_at
  by_cases h : n = i
  · subst h
    by_cases hl : n < proc_stack.length
    · simp [List.getD_eq_getElem?_getD, List.getElem?_set, hl]
    · have hn : proc_stack[n]? = none := List.getElem?_eq_none (by omega)
      simp [List.getD_eq_getElem?_getD, List.getElem?_set, hl, hn]
  · have h' : ¬ i = n := fun x => h x.symm
    simp [List.getD_eq_getElem?_getD, List.getElem?_set, h, h']

/-- C20. After a successful `kproc_create` the row of `proc_stack` that belongs to
the new entry `e` is zero in every byte below the initial trapframe, and the
trapframe at its top is zero except for `eip`, which is the address of the entry
code, `eflags`, which is `EF_DEFAULT_VALUE | EF_INTR` (so the interrupt-enable flag
is set), and `cs`, `ds`, `es`, `fs`, `gs`, which are the current segment
selectors.  The PCB's `stack` points to that row and its `trapframe` to the
trapframe at the top of it.  No other row is written. -/
theorem kproc_create_trapframe (env : cpu_env) (proc_ptr : code_ptr) (proc_name : List Char)
    (proc_type : proc_type_t) (m m1 : kmachine) (r : Int)
    (hwf : kstate_wf m.vars) (hrows : m.proc_stack.length = PROC_MAX)
    (h : kproc_create_full env proc_ptr proc_name proc_type m = some (r, m1))
    (hr : r ≠ -1) :
    ∃ e, e < PROC_MAX ∧
      (proc_at m1.vars.proc_table e).pid = r ∧
      (proc_at m1.vars.proc_table e).stack = some e ∧
      (proc_at m1.vars.proc_table e).trapframe = some (.stack_top e) ∧
      (∀ b ∈ (stack_at m1.proc_stack e).low, b = 0) ∧
      (stack_at m1.proc_stack e).low.length = (stack_at m.proc_stack e).low.length ∧
      (stack_at m1.proc_stack e).top.eip = env.code_addr proc_ptr ∧
      (stack_at m1.proc_stack e).top.eflags = env.EF_DEFAULT_VALUE ||| env.EF_INTR ∧
      (stack_at m1.proc_stack e).top.eflags &&& env.EF_INTR = env.EF_INTR ∧
      (stack_at m1.proc_stack e).top.cs = env.get_cs ∧
      (stack_at m1.proc_stack e).top.ds = env.get_ds ∧
      (stack_at m1.proc_stack e).top.es = env.get_es ∧
      (stack_at m1.proc_stack e).top.fs = env.get_fs ∧
      (stack_at m1.proc_stack e).top.gs = env.get_gs ∧
      (stack_at m1.proc_stack e).top.interrupt = 0 ∧
      (∀ b ∈ (stack_at m1.proc_stack e).top.regs, b = 0) ∧
      (∀ i, i ≠ e → stack_at m1.proc_stack i = stack_at m.proc_stack i) := by
  unfold kproc_create_full at h
  cases hcr : kproc_create proc_ptr proc_name proc_type m.vars with
  | none => rw [hcr] at h; exact absurd h (by simp)
  | some res =>
    rw [hcr] at h
    simp only [Option.map_some'] at h
    injection h with h
    injection h with hr1 hm1
    obtain ⟨e, rest, he, hal⟩ :=
      kproc_create_success proc_ptr proc_name proc_type m.vars res.2 res.1 hwf hcr
        (by rw [hr1]; exact hr)
    obtain ⟨hsome, _⟩ := kproc_create_some proc_ptr proc_name proc_type m.vars e rest hwf hal he
    rw [hsome] at hcr
    injection hcr with hcr
    have hel : e < m.vars.proc_table.length := by rw [hwf.1]; exact he
    have hes : e < m.proc_stack.length := by rw [hrows]; exact he
    have hstack := kproc_create_stack_some env proc_ptr m.vars m.proc_stack e rest hwf hal he
    have hv : m1.vars = res.2 := by rw [← hm1]
    have hps : m1.proc_stack = kproc_create_stack env proc_ptr m.vars m.proc_stack := by
      rw [← hm1]
    have hrow : stack_at m1.proc_stack e =
        { low := (stack_at m.proc_stack e).low.map (fun _ => 0)
          top := trapframe_init env proc_ptr (trapframe_clear (stack_at m.proc_stack e).top) } := by
      rw [hps, hstack, stack_at_set]
      simp [hes]
    have hentry : proc_at m1.vars.proc_table e =
        { pid := m.vars.next_pid, state := .IDLE, type := proc_type,
          name := proc_name.take (PROC_NAME_LEN - 1), start_time := m.vars.timer_ticks,
          run_time := 0, cpu_time := 0, stack := some e, trapframe := some (.stack_top e) } := by
      rw [hv, ← hcr]
      simp [proc_at_set, hel]
    have hret : r = m.vars.next_pid := by rw [← hr1, ← hcr]
    refine ⟨e, he, by rw [hentry, hret], by rw [hentry], by rw [hentry], ?_, ?_, ?_, ?_, ?_, ?_,
      ?_, ?_, ?_, ?_, ?_, ?_, ?_⟩
    · rw [hrow]
      intro b hb
      simp only [List.mem_map] at hb
      obtain ⟨_, _, hb⟩ := hb
      exact hb.symm
    · rw [hrow]; simp
    · rw [hrow]; rfl
    · rw [hrow]; rfl
    · rw [hrow]; exact lor_land_self _ _
    · rw [hrow]; rfl
    · rw [hrow]; rfl
    · rw [hrow]; rfl
    · rw [hrow]; rfl
    · rw [hrow]; rfl
    · rw [hrow]; rfl
    · rw [hrow]
      intro b hb
      simp only [trapframe_init, trapframe_clear, List.mem_map] at hb
      obtain ⟨_, _, hb⟩ := hb
      exact hb.symm
    · intro i hi
      rw [hps, hstack, stack_at_set]
      simp [hi]

/-! ## Theorems: creation and destruction of processes -/

/-- C19. A successful `kproc_create` leaves the new PCB in state IDLE with the
requested type, `run_time` 0, `cpu_time` 0 and `start_time` equal to the tick
count, and (the ready queue having room) a new pid other than 0 is appended at
the tail of the ready queue behind the pids already queued, while with pid 0 (the
idle process) the ready queue is left as it was. -/
theorem kproc_create_admits (proc_ptr : code_ptr) (proc_name : List Char)
    (proc_type : proc_type_t) (s s1 : kstate) (r : Int)
    (hwf : kstate_wf s) (hroom : s.run_queue.size ≠ QUEUE_SIZE)
    (h : kproc_create proc_ptr proc_name proc_type s = some (r, s1)) (hr : r ≠ -1) :
    ∃ e, e < PROC_MAX ∧
      (proc_at s1.proc_table e).pid = r ∧
      (proc_at s1.proc_table e).state = .IDLE ∧
      (proc_at s1.proc_table e).type = proc_type ∧
      (proc_at s1.proc_table e).run_time = 0 ∧
      (proc_at s1.proc_table e).cpu_time = 0 ∧
      (proc_at s1.proc_table e).start_time = s.timer_ticks ∧
      (r ≠ 0 → queue_content s1.run_queue = queue_content s.run_queue ++ [r]) ∧
      (r = 0 → s1.run_queue = s.run_queue) := by
  obtain ⟨e, rest, he, hal⟩ := kproc_create_success proc_ptr proc_name proc_type s s1 r hwf h hr
  obtain ⟨hsome, _⟩ := kproc_create_some proc_ptr proc_name proc_type s e rest hwf hal he
  rw [hsome] at h
  injection h with h
  injection h with hr1 hs1
  have hel : e < s.proc_table.length := by rw [hwf.1]; exact he
  have hentry : proc_at s1.proc_table e =
      { pid := s.next_pid, state := .IDLE, type := proc_type,
        name := proc_name.take (PROC_NAME_LEN - 1), start_time := s.timer_ticks,
        run_time := 0, cpu_time := 0, stack := some e, trapframe := some (.stack_top e) } := by
    rw [← hs1]
    simp [proc_at_set, hel]
  refine ⟨e, he, by rw [hentry, ← hr1], by rw [hentry], by rw [hentry], by rw [hentry],
    by rw [hentry], by rw [hentry], ?_, ?_⟩
  · intro hr0
    rw [← hr1] at hr0
    rw [← hs1, ← hr1]
    simp only [ne_eq, hr0, not_false_eq_true, if_true]
    exact queue_in_content _ _ hwf.2.1 hroom
  · intro hr0
    rw [← hr1] at hr0
    rw [← hs1]
    simp [hr0]

theorem pid_to_proc_none (tbl : List proc_t) (pid : Int)
    (h : ∀ i, (proc_at tbl i).pid ≠ pid) : pid_to_proc tbl pid = none := by
  unfold pid_to_proc
  rw [List.find?_eq_none]
  intro i _
  simpa using h i

/-- C18. In a reachable state and for a pid `p` other than 0: when an entry of the
table carries `p`, `pid_to_proc` returns that entry, which is in use; when none
does, it returns not-found; and whenever it returns an entry, the pid of that
entry is `p`. -/
theorem pid_to_proc_finds (s : kstate) (p : Int) (h : reachable s) (hp : p ≠ 0) :
    (∀ i, i < PROC_MAX → (proc_at s.proc_table i).pid = p →
      pid_to_proc s.proc_table p = some i ∧ (proc_at s.proc_table i).state ≠ .NONE) ∧
    ((∀ i, i < PROC_MAX → (proc_at s.proc_table i).pid ≠ p) →
      pid_to_proc s.proc_table p = none) ∧
    (∀ n, pid_to_proc s.proc_table p = some n →
      n < PROC_MAX ∧ (proc_at s.proc_table n).pid = p ∧
        (proc_at s.proc_table n).state ≠ .NONE) := by
  have hinv := reachable_inv s h
  refine ⟨?_, ?_, ?_⟩
  · intro i hi hpid
    have hnz : (proc_at s.proc_table i).pid ≠ 0 := by rw [hpid]; exact hp
    refine ⟨?_, (hinv.live i hnz).1⟩
    rw [← hpid]
    exact pid_to_proc_of_entry _ i hi hinv.pid_unique hnz
  · intro hno
    apply pid_to_proc_none
    intro i hpid
    have hnz : (proc_at s.proc_table i).pid ≠ 0 := by rw [hpid]; exact hp
    exact hno i (hinv.entry_lt i hnz) hpid
  · intro n hn
    obtain ⟨h1, h2⟩ := pid_to_proc_some _ _ _ hn
    exact ⟨h1, h2, (hinv.live n (by rw [h2]; exact hp)).1⟩

/-- C16. In a reachable state, `kproc_destroy` of an entry `p` with a non-zero pid
returns 0, zeroes the entry and puts the index `p` at the tail of the
allocator.  When every entry of the table is in use, `kproc_create` fails before
the destruction and succeeds after it, and the new process occupies entry `p`. -/
theorem kproc_destroy_frees_slot (s : kstate) (p : Nat) (h : reachable s)
    (hpid : (proc_at s.proc_table p).pid ≠ 0) :
    ∃ s1, kproc_destroy (some p) s = some (0, s1) ∧
      proc_at s1.proc_table p = proc_zero ∧
      queue_content s1.proc_allocator = queue_content s.proc_allocator ++ [(p : Int)] ∧
      ((∀ i, i < PROC_MAX → (proc_at s.proc_table i).state ≠ .NONE) →
        ∀ proc_ptr proc_name proc_type,
          kproc_create proc_ptr proc_name proc_type s = some (-1, s) ∧
          ∃ r s2, kproc_create proc_ptr proc_name proc_type s1 = some (r, s2) ∧ r ≠ -1 ∧
            (proc_at s2.proc_table p).pid = r ∧
            (proc_at s2.proc_table p).state = .IDLE ∧
            ∀ i, i ≠ p → proc_at s2.proc_table i = proc_at s1.proc_table i) := by
  have hinv := reachable_inv s h
  obtain ⟨s1, hd, htbl, _, _, _, _, halc, _, _⟩ := kproc_destroy_effect s p hinv hpid
  have hinv1 := kproc_destroy_inv (some p) s (0, s1) hinv hd
  have hpl : p < s.proc_table.length := by rw [hinv.wf.1]; exact hinv.entry_lt p hpid
  refine ⟨s1, hd, ?_, halc, ?_⟩
  · rw [htbl, proc_at_set]; simp [hpl]
  · intro hfull proc_ptr proc_name proc_type
    have hempty := hinv.full_alloc_empty hfull
    refine ⟨kproc_create_none _ _ _ s hempty, ?_⟩
    obtain ⟨r, s2, hcr, hcase⟩ := kproc_create_result proc_ptr proc_name proc_type s1 hinv1
    rw [halc, hempty] at hcase
    rcases hcase with ⟨hnil, _, _⟩ | ⟨e, rest, hal, _, _, _, _, hr, hr1, _, hpid2, hst2, hother, _⟩
    · simp at hnil
    · simp only [List.nil_append, List.cons.injEq] at hal
      have hep : e = p := by exact_mod_cast hal.1.symm
      subst hep
      exact ⟨r, s2, hcr, hr1, by rw [hpid2, hr], hst2, hother⟩

theorem scheduler_select_pids (t t1 : kstate) (hq : queue_wf t.run_queue)
    (h : scheduler_select t = some t1) :
    (∀ i, (proc_at t1.proc_table i).pid = (proc_at t.proc_table i).pid) ∧
    (∀ q ∈ queue_content t1.run_queue, q ∈ queue_content t.run_queue) := by
  obtain ⟨n, ht1, hcase⟩ := scheduler_select_cases t t1 hq h
  constructor
  · intro i
    have htbl : t1.proc_table =
        proc_update t.proc_table n (fun e => { e with state := .RUNNING }) := by rw [ht1]
    rw [htbl, proc_at_update_pid]
    intro e; rfl
  · intro q hq1
    rcases hcase with ⟨_, h1, _⟩ | ⟨rest, hc, h1, _⟩
    · rw [h1] at hq1; simp at hq1
    · rw [h1] at hq1; rw [hc]; exact List.mem_cons_of_mem _ hq1

theorem scheduler_preempt_pids (s : kstate) (hq : queue_wf s.run_queue)
    (hroom : s.run_queue.size ≠ QUEUE_SIZE) :
    (∀ i, (proc_at (scheduler_preempt s).proc_table i).pid = (proc_at s.proc_table i).pid) ∧
    (∀ q ∈ queue_content (scheduler_preempt s).run_queue,
      q ∈ queue_content s.run_queue ∨ ∃ c, q = (proc_at s.proc_table c).pid) ∧
    queue_wf (scheduler_preempt s).run_queue := by
  cases hc : s.current with
  | none =>
    rw [scheduler_preempt_none s hc]
    exact ⟨fun _ => rfl, fun q hq1 => Or.inl hq1, hq⟩
  | some c =>
    have hrq : (scheduler_preempt s).run_queue =
        if (proc_at s.proc_table c).pid ≠ 0 then
          (queue_in s.run_queue (proc_at s.proc_table c).pid).2 else s.run_queue := by
      simp [scheduler_preempt, hc]
    refine ⟨?_, ?_, ?_⟩
    · intro i
      rw [scheduler_preempt_table s c hc]
      exact proc_at_update_proj (fun e => e.pid) _ _ _ _ (fun _ => rfl)
    · intro q hq1
      rw [hrq] at hq1
      split at hq1
      · rw [queue_in_content _ _ hq hroom] at hq1
        rcases List.mem_append.mp hq1 with h1 | h1
        · exact Or.inl h1
        · simp only [List.mem_singleton] at h1
          exact Or.inr ⟨c, h1⟩
      · exact Or.inl hq1
    · rw [hrq]
      split
      · exact queue_in_wf _ _ hq
      · exact hq

theorem kcall_step_retired (pid : Int) (s s1 : kstate) (c : kcall) (hinv : kernel_inv s)
    (hret : pid_retired pid s) (h : kcall_step s c = some s1) : pid_retired pid s1 := by
  obtain ⟨hp0, hlt, hno, hnq⟩ := hret
  cases c with
  | create proc_ptr proc_name proc_type =>
    obtain ⟨r, s2, hcr, hcase⟩ := kproc_create_result proc_ptr proc_name proc_type s hinv
    simp only [kcall_step, hcr, Option.map_some'] at h
    injection h with h
    rw [← h]
    rcases hcase with ⟨_, _, hs2⟩ | ⟨e, rest, _, _, _, _, _, _, _, hnp, hpid, _, hother, hrq, _⟩
    · rw [hs2]; exact ⟨hp0, hlt, hno, hnq⟩
    · refine ⟨hp0, by rw [hnp]; omega, ?_, ?_⟩
      · intro i
        by_cases hi : i = e
        · rw [hi, hpid]; omega
        · rw [hother i hi]; exact hno i
      · rw [hrq]
        intro hm
        rcases List.mem_append.mp hm with h1 | h1
        · exact hnq h1
        · simp only [List.mem_singleton] at h1
          omega
  | destroy proc =>
    cases proc with
    | none => simp [kcall_step, kproc_destroy] at h
    | some p =>
      by_cases hpid : (proc_at s.proc_table p).pid = 0
      · simp only [kcall_step, kproc_destroy_idle s p hpid, Option.map_some'] at h
        injection h with h
        rw [← h]; exact ⟨hp0, hlt, hno, hnq⟩
      · obtain ⟨s2, hd, htbl, _, hperm, _, _, _, hnp, _⟩ := kproc_destroy_effect s p hinv hpid
        simp only [kcall_step, hd, Option.map_some'] at h
        injection h with h
        rw [← h]
        refine ⟨hp0, by rw [hnp]; exact hlt, ?_, ?_⟩
        · intro i
          rw [htbl, proc_at_set]
          split
          · exact fun x => hp0 x.symm
          · exact hno i
        · intro hm
          exact hnq (List.mem_of_mem_erase (hperm.mem_iff.mp hm))
  | timer =>
    simp only [kcall_step] at h
    obtain ⟨_, hnp, _⟩ := scheduler_timer_keeps s s1 h
    unfold scheduler_timer at h
    split at h
    · exact absurd h (by simp)
    · injection h with h
      refine ⟨hp0, by rw [hnp]; exact hlt, ?_, ?_⟩
      · intro i
        rw [← h]
        dsimp only
        rw [proc_at_update_pid]
        · exact hno i
        · intro e; rfl
      · rw [← h]; exact hnq
  | run =>
    simp only [kcall_step] at h
    obtain ⟨_, hnp, _⟩ := scheduler_run_keeps s s1 h
    have hpre := scheduler_preempt_pids s hinv.wf.2.1 hinv.ready_room
    have hsel : ∀ t1, scheduler_select (scheduler_preempt s) = some t1 → pid_retired pid t1 := by
      intro t1 ht1
      obtain ⟨g1, g2⟩ := scheduler_select_pids _ _ hpre.2.2 ht1
      obtain ⟨_, hnp1, _⟩ := scheduler_select_keeps _ _ ht1
      refine ⟨hp0, by rw [hnp1, (scheduler_preempt_keeps s).2.1]; exact hlt, ?_, ?_⟩
      · intro i
        rw [g1, hpre.1]; exact hno i
      · intro hm
        rcases hpre.2.1 _ (g2 _ hm) with h1 | ⟨c, h1⟩
        · exact hnq h1
        · exact hno c h1.symm
    cases hc : s.current with
    | none =>
      rw [scheduler_run_none s hc] at h
      exact hsel s1 h
    | some c =>
      by_cases ht : (proc_at s.proc_table c).cpu_time < SCHEDULER_TIMESLICE
      · simp only [scheduler_run, hc, ht, if_true] at h
        injection h with h
        rw [← h]; exact ⟨hp0, hlt, hno, hnq⟩
      · rw [scheduler_run_expired s c hc (not_lt.mp ht)] at h
        exact hsel s1 h

theorem kcalls_run_retired (pid : Int) (cs : List kcall) :
    ∀ (s s1 : kstate), kernel_inv s → pid_retired pid s → kcalls_run s cs = some s1 →
      pid_retired pid s1 := by
  induction cs with
  | nil =>
    intro s s1 _ hret h
    simp only [kcalls_run] at h
    injection h with h
    rw [← h]; exact hret
  | cons c cs ih =>
    intro s s1 hinv hret h
    simp only [kcalls_run] at h
    cases hstep : kcall_step s c with
    | none => rw [hstep] at h; exact absurd h (by simp)
    | some s2 =>
      rw [hstep, Option.some_bind] at h
      exact ih s2 s1 (kcall_step_inv s s2 c hinv hstep) (kcall_step_retired pid s s2 c hinv hret hstep) h

/-- C17. In a reachable state, `kproc_destroy` of an entry `p` whose pid is not 0,
be it the current process or a queued one, returns 0, and afterwards that pid is
not in the ready queue, `current` does not point to entry `p`, and `pid_to_proc` of
the pid reports not-found.  This stays so through every later sequence of calls:
the pid is never queued again, never found by `pid_to_proc`, and never the pid of
the current process. -/
theorem kproc_destroy_unschedules (s : kstate) (p : Nat) (h : reachable s)
    (hpid : (proc_at s.proc_table p).pid ≠ 0) :
    ∃ s1, kproc_destroy (some p) s = some (0, s1) ∧
      (proc_at s.proc_table p).pid ∉ queue_content s1.run_queue ∧
      s1.current ≠ some p ∧
      pid_to_proc s1.proc_table (proc_at s.proc_table p).pid = none ∧
      ∀ cs s2, kcalls_run s1 cs = some s2 →
        (proc_at s.proc_table p).pid ∉ queue_content s2.run_queue ∧
        pid_to_proc s2.proc_table (proc_at s.proc_table p).pid = none ∧
        ∀ c, s2.current = some c →
          (proc_at s2.proc_table c).pid ≠ (proc_at s.proc_table p).pid := by
  have hinv := reachable_inv s h
  obtain ⟨s1, hd, htbl, _, hperm, hcur, _, _, hnp, _⟩ := kproc_destroy_effect s p hinv hpid
  have hinv1 := kproc_destroy_inv (some p) s (0, s1) hinv hd
  have hret : pid_retired (proc_at s.proc_table p).pid s1 := by
    refine ⟨hpid, by rw [hnp]; exact hinv.pid_lt p, ?_, ?_⟩
    · intro i
      rw [htbl, proc_at_set]
      split
      · exact fun x => hpid x.symm
      · next hne =>
        intro heq
        have hip := hinv.pid_unique i p heq (by rw [heq]; exact hpid)
        apply hne
        refine ⟨hip, ?_⟩
        rw [hinv.wf.1]; exact hinv.entry_lt p hpid
    · intro hm
      have := hperm.mem_iff.mp hm
      rw [hinv.ready_nodup.mem_erase_iff] at this
      exact this.1 rfl
  refine ⟨s1, hd, hret.2.2.2, ?_, pid_to_proc_none _ _ hret.2.2.1, ?_⟩
  · rw [hcur]
    split
    · simp
    · next hne => exact hne
  · intro cs s2 hrun
    have hret2 := kcalls_run_retired _ cs s1 s2 hinv1 hret hrun
    exact ⟨hret2.2.2.2, pid_to_proc_none _ _ hret2.2.2.1, fun c _ => hret2.2.2.1 c⟩

/-! ## Witnesses for creation and destruction -/

set_option maxRecDepth 100000 in
theorem demo_full_eq :
    kcalls_created demo_boot demo_fill = some ([1, 2, 3, 4, 5, 6, 7, 8, 9, -1], demo_full) := by
  decide

set_option maxRecDepth 100000 in
theorem demo_full_run : kcalls_run demo_boot demo_fill = some demo_full := by decide

theorem demo_full_reachable : reachable demo_full :=
  reachable_kcalls_run _ _ _ (reachable.boot _ demo_boot_eq) demo_full_run

set_option maxRecDepth 100000 in
theorem demo_recycled_eq :
    kcalls_created demo_boot demo_recycle =
      some ([1, 2, 3, 4, 5, 6, 7, 8, 9, -1, 10], demo_recycled) := by
  decide

set_option maxRecDepth 100000 in
theorem demo_one_eq :
    kproc_create (.fn 1) "a".toList .PROC_TYPE_USER demo_boot = some (1, demo_one) := by
  decide

set_option maxRecDepth 100000 in
/-- C13 at ten creations after start-up: nine succeed, the tenth fails, and in
the full table a further creation fails and changes nothing. -/
theorem kproc_create_exhaustion_witness :
    kcalls_created demo_boot demo_fill = some ([1, 2, 3, 4, 5, 6, 7, 8, 9, -1], demo_full) ∧
    ([1, 2, 3, 4, 5, 6, 7, 8, 9, -1] : List Int) = (List.range 10).map nth_create_result ∧
    kproc_create (.fn 3) "r".toList .PROC_TYPE_KERNEL demo_full = some (-1, demo_full) :=
  ⟨demo_full_eq,
    (kproc_create_exhaustion demo_fill demo_boot demo_full _ demo_boot_eq (by decide)
      demo_full_eq).2.1,
    (kproc_create_exhaustion demo_fill demo_boot demo_full _ demo_boot_eq (by decide)
      demo_full_eq).2.2.2 demo_full demo_full_reachable (by decide) _ _ _⟩

set_option maxRecDepth 100000 in
/-- C14 at a run that fills the table, fails once, destroys entry 4 and creates
again: the new process gets pid 10, in the recycled entry 4. -/
theorem kproc_create_pids_witness :
    (proc_at demo_recycled.proc_table 4).pid = 10 ∧
    ([1, 2, 3, 4, 5, 6, 7, 8, 9, -1, 10] : List Int).filter (fun r => r ≠ -1) =
      (List.range 10).map (fun (i : Nat) => (i : Int) + 1) ∧
    demo_recycled.next_pid = 11 :=
  ⟨by decide,
    (kproc_create_pids demo_recycle demo_boot demo_recycled _ demo_boot_eq demo_recycled_eq).2.1,
    (kproc_create_pids demo_recycle demo_boot demo_recycled _ demo_boot_eq demo_recycled_eq).2.2.1⟩

set_option maxRecDepth 100000 in
/-- C15 at `demo_machine`, destroying the idle process (entry 0). -/
theorem kproc_destroy_pid_zero_witness :
    kproc_destroy_full (some 0) demo_machine = some (-1, demo_machine) ∧
    kproc_destroy (some 0) demo_machine.vars = some (-1, demo_machine.vars) ∧
    kproc_destroy_stack (some 0) demo_machine.vars demo_machine.proc_stack =
      demo_machine.proc_stack :=
  kproc_destroy_pid_zero demo_machine 0 (by decide)

set_option maxRecDepth 100000 in
/-- C16 at `demo_full`, destroying entry 4 of the full table. -/
theorem kproc_destroy_frees_slot_witness :
    ∃ s1, kproc_destroy (some 4) demo_full = some (0, s1) ∧
      proc_at s1.proc_table 4 = proc_zero ∧
      queue_content s1.proc_allocator = queue_content demo_full.proc_allocator ++ [(4 : Int)] ∧
      kproc_create (.fn 2) "q".toList .PROC_TYPE_USER demo_full = some (-1, demo_full) ∧
      ∃ r s2, kproc_create (.fn 2) "q".toList .PROC_TYPE_USER s1 = some (r, s2) ∧ r ≠ -1 ∧
        (proc_at s2.proc_table 4).pid = r := by
  obtain ⟨s1, h1, h2, h3, h4⟩ :=
    kproc_destroy_frees_slot demo_full 4 demo_full_reachable (by decide)
  obtain ⟨h5, r, s2, h6, h7, h8, _⟩ := h4 (by decide) (.fn 2) "q".toList .PROC_TYPE_USER
  exact ⟨s1, h1, h2, h3, h5, r, s2, h6, h7, h8⟩

set_option maxRecDepth 100000 in
/-- C17 at `demo_running`, destroying the queued process with pid 2. -/
theorem kproc_destroy_unschedules_witness :
    (proc_at demo_running.proc_table 2).pid = 2 ∧
    ∃ s1, kproc_destroy (some 2) demo_running = some (0, s1) ∧
      (2 : Int) ∉ queue_content s1.run_queue ∧
      s1.current ≠ some 2 ∧
      pid_to_proc s1.proc_table 2 = none := by
  obtain ⟨s1, h1, h2, h3, h4, _⟩ :=
    kproc_destroy_unschedules demo_running 2 demo_running_reachable (by decide)
  exact ⟨by decide, s1, h1, h2, h3, h4⟩

set_option maxRecDepth 100000 in
/-- C18 at `demo_ready` and pid 2, which entry 2 carries. -/
theorem pid_to_proc_finds_witness :
    (proc_at demo_ready.proc_table 2).pid = 2 ∧
    pid_to_proc demo_ready.proc_table 2 = some 2 ∧
    (proc_at demo_ready.proc_table 2).state ≠ .NONE :=
  ⟨by decide,
    ((pid_to_proc_finds demo_ready 2 demo_ready_reachable (by decide)).1 2 (by decide)
      (by decide)).1,
    ((pid_to_proc_finds demo_ready 2 demo_ready_reachable (by decide)).1 2 (by decide)
      (by decide)).2⟩

set_option maxRecDepth 100000 in
/-- C19 at `demo_boot`: the first creation after start-up. -/
theorem kproc_create_admits_witness :
    ∃ e, e < PROC_MAX ∧
      (proc_at demo_one.proc_table e).pid = 1 ∧
      (proc_at demo_one.proc_table e).state = .IDLE ∧
      (proc_at demo_one.proc_table e).type = .PROC_TYPE_USER ∧
      (proc_at demo_one.proc_table e).run_time = 0 ∧
      (proc_at demo_one.proc_table e).cpu_time = 0 ∧
      (proc_at demo_one.proc_table e).start_time = demo_boot.timer_ticks ∧
      ((1 : Int) ≠ 0 → queue_content demo_one.run_queue = queue_content demo_boot.run_queue ++ [1]) ∧
      ((1 : Int) = 0 → demo_one.run_queue = demo_boot.run_queue) :=
  kproc_create_admits (.fn 1) "a".toList .PROC_TYPE_USER demo_boot demo_one 1 (by decide)
    (by decide) demo_one_eq (by decide)

theorem demo_machine_one_eq :
    kproc_create_full demo_env (.fn 1) "a".toList .PROC_TYPE_USER demo_machine =
      some (1, demo_machine_one) := by
  unfold kproc_create_full
  have : demo_machine.vars = demo_boot := rfl
  rw [this, demo_one_eq]
  rfl

set_option maxRecDepth 100000 in
/-- C20 at `demo_machine`: the first creation after start-up, into a row whose
bytes were all non-zero. -/
theorem kproc_create_trapframe_witness :
    ∃ e, e < PROC_MAX ∧
      (proc_at demo_machine_one.vars.proc_table e).pid = 1 ∧
      (proc_at demo_machine_one.vars.proc_table e).trapframe = some (.stack_top e) ∧
      (∀ b ∈ (stack_at demo_machine_one.proc_stack e).low, b = 0) ∧
      (stack_at demo_machine_one.proc_stack e).top.eip = 1 ∧
      (stack_at demo_machine_one.proc_stack e).top.eflags = 514 ∧
      (stack_at demo_machine_one.proc_stack e).top.cs = 8 := by
  obtain ⟨e, h1, h2, _, h4, h5, _, h7, h8, _, h10, _⟩ :=
    kproc_create_trapframe demo_env (.fn 1) "a".toList .PROC_TYPE_USER demo_machine
      demo_machine_one 1 (by decide) (by decide) demo_machine_one_eq (by decide)
  exact ⟨e, h1, h2, h4, h5, h7, h8, h10⟩

/-! ## Theorems: the timer table -/

theorem timer_at_set (tbl : List timer_t) (n i : Nat) (e : timer_t) :
    timer_at (tbl.set n e) i = if i = n ∧ n < tbl.length then e else timer_at tbl i := by
  unfold timer_at
  by_cases h : n = i
  · subst h
    by_cases hl : n < tbl.length
    · simp [List.getD_eq_getElem?_getD, List.getElem?_set, hl]
    · have hn : tbl[n]? = none := List.getElem?_eq_none (by omega)
      simp [List.getD_eq_getElem?_getD, List.getElem?_set, hl, hn]
  · have h' : ¬ i = n := fun x => h x.symm
    simp [List.getD_eq_getElem?_getD, List.getElem?_set, h, h']

theorem timer_at_mem (tbl : List timer_t) (i : Nat) (hi : i < tbl.length) :
    timer_at tbl i ∈ tbl := by
  unfold timer_at
  rw [List.getD_eq_getElem _ _ hi]
  exact List.getElem_mem hi

theorem timer_at_zero_of_le (tbl : List timer_t) (i : Nat) (hi : tbl.length ≤ i) :
    timer_at tbl i = timer_zero := by
  unfold timer_at
  simp [List.getD_eq_getElem?_getD, List.getElem?_eq_none hi]

theorem timer_ok_at (tv : timer_vars) (h : timer_ok tv) (i : Nat)
    (hc : (timer_at tv.timers i).callback ≠ none) : (timer_at tv.timers i).interval ≠ 0 := by
  by_cases hi : i < tv.timers.length
  · exact h _ (timer_at_mem _ _ hi) hc
  · rw [timer_at_zero_of_le _ _ (by omega)] at hc
    exact absurd rfl hc

theorem timer_ok_of_at (tv : timer_vars)
    (h : ∀ i, (timer_at tv.timers i).callback ≠ none → (timer_at tv.timers i).interval ≠ 0) :
    timer_ok tv := by
  intro t ht hc
  obtain ⟨i, hi, rfl⟩ := List.getElem_of_mem ht
  have := h i
  unfold timer_at at this
  rw [List.getD_eq_getElem _ _ hi] at this
  exact this hc

set_option maxRecDepth 100000 in
theorem timer_boot_eq : timer_boot =
    { timer_ticks := 0, timers := List.replicate 32 timer_zero,
      timer_allocator :=
        { items := (List.range 32).map (fun (i : Nat) => (i : Int)) ++ List.replicate 32 0,
          head := 0, tail := 32, size := 32 } } := by
  decide

set_option maxRecDepth 100000 in
theorem timer_boot_pool :
    queue_content timer_boot.timer_allocator = (List.range 32).map (fun (i : Nat) => (i : Int)) := by
  rw [timer_boot_eq]; decide

set_option maxRecDepth 100000 in
theorem timer_boot_inv : timer_inv timer_boot := by
  refine ⟨?_, ?_, ?_, ?_⟩
  · rw [timer_boot_eq]; decide
  · rw [timer_boot_eq]; decide
  · rw [timer_boot_pool]; decide
  · rw [timer_boot_pool]; rw [timer_boot_eq]; decide

set_option maxRecDepth 100000 in
theorem timer_boot_ok : timer_ok timer_boot := by
  rw [timer_boot_eq]; decide

theorem timer_inv.pool_bound {tv : timer_vars} (h : timer_inv tv) :
    (queue_content tv.timer_allocator).length ≤ TIMERS_MAX := by
  have hmap : ((queue_content tv.timer_allocator).map Int.toNat).Nodup := by
    apply List.Nodup.map_on _ h.pool_nodup
    intro p hp q hq hpq
    have h1 := (h.pool_free p hp).1
    have h2 := (h.pool_free q hq).1
    omega
  have := nodup_length_le_of_lt _ TIMERS_MAX hmap (by
    intro x hx
    rw [List.mem_map] at hx
    obtain ⟨p, hp, rfl⟩ := hx
    have h1 := (h.pool_free p hp).1
    have h2 := (h.pool_free p hp).2.1
    unfold TIMERS_MAX at h2 ⊢
    omega)
  simpa using this

theorem timer_inv.pool_room {tv : timer_vars} (h : timer_inv tv) :
    tv.timer_allocator.size ≠ QUEUE_SIZE := by
  have := h.pool_bound
  rw [queue_content_length] at this
  unfold TIMERS_MAX at this
  unfold QUEUE_SIZE
  omega

/-- A slot with a callback is not in the allocator. -/
theorem timer_inv.not_pooled {tv : timer_vars} (h : timer_inv tv) (i : Nat)
    (hc : timer_at tv.timers i ≠ timer_zero) : (i : Int) ∉ queue_content tv.timer_allocator := by
  intro hmem
  have := (h.pool_free _ hmem).2.2
  rw [Int.toNat_ofNat] at this
  exact hc this

theorem timer_callback_register_none (func_ptr : Option callback_t) (interval repeats : Int)
    (tv : timer_vars) (he : queue_content tv.timer_allocator = []) :
    timer_callback_register func_ptr interval repeats tv = some (-1, tv) := by
  have hsz : tv.timer_allocator.size = 0 := by
    have := congrArg List.length he
    rw [queue_content_length] at this
    simpa using this
  unfold timer_callback_register
  rw [queue_out_empty _ _ hsz]
  simp

theorem timer_callback_register_some (func_ptr : Option callback_t) (interval repeats : Int)
    (tv : timer_vars) (id : Int) (rest : List Int) (hinv : timer_inv tv)
    (hal : queue_content tv.timer_allocator = id :: rest) :
    timer_callback_register func_ptr interval repeats tv = some (id, { tv with
      timer_allocator := (queue_out tv.timer_allocator (some (-1))).2.1
      timers := tv.timers.set id.toNat
        { callback := func_ptr, interval := interval, repeats := repeats } }) ∧
    queue_content (queue_out tv.timer_allocator (some (-1))).2.1 = rest ∧
    0 ≤ id ∧ id < TIMERS_MAX := by
  have hsz : tv.timer_allocator.size ≠ 0 := by
    have := congrArg List.length hal
    rw [queue_content_length] at this
    simp at this
    omega
  have hout := queue_out_content _ (-1) hinv.wf hsz
  rw [hal] at hout
  injection hout with hhead hrest
  have hr := hinv.pool_free id (by rw [hal]; exact List.mem_cons_self _ _)
  refine ⟨?_, hrest.symm, hr.1, hr.2.1⟩
  unfold timer_callback_register
  rw [queue_out_some _ _ hsz]
  simp only [Option.getD_some, ← hhead]
  rw [if_neg (by decide), if_pos ⟨hr.1, hr.2.1⟩]

theorem timer_callback_register_inv (func_ptr : Option callback_t) (interval repeats : Int)
    (tv tv1 : timer_vars) (r : Int) (hinv : timer_inv tv)
    (h : timer_callback_register func_ptr interval repeats tv = some (r, tv1)) :
    timer_inv tv1 := by
  cases hc : queue_content tv.timer_allocator with
  | nil =>
    rw [timer_callback_register_none _ _ _ _ hc] at h
    injection h with h; injection h with _ h2
    rw [← h2]; exact hinv
  | cons id rest =>
    obtain ⟨heq, hrest, h0, h1⟩ := timer_callback_register_some func_ptr interval repeats tv id rest hinv hc
    rw [heq] at h
    injection h with h; injection h with _ h2
    subst h2
    have hnd := hinv.pool_nodup
    rw [hc] at hnd
    refine ⟨?_, ?_, ?_, ?_⟩
    · simp [hinv.len]
    · exact queue_out_wf _ _ hinv.wf
    · show (queue_content (queue_out tv.timer_allocator (some (-1))).2.1).Nodup
      rw [hrest]; exact (List.nodup_cons.mp hnd).2
    · intro x hx
      change x ∈ queue_content (queue_out tv.timer_allocator (some (-1))).2.1 at hx
      rw [hrest] at hx
      have hx' := hinv.pool_free x (by rw [hc]; exact List.mem_cons_of_mem _ hx)
      refine ⟨hx'.1, hx'.2.1, ?_⟩
      show timer_at (tv.timers.set id.toNat _) x.toNat = timer_zero
      rw [timer_at_set, if_neg]
      · exact hx'.2.2
      · rintro ⟨he, _⟩
        have : x = id := by have := hx'.1; omega
        subst this
        exact (List.nodup_cons.mp hnd).1 hx

theorem timer_callback_register_ok (func_ptr : Option callback_t) (interval repeats : Int)
    (tv tv1 : timer_vars) (r : Int) (hinv : timer_inv tv) (hok : timer_ok tv)
    (hk : func_ptr ≠ none → interval ≠ 0)
    (h : timer_callback_register func_ptr interval repeats tv = some (r, tv1)) :
    timer_ok tv1 := by
  cases hc : queue_content tv.timer_allocator with
  | nil =>
    rw [timer_callback_register_none _ _ _ _ hc] at h
    injection h with h; injection h with _ h2
    rw [← h2]; exact hok
  | cons id rest =>
    obtain ⟨heq, -, -, -⟩ := timer_callback_register_some func_ptr interval repeats tv id rest hinv hc
    rw [heq] at h
    injection h with h; injection h with _ h2
    subst h2
    apply timer_ok_of_at
    intro i
    show (timer_at (tv.timers.set id.toNat _) i).callback ≠ none →
      (timer_at (tv.timers.set id.toNat _) i).interval ≠ 0
    rw [timer_at_set]
    split
    · exact hk
    · exact timer_ok_at tv hok i

theorem timer_callback_unregister_range (id : Int) (tv : timer_vars)
    (h : id < 0 ∨ id ≥ TIMERS_MAX) : timer_callback_unregister id tv = (-1, tv) := by
  unfold timer_callback_unregister
  rw [if_pos h]

theorem timer_callback_unregister_eq (id : Int) (tv : timer_vars) (hinv : timer_inv tv)
    (h0 : 0 ≤ id) (h1 : id < TIMERS_MAX) :
    timer_callback_unregister id tv = (0, { tv with
      timers := tv.timers.set id.toNat timer_zero
      timer_allocator := (queue_in tv.timer_allocator id).2 }) ∧
    queue_content (queue_in tv.timer_allocator id).2 = queue_content tv.timer_allocator ++ [id] := by
  refine ⟨?_, queue_in_content _ _ hinv.wf hinv.pool_room⟩
  unfold timer_callback_unregister
  rw [if_neg (by omega)]
  simp only []
  rw [queue_in_ret _ _ hinv.pool_room, if_neg (by decide)]

theorem timer_callback_unregister_inv (id : Int) (tv : timer_vars) (hinv : timer_inv tv)
    (h0 : 0 ≤ id) (h1 : id < TIMERS_MAX) (hreg : id ∉ queue_content tv.timer_allocator) :
    timer_inv (timer_callback_unregister id tv).2 := by
  obtain ⟨heq, hcont⟩ := timer_callback_unregister_eq id tv hinv h0 h1
  rw [heq]
  refine ⟨?_, ?_, ?_, ?_⟩
  · simp [hinv.len]
  · exact queue_in_wf _ _ hinv.wf
  · show (queue_content (queue_in tv.timer_allocator id).2).Nodup
    rw [hcont]
    apply List.Nodup.append hinv.pool_nodup (List.nodup_singleton _)
    intro x hx hx'
    rw [List.mem_singleton] at hx'
    subst hx'
    exact hreg hx
  · intro x hx
    change x ∈ queue_content (queue_in tv.timer_allocator id).2 at hx
    rw [hcont, List.mem_append, List.mem_singleton] at hx
    show 0 ≤ x ∧ x < TIMERS_MAX ∧ timer_at (tv.timers.set id.toNat timer_zero) x.toNat = timer_zero
    rw [timer_at_set]
    rcases hx with hx | hx
    · have hx' := hinv.pool_free x hx
      refine ⟨hx'.1, hx'.2.1, ?_⟩
      split
      · rfl
      · exact hx'.2.2
    · subst hx
      refine ⟨h0, h1, ?_⟩
      rw [if_pos]
      refine ⟨rfl, ?_⟩
      rw [hinv.len]
      omega

theorem timer_ok_set (tv tv1 : timer_vars) (i : Nat) (t : timer_t) (hok : timer_ok tv)
    (ht : tv1.timers = tv.timers.set i t) (hc : t.callback ≠ none → t.interval ≠ 0) :
    timer_ok tv1 := by
  apply timer_ok_of_at
  intro j
  rw [ht, timer_at_set]
  split
  · exact hc
  · exact timer_ok_at tv hok j

theorem timer_callback_unregister_ok (id : Int) (tv : timer_vars) (hok : timer_ok tv) :
    timer_ok (timer_callback_unregister id tv).2 := by
  unfold timer_callback_unregister
  split
  · exact hok
  · apply timer_ok_set tv _ id.toNat timer_zero hok
    · simp only []
      split <;> rfl
    · intro h; exact absurd rfl h

theorem timer_tmod_iff (a b : Int) : Int.tmod a b = 0 ↔ b ∣ a :=
  ⟨Int.dvd_of_tmod_eq_zero, Int.tmod_eq_zero_of_dvd⟩

/-- A write to the timer table alone that leaves the all-zero entries alone keeps
the invariant. -/
theorem timer_inv_set (tv : timer_vars) (i : Nat) (t : timer_t) (hinv : timer_inv tv)
    (hne : timer_at tv.timers i ≠ timer_zero) :
    timer_inv { tv with timers := tv.timers.set i t } := by
  refine ⟨by simp [hinv.len], hinv.wf, hinv.pool_nodup, ?_⟩
  intro x hx
  have hx' := hinv.pool_free x hx
  refine ⟨hx'.1, hx'.2.1, ?_⟩
  show timer_at (tv.timers.set i _) x.toNat = timer_zero
  rw [timer_at_set, if_neg]
  · exact hx'.2.2
  · rintro ⟨he, _⟩
    rw [he] at hx'
    exact hne hx'.2.2

/-- One iteration of the handler loop on a slot that cannot divide by zero. -/
theorem timer_irq_slot_spec (i : Nat) (tv : timer_vars) (hinv : timer_inv tv) (hi : i < TIMERS_MAX)
    (hk : (timer_at tv.timers i).callback ≠ none → (timer_at tv.timers i).interval ≠ 0) :
    ∃ tv1, timer_irq_slot i tv =
        some ((timer_call_of tv.timer_ticks i (timer_at tv.timers i)).toList, tv1) ∧
      timer_inv tv1 ∧ tv1.timer_ticks = tv.timer_ticks ∧
      (∀ j, timer_at tv1.timers j =
        if j = i then timer_next tv.timer_ticks (timer_at tv.timers i) else timer_at tv.timers j) ∧
      queue_content tv1.timer_allocator = queue_content tv.timer_allocator ++
        (if timer_released tv.timer_ticks (timer_at tv.timers i) then [(i : Int)] else []) := by
  have hlen := hinv.len
  have hsame : ∀ j, timer_at tv.timers j =
      if j = i then timer_at tv.timers i else timer_at tv.timers j := by
    intro j
    split
    · next h => rw [h]
    · rfl
  have hset : ∀ (x : timer_t) (j : Nat), timer_at (tv.timers.set i x) j =
      if j = i then x else timer_at tv.timers j := by
    intro x j
    rw [timer_at_set]
    by_cases hj : j = i
    · rw [if_pos ⟨hj, by omega⟩, if_pos hj]
    · rw [if_neg (fun h => hj h.1), if_neg hj]
  unfold timer_irq_slot timer_call_of timer_next timer_released timer_due
  simp only []
  generalize ht : timer_at tv.timers i = t at hk hsame ⊢
  obtain ⟨cb, k, r⟩ := t
  cases cb with
  | none =>
    exact ⟨tv, by simp, hinv, rfl, by simpa using hsame, by simp⟩
  | some cb =>
    have hk0 : k ≠ 0 := hk (by simp)
    have hnz : timer_at tv.timers i ≠ timer_zero := by
      rw [ht]; simp [timer_zero]
    simp only [hk0, if_false, timer_tmod_iff, Option.isSome_some, Bool.true_and, decide_eq_true_eq]
    by_cases hd : k ∣ tv.timer_ticks
    · simp only [hd, if_true]
      by_cases hp : r > 0
      · have hne : r ≠ 0 := by omega
        simp only [hp, if_true, hne, if_false]
        exact ⟨_, rfl, timer_inv_set tv i _ hinv hnz, rfl, fun j => hset _ j, by simp⟩
      · simp only [hp, if_false]
        by_cases hz : r = 0
        · simp only [hz, if_true]
          have h0 : (0 : Int) ≤ (i : Int) := Int.natCast_nonneg i
          have h1 : (i : Int) < (TIMERS_MAX : Int) := by exact_mod_cast hi
          have hreg : (i : Int) ∉ queue_content tv.timer_allocator := hinv.not_pooled i hnz
          obtain ⟨heq, hcont⟩ := timer_callback_unregister_eq (i : Int) tv hinv h0 h1
          refine ⟨_, rfl, timer_callback_unregister_inv _ tv hinv h0 h1 hreg, ?_, ?_, ?_⟩
          · rw [heq]
          · intro j
            rw [heq]
            show timer_at (tv.timers.set (i : Int).toNat timer_zero) j = _
            rw [Int.toNat_ofNat]
            exact hset _ j
          · rw [heq]
            simpa using hcont
        · simp only [hz, if_false]
          exact ⟨tv, rfl, hinv, rfl, hsame, by simp⟩
    · simp only [hd, if_false]
      exact ⟨tv, by simp, hinv, rfl, hsame, by simp⟩

/-- The handler loop over distinct slots: every slot listed is treated once, on
the entry it held when the loop started. -/
theorem timer_irq_loop_spec (slots : List Nat) :
    ∀ (tv : timer_vars), timer_inv tv → slots.Nodup → (∀ i ∈ slots, i < TIMERS_MAX) →
    (∀ i ∈ slots, (timer_at tv.timers i).callback ≠ none → (timer_at tv.timers i).interval ≠ 0) →
    ∃ tv1, timer_irq_loop slots tv =
        some (slots.filterMap (fun i => timer_call_of tv.timer_ticks i (timer_at tv.timers i)), tv1) ∧
      timer_inv tv1 ∧ tv1.timer_ticks = tv.timer_ticks ∧
      (∀ j, timer_at tv1.timers j =
        if j ∈ slots then timer_next tv.timer_ticks (timer_at tv.timers j)
        else timer_at tv.timers j) ∧
      queue_content tv1.timer_allocator = queue_content tv.timer_allocator ++
        (slots.filter (fun i => timer_released tv.timer_ticks (timer_at tv.timers i))).map
          (fun (i : Nat) => (i : Int)) := by
  induction slots with
  | nil =>
    intro tv hinv _ _ _
    exact ⟨tv, rfl, hinv, rfl, by simp, by simp⟩
  | cons i rest ih =>
    intro tv hinv hnd hlt hk
    obtain ⟨hni, hnd'⟩ := List.nodup_cons.mp hnd
    obtain ⟨tv1, h1, hinv1, ht1, hs1, hp1⟩ :=
      timer_irq_slot_spec i tv hinv (hlt i (List.mem_cons_self _ _)) (hk i (List.mem_cons_self _ _))
    have hkeep : ∀ j ∈ rest, timer_at tv1.timers j = timer_at tv.timers j := by
      intro j hj
      rw [hs1 j, if_neg]
      rintro rfl
      exact hni hj
    obtain ⟨tv2, h2, hinv2, ht2, hs2, hp2⟩ := ih tv1 hinv1 hnd'
      (fun j hj => hlt j (List.mem_cons_of_mem _ hj))
      (fun j hj => by rw [hkeep j hj]; exact hk j (List.mem_cons_of_mem _ hj))
    have hcalls : rest.filterMap (fun j => timer_call_of tv1.timer_ticks j (timer_at tv1.timers j)) =
        rest.filterMap (fun j => timer_call_of tv.timer_ticks j (timer_at tv.timers j)) := by
      apply List.filterMap_congr
      intro j hj
      rw [hkeep j hj, ht1]
    have hrel : rest.filter (fun j => timer_released tv1.timer_ticks (timer_at tv1.timers j)) =
        rest.filter (fun j => timer_released tv.timer_ticks (timer_at tv.timers j)) := by
      apply List.filter_congr
      intro j hj
      rw [hkeep j hj, ht1]
    refine ⟨tv2, ?_, hinv2, by rw [ht2, ht1], ?_, ?_⟩
    · unfold timer_irq_loop
      rw [h1]
      simp only [Option.bind_eq_bind, Option.some_bind, h2, Option.map_some', hcalls,
        List.filterMap_cons]
      cases timer_call_of tv.timer_ticks i (timer_at tv.timers i) <;> rfl
    · intro j
      rw [hs2 j]
      by_cases hj : j ∈ rest
      · have hji : j ≠ i := by rintro rfl; exact hni hj
        rw [if_pos hj, if_pos (List.mem_cons_of_mem _ hj), hs1 j, if_neg hji, ht1]
      · rw [if_neg hj, hs1 j]
        by_cases hji : j = i
        · rw [if_pos hji, if_pos (by rw [hji]; exact List.mem_cons_self _ _), hji]
        · rw [if_neg hji, if_neg]
          intro h
          rcases List.mem_cons.mp h with h | h
          · exact hji h
          · exact hj h
    · rw [hp2, hp1, hrel, List.filter_cons]
      cases timer_released tv.timer_ticks (timer_at tv.timers i) <;> simp

/-- What a call of `timer_irq_handler` does when no entry with a callback has
interval 0: the tick count goes up by one, the due entries are called in slot
order, every entry is stepped by `timer_next` and the ids of the released slots
join the allocator. -/
theorem timer_irq_handler_spec (tv : timer_vars) (hinv : timer_inv tv) (hok : timer_ok tv) :
    ∃ tv1, timer_irq_handler tv =
        some ((List.range TIMERS_MAX).filterMap
          (fun i => timer_call_of (tv.timer_ticks + 1) i (timer_at tv.timers i)), tv1) ∧
      timer_inv tv1 ∧ timer_ok tv1 ∧ tv1.timer_ticks = tv.timer_ticks + 1 ∧
      (∀ j, timer_at tv1.timers j = timer_next (tv.timer_ticks + 1) (timer_at tv.timers j)) ∧
      queue_content tv1.timer_allocator = queue_content tv.timer_allocator ++
        ((List.range TIMERS_MAX).filter
          (fun i => timer_released (tv.timer_ticks + 1) (timer_at tv.timers i))).map
          (fun (i : Nat) => (i : Int)) := by
  have hinv0 : timer_inv { tv with timer_ticks := tv.timer_ticks + 1 } :=
    ⟨hinv.len, hinv.wf, hinv.pool_nodup, hinv.pool_free⟩
  obtain ⟨tv1, h1, hinv1, ht1, hs1, hp1⟩ := timer_irq_loop_spec (List.range TIMERS_MAX) _ hinv0
    (List.nodup_range _) (fun i hi => List.mem_range.mp hi)
    (fun i _ => timer_ok_at tv hok i)
  have hs : ∀ j, timer_at tv1.timers j = timer_next (tv.timer_ticks + 1) (timer_at tv.timers j) := by
    intro j
    rw [hs1 j]
    split
    · rfl
    · next hj =>
      have hle : tv.timers.length ≤ j := by
        rw [hinv.len]
        rw [List.mem_range] at hj
        omega
      show timer_at tv.timers j = _
      rw [timer_at_zero_of_le _ _ hle]
      rfl
  refine ⟨tv1, h1, hinv1, ?_, ht1, hs, hp1⟩
  apply timer_ok_of_at
  intro j
  rw [hs j]
  unfold timer_next
  split
  · split
    · exact timer_ok_at tv hok j
    · split
      · intro h; exact absurd rfl h
      · exact timer_ok_at tv hok j
  · exact timer_ok_at tv hok j

/-- The calls the handler makes, as a function of the tick count and the table. -/
theorem timer_fired_calls (ticks : Int) (tbl : List timer_t) (i : Nat) (hi : i < TIMERS_MAX) :
    timer_fired i ((List.range TIMERS_MAX).filterMap
      (fun j => timer_call_of ticks j (timer_at tbl j))) = timer_due ticks (timer_at tbl i) := by
  rw [Bool.eq_iff_iff]
  unfold timer_fired timer_due timer_call_of
  simp only [List.any_eq_true, List.mem_filterMap, List.mem_range, beq_iff_eq, Bool.and_eq_true,
    decide_eq_true_eq]
  constructor
  · rintro ⟨c, ⟨j, _, hj⟩, hc⟩
    cases hcb : (timer_at tbl j).callback with
    | none => rw [hcb] at hj; simp at hj
    | some cb =>
      rw [hcb] at hj
      simp only [] at hj
      split at hj
      · next hd =>
        injection hj with hj
        subst hj
        simp only [] at hc
        subst hc
        exact ⟨by rw [hcb]; rfl, hd⟩
      · simp at hj
  · rintro ⟨hs, hd⟩
    cases hcb : (timer_at tbl i).callback with
    | none => rw [hcb] at hs; simp at hs
    | some cb =>
      refine ⟨(i, cb), ⟨i, hi, ?_⟩, rfl⟩
      rw [hcb]
      simp only []
      rw [if_pos hd]

theorem timer_call_of_mem (ticks : Int) (tbl : List timer_t) (i : Nat) (cb : callback_t) :
    (i, cb) ∈ (List.range TIMERS_MAX).filterMap (fun j => timer_call_of ticks j (timer_at tbl j)) ↔
      i < TIMERS_MAX ∧ (timer_at tbl i).callback = some cb ∧ (timer_at tbl i).interval ∣ ticks := by
  unfold timer_call_of
  simp only [List.mem_filterMap, List.mem_range]
  constructor
  · rintro ⟨j, hj, h⟩
    cases hcb : (timer_at tbl j).callback with
    | none => rw [hcb] at h; simp at h
    | some cb1 =>
      rw [hcb] at h
      simp only [] at h
      split at h
      · next hd =>
        injection h with h
        injection h with h1 h2
        subst h1; subst h2
        exact ⟨hj, hcb, hd⟩
      · simp at h
  · rintro ⟨hi, hcb, hd⟩
    refine ⟨i, hi, ?_⟩
    rw [hcb]
    simp only []
    rw [if_pos hd]

theorem timer_calls_sublist (ticks : Int) (tbl : List timer_t) (slots : List Nat) :
    List.Sublist ((slots.filterMap (fun j => timer_call_of ticks j (timer_at tbl j))).map Prod.fst)
      slots := by
  induction slots with
  | nil => simp
  | cons a rest ih =>
    rw [List.filterMap_cons]
    cases hc : timer_call_of ticks a (timer_at tbl a) with
    | none => exact List.Sublist.cons _ ih
    | some c =>
      have : c.1 = a := by
        unfold timer_call_of at hc
        split at hc
        · split at hc
          · injection hc with hc; rw [← hc]
          · simp at hc
        · simp at hc
      simp only [List.map_cons, this]
      exact List.Sublist.cons₂ _ ih

theorem timer_run_succ (tv : timer_vars) (m : Nat) (logs : List (List (Nat × callback_t)))
    (tv1 tv2 : timer_vars) (calls : List (Nat × callback_t))
    (h : timer_run m tv = some (logs, tv1)) (h1 : timer_irq_handler tv1 = some (calls, tv2)) :
    timer_run (m + 1) tv = some (logs ++ [calls], tv2) := by
  show (timer_run m tv).bind _ = _
  rw [h]
  simp only [Option.some_bind, h1, Option.map_some']

theorem timer_stable_not_released (t : Int) (e : timer_t) (hst : timer_next t e = e) :
    timer_released t e = false := by
  unfold timer_released
  unfold timer_next at hst
  cases hd : timer_due t e with
  | false => rfl
  | true =>
    rw [hd] at hst
    simp only [if_true] at hst
    by_cases hz : e.repeats = 0
    · rw [if_neg (by omega), if_pos hz] at hst
      rw [← hst] at hd
      simp [timer_due, timer_zero] at hd
    · simp [hz]

/-- An entry that no tick changes stays as it is through any number of ticks, is
called at exactly the ticks at which it is due, and its slot neither joins nor
leaves the allocator. -/
theorem timer_run_stable (tv : timer_vars) (hinv : timer_inv tv) (hok : timer_ok tv) (i : Nat)
    (hi : i < TIMERS_MAX)
    (hst : ∀ t, timer_next t (timer_at tv.timers i) = timer_at tv.timers i) (m : Nat) :
    ∃ logs tv1, timer_run m tv = some (logs, tv1) ∧ timer_inv tv1 ∧ timer_ok tv1 ∧
      tv1.timer_ticks = tv.timer_ticks + m ∧ logs.length = m ∧
      timer_at tv1.timers i = timer_at tv.timers i ∧
      ((i : Int) ∈ queue_content tv1.timer_allocator ↔ (i : Int) ∈ queue_content tv.timer_allocator) ∧
      ∀ j, j < m → timer_fired i (logs.getD j []) =
        timer_due (tv.timer_ticks + j + 1) (timer_at tv.timers i) := by
  induction m with
  | zero =>
    exact ⟨[], tv, rfl, hinv, hok, by simp, rfl, rfl, Iff.rfl, fun j hj => absurd hj (by omega)⟩
  | succ m ih =>
    obtain ⟨logs, tv1, hrun, hinv1, hok1, ht1, hl1, hs1, hp1, hf1⟩ := ih
    obtain ⟨tv2, h2, hinv2, hok2, ht2, hs2, hp2⟩ := timer_irq_handler_spec tv1 hinv1 hok1
    refine ⟨_, tv2, timer_run_succ tv m logs tv1 tv2 _ hrun h2, hinv2, hok2, ?_, by simp [hl1], ?_,
      ?_, ?_⟩
    · rw [ht2, ht1]; push_cast; ring
    · rw [hs2 i, hs1, hst]
    · rw [hp2, List.mem_append, hp1]
      constructor
      · rintro (h | h)
        · exact h
        · rw [List.mem_map] at h
          obtain ⟨x, hx, hxi⟩ := h
          have hxi' : x = i := by exact_mod_cast hxi
          subst hxi'
          rw [List.mem_filter, hs1, timer_stable_not_released _ _ (hst _)] at hx
          exact absurd hx.2 (by decide)
      · exact Or.inl
    · intro j hj
      by_cases hjm : j < m
      · rw [List.getD_eq_getElem?_getD, List.getElem?_append_left (by omega),
          ← List.getD_eq_getElem?_getD]
        exact hf1 j hjm
      · have hje : j = m := by omega
        subst hje
        rw [List.getD_eq_getElem?_getD, List.getElem?_append_right (by omega)]
        simp only [hl1, Nat.sub_self, List.getElem?_cons_zero, Option.getD_some]
        rw [timer_fired_calls _ _ _ hi, hs1, ht1]

theorem timer_due_entry (t : Int) (cb : callback_t) (k r : Int) :
    timer_due t { callback := some cb, interval := k, repeats := r } = decide (k ∣ t) := by
  simp [timer_due]

theorem timer_next_zero (t : Int) : timer_next t timer_zero = timer_zero := by
  simp [timer_next, timer_due, timer_zero]

theorem timer_count_step (k n m : Nat) (hk : 0 < k) :
    min ((m + 1) / k) (n + 1) =
      min (m / k) (n + 1) + if k ∣ m + 1 ∧ m + 1 ≤ (n + 1) * k then 1 else 0 := by
  have hdiv := Nat.succ_div m k
  have hlt : m / k < n + 1 ↔ m < (n + 1) * k := Nat.div_lt_iff_lt_mul hk
  by_cases hd : k ∣ m + 1
  · rw [if_pos hd] at hdiv
    by_cases hle : m + 1 ≤ (n + 1) * k
    · rw [if_pos ⟨hd, hle⟩]
      have : m / k < n + 1 := hlt.mpr (by omega)
      omega
    · rw [if_neg (fun h => hle h.2)]
      have : ¬ m / k < n + 1 := fun h => by have := hlt.mp h; omega
      omega
  · rw [if_neg hd] at hdiv
    rw [if_neg (fun h => hd h.1)]
    omega

/-- A timer with interval `k` and repeat count `n` registered at tick 0: up to tick
`(n + 1) * k` it is called at every multiple of `k`, `n + 1` times in all, and
the call at tick `(n + 1) * k` clears its slot and hands it back. -/
theorem timer_run_countdown (tv : timer_vars) (hinv : timer_inv tv) (hok : timer_ok tv) (i : Nat)
    (hi : i < TIMERS_MAX) (cb : callback_t) (k n : Nat) (hk : 0 < k) (h0 : tv.timer_ticks = 0)
    (hslot : timer_at tv.timers i = { callback := some cb, interval := (k : Int), repeats := (n : Int) })
    (m : Nat) :
    ∃ logs tv1, timer_run m tv = some (logs, tv1) ∧ timer_inv tv1 ∧ timer_ok tv1 ∧
      tv1.timer_ticks = (m : Int) ∧ logs.length = m ∧
      (∀ j, j < m → (timer_fired i (logs.getD j []) = true ↔ (k ∣ j + 1 ∧ j + 1 ≤ (n + 1) * k))) ∧
      (logs.filter (timer_fired i)).length = min (m / k) (n + 1) ∧
      (m < (n + 1) * k → timer_at tv1.timers i =
        { callback := some cb, interval := (k : Int), repeats := ((n - m / k : Nat) : Int) }) ∧
      ((n + 1) * k ≤ m →
        timer_at tv1.timers i = timer_zero ∧ (i : Int) ∈ queue_content tv1.timer_allocator) := by
  induction m with
  | zero =>
    refine ⟨[], tv, rfl, hinv, hok, by simpa using h0, rfl, fun j hj => absurd hj (by omega),
      by simp, fun _ => by simpa using hslot, fun h => ?_⟩
    have : 0 < (n + 1) * k := Nat.mul_pos (by omega) hk
    omega
  | succ m ih =>
    obtain ⟨logs, tv1, hrun, hinv1, hok1, ht1, hl1, hf1, hc1, hlive1, hdone1⟩ := ih
    obtain ⟨tv2, h2, hinv2, hok2, ht2, hs2, hp2⟩ := timer_irq_handler_spec tv1 hinv1 hok1
    have hdiv := Nat.succ_div m k
    have hlt : m / k < n + 1 ↔ m < (n + 1) * k := Nat.div_lt_iff_lt_mul hk
    have htick : tv1.timer_ticks + 1 = ((m + 1 : Nat) : Int) := by rw [ht1]; push_cast; ring
    rw [htick] at h2 hs2 hp2
    have hfired : timer_fired i ((List.range TIMERS_MAX).filterMap
        (fun j => timer_call_of ((m + 1 : Nat) : Int) j (timer_at tv1.timers j))) = true ↔
        (k ∣ m + 1 ∧ m + 1 ≤ (n + 1) * k) := by
      rw [timer_fired_calls _ _ _ hi]
      by_cases hm : m < (n + 1) * k
      · rw [hlive1 hm, timer_due_entry, decide_eq_true_eq, Int.natCast_dvd_natCast]
        exact ⟨fun h => ⟨h, by omega⟩, fun h => h.1⟩
      · rw [(hdone1 (by omega)).1]
        simp only [timer_due, timer_zero, Option.isSome_none, Bool.false_and]
        constructor
        · intro h; exact absurd h (by decide)
        · intro h; omega
    generalize (List.range TIMERS_MAX).filterMap
        (fun j => timer_call_of ((m + 1 : Nat) : Int) j (timer_at tv1.timers j)) = calls
      at h2 hfired
    refine ⟨_, tv2, timer_run_succ tv m logs tv1 tv2 _ hrun h2, hinv2, hok2, by rw [ht2, htick],
      by simp [hl1], ?_, ?_, ?_, ?_⟩
    · intro j hj
      by_cases hjm : j < m
      · rw [List.getD_eq_getElem?_getD, List.getElem?_append_left (by omega),
          ← List.getD_eq_getElem?_getD]
        exact hf1 j hjm
      · have hje : j = m := by omega
        subst hje
        rw [List.getD_eq_getElem?_getD, List.getElem?_append_right (by omega)]
        simp only [hl1, Nat.sub_self, List.getElem?_cons_zero, Option.getD_some]
        exact hfired
    · rw [List.filter_append, List.length_append, hc1, timer_count_step k n m hk]
      congr 1
      by_cases hf : k ∣ m + 1 ∧ m + 1 ≤ (n + 1) * k
      · rw [if_pos hf]
        simp [List.filter_cons, hfired.mpr hf]
      · rw [if_neg hf]
        have : ¬ (timer_fired i calls = true) := fun h => hf (hfired.mp h)
        simp [List.filter_cons, this]
    · intro hm
      have hm1 : m < (n + 1) * k := by omega
      have hq : (m + 1) / k < n + 1 := (Nat.div_lt_iff_lt_mul hk).mpr hm
      rw [hs2 i, hlive1 hm1]
      unfold timer_next
      rw [timer_due_entry]
      by_cases hd : k ∣ m + 1
      · rw [if_pos hd] at hdiv
        have hdz : ((k : Int) ∣ ((m + 1 : Nat) : Int)) := Int.natCast_dvd_natCast.mpr hd
        simp only [hdz, decide_True, if_true]
        have hpos : ((n - m / k : Nat) : Int) > 0 := by
          have : 0 < n - m / k := by omega
          exact_mod_cast this
        rw [if_pos hpos]
        congr 1
        omega
      · rw [if_neg hd] at hdiv
        have hdz : ¬ ((k : Int) ∣ ((m + 1 : Nat) : Int)) := fun h => hd (Int.natCast_dvd_natCast.mp h)
        simp only [hdz, decide_False, Bool.false_eq_true, if_false]
        rw [hdiv]; simp
    · intro hm
      by_cases hm1 : (n + 1) * k ≤ m
      · obtain ⟨hz, hmem⟩ := hdone1 hm1
        refine ⟨by rw [hs2 i, hz, timer_next_zero], ?_⟩
        rw [hp2]
        exact List.mem_append_left _ hmem
      · have hme : m + 1 = (n + 1) * k := by omega
        have hd : k ∣ m + 1 := ⟨n + 1, by rw [hme, Nat.mul_comm]⟩
        rw [if_pos hd] at hdiv
        have hq : (m + 1) / k = n + 1 := by rw [hme]; exact Nat.mul_div_cancel _ hk
        have hmk : m / k = n := by omega
        have hdz : ((k : Int) ∣ ((m + 1 : Nat) : Int)) := Int.natCast_dvd_natCast.mpr hd
        have hdz1 : ((k : Int) ∣ (m : Int) + 1) := by exact_mod_cast hd
        have hslot1 := hlive1 (by omega)
        rw [hmk, Nat.sub_self] at hslot1
        constructor
        · rw [hs2 i, hslot1]
          unfold timer_next
          rw [timer_due_entry]
          simp [hdz1]
        · rw [hp2]
          apply List.mem_append_right
          rw [List.mem_map]
          refine ⟨i, ?_, rfl⟩
          rw [List.mem_filter]
          refine ⟨List.mem_range.mpr hi, ?_⟩
          rw [hslot1]
          unfold timer_released
          rw [timer_due_entry]
          simp [hdz1]

/-- A handler loop that comes to its end has not met an entry with a callback and
interval 0. -/
theorem timer_irq_loop_ok (slots : List Nat) :
    ∀ (tv : timer_vars) (r : List (Nat × callback_t) × timer_vars), timer_inv tv → slots.Nodup →
    (∀ i ∈ slots, i < TIMERS_MAX) → timer_irq_loop slots tv = some r →
    ∀ i ∈ slots, (timer_at tv.timers i).callback ≠ none → (timer_at tv.timers i).interval ≠ 0 := by
  induction slots with
  | nil => intro tv r _ _ _ _ i hi; simp at hi
  | cons a rest ih =>
    intro tv r hinv hnd hlt hrun
    obtain ⟨hni, hnd'⟩ := List.nodup_cons.mp hnd
    have ha : (timer_at tv.timers a).callback ≠ none → (timer_at tv.timers a).interval ≠ 0 := by
      intro hc hz
      unfold timer_irq_loop timer_irq_slot at hrun
      simp only [] at hrun
      cases hcb : (timer_at tv.timers a).callback with
      | none => exact hc hcb
      | some cb =>
        rw [hcb] at hrun
        simp [hz] at hrun
    obtain ⟨tv1, h1, hinv1, _, hs1, _⟩ :=
      timer_irq_slot_spec a tv hinv (hlt a (List.mem_cons_self _ _)) ha
    unfold timer_irq_loop at hrun
    rw [h1] at hrun
    simp only [Option.bind_eq_bind, Option.some_bind, Option.map_eq_some'] at hrun
    obtain ⟨r1, hr1, _⟩ := hrun
    have hrest := ih tv1 r1 hinv1 hnd' (fun j hj => hlt j (List.mem_cons_of_mem _ hj)) hr1
    intro i hi
    rcases List.mem_cons.mp hi with hia | hir
    · rw [hia]; exact ha
    · have := hrest i hir
      have hne : i ≠ a := fun h => hni (h ▸ hir)
      rw [hs1 i, if_neg hne] at this
      exact this

theorem timer_irq_handler_some_ok (tv : timer_vars) (r : List (Nat × callback_t) × timer_vars)
    (hinv : timer_inv tv) (h : timer_irq_handler tv = some r) : timer_ok tv := by
  have hinv0 : timer_inv { tv with timer_ticks := tv.timer_ticks + 1 } :=
    ⟨hinv.len, hinv.wf, hinv.pool_nodup, hinv.pool_free⟩
  have := timer_irq_loop_ok (List.range TIMERS_MAX) _ r hinv0 (List.nodup_range _)
    (fun i hi => List.mem_range.mp hi) h
  apply timer_ok_of_at
  intro i hc
  by_cases hi : i < TIMERS_MAX
  · exact this i (List.mem_range.mpr hi) hc
  · rw [timer_at_zero_of_le _ _ (by rw [hinv.len]; omega)] at hc
    exact absurd rfl hc

theorem timer_call_step_inv (tv tv1 : timer_vars) (c : timer_call) (hinv : timer_inv tv)
    (hs : c.is_stray tv = false) (h : timer_call_step tv c = some tv1) : timer_inv tv1 := by
  cases c with
  | register func_ptr interval repeats =>
    simp only [timer_call_step, Option.map_eq_some'] at h
    obtain ⟨r, hr, rfl⟩ := h
    exact timer_callback_register_inv func_ptr interval repeats tv r.2 r.1 hinv hr
  | unregister id =>
    simp only [timer_call_step, Option.some.injEq] at h
    subst h
    simp only [timer_call.is_stray, decide_eq_false_iff_not] at hs
    by_cases hr : id < 0 ∨ id ≥ TIMERS_MAX
    · rw [timer_callback_unregister_range id tv hr]; exact hinv
    · exact timer_callback_unregister_inv id tv hinv (by omega) (by omega) hs
  | tick =>
    simp only [timer_call_step, Option.map_eq_some'] at h
    obtain ⟨r, hr, rfl⟩ := h
    have hok := timer_irq_handler_some_ok tv r hinv hr
    obtain ⟨tv2, h2, hinv2, _⟩ := timer_irq_handler_spec tv hinv hok
    rw [h2] at hr
    injection hr with hr
    rw [← hr]
    exact hinv2

theorem timer_reachable_inv (tv : timer_vars) (h : timer_reachable tv) : timer_inv tv := by
  induction h with
  | boot => exact timer_boot_inv
  | step tv tv1 c _ hs hstep ih => exact timer_call_step_inv tv tv1 c ih hs hstep

theorem timer_calls_run_reachable (calls : List timer_call) :
    ∀ (tv tv1 : timer_vars), timer_reachable tv → timer_calls_run tv calls = some tv1 →
    timer_reachable tv1 := by
  induction calls with
  | nil =>
    intro tv tv1 hr h
    simp only [timer_calls_run, Option.some.injEq] at h
    rw [← h]; exact hr
  | cons c cs ih =>
    intro tv tv1 hr h
    unfold timer_calls_run at h
    cases hs : c.is_stray tv with
    | true => rw [hs] at h; simp at h
    | false =>
      rw [hs] at h
      simp only [Bool.false_eq_true, if_false, Option.bind_eq_some] at h
      obtain ⟨tv2, h2, h3⟩ := h
      exact ih tv2 tv1 (timer_reachable.step tv tv2 c hr hs h2) h3

/-- Fewer than `TIMERS_MAX` slots are registered exactly when the allocator is not
empty. -/
theorem timer_registered_lt (tv : timer_vars) (hinv : timer_inv tv) :
    (timer_registered tv).length < TIMERS_MAX ↔ queue_content tv.timer_allocator ≠ [] := by
  unfold timer_registered
  have hlen : (List.range TIMERS_MAX).length = TIMERS_MAX := List.length_range _
  constructor
  · intro h he
    rw [he] at h
    simp at h
  · intro hne
    obtain ⟨id, rest, hc⟩ := List.exists_cons_of_ne_nil hne
    have hid := hinv.pool_free id (by rw [hc]; exact List.mem_cons_self _ _)
    have : (List.filter (fun (i : Nat) => decide ((i : Int) ∉ queue_content tv.timer_allocator))
        (List.range TIMERS_MAX)).length < (List.range TIMERS_MAX).length := by
      rw [List.length_filter_lt_length_iff_exists]
      refine ⟨id.toNat, List.mem_range.mpr ?_, ?_⟩
      · have := hid.2.1; have := hid.1; omega
      · rw [Int.toNat_of_nonneg hid.1, hc]
        simp
    rw [hlen] at this
    exact this

theorem timer_registered_le (tv : timer_vars) : (timer_registered tv).length ≤ TIMERS_MAX := by
  unfold timer_registered
  have := List.length_filter_le (fun (i : Nat) => decide ((i : Int) ∉ queue_content tv.timer_allocator))
    (List.range TIMERS_MAX)
  rw [List.length_range] at this
  exact this

set_option maxRecDepth 100000 in
theorem timer_demo_run :
    timer_calls_run timer_boot [.register (some (.fn 1)) 5 3] = some timer_demo := by decide

set_option maxRecDepth 100000 in
theorem timer_demo_forever_run :
    timer_calls_run timer_demo [.register (some (.fn 2)) 2 (-1)] = some timer_demo_forever := by
  decide

set_option maxRecDepth 100000 in
theorem timer_demo_full_run :
    timer_calls_run timer_boot (List.replicate 32 (.register (some (.fn 1)) 1 (-1))) =
      some timer_demo_full := by
  decide

set_option maxRecDepth 100000 in
theorem timer_demo_null_run :
    timer_calls_run timer_boot [.register none 5 3] = some timer_demo_null := by decide

theorem timer_demo_reachable : timer_reachable timer_demo :=
  timer_calls_run_reachable _ _ _ timer_reachable.boot timer_demo_run

theorem timer_demo_forever_reachable : timer_reachable timer_demo_forever :=
  timer_calls_run_reachable _ _ _ timer_demo_reachable timer_demo_forever_run

theorem timer_demo_full_reachable : timer_reachable timer_demo_full :=
  timer_calls_run_reachable _ _ _ timer_reachable.boot timer_demo_full_run

theorem timer_demo_null_reachable : timer_reachable timer_demo_null :=
  timer_calls_run_reachable _ _ _ timer_reachable.boot timer_demo_null_run

/-! ## Theorems: timers that repeat a finite number of times -/

set_option maxRecDepth 100000 in
/-- C21, counterexample.  After `timer_init()`, with the tick count at 0, function 1
is registered with interval 5 and repeat count 3 and gets slot 0.  In the next 20
ticks it is called at ticks 5, 10, 15 and also at tick 20; after tick 15 the slot
still holds the timer, with repeat count 0, and only the call at tick 20 clears
the slot and hands it back. -/
theorem timer_repeat_three_fires_at_20 :
    timer_callback_register (some (.fn 1)) 5 3 timer_boot = some (0, timer_demo) ∧
    timer_demo.timer_ticks = 0 ∧
    (timer_run 20 timer_demo).map (fun r => r.1.map (timer_fired 0)) =
      some [false, false, false, false, true, false, false, false, false, true,
            false, false, false, false, true, false, false, false, false, true] ∧
    (timer_run 15 timer_demo).map (fun r => timer_at r.2.timers 0) =
      some { callback := some (.fn 1), interval := 5, repeats := 0 } ∧
    (timer_run 15 timer_demo).map (fun r => decide ((0 : Int) ∈ queue_content r.2.timer_allocator)) =
      some false ∧
    (timer_run 20 timer_demo).map (fun r => timer_at r.2.timers 0) = some timer_zero ∧
    (timer_run 20 timer_demo).map (fun r => decide ((0 : Int) ∈ queue_content r.2.timer_allocator)) =
      some true := by
  decide

/-- C21, amended.  Take a state after `timer_init()` with the tick count at 0 in
which no entry with a callback has interval 0 and slot `i` holds a timer with a
callback, interval `k > 0` and repeat count `n ≥ 0`.  Then any number `m` of ticks
is handled, and the callback of slot `i` is called in tick `j + 1` exactly when
`k` divides `j + 1` and `j + 1 ≤ (n + 1) * k`: at the ticks `k`, `2k`, ..,
`(n + 1) * k`, which is `min (m / k) (n + 1)` calls in the first `m` ticks, so
`n + 1` calls in all.  Before tick `(n + 1) * k` the slot still holds the timer,
with repeat count `n - m / k`; from that tick on the slot is cleared and its id is
in the allocator. -/
theorem timer_finite_repeat_fires (tv : timer_vars) (i : Nat) (cb : callback_t) (k n m : Nat)
    (hr : timer_reachable tv) (hok : timer_ok tv) (hi : i < TIMERS_MAX) (hk : 0 < k)
    (h0 : tv.timer_ticks = 0)
    (hslot : timer_at tv.timers i = { callback := some cb, interval := (k : Int), repeats := (n : Int) }) :
    ∃ logs tv1, timer_run m tv = some (logs, tv1) ∧ logs.length = m ∧
      (∀ j, j < m → (timer_fired i (logs.getD j []) = true ↔ (k ∣ j + 1 ∧ j + 1 ≤ (n + 1) * k))) ∧
      (logs.filter (timer_fired i)).length = min (m / k) (n + 1) ∧
      (m < (n + 1) * k → timer_at tv1.timers i =
        { callback := some cb, interval := (k : Int), repeats := ((n - m / k : Nat) : Int) }) ∧
      ((n + 1) * k ≤ m →
        timer_at tv1.timers i = timer_zero ∧ (i : Int) ∈ queue_content tv1.timer_allocator) := by
  obtain ⟨logs, tv1, h1, _, _, _, h2, h3, h4, h5, h6⟩ :=
    timer_run_countdown tv (timer_reachable_inv tv hr) hok i hi cb k n hk h0 hslot m
  exact ⟨logs, tv1, h1, h2, h3, h4, h5, h6⟩

set_option maxRecDepth 100000 in
/-- C21 amended, at the timer with interval 5 and repeat count 3 in slot 0 and 25
ticks: it is called four times. -/
theorem timer_finite_repeat_fires_witness :
    ∃ logs tv1, timer_run 25 timer_demo = some (logs, tv1) ∧ logs.length = 25 ∧
      (∀ j, j < 25 → (timer_fired 0 (logs.getD j []) = true ↔ (5 ∣ j + 1 ∧ j + 1 ≤ (3 + 1) * 5))) ∧
      (logs.filter (timer_fired 0)).length = min (25 / 5) (3 + 1) ∧
      (25 < (3 + 1) * 5 → timer_at tv1.timers 0 =
        { callback := some (.fn 1), interval := ((5 : Nat) : Int), repeats := ((3 - 25 / 5 : Nat) : Int) }) ∧
      ((3 + 1) * 5 ≤ 25 →
        timer_at tv1.timers 0 = timer_zero ∧ ((0 : Nat) : Int) ∈ queue_content tv1.timer_allocator) :=
  timer_finite_repeat_fires timer_demo 0 (.fn 1) 5 3 25 timer_demo_reachable (by decide)
    (by decide) (by decide) (by decide) (by decide)

/-! ## Theorems: what one tick calls -/

/-- C22.  In a state that satisfies the invariant of the timer variables and in
which no entry with a callback has interval 0, `timer_irq_handler` returns, the
tick count afterwards is the old one plus one, and the calls it made are these:
slot `i` with function `cb` is among them exactly when `i` is a slot of the table
whose callback is `cb` (not null) and whose interval divides the new tick count;
the slots of the calls are strictly increasing, so that no slot is called twice
and the calls come in slot order. -/
theorem timer_irq_handler_calls (tv : timer_vars) (hinv : timer_inv tv) (hok : timer_ok tv) :
    ∃ calls tv1, timer_irq_handler tv = some (calls, tv1) ∧
      tv1.timer_ticks = tv.timer_ticks + 1 ∧
      (∀ i cb, (i, cb) ∈ calls ↔ (i < TIMERS_MAX ∧ (timer_at tv.timers i).callback = some cb ∧
        (timer_at tv.timers i).interval ∣ tv1.timer_ticks)) ∧
      (calls.map Prod.fst).Pairwise (fun a b => a < b) := by
  obtain ⟨tv1, h1, _, _, ht, _, _⟩ := timer_irq_handler_spec tv hinv hok
  refine ⟨_, tv1, h1, ht, ?_, ?_⟩
  · intro i cb
    rw [ht]
    exact timer_call_of_mem _ _ i cb
  · exact List.Pairwise.sublist (timer_calls_sublist _ _ _) (List.pairwise_lt_range _)

set_option maxRecDepth 100000 in
/-- C22 at the state with a timer of interval 5 in slot 0 and one of interval 2
in slot 1, tick count 0. -/
theorem timer_irq_handler_calls_witness :
    timer_inv timer_demo_forever ∧ timer_ok timer_demo_forever ∧
    ∃ calls tv1, timer_irq_handler timer_demo_forever = some (calls, tv1) ∧
      tv1.timer_ticks = timer_demo_forever.timer_ticks + 1 ∧
      (∀ i cb, (i, cb) ∈ calls ↔ (i < TIMERS_MAX ∧
        (timer_at timer_demo_forever.timers i).callback = some cb ∧
        (timer_at timer_demo_forever.timers i).interval ∣ tv1.timer_ticks)) ∧
      (calls.map Prod.fst).Pairwise (fun a b => a < b) :=
  ⟨by decide, by decide, timer_irq_handler_calls timer_demo_forever (by decide) (by decide)⟩

/-! ## Theorems: timers that repeat for ever -/

/-- C23.  Take a state after `timer_init()` in which no entry with a callback has
interval 0 and slot `i` holds a timer with a callback, some interval `k` (not 0
then) and repeat count -1.  Then any number `m` of ticks is handled; the callback
of slot `i` is
called in a tick exactly when `k` divides the tick count of that tick; and after
the `m` ticks the slot holds the same callback, interval and repeat count -1 and
its id is not in the allocator. -/
theorem timer_forever_fires (tv : timer_vars) (i : Nat) (cb : callback_t) (k : Int) (m : Nat)
    (hr : timer_reachable tv) (hok : timer_ok tv) (hi : i < TIMERS_MAX)
    (hslot : timer_at tv.timers i = { callback := some cb, interval := k, repeats := -1 }) :
    ∃ logs tv1, timer_run m tv = some (logs, tv1) ∧ logs.length = m ∧
      tv1.timer_ticks = tv.timer_ticks + m ∧
      (∀ j, j < m → (timer_fired i (logs.getD j []) = true ↔ k ∣ tv.timer_ticks + j + 1)) ∧
      timer_at tv1.timers i = { callback := some cb, interval := k, repeats := -1 } ∧
      (i : Int) ∉ queue_content tv1.timer_allocator := by
  have hinv := timer_reachable_inv tv hr
  have hst : ∀ t, timer_next t (timer_at tv.timers i) = timer_at tv.timers i := by
    intro t
    rw [hslot]
    unfold timer_next
    split
    · rw [if_neg (show ¬ ((-1 : Int) > 0) by decide), if_neg (show ¬ ((-1 : Int) = 0) by decide)]
    · rfl
  obtain ⟨logs, tv1, h1, hinv1, _, ht, hl, hs, hp, hf⟩ := timer_run_stable tv hinv hok i hi hst m
  refine ⟨logs, tv1, h1, hl, ht, ?_, by rw [hs, hslot], ?_⟩
  · intro j hj
    rw [hf j hj, hslot, timer_due_entry, decide_eq_true_eq]
  · rw [hp]
    apply hinv.not_pooled
    rw [hslot]
    simp [timer_zero]

set_option maxRecDepth 100000 in
/-- C23 at the timer with interval 2 and repeat count -1 in slot 1, 40 ticks. -/
theorem timer_forever_fires_witness :
    ∃ logs tv1, timer_run 40 timer_demo_forever = some (logs, tv1) ∧ logs.length = 40 ∧
      tv1.timer_ticks = timer_demo_forever.timer_ticks + (40 : Nat) ∧
      (∀ j, j < 40 → (timer_fired 1 (logs.getD j []) = true ↔
        (2 : Int) ∣ timer_demo_forever.timer_ticks + j + 1)) ∧
      timer_at tv1.timers 1 = { callback := some (.fn 2), interval := 2, repeats := -1 } ∧
      ((1 : Nat) : Int) ∉ queue_content tv1.timer_allocator :=
  timer_forever_fires timer_demo_forever 1 (.fn 2) 2 40 timer_demo_forever_reachable (by decide)
    (by decide) (by decide)

/-! ## Theorems: registering and unregistering timers -/

/-- C24.  In a state reached from `timer_init()` (by calls that unregister
registered timers only), where the registered slots are those whose id is not in
the allocator: when fewer than `TIMERS_MAX` slots are registered,
`timer_callback_register` returns an id in `[0, TIMERS_MAX)` of a slot that was
not registered and now is, the slot holds exactly the callback, interval and
repeat count given, every other slot and the tick count are unchanged; when all
`TIMERS_MAX` slots are registered it returns -1 and the timer variables, table
and allocator, are unchanged. -/
theorem timer_callback_register_pool (tv : timer_vars) (func_ptr : Option callback_t)
    (interval repeats : Int) (hr : timer_reachable tv) :
    ((timer_registered tv).length < TIMERS_MAX →
      ∃ id tv1, timer_callback_register func_ptr interval repeats tv = some (id, tv1) ∧
        0 ≤ id ∧ id < TIMERS_MAX ∧
        id.toNat ∉ timer_registered tv ∧ id.toNat ∈ timer_registered tv1 ∧
        timer_at tv1.timers id.toNat =
          { callback := func_ptr, interval := interval, repeats := repeats } ∧
        (∀ j, j ≠ id.toNat → timer_at tv1.timers j = timer_at tv.timers j) ∧
        tv1.timer_ticks = tv.timer_ticks) ∧
    ((timer_registered tv).length = TIMERS_MAX →
      timer_callback_register func_ptr interval repeats tv = some (-1, tv)) := by
  have hinv := timer_reachable_inv tv hr
  constructor
  · intro hlt
    obtain ⟨id, rest, hc⟩ := List.exists_cons_of_ne_nil ((timer_registered_lt tv hinv).mp hlt)
    obtain ⟨heq, hrest, h0, h1⟩ :=
      timer_callback_register_some func_ptr interval repeats tv id rest hinv hc
    have hnd := hinv.pool_nodup
    rw [hc] at hnd
    have hlen : id.toNat < tv.timers.length := by rw [hinv.len]; omega
    refine ⟨id, _, heq, h0, h1, ?_, ?_, ?_, ?_, rfl⟩
    · unfold timer_registered
      rw [List.mem_filter, Int.toNat_of_nonneg h0, hc]
      simp
    · unfold timer_registered
      rw [List.mem_filter, Int.toNat_of_nonneg h0]
      refine ⟨List.mem_range.mpr (by omega), ?_⟩
      show decide (id ∉ queue_content (queue_out tv.timer_allocator (some (-1))).2.1) = true
      rw [hrest, decide_eq_true_eq]
      exact (List.nodup_cons.mp hnd).1
    · show timer_at (tv.timers.set id.toNat _) id.toNat = _
      rw [timer_at_set, if_pos ⟨rfl, hlen⟩]
    · intro j hj
      show timer_at (tv.timers.set id.toNat _) j = _
      rw [timer_at_set, if_neg (fun h => hj h.1)]
  · intro hfull
    apply timer_callback_register_none
    by_contra hne
    have := (timer_registered_lt tv hinv).mpr hne
    omega

set_option maxRecDepth 100000 in
/-- C24 right after `timer_init()`, where no slot is registered, and in the state
with all `TIMERS_MAX` slots registered. -/
theorem timer_callback_register_pool_witness :
    ((timer_registered timer_boot).length < TIMERS_MAX ∧
      ∃ id tv1, timer_callback_register (some (.fn 7)) 3 2 timer_boot = some (id, tv1) ∧
        0 ≤ id ∧ id < TIMERS_MAX ∧
        id.toNat ∉ timer_registered timer_boot ∧ id.toNat ∈ timer_registered tv1 ∧
        timer_at tv1.timers id.toNat = { callback := some (.fn 7), interval := 3, repeats := 2 } ∧
        (∀ j, j ≠ id.toNat → timer_at tv1.timers j = timer_at timer_boot.timers j) ∧
        tv1.timer_ticks = timer_boot.timer_ticks) ∧
    ((timer_registered timer_demo_full).length = TIMERS_MAX ∧
      timer_callback_register (some (.fn 7)) 3 2 timer_demo_full = some (-1, timer_demo_full)) :=
  ⟨⟨by decide, (timer_callback_register_pool timer_boot (some (.fn 7)) 3 2 timer_reachable.boot).1
      (by decide)⟩,
   ⟨by decide, (timer_callback_register_pool timer_demo_full (some (.fn 7)) 3 2
      timer_demo_full_reachable).2 (by decide)⟩⟩

/-- C25.  In a state reached from `timer_init()` in which no entry with a callback
has interval 0, let `id` be the id of a registered timer: in `[0, TIMERS_MAX)` and
not in the allocator.  Then `timer_callback_unregister(id)` returns 0, the slot is
cleared and `id` is in the allocator; any number of later ticks is handled
without a call of slot `id`, and leaves the slot cleared and `id` in the
allocator; and if the allocator was empty before, so that
`timer_callback_register` returned -1, the same registration now succeeds: it
returns `id` and stores the timer in that slot. -/
theorem timer_callback_unregister_stops (tv : timer_vars) (id : Int) (hr : timer_reachable tv)
    (hok : timer_ok tv) (h0 : 0 ≤ id) (h1 : id < TIMERS_MAX)
    (hreg : id ∉ queue_content tv.timer_allocator) :
    ∃ tv1, timer_callback_unregister id tv = (0, tv1) ∧
      timer_at tv1.timers id.toNat = timer_zero ∧ id ∈ queue_content tv1.timer_allocator ∧
      (∀ m, ∃ logs tv2, timer_run m tv1 = some (logs, tv2) ∧ logs.length = m ∧
        (∀ calls ∈ logs, timer_fired id.toNat calls = false) ∧
        timer_at tv2.timers id.toNat = timer_zero ∧ id ∈ queue_content tv2.timer_allocator) ∧
      (queue_content tv.timer_allocator = [] → ∀ func_ptr interval repeats,
        timer_callback_register func_ptr interval repeats tv = some (-1, tv) ∧
        ∃ tv3, timer_callback_register func_ptr interval repeats tv1 = some (id, tv3) ∧
          timer_at tv3.timers id.toNat =
            { callback := func_ptr, interval := interval, repeats := repeats }) := by
  have hinv := timer_reachable_inv tv hr
  obtain ⟨heq, hcont⟩ := timer_callback_unregister_eq id tv hinv h0 h1
  have hinv1 := timer_callback_unregister_inv id tv hinv h0 h1 hreg
  have hok1 := timer_callback_unregister_ok id tv hok
  rw [heq] at hinv1 hok1
  have hlen : id.toNat < tv.timers.length := by rw [hinv.len]; omega
  have hi : id.toNat < TIMERS_MAX := by omega
  have hcast : ((id.toNat : Nat) : Int) = id := Int.toNat_of_nonneg h0
  have hz : timer_at (tv.timers.set id.toNat timer_zero) id.toNat = timer_zero := by
    rw [timer_at_set, if_pos ⟨rfl, hlen⟩]
  have hmem : id ∈ queue_content (queue_in tv.timer_allocator id).2 := by
    rw [hcont]; simp
  refine ⟨_, heq, hz, hmem, ?_, ?_⟩
  · intro m
    obtain ⟨logs, tv2, h2, _, _, _, hl, hs, hp, hf⟩ := timer_run_stable _ hinv1 hok1 id.toNat hi
      (by intro t; show timer_next t (timer_at (tv.timers.set id.toNat timer_zero) id.toNat) = _
          rw [hz, timer_next_zero]) m
    refine ⟨logs, tv2, h2, hl, ?_, ?_, ?_⟩
    · intro calls hcalls
      obtain ⟨j, hj, hje⟩ := List.getElem_of_mem hcalls
      have := hf j (by omega)
      rw [List.getD_eq_getElem _ _ hj, hje] at this
      rw [this]
      show timer_due _ (timer_at (tv.timers.set id.toNat timer_zero) id.toNat) = false
      rw [hz]
      simp [timer_due, timer_zero]
    · rw [hs]; exact hz
    · have := hp.mpr (by rw [hcast]; exact hmem)
      rw [hcast] at this
      exact this
  · intro he func_ptr interval repeats
    refine ⟨timer_callback_register_none _ _ _ _ he, ?_⟩
    have hc1 : queue_content (queue_in tv.timer_allocator id).2 = id :: [] := by
      rw [hcont, he]; rfl
    obtain ⟨heq3, _, _, _⟩ := timer_callback_register_some func_ptr interval repeats _ id [] hinv1 hc1
    refine ⟨_, heq3, ?_⟩
    show timer_at ((tv.timers.set id.toNat timer_zero).set id.toNat _) id.toNat = _
    rw [timer_at_set, if_pos ⟨rfl, by simpa using hlen⟩]

set_option maxRecDepth 100000 in
/-- C25 in the state with all `TIMERS_MAX` slots registered, for the timer in slot
4. -/
theorem timer_callback_unregister_stops_witness :
    ∃ tv1, timer_callback_unregister 4 timer_demo_full = (0, tv1) ∧
      timer_at tv1.timers (4 : Int).toNat = timer_zero ∧ 4 ∈ queue_content tv1.timer_allocator ∧
      (∀ m, ∃ logs tv2, timer_run m tv1 = some (logs, tv2) ∧ logs.length = m ∧
        (∀ calls ∈ logs, timer_fired (4 : Int).toNat calls = false) ∧
        timer_at tv2.timers (4 : Int).toNat = timer_zero ∧ 4 ∈ queue_content tv2.timer_allocator) ∧
      (queue_content timer_demo_full.timer_allocator = [] → ∀ func_ptr interval repeats,
        timer_callback_register func_ptr interval repeats timer_demo_full =
          some (-1, timer_demo_full) ∧
        ∃ tv3, timer_callback_register func_ptr interval repeats tv1 = some (4, tv3) ∧
          timer_at tv3.timers (4 : Int).toNat =
            { callback := func_ptr, interval := interval, repeats := repeats }) :=
  timer_callback_unregister_stops timer_demo_full 4 timer_demo_full_reachable (by decide)
    (by decide) (by decide) (by decide)

/-- C26.  For `id < 0` or `id ≥ TIMERS_MAX`, `timer_callback_unregister(id)` returns
-1 and leaves the timer variables, table and allocator, as they are. -/
theorem timer_callback_unregister_out_of_range (tv : timer_vars) (id : Int)
    (h : id < 0 ∨ id ≥ TIMERS_MAX) : timer_callback_unregister id tv = (-1, tv) :=
  timer_callback_unregister_range id tv h

/-- C26 for the ids -1 and `TIMERS_MAX` in the state with one registered timer. -/
theorem timer_callback_unregister_out_of_range_witness :
    timer_callback_unregister (-1) timer_demo = (-1, timer_demo) ∧
    timer_callback_unregister 32 timer_demo = (-1, timer_demo) :=
  ⟨timer_callback_unregister_out_of_range timer_demo (-1) (by decide),
   timer_callback_unregister_out_of_range timer_demo 32 (by decide)⟩

set_option maxRecDepth 100000 in
/-- C27, counterexample.  Right after `timer_init()`, `timer_callback_register` with
a null callback, interval 5 and repeat count 3 returns the id 0: slot 0 holds the
null callback with that interval and repeat count, and 0 has left the allocator,
which held the ids 0 .. 31 and now holds 1 .. 31. -/
theorem timer_callback_register_null_accepted :
    timer_callback_register none 5 3 timer_boot = some (0, timer_demo_null) ∧
    timer_at timer_demo_null.timers 0 = { callback := none, interval := 5, repeats := 3 } ∧
    queue_content timer_boot.timer_allocator = (List.range 32).map (fun (i : Nat) => (i : Int)) ∧
    queue_content timer_demo_null.timer_allocator =
      (List.range 31).map (fun (i : Nat) => (i : Int) + 1) := by
  decide

/-- C27, amended.  `timer_callback_register` does not test the callback.  In a
state reached from `timer_init()` whose allocator holds `id` first, a call with a
null callback returns `id`, takes it from the allocator and stores the null
callback with the interval and repeat count given in slot `id`; when no entry
with a callback has interval 0, any number of later ticks is handled without a
call of that slot, and leaves the slot as it is and `id` out of the allocator. -/
theorem timer_callback_register_null (tv : timer_vars) (id : Int) (rest : List Int)
    (interval repeats : Int) (hr : timer_reachable tv)
    (hpool : queue_content tv.timer_allocator = id :: rest) :
    ∃ tv1, timer_callback_register none interval repeats tv = some (id, tv1) ∧
      queue_content tv1.timer_allocator = rest ∧
      timer_at tv1.timers id.toNat = { callback := none, interval := interval, repeats := repeats } ∧
      (timer_ok tv → ∀ m, ∃ logs tv2, timer_run m tv1 = some (logs, tv2) ∧ logs.length = m ∧
        (∀ calls ∈ logs, timer_fired id.toNat calls = false) ∧
        timer_at tv2.timers id.toNat =
          { callback := none, interval := interval, repeats := repeats } ∧
        id ∉ queue_content tv2.timer_allocator) := by
  have hinv := timer_reachable_inv tv hr
  obtain ⟨heq, hrest, h0, h1⟩ := timer_callback_register_some none interval repeats tv id rest hinv hpool
  have hinv1 := timer_callback_register_inv none interval repeats tv _ id hinv heq
  have hlen : id.toNat < tv.timers.length := by rw [hinv.len]; omega
  have hi : id.toNat < TIMERS_MAX := by omega
  have hcast : ((id.toNat : Nat) : Int) = id := Int.toNat_of_nonneg h0
  have hnd := hinv.pool_nodup
  rw [hpool] at hnd
  have hz : timer_at (tv.timers.set id.toNat
      { callback := none, interval := interval, repeats := repeats }) id.toNat =
      { callback := none, interval := interval, repeats := repeats } := by
    rw [timer_at_set, if_pos ⟨rfl, hlen⟩]
  refine ⟨_, heq, hrest, hz, ?_⟩
  intro hok m
  have hok1 := timer_callback_register_ok none interval repeats tv _ id hinv hok
    (fun h => absurd rfl h) heq
  obtain ⟨logs, tv2, h2, _, _, _, hl, hs, hp, hf⟩ := timer_run_stable _ hinv1 hok1 id.toNat hi
    (by intro t
        show timer_next t (timer_at (tv.timers.set id.toNat _) id.toNat) = _
        rw [hz]
        simp [timer_next, timer_due]) m
  refine ⟨logs, tv2, h2, hl, ?_, ?_, ?_⟩
  · intro calls hcalls
    obtain ⟨j, hj, hje⟩ := List.getElem_of_mem hcalls
    have := hf j (by omega)
    rw [List.getD_eq_getElem _ _ hj, hje] at this
    rw [this]
    show timer_due _ (timer_at (tv.timers.set id.toNat _) id.toNat) = false
    rw [hz]
    simp [timer_due]
  · rw [hs]; exact hz
  · rw [← hcast, hp, hcast]
    show id ∉ queue_content (queue_out tv.timer_allocator (some (-1))).2.1
    rw [hrest]
    exact (List.nodup_cons.mp hnd).1

set_option maxRecDepth 100000 in
/-- C27 amended, in the state with one registered timer, whose allocator holds
the ids 1 .. 31. -/
theorem timer_callback_register_null_witness :
    ∃ tv1, timer_callback_register none 7 0 timer_demo = some (1, tv1) ∧
      queue_content tv1.timer_allocator = (List.range 30).map (fun (i : Nat) => (i : Int) + 2) ∧
      timer_at tv1.timers (1 : Int).toNat = { callback := none, interval := 7, repeats := 0 } ∧
      (timer_ok timer_demo → ∀ m, ∃ logs tv2, timer_run m tv1 = some (logs, tv2) ∧
        logs.length = m ∧
        (∀ calls ∈ logs, timer_fired (1 : Int).toNat calls = false) ∧
        timer_at tv2.timers (1 : Int).toNat = { callback := none, interval := 7, repeats := 0 } ∧
        1 ∉ queue_content tv2.timer_allocator) :=
  timer_callback_register_null timer_demo 1 ((List.range 30).map (fun (i : Nat) => (i : Int) + 2))
    7 0 timer_demo_reachable (by decide)

/-! ## Theorems: interrupt dispatch -/

theorem outportb_irq_handlers (port value : Nat) (s : intr_vars) :
    (outportb port value s).irq_handlers = s.irq_handlers := by
  unfold outportb
  simp only []
  split
  · rfl
  · split <;> rfl

theorem pic_irq_enable_irq_handlers (irq : Int) (s : intr_vars) :
    (pic_irq_enable irq s).irq_handlers = s.irq_handlers := by
  unfold pic_irq_enable
  split
  · rfl
  · split
    · exact outportb_irq_handlers _ _ _
    · split
      · exact outportb_irq_handlers _ _ _
      · rfl

theorem handler_getD_set (tbl : List (Option Nat)) (n j : Nat) (h : Option Nat) :
    (tbl.set n h).getD j none = if j = n ∧ n < tbl.length then h else tbl.getD j none := by
  by_cases hj : n = j
  · subst hj
    by_cases hl : n < tbl.length
    · simp [List.getD_eq_getElem?_getD, List.getElem?_set, hl]
    · have hn : tbl[n]? = none := List.getElem?_eq_none (by omega)
      simp [List.getD_eq_getElem?_getD, List.getElem?_set, hl, hn]
  · have h' : ¬ j = n := fun x => hj x.symm
    simp [List.getD_eq_getElem?_getD, List.getElem?_set, hj, h']

/-- C29.  `interrupts_irq_register` reaches `kernel_panic` when `entry` is null and
when `handler` is null, in the state in which it was called: nothing has been
written, the handler table is as it was.  When both are non-null and the vector
is an index of the handler table, it returns, the handler of the vector is the
given one and the handler of every other vector is the one it was. -/
theorem interrupts_irq_register_checks (irq : Int) (entry handler : Option Nat) (s : intr_vars) :
    ((entry = none ∨ handler = none) →
      interrupts_irq_register irq entry handler s = .panicked s) ∧
    (∀ e h, entry = some e → handler = some h → 0 ≤ irq → irq < IRQ_MAX →
      s.irq_handlers.length = IRQ_MAX →
      ∃ s1, interrupts_irq_register irq entry handler s = .ret s1 ∧
        s1.irq_handlers.getD irq.toNat none = some h ∧
        ∀ j, j ≠ irq.toNat → s1.irq_handlers.getD j none = s.irq_handlers.getD j none) := by
  constructor
  · rintro (h | h)
    · subst h; rfl
    · subst h
      cases entry <;> rfl
  · intro e h he hh h0 h1 hlen
    subst he; subst hh
    have hl : irq.toNat < s.irq_handlers.length := by rw [hlen]; omega
    unfold interrupts_irq_register
    simp only []
    rw [if_pos ⟨h0, h1⟩]
    split
    · refine ⟨_, rfl, ?_, ?_⟩
      · rw [pic_irq_enable_irq_handlers]
        show (s.irq_handlers.set irq.toNat (some h)).getD irq.toNat none = some h
        rw [handler_getD_set, if_pos ⟨rfl, hl⟩]
      · intro j hj
        rw [pic_irq_enable_irq_handlers]
        show (s.irq_handlers.set irq.toNat (some h)).getD j none = _
        rw [handler_getD_set, if_neg (fun x => hj x.1)]
    · refine ⟨_, rfl, ?_, ?_⟩
      · show (s.irq_handlers.set irq.toNat (some h)).getD irq.toNat none = some h
        rw [handler_getD_set, if_pos ⟨rfl, hl⟩]
      · intro j hj
        show (s.irq_handlers.set irq.toNat (some h)).getD j none = _
        rw [handler_getD_set, if_neg (fun x => hj x.1)]

/-- C30.  For a vector `v` that is an index of the handler table:
`interrupts_irq_handler(v)` reaches `kernel_panic` when no handler is registered
for `v`, with nothing called and nothing written.  Otherwise it returns, and what
it has added to the trace is one call of the registered handler followed, for
`0x20 ≤ v ≤ 0x27`, by the end-of-interrupt command to the command port of the
primary controller only; for `0x28 ≤ v ≤ 0x2F`, by the command to the primary
and then to the secondary controller; and for any other vector by nothing. -/
theorem interrupts_irq_handler_dispatch (v : Int) (s : intr_vars) (h0 : 0 ≤ v) (h1 : v < IRQ_MAX) :
    (s.irq_handlers.getD v.toNat none = none → interrupts_irq_handler v s = .panicked s) ∧
    (∀ h, s.irq_handlers.getD v.toNat none = some h →
      ((0x20 ≤ v ∧ v ≤ 0x27) → interrupts_irq_handler v s = .ret { s with
        trace := s.trace ++ [.call h, .outportb PIC1_CMD PIC_EOI] }) ∧
      ((0x28 ≤ v ∧ v ≤ 0x2F) → interrupts_irq_handler v s = .ret { s with
        trace := s.trace ++ [.call h, .outportb PIC1_CMD PIC_EOI, .outportb PIC2_CMD PIC_EOI] }) ∧
      ((v < 0x20 ∨ 0x2F < v) → interrupts_irq_handler v s = .ret { s with
        trace := s.trace ++ [.call h] })) := by
  constructor
  · intro hn
    unfold interrupts_irq_handler
    rw [if_pos ⟨h0, h1⟩, hn]
  · intro h hh
    refine ⟨?_, ?_, ?_⟩
    · intro hv
      unfold interrupts_irq_handler
      rw [if_pos ⟨h0, h1⟩, hh]
      simp only []
      rw [if_pos (by omega)]
      unfold pic_irq_dismiss
      rw [if_pos (by omega)]
      simp [outportb, PIC1_CMD, PIC1_DATA, PIC2_DATA, PIC1_BASE, PIC2_BASE, PIC_EOI]
    · intro hv
      unfold interrupts_irq_handler
      rw [if_pos ⟨h0, h1⟩, hh]
      simp only []
      rw [if_pos (by omega)]
      unfold pic_irq_dismiss
      rw [if_neg (by omega), if_pos (by omega)]
      simp [outportb, PIC1_CMD, PIC2_CMD, PIC1_DATA, PIC2_DATA, PIC1_BASE, PIC2_BASE, PIC_EOI]
    · intro hv
      unfold interrupts_irq_handler
      rw [if_pos ⟨h0, h1⟩, hh]
      simp only []
      rw [if_neg (by omega)]

set_option maxRecDepth 100000 in
/-- C30 at the vectors 0x20 (timer, primary controller), 0x2C (secondary
controller), 0x80 (no controller line) and 0x22 (no handler). -/
theorem interrupts_irq_handler_dispatch_witness :
    interrupts_irq_handler 0x20 intr_demo_handlers = .ret { intr_demo_handlers with
      trace := intr_demo_handlers.trace ++ [.call 1000, .outportb PIC1_CMD PIC_EOI] } ∧
    interrupts_irq_handler 0x2C intr_demo_handlers = .ret { intr_demo_handlers with
      trace := intr_demo_handlers.trace ++
        [.call 1002, .outportb PIC1_CMD PIC_EOI, .outportb PIC2_CMD PIC_EOI] } ∧
    interrupts_irq_handler 0x80 intr_demo_handlers = .ret { intr_demo_handlers with
      trace := intr_demo_handlers.trace ++ [.call 1003] } ∧
    interrupts_irq_handler 0x22 intr_demo_handlers = .panicked intr_demo_handlers :=
  ⟨((interrupts_irq_handler_dispatch 0x20 intr_demo_handlers (by decide) (by decide)).2 1000
      (by decide)).1 (by decide),
   ((interrupts_irq_handler_dispatch 0x2C intr_demo_handlers (by decide) (by decide)).2 1002
      (by decide)).2.1 (by decide),
   ((interrupts_irq_handler_dispatch 0x80 intr_demo_handlers (by decide) (by decide)).2 1003
      (by decide)).2.2 (by decide),
   (interrupts_irq_handler_dispatch 0x22 intr_demo_handlers (by decide) (by decide)).1 (by decide)⟩

/-! ## Theorems: timer ticks that drive the scheduler -/

theorem timer_next_steady (t : Int) (e : timer_t)
    (h : e.callback = none ∨ (e.interval = 1 ∧ e.repeats = -1)) : timer_next t e = e := by
  unfold timer_next
  rcases h with h | ⟨_, h⟩
  · simp [timer_due, h]
  · split
    · rw [h, if_neg (by decide), if_neg (by decide)]
    · rfl

theorem timer_call_of_steady (t : Int) (i : Nat) (e : timer_t)
    (h : e.callback = none ∨ (e.interval = 1 ∧ e.repeats = -1)) :
    timer_call_of t i e = timer_call_of 1 i e := by
  unfold timer_call_of
  rcases h with h | ⟨h, _⟩
  · rw [h]
  · cases e.callback with
    | none => rfl
    | some cb => simp [h]

theorem timer_steady_at (tv : timer_vars) (h : timer_steady tv) (i : Nat) :
    (timer_at tv.timers i).callback = none ∨
      ((timer_at tv.timers i).interval = 1 ∧ (timer_at tv.timers i).repeats = -1) := by
  by_cases hi : i < tv.timers.length
  · exact h _ (timer_at_mem _ _ hi)
  · rw [timer_at_zero_of_le _ _ (by omega)]
    exact Or.inl rfl

/-- A tick on a table on which every timer has interval 1 and repeat count -1:
every timer is called and the table stays as it is. -/
theorem timer_irq_handler_steady (tv : timer_vars) (hinv : timer_inv tv) (hst : timer_steady tv) :
    ∃ tv1, timer_irq_handler tv =
        some ((List.range TIMERS_MAX).filterMap
          (fun i => timer_call_of 1 i (timer_at tv.timers i)), tv1) ∧
      timer_inv tv1 ∧ tv1.timers = tv.timers ∧ tv1.timer_ticks = tv.timer_ticks + 1 := by
  have hok : timer_ok tv := by
    intro e he hc
    rcases hst e he with h | ⟨h, _⟩
    · exact absurd h hc
    · rw [h]; decide
  obtain ⟨tv1, h1, hinv1, _, ht, hs, _⟩ := timer_irq_handler_spec tv hinv hok
  refine ⟨tv1, ?_, hinv1, ?_, ht⟩
  · rw [h1]
    congr 2
    apply List.filterMap_congr
    intro i _
    exact timer_call_of_steady _ i _ (timer_steady_at tv hst i)
  · apply List.ext_getElem
    · rw [hinv1.len, hinv.len]
    · intro i h1 h2
      have := hs i
      rw [timer_next_steady _ _ (timer_steady_at tv hst i)] at this
      unfold timer_at at this
      rw [List.getD_eq_getElem _ _ h1, List.getD_eq_getElem _ _ h2] at this
      exact this

set_option maxRecDepth 100000 in
theorem ksystem_demo_eq : ksystem_demo = some ksystem_demo_state := by decide

set_option maxRecDepth 100000 in
theorem ksystem_demo_vars : ksystem_demo_state.vars = demo_running := by decide

set_option maxRecDepth 100000 in
theorem ksystem_demo_timer : timer_inv ksystem_demo_state.timer ∧
    timer_steady ksystem_demo_state.timer ∧ ksystem_demo_state.timer.timer_ticks = 0 ∧
    (List.range TIMERS_MAX).filterMap
      (fun i => timer_call_of 1 i (timer_at ksystem_demo_state.timer.timers i)) =
      [(0, .scheduler_timer), (1, .displayProcs)] := by
  decide

/-- A tick of the system whose timers are those of `ksystem_demo`: the tick runs
`scheduler_timer` and `scheduler_run` on the process variables. -/
theorem kernel_tick_steady (k : ksystem) (hinv : timer_inv k.timer)
    (htbl : k.timer.timers = ksystem_demo_state.timer.timers) :
    ∃ tv1, timer_inv tv1 ∧ tv1.timers = ksystem_demo_state.timer.timers ∧
      tv1.timer_ticks = k.timer.timer_ticks + 1 ∧
      kernel_tick k = (vars_tick (k.timer.timer_ticks + 1) k.vars).map
        (fun s => { timer := tv1, vars := s }) := by
  have hst : timer_steady k.timer := by
    unfold timer_steady
    rw [htbl]
    exact ksystem_demo_timer.2.1
  obtain ⟨tv1, h1, hinv1, ht1, hk1⟩ := timer_irq_handler_steady k.timer hinv hst
  rw [htbl, ksystem_demo_timer.2.2.2] at h1
  refine ⟨tv1, hinv1, by rw [ht1, htbl], hk1, ?_⟩
  unfold kernel_tick vars_tick
  rw [h1]
  simp only [Option.some_bind, callbacks_run, callback_run, hk1]
  cases scheduler_timer { k.vars with timer_ticks := k.timer.timer_ticks + 1 } with
  | none => rfl
  | some s1 => simp only [Option.some_bind, Option.bind_some]

theorem kernel_ticks_steady (n : Nat) :
    ∀ (k : ksystem) (log : List (Option Int)) (s1 : kstate), timer_inv k.timer →
      k.timer.timers = ksystem_demo_state.timer.timers →
      vars_ticks n k.timer.timer_ticks k.vars = some (log, s1) →
      ∃ tv1, timer_inv tv1 ∧ tv1.timers = ksystem_demo_state.timer.timers ∧
        tv1.timer_ticks = k.timer.timer_ticks + n ∧
        kernel_ticks n k = some (log, { timer := tv1, vars := s1 }) := by
  induction n with
  | zero =>
    intro k log s1 hinv htbl h
    simp only [vars_ticks, Option.some.injEq, Prod.mk.injEq] at h
    obtain ⟨hl, hs⟩ := h
    subst hl; subst hs
    exact ⟨k.timer, hinv, htbl, by simp, rfl⟩
  | succ n ih =>
    intro k log s1 hinv htbl h
    simp only [vars_ticks, Option.bind_eq_some, Option.map_eq_some'] at h
    obtain ⟨r, hr, s2, hs2, heq⟩ := h
    obtain ⟨tvn, hinvn, htbln, htn, hkn⟩ := ih k r.1 r.2 hinv htbl hr
    obtain ⟨tv1, hinv1, htbl1, ht1, hk1⟩ :=
      kernel_tick_steady { timer := tvn, vars := r.2 } hinvn htbln
    injection heq with hl hs
    subst hl; subst hs
    refine ⟨tv1, hinv1, htbl1, ?_, ?_⟩
    · rw [ht1]
      show tvn.timer_ticks + 1 = _
      rw [htn]; push_cast; ring
    · simp only [kernel_ticks, hkn, Option.some_bind, hk1]
      have : tvn.timer_ticks + 1 = k.timer.timer_ticks + n + 1 := by rw [htn]
      simp only [this, hs2, Option.map_some']

theorem vars_charge_charge (n : Nat) (t t1 : Int) (c : Nat) (s : kstate) :
    vars_charge 1 t1 c (vars_charge n t c s) = vars_charge (n + 1) t1 c s := by
  unfold vars_charge
  simp only [proc_update_update]
  congr 2
  funext e
  simp only [Nat.cast_add, Nat.cast_one, add_assoc]

theorem vars_charge_zero (c : Nat) (s : kstate) : vars_charge 0 s.timer_ticks c s = s := by
  unfold vars_charge
  rw [proc_update_self]
  intro e
  simp

theorem vars_charge_current (n : Nat) (t : Int) (c : Nat) (s : kstate) :
    (vars_charge n t c s).current = s.current := rfl

theorem vars_charge_table (n : Nat) (t : Int) (c : Nat) (s : kstate) :
    (vars_charge n t c s).proc_table = proc_update s.proc_table c
      (fun e => { e with run_time := e.run_time + n, cpu_time := e.cpu_time + n }) := rfl

theorem vars_charge_length (n : Nat) (t : Int) (c : Nat) (s : kstate) :
    (vars_charge n t c s).proc_table.length = s.proc_table.length := by
  rw [vars_charge_table, proc_update_length]

theorem vars_charge_cpu (n : Nat) (t : Int) (c : Nat) (s : kstate) (hl : c < s.proc_table.length) :
    (proc_at (vars_charge n t c s).proc_table c).cpu_time = (proc_at s.proc_table c).cpu_time + n := by
  rw [vars_charge_table, proc_at_update, if_pos ⟨rfl, hl⟩]

theorem vars_charge_pid (n : Nat) (t : Int) (c : Nat) (s : kstate) (hc : s.current = some c)
    (hl : c < s.proc_table.length) : current_pid (vars_charge n t c s) = current_pid s := by
  unfold current_pid
  rw [vars_charge_current, hc, Option.map_some', Option.map_some', vars_charge_table,
    proc_at_update, if_pos ⟨rfl, hl⟩]

/-- A tick that leaves the current process within its timeslice charges it and
changes nothing else. -/
theorem vars_tick_within (t : Int) (s : kstate) (c : Nat) (hc : s.current = some c)
    (hl : c < s.proc_table.length)
    (hcpu : (proc_at s.proc_table c).cpu_time + 1 < SCHEDULER_TIMESLICE) :
    vars_tick t s = some (vars_charge 1 t c s) := by
  have hat : (proc_at (proc_update s.proc_table c
      (fun e => { e with run_time := e.run_time + 1, cpu_time := e.cpu_time + 1 })) c).cpu_time =
      (proc_at s.proc_table c).cpu_time + 1 := by
    rw [proc_at_update, if_pos ⟨rfl, hl⟩]
  unfold vars_tick scheduler_timer
  simp only [hc, Option.some_bind]
  unfold scheduler_run
  simp only [hat, hcpu, if_true]
  unfold vars_charge
  simp only [Nat.cast_one, hc]

theorem vars_ticks_within (c : Nat) (t0 : Int) (n : Nat) :
    ∀ (s : kstate), s.current = some c → c < s.proc_table.length → s.timer_ticks = t0 →
      (proc_at s.proc_table c).cpu_time + n < SCHEDULER_TIMESLICE →
      vars_ticks n t0 s = some (List.replicate n (current_pid s), vars_charge n (t0 + n) c s) := by
  induction n with
  | zero =>
    intro s _ _ ht _
    simp only [vars_ticks, List.replicate_zero, Nat.cast_zero, add_zero]
    rw [← ht, vars_charge_zero]
  | succ n ih =>
    intro s hc hl ht hcpu
    have hcpu1 : (proc_at s.proc_table c).cpu_time + n < SCHEDULER_TIMESLICE := by
      push_cast at hcpu; omega
    have hl1 : c < (vars_charge n (t0 + n) c s).proc_table.length := by
      rw [vars_charge_length]; exact hl
    have hat : (proc_at (vars_charge n (t0 + n) c s).proc_table c).cpu_time + 1 <
        SCHEDULER_TIMESLICE := by
      rw [vars_charge_cpu _ _ _ _ hl]
      push_cast at hcpu; omega
    simp only [vars_ticks]
    rw [ih s hc hl ht hcpu1]
    simp only [Option.some_bind]
    rw [vars_tick_within _ _ c (by rw [vars_charge_current]; exact hc) hl1 hat, Option.map_some',
      vars_charge_charge, vars_charge_pid _ _ _ _ hc hl, List.replicate_succ']
    push_cast
    rw [add_assoc]

theorem vars_ticks_add (m n : Nat) (t0 : Int) (s : kstate) :
    vars_ticks (m + n) t0 s = (vars_ticks m t0 s).bind (fun r =>
      (vars_ticks n (t0 + m) r.2).map (fun r2 => (r.1 ++ r2.1, r2.2))) := by
  induction n with
  | zero =>
    simp only [Nat.add_zero, vars_ticks, Option.map_some', List.append_nil]
    cases vars_ticks m t0 s <;> rfl
  | succ n ih =>
    rw [← Nat.add_assoc]
    simp only [vars_ticks]
    rw [ih]
    cases vars_ticks m t0 s with
    | none => rfl
    | some r =>
      simp only [Option.some_bind]
      cases vars_ticks n (t0 + m) r.2 with
      | none => rfl
      | some r2 =>
        simp only [Option.map_some', Option.some_bind]
        have : t0 + ((m + n : Nat) : Int) + 1 = t0 + m + n + 1 := by push_cast; ring
        rw [this]
        cases vars_tick (t0 + m + n + 1) r2.2 with
        | none => rfl
        | some s1 => simp

/-- A full timeslice of ticks: 249 ticks charged to the current process, then the
tick that uses the timeslice up. -/
theorem vars_ticks_round (s s1 : kstate) (t0 : Int) (c : Nat) (hc : s.current = some c)
    (hl : c < s.proc_table.length) (ht : s.timer_ticks = t0)
    (hcpu : (proc_at s.proc_table c).cpu_time = 0)
    (h1 : vars_tick (t0 + 250) (vars_charge 249 (t0 + 249) c s) = some s1) :
    vars_ticks 250 t0 s = some (List.replicate 250 (current_pid s), s1) := by
  have h249 := vars_ticks_within c t0 249 s hc hl ht (by rw [hcpu]; decide)
  show (vars_ticks 249 t0 s).bind _ = _
  rw [h249]
  simp only [Option.some_bind]
  have e1 : t0 + ((249 : Nat) : Int) + 1 = t0 + 250 := by push_cast; ring
  have e2 : t0 + ((249 : Nat) : Int) = t0 + 249 := by push_cast; ring
  rw [e1, e2, h1, Option.map_some', vars_charge_pid _ _ _ _ hc hl]
  have hrep : List.replicate 249 (current_pid s) ++ [current_pid s] =
      List.replicate 250 (current_pid s) := (List.replicate_succ' 249 (current_pid s)).symm
  rw [hrep]

set_option maxRecDepth 100000 in
theorem demo_round1_eq :
    vars_ticks 250 0 demo_running = some (List.replicate 250 (some 1), demo_round1) :=
  vars_ticks_round demo_running demo_round1 0 1 (by decide) (by decide) (by decide) (by decide)
    (by decide)
set_option maxRecDepth 100000 in
theorem demo_round2_eq :
    vars_ticks 250 250 demo_round1 = some (List.replicate 250 (some 2), demo_round2) :=
  vars_ticks_round demo_round1 demo_round2 250 2 (by decide) (by decide) (by decide) (by decide)
    (by decide)

set_option maxRecDepth 100000 in
theorem demo_round3_eq :
    vars_ticks 250 500 demo_round2 = some (List.replicate 250 (some 3), demo_round3) :=
  vars_ticks_round demo_round2 demo_round3 500 3 (by decide) (by decide) (by decide) (by decide)
    (by decide)

theorem demo_rounds_eq :
    vars_ticks 750 0 demo_running =
      some (List.replicate 250 (some 1) ++ (List.replicate 250 (some 2) ++
        List.replicate 250 (some 3)), demo_round3) := by
  have e : (750 : Nat) = 250 + (250 + 250) := rfl
  have e1 : (0 : Int) + ((250 : Nat) : Int) = 250 := by decide
  have e2 : (250 : Int) + ((250 : Nat) : Int) = 500 := by decide
  rw [e, vars_ticks_add, demo_round1_eq, Option.some_bind, vars_ticks_add, e1, demo_round2_eq,
    Option.some_bind, e2, demo_round3_eq, Option.map_some', Option.map_some']

set_option maxRecDepth 100000 in
/-- C28.  Start with `timer_init()`, `scheduler_init()` and `kproc_init()`, create
three user processes, which get the pids 1, 2 and 3, and make the first
`scheduler_run()`: pid 1 is current, 2 and 3 are queued, the tick count is 0 and
slot 0 of the timer table holds `scheduler_timer` with interval 1 and repeat
count -1.  Then `3 * SCHEDULER_TIMESLICE` = 750 timer ticks, each the timer
handler with its callbacks followed by `scheduler_run()`, are all handled; the
process current when a tick arrives is pid 1 for the first 250 ticks, pid 2 for
the next 250 and pid 3 for the last 250, never pid 0; afterwards the run time of
each of the pids 1, 2, 3 is `SCHEDULER_TIMESLICE` and that of the idle process
is 0. -/
theorem round_robin_scenario :
    ∃ k0 log k1, ksystem_demo = some k0 ∧
      (ksystem_boot.bind (fun k => kcalls_created k.vars demo_creates)).map Prod.fst =
        some [1, 2, 3] ∧
      k0.timer.timer_ticks = 0 ∧ current_pid k0.vars = some 1 ∧
      queue_content k0.vars.run_queue = [2, 3] ∧
      timer_at k0.timer.timers 0 =
        { callback := some .scheduler_timer, interval := 1, repeats := -1 } ∧
      kernel_ticks (3 * SCHEDULER_TIMESLICE).toNat k0 = some (log, k1) ∧
      log = List.replicate 250 (some 1) ++ (List.replicate 250 (some 2) ++
        List.replicate 250 (some 3)) ∧
      some 0 ∉ log ∧
      run_time_of 1 k1.vars = some SCHEDULER_TIMESLICE ∧
      run_time_of 2 k1.vars = some SCHEDULER_TIMESLICE ∧
      run_time_of 3 k1.vars = some SCHEDULER_TIMESLICE ∧
      run_time_of 0 k1.vars = some 0 ∧ k1.timer.timer_ticks = 750 := by
  have hrun : vars_ticks 750 ksystem_demo_state.timer.timer_ticks ksystem_demo_state.vars =
      some (List.replicate 250 (some 1) ++ (List.replicate 250 (some 2) ++
        List.replicate 250 (some 3)), demo_round3) := by
    rw [ksystem_demo_timer.2.2.1, ksystem_demo_vars]
    exact demo_rounds_eq
  obtain ⟨tv1, _, _, ht1, hk1⟩ := kernel_ticks_steady 750 ksystem_demo_state _ _
    ksystem_demo_timer.1 rfl hrun
  have h750 : (3 * SCHEDULER_TIMESLICE).toNat = 750 := by decide
  have hr1 : run_time_of 1 demo_round3 = some SCHEDULER_TIMESLICE := by decide
  have hr2 : run_time_of 2 demo_round3 = some SCHEDULER_TIMESLICE := by decide
  have hr3 : run_time_of 3 demo_round3 = some SCHEDULER_TIMESLICE := by decide
  have hr0 : run_time_of 0 demo_round3 = some 0 := by decide
  refine ⟨ksystem_demo_state, _, _, ksystem_demo_eq, by decide, by decide, by decide, by decide,
    by decide, by rw [h750]; exact hk1, rfl, ?_, hr1, hr2, hr3, hr0, ?_⟩
  · intro h
    rcases List.mem_append.mp h with h | h
    · exact absurd (List.eq_of_mem_replicate h) (by decide)
    · rcases List.mem_append.mp h with h | h
      · exact absurd (List.eq_of_mem_replicate h) (by decide)
      · exact absurd (List.eq_of_mem_replicate h) (by decide)
  · show tv1.timer_ticks = 750
    rw [ht1, ksystem_demo_timer.2.2.1]
    decide

set_option maxRecDepth 100000 in
/-- C29 at the registration of a handler for vector 0x20 in a state with no
handler registered, with a null entry, a null handler and neither null. -/
theorem interrupts_irq_register_checks_witness :
    interrupts_irq_register 0x20 none (some 1000) intr_demo = .panicked intr_demo ∧
    interrupts_irq_register 0x20 (some 7) none intr_demo = .panicked intr_demo ∧
    ∃ s1, interrupts_irq_register 0x20 (some 7) (some 1000) intr_demo = .ret s1 ∧
      s1.irq_handlers.getD (0x20 : Int).toNat none = some 1000 ∧
      ∀ j, j ≠ (0x20 : Int).toNat → s1.irq_handlers.getD j none = intr_demo.irq_handlers.getD j none :=
  ⟨(interrupts_irq_register_checks 0x20 none (some 1000) intr_demo).1 (Or.inl rfl),
   (interrupts_irq_register_checks 0x20 (some 7) none intr_demo).1 (Or.inr rfl),
   (interrupts_irq_register_checks 0x20 (some 7) (some 1000) intr_demo).2 7 1000 rfl rfl
     (by decide) (by decide) (by decide)⟩

/-! ## Theorems: the interrupt mask registers -/

theorem pic_bit_test (m n : Nat) : (m &&& (1 <<< n) > 0) ↔ m.testBit n = true := by
  rw [Nat.one_shiftLeft, Nat.and_two_pow]
  cases m.testBit n <;> simp

theorem pic_byte_high (m j : Nat) (hm : m < 256) (hj : 8 ≤ j) : m.testBit j = false := by
  apply Nat.testBit_lt_two_pow
  calc m < 2 ^ 8 := hm
    _ ≤ 2 ^ j := Nat.pow_le_pow_right (by decide) hj

theorem pic_bit_clear (m n j : Nat) :
    ((m &&& (0xFFFFFFFF ^^^ (1 <<< n))) % 256).testBit j =
      (decide (j < 8) && (m.testBit j && (decide (j < 32) ^^ decide (n = j)))) := by
  have e1 : (256 : Nat) = 2 ^ 8 := rfl
  have e2 : (0xFFFFFFFF : Nat) = 2 ^ 32 - 1 := rfl
  rw [e1, e2, Nat.testBit_mod_two_pow, Nat.testBit_land, Nat.testBit_xor,
    Nat.testBit_two_pow_sub_one, Nat.one_shiftLeft, Nat.testBit_two_pow]

theorem pic_bit_set (m n j : Nat) :
    ((m ||| (1 <<< n)) % 256).testBit j = (decide (j < 8) && (m.testBit j || decide (n = j))) := by
  have e1 : (256 : Nat) = 2 ^ 8 := rfl
  rw [e1, Nat.testBit_mod_two_pow, Nat.testBit_lor, Nat.one_shiftLeft, Nat.testBit_two_pow]

theorem pic_irq_enabled_primary (n : Int) (s : intr_vars) (h0 : 0 ≤ n) (h7 : n ≤ 7) :
    pic_irq_enabled n s = if s.pic1_mask.testBit n.toNat = true then 0 else 1 := by
  unfold pic_irq_enabled
  simp only []
  rw [if_pos ⟨h0, h7⟩]
  have : inportb PIC1_DATA s = s.pic1_mask := by simp [inportb]
  rw [this]
  by_cases hb : s.pic1_mask.testBit n.toNat = true
  · rw [if_pos ((pic_bit_test _ _).mpr hb), if_pos hb]
  · rw [if_neg (fun h => hb ((pic_bit_test _ _).mp h)), if_neg hb]

theorem pic_irq_enabled_secondary (n : Int) (s : intr_vars) (h8 : 8 ≤ n) (h15 : n ≤ 15)
    (hm : s.pic2_mask < 256) : pic_irq_enabled n s = 1 := by
  unfold pic_irq_enabled
  simp only []
  rw [if_neg (by omega), if_pos ⟨by omega, by omega⟩]
  have : inportb PIC2_DATA s = s.pic2_mask := by
    simp [inportb, PIC1_DATA, PIC2_DATA, PIC1_BASE, PIC2_BASE]
  rw [this, if_neg]
  intro h
  have := (pic_bit_test _ _).mp h
  rw [pic_byte_high _ _ hm (by omega)] at this
  exact absurd this (by decide)

theorem outportb_pic1 (value : Nat) (s : intr_vars) :
    (outportb PIC1_DATA value s).pic1_mask = value % 256 ∧
    (outportb PIC1_DATA value s).pic2_mask = s.pic2_mask := by
  simp [outportb]

theorem outportb_pic2 (value : Nat) (s : intr_vars) :
    (outportb PIC2_DATA value s).pic2_mask = value % 256 ∧
    (outportb PIC2_DATA value s).pic1_mask = s.pic1_mask := by
  simp [outportb, PIC1_DATA, PIC2_DATA, PIC1_BASE, PIC2_BASE]

/-- On a line of the primary controller `pic_irq_enable` clears the mask bit of
the line and no other bit. -/
theorem pic_irq_enable_primary (n : Int) (s : intr_vars) (h0 : 0 ≤ n) (h7 : n ≤ 7)
    (hm : s.pic1_mask < 256) :
    (∀ j, (pic_irq_enable n s).pic1_mask.testBit j =
      (s.pic1_mask.testBit j && !decide (n.toNat = j))) ∧
    (pic_irq_enable n s).pic2_mask = s.pic2_mask := by
  unfold pic_irq_enable
  rw [pic_irq_enabled_primary n s h0 h7]
  by_cases hb : s.pic1_mask.testBit n.toNat = true
  · rw [if_pos hb, if_neg (by simp; omega), if_pos ⟨h0, h7⟩]
    have hin : inportb PIC1_DATA s = s.pic1_mask := by simp [inportb]
    rw [hin]
    refine ⟨?_, (outportb_pic1 _ _).2⟩
    intro j
    rw [(outportb_pic1 _ _).1, pic_bit_clear]
    by_cases hj : j < 8
    · have : j < 32 := by omega
      simp [hj, this]
    · rw [pic_byte_high _ _ hm (by omega)]
      simp
  · rw [if_neg hb, if_pos (Or.inr (by decide))]
    refine ⟨?_, rfl⟩
    intro j
    by_cases hj : n.toNat = j
    · subst hj
      simp only [Bool.not_eq_true] at hb
      simp [hb]
    · simp [hj]

/-- On a line of the secondary controller `pic_irq_enable` does nothing: the test
of `pic_irq_enabled` makes it return at once. -/
theorem pic_irq_enable_secondary (n : Int) (s : intr_vars) (h8 : 8 ≤ n) (h15 : n ≤ 15)
    (hm : s.pic2_mask < 256) : pic_irq_enable n s = s := by
  unfold pic_irq_enable
  rw [pic_irq_enabled_secondary n s h8 h15 hm, if_pos (Or.inr (by decide))]

/-- On a line of the primary controller `pic_irq_disable` sets the mask bit of
the line and no other bit. -/
theorem pic_irq_disable_primary (n : Int) (s : intr_vars) (h0 : 0 ≤ n) (h7 : n ≤ 7)
    (hm : s.pic1_mask < 256) :
    (∀ j, (pic_irq_disable n s).pic1_mask.testBit j =
      (s.pic1_mask.testBit j || decide (n.toNat = j))) ∧
    (pic_irq_disable n s).pic2_mask = s.pic2_mask := by
  unfold pic_irq_disable
  rw [pic_irq_enabled_primary n s h0 h7]
  by_cases hb : s.pic1_mask.testBit n.toNat = true
  · rw [if_pos hb, if_pos (Or.inr (by decide))]
    refine ⟨?_, rfl⟩
    intro j
    by_cases hj : n.toNat = j
    · subst hj; simp [hb]
    · simp [hj]
  · rw [if_neg hb, if_neg (by simp; omega), if_pos ⟨h0, h7⟩]
    have hin : inportb PIC1_DATA s = s.pic1_mask := by simp [inportb]
    rw [hin]
    refine ⟨?_, (outportb_pic1 _ _).2⟩
    intro j
    rw [(outportb_pic1 _ _).1, pic_bit_set]
    by_cases hj : j < 8
    · simp [hj]
    · rw [pic_byte_high _ _ hm (by omega)]
      have : n.toNat ≠ j := by omega
      simp [hj, this]

/-- On a line of the secondary controller `pic_irq_disable` writes the mask
register back as it was: the bit it sets is not one of the byte. -/
theorem pic_irq_disable_secondary (n : Int) (s : intr_vars) (h8 : 8 ≤ n) (h15 : n ≤ 15)
    (hm : s.pic2_mask < 256) :
    (pic_irq_disable n s).pic2_mask = s.pic2_mask ∧
    (pic_irq_disable n s).pic1_mask = s.pic1_mask := by
  unfold pic_irq_disable
  rw [pic_irq_enabled_secondary n s h8 h15 hm, if_neg (by simp; omega), if_neg (by omega),
    if_pos ⟨by omega, by omega⟩]
  have hin : inportb PIC2_DATA s = s.pic2_mask := by
    simp [inportb, PIC1_DATA, PIC2_DATA, PIC1_BASE, PIC2_BASE]
  rw [hin]
  refine ⟨?_, (outportb_pic2 _ _).2⟩
  rw [(outportb_pic2 _ _).1]
  apply Nat.eq_of_testBit_eq
  intro j
  rw [pic_bit_set]
  by_cases hj : j < 8
  · have : n.toNat ≠ j := by omega
    simp [hj, this]
  · rw [pic_byte_high _ _ hm (by omega)]
    simp [hj]

/-- C31, what the code does.  For a vector `v` in 0x20..0x2F, non-null `entry` and
`handler` and mask registers that are bytes, `interrupts_irq_register` returns.
For `v ≤ 0x27` (lines 0-7) bit `v - 0x20` of the primary mask register is 0
afterwards, every other bit of it is as before and the secondary register is
untouched.  For `v ≥ 0x28` (lines 8-15) nothing is written to a port and both
registers are as before: `pic_irq_enable` tests and clears bit `v - 0x20`, which
is not a bit of the byte, so a line that was masked stays masked. -/
theorem interrupts_irq_register_unmask (v : Int) (e h : Nat) (s : intr_vars)
    (hv0 : 0x20 ≤ v) (hv1 : v ≤ 0x2F) (h1 : s.pic1_mask < 256) (h2 : s.pic2_mask < 256) :
    ∃ s1, interrupts_irq_register v (some e) (some h) s = .ret s1 ∧
      (v ≤ 0x27 →
        s1.pic1_mask.testBit (v - 0x20).toNat = false ∧
        (∀ j, j ≠ (v - 0x20).toNat → s1.pic1_mask.testBit j = s.pic1_mask.testBit j) ∧
        s1.pic2_mask = s.pic2_mask) ∧
      (0x28 ≤ v →
        s1.pic1_mask = s.pic1_mask ∧ s1.pic2_mask = s.pic2_mask ∧ s1.trace = s.trace ∧
        (s1.pic2_mask.testBit (v - 0x28).toNat = s.pic2_mask.testBit (v - 0x28).toNat)) := by
  have hr : 0 ≤ v ∧ v < (IRQ_MAX : Int) := by
    unfold IRQ_MAX
    constructor <;> omega
  unfold interrupts_irq_register
  simp only []
  rw [if_pos hr, if_pos ⟨by omega, hv1⟩]
  refine ⟨_, rfl, ?_, ?_⟩
  · intro hv
    obtain ⟨hb, hk⟩ := pic_irq_enable_primary (v - 0x20)
      { s with idt := s.idt.set v.toNat (some e), irq_handlers := s.irq_handlers.set v.toNat (some h) }
      (by omega) (by omega) h1
    refine ⟨?_, ?_, hk⟩
    · rw [hb]; simp
    · intro j hj
      rw [hb]
      have : (v - 0x20).toNat ≠ j := fun x => hj x.symm
      simp [this]
  · intro hv
    have hsec := pic_irq_enable_secondary (v - 0x20)
      { s with idt := s.idt.set v.toNat (some e), irq_handlers := s.irq_handlers.set v.toNat (some h) }
      (by omega) (by omega) h2
    rw [hsec]
    exact ⟨rfl, rfl, rfl, rfl⟩

set_option maxRecDepth 100000 in
/-- C31 with every line masked: registering vector 0x2C (line 12) leaves the
secondary mask register at 0xFF, bit 4 set, where registering vector 0x20 (line
0) takes the primary register from 0xFF to 0xFE. -/
theorem interrupts_irq_register_unmask_witness :
    (∃ s1, interrupts_irq_register 0x2C (some 7) (some 1002) intr_demo = .ret s1 ∧
      s1.pic2_mask = 0xFF ∧ s1.pic2_mask.testBit 4 = true ∧ s1.trace = []) ∧
    (∃ s1, interrupts_irq_register 0x20 (some 7) (some 1000) intr_demo = .ret s1 ∧
      s1.pic1_mask = 0xFE) := by
  obtain ⟨s1, hs1, _, hsec⟩ :=
    interrupts_irq_register_unmask 0x2C 7 1002 intr_demo (by decide) (by decide) (by decide)
      (by decide)
  obtain ⟨_, h2, h3, _⟩ := hsec (by decide)
  refine ⟨⟨s1, hs1, by rw [h2]; decide, by rw [h2]; decide, by rw [h3]; decide⟩, ?_⟩
  exact ⟨_, rfl, by decide⟩

/-- C32, what the code does.  For a line `n` in 0..15 and mask registers that are
bytes: for `n ≤ 7`, `pic_irq_enabled(n)` is 1 when bit `n` of the primary mask
register is clear and 0 when it is set, it is 0 right after `pic_irq_disable(n)`
and 1 right after `pic_irq_enable(n)`.  For `n ≥ 8` it is 1 whatever the
secondary mask register holds, because the bit tested is bit `n`, not bit
`n - 8`; `pic_irq_disable(n)` leaves the register as it was and
`pic_irq_enabled(n)` is still 1 after it. -/
theorem pic_irq_enabled_reads (n : Int) (s : intr_vars) (h0 : 0 ≤ n) (h15 : n ≤ 15)
    (h1 : s.pic1_mask < 256) (h2 : s.pic2_mask < 256) :
    (n ≤ 7 →
      pic_irq_enabled n s = (if s.pic1_mask.testBit n.toNat = true then 0 else 1) ∧
      pic_irq_enabled n (pic_irq_disable n s) = 0 ∧
      pic_irq_enabled n (pic_irq_enable n s) = 1) ∧
    (8 ≤ n →
      pic_irq_enabled n s = 1 ∧
      (pic_irq_disable n s).pic2_mask = s.pic2_mask ∧
      pic_irq_enabled n (pic_irq_disable n s) = 1 ∧
      pic_irq_enable n s = s) := by
  constructor
  · intro h7
    refine ⟨pic_irq_enabled_primary n s h0 h7, ?_, ?_⟩
    · rw [pic_irq_enabled_primary n _ h0 h7, (pic_irq_disable_primary n s h0 h7 h1).1]
      simp
    · rw [pic_irq_enabled_primary n _ h0 h7, (pic_irq_enable_primary n s h0 h7 h1).1]
      simp
  · intro h8
    have hd := pic_irq_disable_secondary n s h8 h15 h2
    refine ⟨pic_irq_enabled_secondary n s h8 h15 h2, hd.1, ?_,
      pic_irq_enable_secondary n s h8 h15 h2⟩
    exact pic_irq_enabled_secondary n _ h8 h15 (by rw [hd.1]; exact h2)

set_option maxRecDepth 100000 in
/-- C32 with every line masked: line 12 is reported enabled although bit 4 of the
secondary mask register is set, also right after `pic_irq_disable(12)`; line 3
is reported disabled. -/
theorem pic_irq_enabled_reads_witness :
    intr_demo.pic2_mask.testBit 4 = true ∧ pic_irq_enabled 12 intr_demo = 1 ∧
    (pic_irq_disable 12 intr_demo).pic2_mask = intr_demo.pic2_mask ∧
    pic_irq_enabled 12 (pic_irq_disable 12 intr_demo) = 1 ∧
    pic_irq_enabled 3 intr_demo = 0 := by
  obtain ⟨hp, hsec⟩ :=
    pic_irq_enabled_reads 12 intr_demo (by decide) (by decide) (by decide) (by decide)
  obtain ⟨a, b, c, _⟩ := hsec (by decide)
  exact ⟨by decide, a, b, c, by decide⟩

/-! ## Theorems: what `kproc_destroy` clears -/

/-- In a state between calls `scheduler_remove` of an entry in use returns and
changes, in the table, at most the state of that entry. -/
theorem scheduler_remove_table (s : kstate) (p : Nat) (hinv : kernel_inv s)
    (hpid : (proc_at s.proc_table p).pid ≠ 0) :
    ∃ s0 f, scheduler_remove (some p) s = some s0 ∧
      s0.proc_table = proc_update s.proc_table p f ∧ (∀ e, (f e).stack = e.stack) := by
  have hp : p < PROC_MAX := hinv.entry_lt p hpid
  by_cases hcur : s.current = some p
  · refine ⟨{ s with
        proc_table := proc_update s.proc_table p (fun e => { e with state := .IDLE })
        current := none }, fun e => { e with state := .IDLE }, ?_, rfl, fun _ => rfl⟩
    simp [scheduler_remove, hcur, hpid]
  · by_cases hmem : (proc_at s.proc_table p).pid ∈ queue_content s.run_queue
    · obtain ⟨pre, post, hcont, hpre⟩ := mem_split_first _ _ hmem
      obtain ⟨q, n, _, _, hn, hrun⟩ :=
        scheduler_remove_split s p pre post hinv.wf hp hcur hcont hpre
      have hnp : n = p :=
        hinv.pid_unique n p (pid_to_proc_some _ _ _ hn).2
          (by rw [(pid_to_proc_some _ _ _ hn).2]; exact hpid)
      rw [hnp] at hrun
      exact ⟨_, fun e => { e with state := .NONE }, hrun, rfl, fun _ => rfl⟩
    · obtain ⟨q, _, _, hscan⟩ :=
        scheduler_remove_scan_miss p (queue_content s.run_queue) (s.run_queue.size + 1) 0 s []
          hinv.wf.2.1 (by simp) (by simp [queue_content_length]) hmem
          (by simp [queue_content_length])
      refine ⟨{ s with run_queue := q }, fun e => e, ?_, ?_, fun _ => rfl⟩
      · rw [scheduler_remove_not_current s p hcur, hscan]
      · show s.proc_table = _
        rw [proc_update_self _ _ _ (fun _ => rfl)]

theorem memset_zero_take (n : Nat) (bytes : List Nat) :
    (memset_zero n bytes).take n = List.replicate (min n bytes.length) 0 := by
  unfold memset_zero
  by_cases h : n ≤ bytes.length
  · rw [Nat.min_eq_left h, List.take_append_eq_append_take]
    simp
  · have hd : bytes.drop n = [] := List.drop_eq_nil_of_le (by omega)
    rw [hd, List.append_nil, List.take_of_length_le]
    simp

theorem memset_zero_drop (n : Nat) (bytes : List Nat) :
    (memset_zero n bytes).drop n = bytes.drop n := by
  unfold memset_zero
  by_cases h : n ≤ bytes.length
  · rw [Nat.min_eq_left h, List.drop_append_eq_append_drop]
    simp
  · have hd : bytes.drop n = [] := List.drop_eq_nil_of_le (by omega)
    rw [hd, List.append_nil, List.drop_eq_nil_of_le]
    simp

/-- C33, what the code does.  In a reachable state, for an entry `p` in use (pid
not 0) whose field `stack` points to row `row` of `proc_stack`, `kproc_destroy`
returns 0 and every field of the entry is zero afterwards.  Of the stack row,
`memset(proc->stack, 0, sizeof(PROC_STACK_SIZE))` clears the first
`sizeof(int)` = 4 bytes only: every byte of the row from the fifth on, and with
them the trapframe at the top of the row, is as it was before the call. -/
theorem kproc_destroy_scrubs (m : kmachine) (p row : Nat) (hr : reachable m.vars)
    (hpid : (proc_at m.vars.proc_table p).pid ≠ 0)
    (hstack : (proc_at m.vars.proc_table p).stack = some row) :
    ∃ m1, kproc_destroy_full (some p) m = some (0, m1) ∧
      proc_at m1.vars.proc_table p = proc_zero ∧
      (stack_at m1.proc_stack row).low.take SIZEOF_INT =
        List.replicate (min SIZEOF_INT (stack_at m.proc_stack row).low.length) 0 ∧
      (stack_at m1.proc_stack row).low.drop SIZEOF_INT =
        (stack_at m.proc_stack row).low.drop SIZEOF_INT ∧
      (stack_at m1.proc_stack row).top = (stack_at m.proc_stack row).top ∧
      (∀ i, i ≠ row → stack_at m1.proc_stack i = stack_at m.proc_stack i) := by
  have hinv := reachable_inv _ hr
  have hp : p < PROC_MAX := hinv.entry_lt p hpid
  obtain ⟨s1, hd, htbl, _⟩ := kproc_destroy_effect m.vars p hinv hpid
  obtain ⟨s0, f, hrem, hs0, hf⟩ := scheduler_remove_table m.vars p hinv hpid
  have hst : (proc_at s0.proc_table p).stack = some row := by
    rw [hs0]
    have := proc_at_update_proj (fun e => e.stack) m.vars.proc_table p p f hf
    simp only at this
    rw [this]; exact hstack
  have hrows : kproc_destroy_stack (some p) m.vars m.proc_stack =
      m.proc_stack.set row { stack_at m.proc_stack row with
        low := memset_zero SIZEOF_INT (stack_at m.proc_stack row).low } := by
    unfold kproc_destroy_stack
    simp only [hpid, if_false, hrem, hst]
  refine ⟨{ vars := s1, proc_stack := kproc_destroy_stack (some p) m.vars m.proc_stack }, ?_, ?_, ?_⟩
  · unfold kproc_destroy_full
    rw [hd]
    rfl
  · show proc_at s1.proc_table p = proc_zero
    rw [htbl, proc_at_set, if_pos ⟨rfl, by rw [hinv.wf.1]; exact hp⟩]
  · show _ ∧ _ ∧ _ ∧ _
    rw [hrows]
    by_cases hl : row < m.proc_stack.length
    · have hat : stack_at (m.proc_stack.set row { stack_at m.proc_stack row with
          low := memset_zero SIZEOF_INT (stack_at m.proc_stack row).low }) row =
          { stack_at m.proc_stack row with
            low := memset_zero SIZEOF_INT (stack_at m.proc_stack row).low } := by
        rw [stack_at_set, if_pos ⟨rfl, hl⟩]
      rw [hat]
      refine ⟨memset_zero_take _ _, memset_zero_drop _ _, rfl, ?_⟩
      · intro i hi
        rw [stack_at_set, if_neg (fun h => hi h.1)]
    · have hat : ∀ i, stack_at (m.proc_stack.set row { stack_at m.proc_stack row with
          low := memset_zero SIZEOF_INT (stack_at m.proc_stack row).low }) i =
          stack_at m.proc_stack i := by
        intro i
        rw [stack_at_set, if_neg (fun h => hl h.2)]
      rw [hat]
      refine ⟨?_, rfl, rfl, fun i _ => hat i⟩
      have : stack_at m.proc_stack row = stack_none := by
        unfold stack_at
        simp [List.getD_eq_getElem?_getD, List.getElem?_eq_none (Nat.le_of_not_lt hl)]
      rw [this]
      simp [stack_none]

set_option maxRecDepth 100000 in
theorem demo_one_reachable : reachable demo_one :=
  reachable.step demo_boot demo_one (.create (.fn 1) "a".toList .PROC_TYPE_USER)
    (reachable.boot demo_boot demo_boot_eq) (by
      show (kproc_create (.fn 1) "a".toList .PROC_TYPE_USER demo_boot).map Prod.snd = some demo_one
      rw [demo_one_eq]; rfl)

set_option maxRecDepth 100000 in
/-- C33 at the first process created after start-up (entry 1, stack row 1): after
`kproc_destroy` the entry is zero, but the trapframe at the top of its stack row
still holds the entry address 1, the flags 514 and the code selector 8. -/
theorem kproc_destroy_scrubs_witness :
    ∃ m1, kproc_destroy_full (some 1) demo_machine_one = some (0, m1) ∧
      proc_at m1.vars.proc_table 1 = proc_zero ∧
      (stack_at m1.proc_stack 1).top.eip = 1 ∧
      (stack_at m1.proc_stack 1).top.eflags = 514 ∧
      (stack_at m1.proc_stack 1).top.cs = 8 := by
  obtain ⟨m1, h1, h2, _, _, h5, _⟩ :=
    kproc_destroy_scrubs demo_machine_one 1 1 demo_one_reachable (by decide) (by decide)
  refine ⟨m1, h1, h2, ?_, ?_, ?_⟩
  · rw [h5]; decide
  · rw [h5]; decide
  · rw [h5]; decide

/-! ## Theorems: the keymap lookups of `keyboard_decode` -/

theorem keyboard_key_of_press (c : Nat) (hc : c ≤ 0x7F) :
    c &&& 0x7f = c ∧ KEY_PRESSED c = true := by
  constructor
  · have e : (0x7f : Nat) = 2 ^ 7 - 1 := rfl
    rw [e, Nat.and_pow_two_sub_one_eq_mod]
    exact Nat.mod_eq_of_lt (by omega)
  · unfold KEY_PRESSED
    have e : (0x80 : Nat) = 2 ^ 7 := rfl
    rw [e, Nat.and_two_pow, Nat.testBit_lt_two_pow (by omega)]
    rfl

/-- A key press that the `switch` does not handle ends in a lookup in one of the
two tables, at index `c`. -/
theorem keyboard_decode_press (c st : Nat) (hc : c ≤ 0x7F) (hs : c ∉ keyboard_special) :
    keyboard_decode c st =
      (keyboard_caps_letter c st).bind (fun letter =>
        if xor (KEY_STATUS_ALL st KEY_STATUS_SHIFT) letter then
          keyboard_map_secondary[c]?.map
            (fun v => { ret := v, kbd_status := st, debug_cmd := none })
        else if st &&& KEY_STATUS_CTRL ≠ 0 then
          keyboard_map_primary[c]?.map
            (fun v => { ret := KEY_NULL, kbd_status := st, debug_cmd := some v })
        else
          keyboard_map_primary[c]?.map
            (fun v => { ret := v, kbd_status := st, debug_cmd := none })) := by
  obtain ⟨hkey, hpress⟩ := keyboard_key_of_press c hc
  simp only [keyboard_special, List.mem_cons, List.mem_singleton, List.not_mem_nil, or_false,
    not_or] at hs
  obtain ⟨h1, h2, h3, h4, h5, h6, h7, h8, h9⟩ := hs
  have he0 : c ≠ 0xe0 := by omega
  unfold keyboard_decode
  simp only [hkey, hpress, he0, h1, h2, h3, h4, h5, h6, h7, h8, h9, if_false, if_true, or_self]

/-- C34, what the code does.  Both keymap tables have 63 entries.  For a key press
`c` in 0..0x7F that is not the escape code or a modifier code, whatever
`kbd_status` holds: when `c < 63` the call returns, with `kbd_status` unchanged,
the entry `c` of one of the two tables or `KEY_NULL`; when `c ≥ 63` the call
reads entry `c` of a table, which is outside its 63 entries, and no value is
defined for it. -/
theorem keyboard_decode_lookup (c st : Nat) (hc : c ≤ 0x7F) (hs : c ∉ keyboard_special) :
    keyboard_map_primary.length = 63 ∧ keyboard_map_secondary.length = 63 ∧
    (c < 63 → ∃ r, keyboard_decode c st = some r ∧ r.kbd_status = st ∧
      (r.ret = keyboard_map_primary.getD c 0 ∨ r.ret = keyboard_map_secondary.getD c 0 ∨
        r.ret = KEY_NULL)) ∧
    (63 ≤ c → keyboard_decode c st = none) := by
  have hl1 : keyboard_map_primary.length = 63 := rfl
  have hl2 : keyboard_map_secondary.length = 63 := rfl
  refine ⟨hl1, hl2, ?_, ?_⟩
  · intro hlt
    have hp : keyboard_map_primary[c]? = some (keyboard_map_primary.getD c 0) := by
      rw [List.getD_eq_getElem?_getD, List.getElem?_eq_getElem (by rw [hl1]; exact hlt)]
      rfl
    have hq : keyboard_map_secondary[c]? = some (keyboard_map_secondary.getD c 0) := by
      rw [List.getD_eq_getElem?_getD, List.getElem?_eq_getElem (by rw [hl2]; exact hlt)]
      rfl
    rw [keyboard_decode_press c st hc hs]
    unfold keyboard_caps_letter
    rw [hp, hq]
    simp only [Option.map_some']
    split
    · simp only [Option.some_bind]
      split
      · exact ⟨_, rfl, rfl, Or.inr (Or.inl rfl)⟩
      · split
        · exact ⟨_, rfl, rfl, Or.inr (Or.inr rfl)⟩
        · exact ⟨_, rfl, rfl, Or.inl rfl⟩
    · simp only [Option.some_bind]
      split
      · exact ⟨_, rfl, rfl, Or.inr (Or.inl rfl)⟩
      · split
        · exact ⟨_, rfl, rfl, Or.inr (Or.inr rfl)⟩
        · exact ⟨_, rfl, rfl, Or.inl rfl⟩
  · intro hge
    have hp : keyboard_map_primary[c]? = none := List.getElem?_eq_none (by rw [hl1]; exact hge)
    have hq : keyboard_map_secondary[c]? = none := List.getElem?_eq_none (by rw [hl2]; exact hge)
    rw [keyboard_decode_press c st hc hs]
    unfold keyboard_caps_letter
    rw [hp, hq]
    simp only [Option.map_none']
    split
    · rfl
    · simp only [Option.some_bind]
      split
      · rfl
      · split <;> rfl

/-- C34 at the press of F5 (scancode 0x3F = 63) with no modifier active: the call
reads `keyboard_map_primary[63]`, one past the last entry; and at the press of
`a` (scancode 0x1E), which gives 97. -/
theorem keyboard_decode_lookup_witness :
    keyboard_decode 0x3F 0 = none ∧ keyboard_map_primary[0x3F]? = none ∧
    keyboard_decode 0x1E 0 = some { ret := 97, kbd_status := 0, debug_cmd := none } :=
  ⟨(keyboard_decode_lookup 0x3F 0 (by decide) (by decide)).2.2.2 (by decide), by decide, by decide⟩

/-! ## Theorems: the ready queue after `scheduler_remove` -/

/-- C35.  In a reachable state let the ready queue be `pre ++ t :: post`, where
`t` is the pid of entry `p` and `p` is not the current process; `t` is at
position `pre.length`.  Then `scheduler_remove` returns and the ready queue is
`post ++ pre`: `t` is no longer queued, no pid is queued twice, every other pid
is queued exactly when it was before, the queue is one shorter, the state of
entry `p` is NONE, and no other entry and not `current` has changed. -/
theorem scheduler_remove_rotation (s : kstate) (p : Nat) (pre post : List Int)
    (hr : reachable s) (hcur : s.current ≠ some p)
    (hcont : queue_content s.run_queue = pre ++ (proc_at s.proc_table p).pid :: post) :
    ∃ s1, scheduler_remove (some p) s = some s1 ∧
      queue_content s1.run_queue = post ++ pre ∧
      (proc_at s.proc_table p).pid ∉ queue_content s1.run_queue ∧
      (queue_content s1.run_queue).Nodup ∧
      (∀ x, x ≠ (proc_at s.proc_table p).pid →
        (x ∈ queue_content s1.run_queue ↔ x ∈ queue_content s.run_queue)) ∧
      (queue_content s1.run_queue).length + 1 = (queue_content s.run_queue).length ∧
      (proc_at s1.proc_table p).state = .NONE ∧
      (∀ i, i ≠ p → proc_at s1.proc_table i = proc_at s.proc_table i) ∧
      s1.current = s.current := by
  have hinv := reachable_inv s hr
  have hnd := hinv.ready_nodup
  rw [hcont] at hnd
  have hmem : (proc_at s.proc_table p).pid ∈ queue_content s.run_queue := by
    rw [hcont]; simp
  have hpid : (proc_at s.proc_table p).pid ≠ 0 := (hinv.ready_idle _ hmem).1
  have hp : p < PROC_MAX := hinv.entry_lt p hpid
  have hpl : p < s.proc_table.length := by rw [hinv.wf.1]; exact hp
  have hpre : (proc_at s.proc_table p).pid ∉ pre := by
    intro h
    have := (List.nodup_append.mp hnd).2.2 h (List.mem_cons_self _ _)
    exact this
  have hpost : (proc_at s.proc_table p).pid ∉ post :=
    (List.nodup_cons.mp (List.nodup_append.mp hnd).2.1).1
  obtain ⟨q, n, _, hqc, hn, hrun⟩ :=
    scheduler_remove_split s p pre post hinv.wf hp hcur hcont hpre
  have hnp : n = p :=
    hinv.pid_unique n p (pid_to_proc_some _ _ _ hn).2
      (by rw [(pid_to_proc_some _ _ _ hn).2]; exact hpid)
  rw [hnp] at hrun
  have hnd2 : (post ++ pre).Nodup := by
    have h1 := List.nodup_append.mp hnd
    have h2 := (List.nodup_cons.mp h1.2.1).2
    rw [List.nodup_append]
    refine ⟨h2, h1.1, ?_⟩
    intro a ha hb
    exact h1.2.2 hb (List.mem_cons_of_mem _ ha)
  refine ⟨_, hrun, hqc, ?_, ?_, ?_, ?_, ?_, ?_, rfl⟩
  · show _ ∉ queue_content q
    rw [hqc, List.mem_append]
    rintro (h | h)
    · exact hpost h
    · exact hpre h
  · show (queue_content q).Nodup
    rw [hqc]; exact hnd2
  · intro x hx
    show x ∈ queue_content q ↔ _
    rw [hqc, hcont]
    simp only [List.mem_append, List.mem_cons]
    constructor
    · rintro (h | h)
      · exact Or.inr (Or.inr h)
      · exact Or.inl h
    · rintro (h | h | h)
      · exact Or.inr h
      · exact absurd h hx
      · exact Or.inl h
  · show (queue_content q).length + 1 = _
    rw [hqc, hcont]
    simp only [List.length_append, List.length_cons]
    omega
  · simp only []
    rw [proc_at_update_self _ _ _ hpl]
  · intro i hi
    simp only []
    rw [proc_at_update_ne _ _ _ _ hi]

set_option maxRecDepth 100000 in
/-- C35 in the state with pids 1, 2, 3 queued and no current process, for pid 2 at
position 1: the queue becomes 3, 1. -/
theorem scheduler_remove_rotation_witness :
    ∃ s1, scheduler_remove (some 2) demo_ready = some s1 ∧
      queue_content s1.run_queue = [3] ++ [1] ∧
      (proc_at demo_ready.proc_table 2).pid ∉ queue_content s1.run_queue ∧
      (queue_content s1.run_queue).length + 1 = (queue_content demo_ready.run_queue).length ∧
      (proc_at s1.proc_table 2).state = .NONE := by
  obtain ⟨s1, h1, h2, h3, _, _, h6, h7, _⟩ :=
    scheduler_remove_rotation demo_ready 2 [1] [3] demo_ready_reachable (by decide) (by decide)
  exact ⟨s1, h1, h2, h3, h6, h7⟩

/-! ## Theorems: `scheduler_run` in reachable states -/

/-- Every queued pid is found by `pid_to_proc`, in an entry in state IDLE. -/
theorem kernel_base_inv.ready_found {s : kstate} (h : kernel_base_inv s) (p : Int)
    (hp : p ∈ queue_content s.run_queue) :
    ∃ n, 1 ≤ n ∧ n < PROC_MAX ∧ pid_to_proc s.proc_table p = some n ∧
      (proc_at s.proc_table n).pid = p ∧ (proc_at s.proc_table n).state = .IDLE := by
  obtain ⟨hp0, n, hn, hst⟩ := h.ready_idle p hp
  have hnz : (proc_at s.proc_table n).pid ≠ 0 := by rw [hn]; exact hp0
  have hnlt := h.entry_lt n hnz
  refine ⟨n, ?_, hnlt, ?_, hn, hst⟩
  · by_contra hlt
    have : n = 0 := by omega
    rw [this, h.idle_pid] at hnz
    exact hnz rfl
  · rw [← hn]
    exact pid_to_proc_of_entry _ n hnlt h.pid_unique hnz

/-- The ready queue holds at most `PROC_MAX - 1` pids: they are the pids of
different entries, none of them entry 0. -/
theorem kernel_base_inv.ready_bound_strict {s : kstate} (h : kernel_base_inv s) :
    (queue_content s.run_queue).length ≤ PROC_MAX - 1 := by
  have hmap : ((queue_content s.run_queue).map
      (fun p => (pid_to_proc s.proc_table p).getD 0 - 1)).Nodup := by
    apply List.Nodup.map_on _ h.ready_nodup
    intro p hp q hq hpq
    obtain ⟨n, hn1, _, hn, hnp, _⟩ := h.ready_found p hp
    obtain ⟨m, hm1, _, hm, hmp, _⟩ := h.ready_found q hq
    simp only [hn, hm, Option.getD_some] at hpq
    have : n = m := by omega
    rw [← hnp, ← hmp, this]
  have := nodup_length_le_of_lt _ (PROC_MAX - 1) hmap (by
    intro x hx
    rw [List.mem_map] at hx
    obtain ⟨p, hp, rfl⟩ := hx
    obtain ⟨n, hn1, hnlt, hn, _, _⟩ := h.ready_found p hp
    simp only [hn, Option.getD_some]
    omega)
  simpa using this

theorem scheduler_select_returns (t : kstate) (hinv : kernel_base_inv t) :
    ∃ t1, scheduler_select t = some t1 := by
  by_cases he : t.run_queue.size = 0
  · exact ⟨_, scheduler_select_empty t 0 he (pid_to_proc_zero _ hinv.idle_pid)⟩
  · have hout := queue_out_content t.run_queue 0 hinv.wf.2.1 he
    have hmem : t.run_queue.items.getD t.run_queue.head 0 ∈ queue_content t.run_queue := by
      rw [hout]; exact List.mem_cons_self _ _
    obtain ⟨n, _, _, hn, _, _⟩ := hinv.ready_found _ hmem
    exact ⟨_, scheduler_select_head t n he hn⟩

theorem scheduler_run_returns (s : kstate) (hinv : kernel_inv s) :
    ∃ s1, scheduler_run s = some s1 := by
  unfold scheduler_run
  cases hc : s.current with
  | none => exact scheduler_select_returns s hinv.tokernel_base_inv
  | some c =>
    simp only []
    split
    · exact ⟨s, rfl⟩
    · exact scheduler_select_returns _ (scheduler_preempt_inv s hinv)

/-- C36.  In every state reachable from start-up by `kproc_create`,
`kproc_destroy`, `scheduler_timer` and `scheduler_run`: `scheduler_run` returns
(it does not reach `kernel_panic`); the ready queue holds at most `PROC_MAX - 1`
pids, before and after the preempted pid is requeued, which is below
`QUEUE_SIZE`, so that `queue_in` into it returns 0; and at the point of the
lookup `pid_to_proc` finds pid 0 and every queued pid, each in an entry that is
in use. -/
theorem scheduler_run_never_panics (s : kstate) (h : reachable s) :
    (∃ s1, scheduler_run s = some s1) ∧
    (queue_content s.run_queue).length ≤ PROC_MAX - 1 ∧
    (queue_content (scheduler_preempt s).run_queue).length ≤ PROC_MAX - 1 ∧
    PROC_MAX - 1 < QUEUE_SIZE ∧
    (∀ pid, (queue_in s.run_queue pid).1 = 0) ∧
    (∃ n, pid_to_proc (scheduler_preempt s).proc_table 0 = some n ∧
      (proc_at (scheduler_preempt s).proc_table n).state ≠ .NONE) ∧
    (∀ p ∈ queue_content (scheduler_preempt s).run_queue,
      ∃ n, pid_to_proc (scheduler_preempt s).proc_table p = some n ∧
        (proc_at (scheduler_preempt s).proc_table n).pid = p ∧
        (proc_at (scheduler_preempt s).proc_table n).state ≠ .NONE) := by
  have hinv := reachable_inv s h
  have hpre := scheduler_preempt_inv s hinv
  refine ⟨scheduler_run_returns s hinv, hinv.ready_bound_strict, hpre.ready_bound_strict,
    by decide, fun pid => queue_in_ret _ pid hinv.ready_room,
    ⟨0, pid_to_proc_zero _ hpre.idle_pid, hpre.idle_live⟩, ?_⟩
  intro p hp
  obtain ⟨n, _, _, hn, hnp, hst⟩ := hpre.ready_found p hp
  exact ⟨n, hn, hnp, by rw [hst]; decide⟩

set_option maxRecDepth 100000 in
/-- C36 in the state in which pid 1 has used up its timeslice and pids 2 and 3 are
queued. -/
theorem scheduler_run_never_panics_witness :
    (∃ s1, scheduler_run demo_expired = some s1) ∧
    (queue_content demo_expired.run_queue).length ≤ PROC_MAX - 1 ∧
    (queue_content (scheduler_preempt demo_expired).run_queue).length ≤ PROC_MAX - 1 ∧
    (∀ pid, (queue_in demo_expired.run_queue pid).1 = 0) := by
  obtain ⟨h1, h2, h3, _, h5, _⟩ := scheduler_run_never_panics demo_expired demo_expired_reachable
  exact ⟨h1, h2, h3, h5⟩

/-! ## Theorems: the idle process and pid 0 -/

theorem scheduler_select_identity (t t1 : kstate) (hq : queue_wf t.run_queue)
    (h : scheduler_select t = some t1) (i : Nat) :
    proc_identity (proc_at t1.proc_table i) = proc_identity (proc_at t.proc_table i) := by
  obtain ⟨n, heq, _⟩ := scheduler_select_cases t t1 hq h
  rw [heq]
  simp only []
  refine proc_at_update_proj proc_identity _ _ _ _ ?_
  intro e; rfl

theorem scheduler_preempt_identity (s : kstate) (i : Nat) :
    proc_identity (proc_at (scheduler_preempt s).proc_table i) =
      proc_identity (proc_at s.proc_table i) := by
  cases hc : s.current with
  | none => rw [scheduler_preempt_none s hc]
  | some c =>
    rw [scheduler_preempt_table s c hc]
    refine proc_at_update_proj proc_identity _ _ _ _ ?_
    intro e; rfl

/-- No call changes what entry 0 holds. -/
theorem kcall_step_idle (s s1 : kstate) (c : kcall) (hinv : kernel_inv s) (hid : idle_entry s)
    (h : kcall_step s c = some s1) : idle_entry s1 := by
  unfold idle_entry at hid ⊢
  cases c with
  | create proc_ptr proc_name proc_type =>
    simp only [kcall_step, Option.map_eq_some'] at h
    obtain ⟨r, hr, rfl⟩ := h
    obtain ⟨r1, s2, hres, hcase⟩ := kproc_create_result proc_ptr proc_name proc_type s hinv
    rw [hres] at hr
    injection hr with hr
    subst hr
    rcases hcase with ⟨_, _, hs⟩ | ⟨e, rest, _, he1, _, _, _, _, _, _, _, _, hother, _⟩
    · show proc_identity (proc_at s2.proc_table 0) = _
      rw [hs]; exact hid
    · show proc_identity (proc_at s2.proc_table 0) = _
      rw [hother 0 (by omega)]; exact hid
  | destroy proc =>
    simp only [kcall_step, Option.map_eq_some'] at h
    obtain ⟨r, hr, rfl⟩ := h
    cases proc with
    | none => simp [kproc_destroy] at hr
    | some p =>
      by_cases hpid : (proc_at s.proc_table p).pid = 0
      · simp only [kproc_destroy, hpid, if_true, Option.some.injEq] at hr
        rw [← hr]; exact hid
      · obtain ⟨s2, hd, htbl, _⟩ := kproc_destroy_effect s p hinv hpid
        rw [hd] at hr
        injection hr with hr
        subst hr
        show proc_identity (proc_at s2.proc_table 0) = _
        have hp0 : (0 : Nat) ≠ p := by
          intro h0
          rw [← h0] at hpid
          exact hpid hinv.idle_pid
        rw [htbl, proc_at_set, if_neg (fun x => hp0 x.1)]
        exact hid
  | timer =>
    simp only [kcall_step, scheduler_timer] at h
    cases hc : s.current with
    | none => rw [hc] at h; simp at h
    | some c =>
      rw [hc] at h
      simp only [Option.some.injEq] at h
      rw [← h]
      simp only []
      rw [← hid]
      refine proc_at_update_proj proc_identity _ _ _ _ ?_
      intro e; rfl
  | run =>
    simp only [kcall_step] at h
    have key : ∀ t, scheduler_select t = some s1 → queue_wf t.run_queue →
        proc_identity (proc_at t.proc_table 0) = proc_identity (proc_at s.proc_table 0) →
        proc_identity (proc_at s1.proc_table 0) = ("idle".toList, .PROC_TYPE_KERNEL, some 0) := by
      intro t ht hq hts
      rw [scheduler_select_identity t s1 hq ht 0, hts]
      exact hid
    unfold scheduler_run at h
    cases hc : s.current with
    | none =>
      rw [hc] at h
      exact key s h hinv.wf.2.1 rfl
    | some c =>
      rw [hc] at h
      simp only [] at h
      split at h
      · injection h with h
        rw [← h]; exact hid
      · exact key _ h (scheduler_preempt_inv s hinv).wf.2.1 (scheduler_preempt_identity s 0)

set_option maxRecDepth 100000 in
theorem demo_boot_idle : idle_entry demo_boot := by decide

theorem reachable_idle (s : kstate) (h : reachable s) : idle_entry s := by
  induction h with
  | boot s hb =>
    rw [demo_boot_eq] at hb
    injection hb with hb
    rw [← hb]; exact demo_boot_idle
  | step s s1 c hs hstep ih => exact kcall_step_idle s s1 c (reachable_inv s hs) ih hstep

/-- C37.  In every reachable state `pid_to_proc(0)` returns entry 0 of the table,
and entry 0 holds the idle process: pid 0, in use (state not NONE), the kernel
process named "idle" on stack row 0, and its index is not in the allocator of
free entries.  Every other entry with pid 0 is all zero (unused or destroyed) and
comes later in the table, so the lookup never returns it. -/
theorem pid_to_proc_idle (s : kstate) (h : reachable s) :
    pid_to_proc s.proc_table 0 = some 0 ∧
    (proc_at s.proc_table 0).pid = 0 ∧
    (proc_at s.proc_table 0).state ≠ .NONE ∧
    (proc_at s.proc_table 0).name = "idle".toList ∧
    (proc_at s.proc_table 0).type = .PROC_TYPE_KERNEL ∧
    (proc_at s.proc_table 0).stack = some 0 ∧
    (0 : Int) ∉ queue_content s.proc_allocator ∧
    (∀ i, i ≠ 0 → (proc_at s.proc_table i).pid = 0 →
      proc_at s.proc_table i = proc_zero ∧ pid_to_proc s.proc_table 0 ≠ some i) := by
  have hinv := reachable_inv s h
  have hid := reachable_idle s h
  unfold idle_entry proc_identity at hid
  simp only [Prod.mk.injEq] at hid
  have hz := pid_to_proc_zero _ hinv.idle_pid
  refine ⟨hz, hinv.idle_pid, hinv.idle_live, hid.1, hid.2.1, hid.2.2, ?_, ?_⟩
  · intro hmem
    have := (hinv.alloc_free 0 hmem).1
    omega
  · intro i hi hpid
    refine ⟨?_, ?_⟩
    · by_cases hlt : i < PROC_MAX
      · have hmem := hinv.free_alloc i (by omega) hlt hpid
        have := (hinv.alloc_free _ hmem).2.2
        rw [Int.toNat_ofNat] at this
        exact this
      · exact proc_at_zero_of_le _ _ (by rw [hinv.wf.1]; omega)
    · rw [hz]
      intro h0
      injection h0 with h0
      exact hi h0.symm

set_option maxRecDepth 100000 in
/-- C37 in the state with pids 1, 2 and 3 created: entry 5 is unused, carries pid
0 and is all zero, and the lookup of pid 0 gives entry 0. -/
theorem pid_to_proc_idle_witness :
    pid_to_proc demo_running.proc_table 0 = some 0 ∧
    (proc_at demo_running.proc_table 0).state ≠ .NONE ∧
    (proc_at demo_running.proc_table 0).name = "idle".toList ∧
    (proc_at demo_running.proc_table 5).pid = 0 ∧
    proc_at demo_running.proc_table 5 = proc_zero := by
  obtain ⟨h1, _, h3, h4, _, _, _, h8⟩ := pid_to_proc_idle demo_running demo_running_reachable
  exact ⟨h1, h3, h4, by decide, (h8 5 (by decide) (by decide)).1⟩

/-! ## Theorems: the allocator of table entries -/

theorem stack_own_of_identity (s s1 : kstate) (h : stack_own s)
    (hid : ∀ i, proc_identity (proc_at s1.proc_table i) = proc_identity (proc_at s.proc_table i)) :
    stack_own s1 := by
  intro i
  have := hid i
  unfold proc_identity at this
  simp only [Prod.mk.injEq] at this
  rw [this.2.2]
  exact h i

/-- Every call leaves the field `stack` of an entry null or pointing to the row
of the entry. -/
theorem kcall_step_stack_own (s s1 : kstate) (c : kcall) (hinv : kernel_inv s) (hso : stack_own s)
    (h : kcall_step s c = some s1) : stack_own s1 := by
  cases c with
  | create proc_ptr proc_name proc_type =>
    simp only [kcall_step, Option.map_eq_some'] at h
    obtain ⟨r, hr, rfl⟩ := h
    cases hc : queue_content s.proc_allocator with
    | nil =>
      rw [kproc_create_none _ _ _ _ hc] at hr
      injection hr with hr
      rw [← hr]; exact hso
    | cons x rest =>
      obtain ⟨e, hx, _, he, _⟩ := hinv.alloc_head x rest hc
      rw [hx] at hc
      obtain ⟨hsome, _⟩ := kproc_create_some proc_ptr proc_name proc_type s e rest hinv.wf hc he
      rw [hsome] at hr
      injection hr with hr
      rw [← hr]
      intro i
      show (proc_at (s.proc_table.set e _) i).stack = none ∨
        (proc_at (s.proc_table.set e _) i).stack = some i
      rw [proc_at_set]
      split
      · next hi => right; rw [hi.1]
      · exact hso i
  | destroy proc =>
    simp only [kcall_step, Option.map_eq_some'] at h
    obtain ⟨r, hr, rfl⟩ := h
    cases proc with
    | none => simp [kproc_destroy] at hr
    | some p =>
      by_cases hpid : (proc_at s.proc_table p).pid = 0
      · rw [kproc_destroy_idle s p hpid] at hr
        injection hr with hr
        rw [← hr]; exact hso
      · obtain ⟨s2, hd, htbl, _⟩ := kproc_destroy_effect s p hinv hpid
        rw [hd] at hr
        injection hr with hr
        rw [← hr]
        intro i
        show (proc_at s2.proc_table i).stack = none ∨ (proc_at s2.proc_table i).stack = some i
        rw [htbl, proc_at_set]
        split
        · left; rfl
        · exact hso i
  | timer =>
    simp only [kcall_step, scheduler_timer] at h
    cases hc : s.current with
    | none => rw [hc] at h; simp at h
    | some c =>
      rw [hc] at h
      simp only [Option.some.injEq] at h
      rw [← h]
      apply stack_own_of_identity s _ hso
      intro i
      simp only []
      refine proc_at_update_proj proc_identity _ _ _ _ ?_
      intro e; rfl
  | run =>
    simp only [kcall_step] at h
    unfold scheduler_run at h
    cases hc : s.current with
    | none =>
      rw [hc] at h
      exact stack_own_of_identity s _ hso (scheduler_select_identity s s1 hinv.wf.2.1 h)
    | some c =>
      rw [hc] at h
      simp only [] at h
      split at h
      · injection h with h
        rw [← h]; exact hso
      · apply stack_own_of_identity s _ hso
        intro i
        rw [scheduler_select_identity _ s1 (scheduler_preempt_inv s hinv).wf.2.1 h i,
          scheduler_preempt_identity s i]

set_option maxRecDepth 100000 in
theorem demo_boot_stack_own : stack_own demo_boot := by
  have hb : ∀ i, i < PROC_MAX → ((proc_at demo_boot.proc_table i).stack = none ∨
      (proc_at demo_boot.proc_table i).stack = some i) := by decide
  have hl : demo_boot.proc_table.length = PROC_MAX := by decide
  intro i
  by_cases hi : i < PROC_MAX
  · exact hb i hi
  · left
    rw [proc_at_zero_of_le _ _ (by rw [hl]; omega)]
    rfl

theorem reachable_stack_own (s : kstate) (h : reachable s) : stack_own s := by
  induction h with
  | boot s hb =>
    rw [demo_boot_eq] at hb
    injection hb with hb
    rw [← hb]; exact demo_boot_stack_own
  | step s s1 c hs hstep ih => exact kcall_step_stack_own s s1 c (reachable_inv s hs) ih hstep

/-- An index below `PROC_MAX` is in the allocator exactly when the entry is
unused. -/
theorem kernel_inv.alloc_iff {s : kstate} (hinv : kernel_inv s) (i : Nat) (hi : i < PROC_MAX) :
    (i : Int) ∈ queue_content s.proc_allocator ↔ (proc_at s.proc_table i).state = .NONE := by
  constructor
  · intro hmem
    have := (hinv.alloc_free _ hmem).2.2
    rw [Int.toNat_ofNat] at this
    rw [this]; rfl
  · intro hst
    have hpid : (proc_at s.proc_table i).pid = 0 := by
      by_contra hne
      exact (hinv.live i hne).1 hst
    have hi0 : 1 ≤ i := by
      by_contra hlt
      have : i = 0 := by omega
      rw [this] at hst
      exact hinv.idle_live hst
    exact hinv.free_alloc i hi0 hi hpid

/-- C38.  In every reachable state the allocator holds no index twice, holds
indices of the table only, and holds an index exactly when the entry is unused
(state NONE).  Hence a `kproc_create` that succeeds takes an entry `e` that was
unused, changes no other entry, and of the stack rows writes none that an entry
in use points to. -/
theorem proc_allocator_exact (s : kstate) (h : reachable s) :
    (queue_content s.proc_allocator).Nodup ∧
    (∀ x ∈ queue_content s.proc_allocator, 0 ≤ x ∧ x < PROC_MAX) ∧
    (∀ i, i < PROC_MAX →
      ((i : Int) ∈ queue_content s.proc_allocator ↔ (proc_at s.proc_table i).state = .NONE)) ∧
    (∀ (env : cpu_env) (proc_ptr : code_ptr) (proc_name : List Char) (proc_type : proc_type_t)
      (r : Int) (s1 : kstate) (rows : List stack_t),
      kproc_create proc_ptr proc_name proc_type s = some (r, s1) → r ≠ -1 →
      ∃ e, e < PROC_MAX ∧ (proc_at s.proc_table e).state = .NONE ∧
        (proc_at s1.proc_table e).pid = r ∧
        (∀ i, i ≠ e → proc_at s1.proc_table i = proc_at s.proc_table i) ∧
        (∀ i row, (proc_at s.proc_table i).state ≠ .NONE →
          (proc_at s.proc_table i).stack = some row →
          stack_at (kproc_create_stack env proc_ptr s rows) row = stack_at rows row)) := by
  have hinv := reachable_inv s h
  have hso := reachable_stack_own s h
  refine ⟨hinv.alloc_nodup, ?_, fun i hi => hinv.alloc_iff i hi, ?_⟩
  · intro x hx
    have := hinv.alloc_free x hx
    exact ⟨by omega, this.2.1⟩
  · intro env proc_ptr proc_name proc_type r s1 rows hcr hr
    obtain ⟨r1, s2, hres, hcase⟩ := kproc_create_result proc_ptr proc_name proc_type s hinv
    rw [hres] at hcr
    injection hcr with hcr
    injection hcr with hr1 hs1
    subst hr1; subst hs1
    rcases hcase with ⟨_, hm, _⟩ | ⟨e, rest, hal, _, he, hz, _, hrp, _, _, hpid, _, hother, _⟩
    · exact absurd hm hr
    · refine ⟨e, he, by rw [hz]; rfl, by rw [hpid, hrp], hother, ?_⟩
      intro i row hst hrow
      have hri : row = i := by
        rcases hso i with hn | hn
        · rw [hn] at hrow; exact absurd hrow (by simp)
        · rw [hn] at hrow
          injection hrow with hrow
          exact hrow.symm
      have hie : row ≠ e := by
        rw [hri]
        intro hie
        rw [hie, hz] at hst
        exact hst rfl
      rw [kproc_create_stack_some env proc_ptr s rows e rest hinv.wf hal he, stack_at_set,
        if_neg (fun x => hie x.1)]

set_option maxRecDepth 100000 in
/-- C38 in the state with pids 1, 2 and 3 created: the allocator holds the indices
4 .. 9 of the unused entries, and the next creation takes entry 4. -/
theorem proc_allocator_exact_witness :
    queue_content demo_running.proc_allocator = [4, 5, 6, 7, 8, 9] ∧
    (∀ i, i < PROC_MAX → ((i : Int) ∈ queue_content demo_running.proc_allocator ↔
      (proc_at demo_running.proc_table i).state = .NONE)) ∧
    (queue_content demo_running.proc_allocator).Nodup := by
  obtain ⟨h1, _, h3, _⟩ := proc_allocator_exact demo_running demo_running_reachable
  exact ⟨by decide, h3, h1⟩

/-! ## Theorems: the timer table whatever is unregistered -/

theorem timer_inv.weak {tv : timer_vars} (h : timer_inv tv) : timer_weak_inv tv :=
  ⟨h.len, h.wf, fun id hid => ⟨(h.pool_free id hid).1, (h.pool_free id hid).2.1⟩⟩

theorem timer_callback_register_head (func_ptr : Option callback_t) (interval repeats : Int)
    (tv : timer_vars) (id : Int) (rest : List Int) (hw : timer_weak_inv tv)
    (hal : queue_content tv.timer_allocator = id :: rest) :
    timer_callback_register func_ptr interval repeats tv = some (id, { tv with
      timer_allocator := (queue_out tv.timer_allocator (some (-1))).2.1
      timers := tv.timers.set id.toNat
        { callback := func_ptr, interval := interval, repeats := repeats } }) ∧
    queue_content (queue_out tv.timer_allocator (some (-1))).2.1 = rest := by
  have hsz : tv.timer_allocator.size ≠ 0 := by
    have := congrArg List.length hal
    rw [queue_content_length] at this
    simp at this
    omega
  have hout := queue_out_content _ (-1) hw.2.1 hsz
  rw [hal] at hout
  injection hout with hhead hrest
  have hr := hw.2.2 id (by rw [hal]; exact List.mem_cons_self _ _)
  refine ⟨?_, hrest.symm⟩
  unfold timer_callback_register
  rw [queue_out_some _ _ hsz]
  simp only [Option.getD_some, ← hhead]
  rw [if_neg (by decide), if_pos hr]

/-- With the allocator holding indices of the table only,
`timer_callback_register` returns, and keeps it so. -/
theorem timer_callback_register_weak (func_ptr : Option callback_t) (interval repeats : Int)
    (tv : timer_vars) (hw : timer_weak_inv tv) :
    ∃ res, timer_callback_register func_ptr interval repeats tv = some res ∧
      timer_weak_inv res.2 ∧
      (timer_ok tv → (func_ptr ≠ none → interval ≠ 0) → timer_ok res.2) := by
  cases hc : queue_content tv.timer_allocator with
  | nil =>
    exact ⟨_, timer_callback_register_none _ _ _ _ hc, hw, fun h _ => h⟩
  | cons id rest =>
    obtain ⟨heq, hrest⟩ := timer_callback_register_head func_ptr interval repeats tv id rest hw hc
    refine ⟨_, heq, ⟨?_, ?_, ?_⟩, ?_⟩
    · simp [hw.1]
    · exact queue_out_wf _ _ hw.2.1
    · intro x hx
      change x ∈ queue_content (queue_out tv.timer_allocator (some (-1))).2.1 at hx
      rw [hrest] at hx
      exact hw.2.2 x (by rw [hc]; exact List.mem_cons_of_mem _ hx)
    · intro hok hk
      exact timer_ok_set tv _ id.toNat _ hok rfl hk

theorem timer_callback_unregister_weak (id : Int) (tv : timer_vars) (hw : timer_weak_inv tv) :
    timer_weak_inv (timer_callback_unregister id tv).2 := by
  unfold timer_callback_unregister
  split
  · exact hw
  · next hr =>
    have hwf := queue_in_wf tv.timer_allocator id hw.2.1
    have hcont : ∀ x ∈ queue_content (queue_in tv.timer_allocator id).2,
        0 ≤ x ∧ x < (TIMERS_MAX : Int) := by
      intro x hx
      by_cases hf : tv.timer_allocator.size = QUEUE_SIZE
      · rw [queue_in_full _ _ hf] at hx
        exact hw.2.2 x hx
      · rw [queue_in_content _ _ hw.2.1 hf, List.mem_append, List.mem_singleton] at hx
        rcases hx with hx | hx
        · exact hw.2.2 x hx
        · rw [hx]; omega
    simp only []
    split
    · exact ⟨by simp [hw.1], hwf, hcont⟩
    · exact ⟨by simp [hw.1], hwf, hcont⟩

/-- One iteration of the handler loop under the weak invariant. -/
theorem timer_irq_slot_weak (i : Nat) (tv : timer_vars) (hw : timer_weak_inv tv)
    (hk : (timer_at tv.timers i).callback ≠ none → (timer_at tv.timers i).interval ≠ 0) :
    ∃ res, timer_irq_slot i tv = some res ∧ timer_weak_inv res.2 ∧
      (∀ j, j ≠ i → timer_at res.2.timers j = timer_at tv.timers j) ∧
      ((timer_at res.2.timers i).callback ≠ none → (timer_at res.2.timers i).interval ≠ 0) := by
  have hkeep : ∀ (x : timer_t) (j : Nat), j ≠ i →
      timer_at (tv.timers.set i x) j = timer_at tv.timers j := by
    intro x j hj
    rw [timer_at_set, if_neg (fun h => hj h.1)]
  unfold timer_irq_slot
  simp only []
  cases hc : (timer_at tv.timers i).callback with
  | none =>
    exact ⟨_, rfl, hw, fun _ _ => rfl, fun h => absurd hc h⟩
  | some cb =>
    have hk0 := hk (by rw [hc]; simp)
    simp only [hk0, if_false]
    split
    · split
      · refine ⟨_, rfl, ⟨by simp [hw.1], hw.2.1, hw.2.2⟩, fun j hj => hkeep _ j hj, ?_⟩
        simp only []
        rw [timer_at_set]
        split
        · intro _; exact hk0
        · exact hk
      · split
        · refine ⟨_, rfl, timer_callback_unregister_weak _ tv hw, ?_, ?_⟩
          · intro j hj
            simp only []
            unfold timer_callback_unregister
            split
            · rfl
            · simp only []
              split
              · simp only [Int.toNat_ofNat]; exact hkeep _ j hj
              · simp only [Int.toNat_ofNat]; exact hkeep _ j hj
          · simp only []
            unfold timer_callback_unregister
            split
            · exact hk
            · have hz : (timer_at (tv.timers.set i timer_zero) i).callback ≠ none →
                  (timer_at (tv.timers.set i timer_zero) i).interval ≠ 0 := by
                rw [timer_at_set]
                split
                · intro h; exact absurd rfl h
                · exact hk
              simp only []
              split
              · simp only [Int.toNat_ofNat]; exact hz
              · simp only [Int.toNat_ofNat]; exact hz
        · exact ⟨_, rfl, hw, fun _ _ => rfl, hk⟩
    · exact ⟨_, rfl, hw, fun _ _ => rfl, hk⟩

/-- The handler loop returns when no entry with a callback has interval 0, and
keeps that so. -/
theorem timer_irq_loop_weak (slots : List Nat) :
    ∀ (tv : timer_vars), timer_weak_inv tv → timer_ok tv →
    ∃ res, timer_irq_loop slots tv = some res ∧ timer_weak_inv res.2 ∧ timer_ok res.2 := by
  induction slots with
  | nil => intro tv hw hok; exact ⟨_, rfl, hw, hok⟩
  | cons a rest ih =>
    intro tv hw hok
    obtain ⟨r1, h1, hw1, hkeep, ha⟩ := timer_irq_slot_weak a tv hw (timer_ok_at tv hok a)
    have hok1 : timer_ok r1.2 := by
      apply timer_ok_of_at
      intro j
      by_cases hj : j = a
      · rw [hj]; exact ha
      · rw [hkeep j hj]; exact timer_ok_at tv hok j
    obtain ⟨r2, h2, hw2, hok2⟩ := ih r1.2 hw1 hok1
    refine ⟨(r1.1 ++ r2.1, r2.2), ?_, hw2, hok2⟩
    unfold timer_irq_loop
    rw [h1]
    simp only [Option.bind_eq_bind, Option.some_bind, h2, Option.map_some']

theorem timer_irq_handler_weak (tv : timer_vars) (hw : timer_weak_inv tv) (hok : timer_ok tv) :
    ∃ res, timer_irq_handler tv = some res ∧ timer_weak_inv res.2 ∧ timer_ok res.2 :=
  timer_irq_loop_weak (List.range TIMERS_MAX) { tv with timer_ticks := tv.timer_ticks + 1 }
    ⟨hw.1, hw.2.1, hw.2.2⟩ hok

/-- Every state reached with nonzero intervals has the allocator within the
table and no entry with a callback and interval 0. -/
theorem timer_reachable_nz_ok (tv : timer_vars) (h : timer_reachable_nz tv) :
    timer_weak_inv tv ∧ timer_ok tv := by
  induction h with
  | boot => exact ⟨timer_boot_inv.weak, timer_boot_ok⟩
  | step tv tv1 c _ hnz hstep ih =>
    cases c with
    | register f k r =>
      obtain ⟨res, hres, hw1, hok1⟩ := timer_callback_register_weak f k r tv ih.1
      have hk : k ≠ 0 := by simpa [timer_call.nonzero] using hnz
      simp only [timer_call_step, hres, Option.map_some', Option.some.injEq] at hstep
      rw [← hstep]
      exact ⟨hw1, hok1 ih.2 (fun _ => hk)⟩
    | unregister id =>
      simp only [timer_call_step, Option.some.injEq] at hstep
      rw [← hstep]
      exact ⟨timer_callback_unregister_weak id tv ih.1, timer_callback_unregister_ok id tv ih.2⟩
    | tick =>
      obtain ⟨res, hres, hw1, hok1⟩ := timer_irq_handler_weak tv ih.1 ih.2
      simp only [timer_call_step, hres, Option.map_some', Option.some.injEq] at hstep
      rw [← hstep]
      exact ⟨hw1, hok1⟩

/-- Every call with a nonzero interval returns in a state reached so. -/
theorem timer_call_step_returns (tv : timer_vars) (c : timer_call)
    (h : timer_reachable_nz tv) (hnz : c.nonzero = true) :
    ∃ tv1, timer_call_step tv c = some tv1 ∧ timer_reachable_nz tv1 := by
  have hi := timer_reachable_nz_ok tv h
  have hsome : ∃ tv1, timer_call_step tv c = some tv1 := by
    cases c with
    | register f k r =>
      obtain ⟨res, hres, _⟩ := timer_callback_register_weak f k r tv hi.1
      exact ⟨res.2, by simp [timer_call_step, hres]⟩
    | unregister id => exact ⟨_, rfl⟩
    | tick =>
      obtain ⟨res, hres, _⟩ := timer_irq_handler_weak tv hi.1 hi.2
      exact ⟨res.2, by simp [timer_call_step, hres]⟩
  obtain ⟨tv1, h1⟩ := hsome
  exact ⟨tv1, h1, .step tv tv1 c h hnz h1⟩

/-- Claim C40: in every state reached from `timer_init()` by calls of
`timer_callback_register` with an interval other than 0, of
`timer_callback_unregister` with any id, and of `timer_irq_handler`, the handler
returns, so none of its 32 iterations takes a remainder by zero, and the state it
leaves is reached so again.  Every entry with interval 0 has a null callback, an
entry with a null callback is passed over without the remainder being taken,
`timer_callback_unregister` of an id of the table leaves its entry zero, and so
does the iteration of the handler in which a timer with `repeat` 0 is due. -/
theorem timer_irq_handler_no_zero_modulo (tv : timer_vars) (h : timer_reachable_nz tv) :
    (∃ res, timer_irq_handler tv = some res ∧ timer_reachable_nz res.2) ∧
    (∀ i, (timer_at tv.timers i).interval = 0 → (timer_at tv.timers i).callback = none) ∧
    (∀ i, (timer_at tv.timers i).callback = none → timer_irq_slot i tv = some ([], tv)) ∧
    (∀ id : Int, 0 ≤ id → id < TIMERS_MAX →
      timer_at (timer_callback_unregister id tv).2.timers id.toNat = timer_zero) ∧
    (∀ i cb, i < TIMERS_MAX → (timer_at tv.timers i).callback = some cb →
      Int.tmod tv.timer_ticks (timer_at tv.timers i).interval = 0 →
      (timer_at tv.timers i).repeats = 0 →
      ∃ tv1, timer_irq_slot i tv = some ([(i, cb)], tv1) ∧ timer_at tv1.timers i = timer_zero) := by
  have hi := timer_reachable_nz_ok tv h
  have hunreg : ∀ id : Int, 0 ≤ id → id < TIMERS_MAX →
      timer_at (timer_callback_unregister id tv).2.timers id.toNat = timer_zero := by
    intro id h0 h1
    have hlen : id.toNat < tv.timers.length := by
      rw [hi.1.1]; omega
    unfold timer_callback_unregister
    rw [if_neg (by omega)]
    simp only []
    split
    · simp only []; rw [timer_at_set, if_pos ⟨rfl, hlen⟩]
    · simp only []; rw [timer_at_set, if_pos ⟨rfl, hlen⟩]
  refine ⟨?_, ?_, ?_, hunreg, ?_⟩
  · obtain ⟨tv1, h1, hr1⟩ := timer_call_step_returns tv .tick h rfl
    simp only [timer_call_step, Option.map_eq_some'] at h1
    obtain ⟨res, hres, rfl⟩ := h1
    exact ⟨res, hres, hr1⟩
  · intro i hz
    by_contra hc
    exact timer_ok_at tv hi.2 i hc hz
  · intro i hc
    unfold timer_irq_slot
    simp only [hc]
  · intro i cb hlt hc hdue hrep
    have hk := timer_ok_at tv hi.2 i (by rw [hc]; simp)
    refine ⟨(timer_callback_unregister (i : Int) tv).2, ?_, ?_⟩
    · unfold timer_irq_slot
      simp only [hc, hk, hdue, hrep, if_false, if_true, gt_iff_lt, lt_self_iff_false]
    · have := hunreg (i : Int) (by omega) (by exact_mod_cast hlt)
      rwa [Int.toNat_ofNat] at this

set_option maxRecDepth 100000 in
theorem timer_demo_nz_reachable : timer_reachable_nz timer_demo_nz :=
  .step (timer_callback_unregister 1 timer_boot).2 _ (.register (some .spinner) 5 3)
    (.step timer_boot _ (.unregister 1) .boot rfl rfl) rfl (by decide)

set_option maxRecDepth 100000 in
/-- Claim C40 at an example: after `timer_callback_unregister(1)` right after
`timer_init()` and `timer_callback_register(spinner, 5, 3)`, which takes entry 0,
the handler returns and entry 1, unregistered, is skipped. -/
theorem timer_irq_handler_no_zero_modulo_witness :
    timer_reachable_nz timer_demo_nz ∧
    (timer_at timer_demo_nz.timers 0).interval = 5 ∧
    (∃ res, timer_irq_handler timer_demo_nz = some res ∧ timer_reachable_nz res.2) ∧
    timer_irq_slot 1 timer_demo_nz = some ([], timer_demo_nz) :=
  ⟨timer_demo_nz_reachable, by decide,
   (timer_irq_handler_no_zero_modulo _ timer_demo_nz_reachable).1,
   (timer_irq_handler_no_zero_modulo _ timer_demo_nz_reachable).2.2.1 1 (by decide)⟩

/-! ## Theorems: the ids handed out by the timer allocator -/

theorem timer_track_boot_inv : timer_track_inv timer_track_boot := by
  refine ⟨timer_boot_inv, rfl, List.nodup_nil, ?_⟩
  intro id
  constructor
  · intro h; cases h
  · rintro ⟨h0, h1, hn⟩
    unfold TIMERS_MAX at h1
    exfalso
    apply hn
    show id ∈ queue_content timer_boot.timer_allocator
    rw [timer_boot_pool]
    rw [List.mem_map]
    refine ⟨id.toNat, List.mem_range.mpr (by omega), by omega⟩

/-- Every call returns in the model, whatever was unregistered before. -/
theorem timer_track_step_total (t : timer_track) (op : timer_op) (hw : timer_weak_inv t.vars) :
    ∃ t1, timer_track_step t op = some t1 ∧ timer_weak_inv t1.vars ∧
      ∃ l, t1.strays = t.strays ++ l := by
  cases op with
  | register f k r =>
    obtain ⟨res, hres, hw1, _⟩ := timer_callback_register_weak f k r t.vars hw
    simp only [timer_track_step, hres, Option.map_some']
    refine ⟨_, rfl, ?_, [], ?_⟩
    · split
      · exact hw1
      · exact hw1
    · split <;> simp
  | unregister id =>
    have hw1 := timer_callback_unregister_weak id t.vars hw
    simp only [timer_track_step]
    refine ⟨_, rfl, ?_, ?_⟩
    · split
      · exact hw1
      · exact hw1
    · split
      · simp only []
        split
        · exact ⟨[], by simp⟩
        · exact ⟨[id], rfl⟩
      · exact ⟨[], by simp⟩

theorem timer_track_run_total (ops : List timer_op) :
    ∀ t : timer_track, timer_weak_inv t.vars →
    ∃ t1, timer_track_run t ops = some t1 ∧ ∃ l, t1.strays = t.strays ++ l := by
  induction ops with
  | nil => intro t _; exact ⟨t, rfl, [], by simp⟩
  | cons op ops ih =>
    intro t hw
    obtain ⟨t1, h1, hw1, l1, hl1⟩ := timer_track_step_total t op hw
    obtain ⟨t2, h2, l2, hl2⟩ := ih t1 hw1
    refine ⟨t2, ?_, l1 ++ l2, ?_⟩
    · simp only [timer_track_run, h1, Option.bind_eq_bind, Option.some_bind, h2]
    · rw [hl2, hl1, List.append_assoc]

/-- A call that unregisters no id that is not registered keeps `timer_track_inv`. -/
theorem timer_track_step_inv (t t1 : timer_track) (op : timer_op) (hinv : timer_track_inv t)
    (h : timer_track_step t op = some t1) (hs : t1.strays = t.strays) : timer_track_inv t1 := by
  obtain ⟨htv, hcl, hnd, hlive⟩ := hinv
  cases op with
  | register f k r =>
    cases hc : queue_content t.vars.timer_allocator with
    | nil =>
      simp only [timer_track_step, timer_callback_register_none _ _ _ _ hc, Option.map_some',
        if_true, Option.some.injEq] at h
      rw [← h]
      exact ⟨htv, hcl, hnd, hlive⟩
    | cons id rest =>
      obtain ⟨heq, hrest, h0, h1⟩ := timer_callback_register_some f k r t.vars id rest htv hc
      have hinv1 := timer_callback_register_inv f k r t.vars _ id htv heq
      have hpool := htv.pool_nodup
      rw [hc] at hpool
      obtain ⟨hidrest, _⟩ := List.nodup_cons.mp hpool
      have hnl : id ∉ t.live := by
        intro hm
        exact ((hlive id).mp hm).2.2 (by rw [hc]; exact List.mem_cons_self _ _)
      have hne : id ≠ -1 := by omega
      simp only [timer_track_step, heq, Option.map_some', hne, if_false, hnl,
        Option.some.injEq] at h
      rw [← h]
      refine ⟨hinv1, hcl, List.nodup_cons.mpr ⟨hnl, hnd⟩, ?_⟩
      intro x
      show x ∈ id :: t.live ↔
        (0 ≤ x ∧ x < (TIMERS_MAX : Int) ∧
          x ∉ queue_content (queue_out t.vars.timer_allocator (some (-1))).2.1)
      rw [hrest, List.mem_cons, hlive x, hc, List.mem_cons]
      constructor
      · rintro (hx | ⟨hx0, hx1, hx2⟩)
        · rw [hx]; exact ⟨h0, h1, hidrest⟩
        · exact ⟨hx0, hx1, fun hm => hx2 (Or.inr hm)⟩
      · rintro ⟨hx0, hx1, hx2⟩
        by_cases hx : x = id
        · exact Or.inl hx
        · exact Or.inr ⟨hx0, hx1, fun hm => hm.elim hx hx2⟩
  | unregister id =>
    by_cases hr : id < 0 ∨ id ≥ (TIMERS_MAX : Int)
    · have heq : timer_callback_unregister id t.vars = (-1, t.vars) := by
        unfold timer_callback_unregister
        rw [if_pos hr]
      simp only [timer_track_step, heq, Option.some.injEq] at h
      rw [if_neg (by decide)] at h
      rw [← h]
      exact ⟨htv, hcl, hnd, hlive⟩
    · have h0 : 0 ≤ id := by omega
      have h1 : id < (TIMERS_MAX : Int) := by omega
      obtain ⟨heq, hcont⟩ := timer_callback_unregister_eq id t.vars htv h0 h1
      simp only [timer_track_step, heq, Option.some.injEq, if_true] at h
      have hmem : id ∈ t.live := by
        by_contra hn
        rw [← h] at hs
        simp only [hn, if_false] at hs
        have := congrArg List.length hs
        simp at this
      have hnp := ((hlive id).mp hmem).2.2
      have hinv1 := timer_callback_unregister_inv id t.vars htv h0 h1 hnp
      rw [heq] at hinv1
      rw [← h]
      refine ⟨hinv1, hcl, hnd.filter _, ?_⟩
      intro x
      show x ∈ t.live.filter (fun y => decide (y ≠ id)) ↔
        (0 ≤ x ∧ x < (TIMERS_MAX : Int) ∧ x ∉ queue_content (queue_in t.vars.timer_allocator id).2)
      rw [hcont, List.mem_filter, hlive x, List.mem_append, List.mem_singleton]
      simp only [decide_eq_true_eq]
      constructor
      · rintro ⟨⟨hx0, hx1, hx2⟩, hx⟩
        exact ⟨hx0, hx1, fun hm => hm.elim hx2 hx⟩
      · rintro ⟨hx0, hx1, hx2⟩
        exact ⟨⟨hx0, hx1, fun hm => hx2 (Or.inl hm)⟩, fun hx => hx2 (Or.inr hx)⟩

theorem timer_track_run_inv (ops : List timer_op) :
    ∀ t t1 : timer_track, timer_track_inv t → timer_track_run t ops = some t1 →
    t1.strays = t.strays → timer_track_inv t1 := by
  induction ops with
  | nil =>
    intro t t1 hinv h _
    simp only [timer_track_run, Option.some.injEq] at h
    rw [← h]; exact hinv
  | cons op ops ih =>
    intro t t1 hinv h hs
    obtain ⟨ta, ha, hwa, la, hla⟩ := timer_track_step_total t op hinv.1.weak
    simp only [timer_track_run, ha, Option.bind_eq_bind, Option.some_bind] at h
    obtain ⟨tb, hb, lb, hlb⟩ := timer_track_run_total ops ta hwa
    rw [h] at hb
    injection hb with hb
    subst hb
    have hla0 : la = [] := by
      rw [hla, List.append_assoc] at hlb
      rw [hlb] at hs
      have := congrArg List.length hs
      simp only [List.length_append] at this
      exact List.eq_nil_of_length_eq_zero (by omega)
    rw [hla0, List.append_nil] at hla
    have hinva := timer_track_step_inv t ta op hinv ha hla
    exact ih ta t1 hinva h (by rw [hs, hla])

set_option maxRecDepth 1000000 in
/-- Claim C39, counterexample.  After `timer_init()`, a timer is registered
(id 0) and `timer_callback_unregister(0)` is called twice; both calls return 0 and
the allocator then holds 1, ..., 31, 0, 0, id 0 twice.  Of the 33 registrations
that follow, the 32nd returns id 0 and the 33rd returns id 0 again, while the
timer of the 32nd is registered. -/
theorem timer_double_unregister_clash :
    (timer_track_run timer_track_boot (timer_demo_stray.take 3)).map
        (fun t => (queue_content t.vars.timer_allocator, t.live)) =
      some ((List.range 31).map (fun (i : Nat) => (i : Int) + 1) ++ [0, 0], []) ∧
    (timer_track_run timer_track_boot (timer_demo_stray.take 35)).map
        (fun t => (queue_content t.vars.timer_allocator, t.live.take 1, t.clashes)) =
      some ([0], [0], []) ∧
    (timer_track_run timer_track_boot timer_demo_stray).map
        (fun t => (t.live.take 2, t.clashes)) = some ([0, 0], [0]) := by
  refine ⟨?_, ?_, ?_⟩ <;> decide

/-- Claim C39, amended: every sequence of `timer_callback_register` and
`timer_callback_unregister` calls after `timer_init()` returns, and when each
`timer_callback_unregister` that returned 0 was given an id registered at that
moment, no `timer_callback_register` of the sequence returned an id that was
registered, the allocator holds no id twice, and the registered ids are the ids
of the table that the allocator does not hold. -/
theorem timer_ids_never_shared (ops : List timer_op) :
    ∃ t, timer_track_run timer_track_boot ops = some t ∧
      (t.strays = [] →
        t.clashes = [] ∧ (queue_content t.vars.timer_allocator).Nodup ∧ t.live.Nodup ∧
        ∀ id, id ∈ t.live ↔
          (0 ≤ id ∧ id < TIMERS_MAX ∧ id ∉ queue_content t.vars.timer_allocator)) := by
  obtain ⟨t, ht, _⟩ := timer_track_run_total ops timer_track_boot timer_boot_inv.weak
  refine ⟨t, ht, fun hs => ?_⟩
  obtain ⟨hinv, hcl, hnd, hlive⟩ :=
    timer_track_run_inv ops timer_track_boot t timer_track_boot_inv ht hs
  exact ⟨hcl, hinv.pool_nodup, hnd, hlive⟩

set_option maxRecDepth 1000000 in
/-- Claim C39, amended, at an example: two timers are registered (ids 0 and 1),
id 0 is unregistered and a third registration returns id 2; ids 2 and 1 are
registered, no id was handed out twice and the allocator holds 3, ..., 31, 0. -/
theorem timer_ids_never_shared_witness :
    (timer_track_run timer_track_boot timer_demo_reuse).map
        (fun t => (t.strays, t.live, queue_content t.vars.timer_allocator)) =
      some ([], [2, 1], (List.range 29).map (fun (i : Nat) => (i : Int) + 3) ++ [0]) ∧
    ∃ t, timer_track_run timer_track_boot timer_demo_reuse = some t ∧
      t.clashes = [] ∧ (queue_content t.vars.timer_allocator).Nodup := by
  have hrun : (timer_track_run timer_track_boot timer_demo_reuse).map
        (fun t => (t.strays, t.live, queue_content t.vars.timer_allocator)) =
      some ([], [2, 1], (List.range 29).map (fun (i : Nat) => (i : Int) + 3) ++ [0]) := by
    decide
  refine ⟨hrun, ?_⟩
  obtain ⟨t, ht, himp⟩ := timer_ids_never_shared timer_demo_reuse
  rw [ht] at hrun
  simp only [Option.map_some', Option.some.injEq, Prod.mk.injEq] at hrun
  exact ⟨t, ht, (himp hrun.1).1, (himp hrun.1).2.1⟩

end Tars
